import Mathlib

/-!
# Planning-key resolution and batch persistence (node_runners)

A shallow embedding of the parts of `src/node_runners/util.js`,
`src/node_runners/emp_runner.js` and `src/node_runners/nob_runner.js` that
load the catalog, resolve planning keys, derive the columns of a record from
its key and its allocation code, convert amounts and dates, validate keys at
persistence time, write records in batches and repair output headers.

Conventions of the embedding.

* A JavaScript string is the list of its UTF-16 code units (`Str`).
* A JavaScript object used as a record or dictionary is the list of its own
  enumerable properties in the order `Object.keys` reports them (`Obj`).
* The Unicode tables behind `normalize("NFKD")`, `\p{M}` and `toLowerCase`
  belong to the JavaScript engine, not to the repository; functions that use
  them take the tables as a parameter (`Unicode`).  `latin1` is a concrete
  table, exact on strings whose code units are all below `0x100`.
-/

namespace Csg

/-! ## Strings -/

/-- A JavaScript string: its UTF-16 code units. -/
abbrev Str := List Nat

/-- UTF-16 encoding of one code point. -/
def utf16 (c : Char) : List Nat :=
  if c.toNat < 0x10000 then [c.toNat]
  else [0xD800 + (c.toNat - 0x10000) / 0x400, 0xDC00 + (c.toNat - 0x10000) % 0x400]

/-- The JavaScript string written as a literal. -/
def js (s : String) : Str := s.toList.flatMap utf16

/-- Code unit of `*`. -/
abbrev STAR : Nat := 42
/-- Code unit of `|`. -/
abbrev PIPE : Nat := 124
/-- Code unit of the space character. -/
abbrev SP : Nat := 32

/-- The class `\s` of JavaScript regular expressions, which is also the set
of code units removed by `String.prototype.trim`. -/
def isSpace (c : Nat) : Bool :=
  c = 9 || c = 10 || c = 11 || c = 12 || c = 13 || c = 32 || c = 0xA0 ||
  c = 0x1680 || (0x2000 ≤ c && c ≤ 0x200A) || c = 0x2028 || c = 0x2029 ||
  c = 0x202F || c = 0x205F || c = 0x3000 || c = 0xFEFF

/-- The class `\d`. -/
def isDigit (c : Nat) : Bool := 48 ≤ c && c ≤ 57

/-- Embeds `s.trim()`. -/
def trim (s : Str) : Str := (s.dropWhile isSpace).rdropWhile isSpace

/-- Embeds `s.includes(sub)`. -/
def includes (s sub : Str) : Bool := decide (sub <:+: s)

/-- Embeds `s.startsWith(p)`. -/
def startsWith (s p : Str) : Bool := p.isPrefixOf s

/-- Embeds `s.endsWith(p)`. -/
def endsWith (s p : Str) : Bool := p.isSuffixOf s

/-- Embeds `s.replace(/\s+/g, " ")`; the flag records that the previous code unit
was white space, so that the current run has already been replaced. -/
def collapseWsAux : Bool → Str → Str
  | _, [] => []
  | prev, c :: cs =>
    if isSpace c then
      if prev then collapseWsAux true cs else SP :: collapseWsAux true cs
    else c :: collapseWsAux false cs

/-- Embeds `s.replace(/\s+/g, " ")`. -/
def collapseWs (s : Str) : Str := collapseWsAux false s

/-- Embeds `s.replace(/a/g, r)` for a single code unit `a`. -/
def replaceUnit (a : Nat) (r : Str) (s : Str) : Str :=
  s.flatMap (fun c => if c = a then r else [c])

/-- Scanner state for the two delimiter-spacing regular expressions. -/
inductive Scan
  | normal
  | inWs (buf : Str)
  | afterStar (buf : Str)
  | skipWs

/-- Embeds `s.replace(/\s+\*\s+/g, " * ")`.  A match needs a maximal run of white
space, a star and at least one more white-space unit; `inWs` holds the run
read so far, `afterStar` the run once the star has been read, and `skipWs`
consumes the rest of the trailing run of a match. -/
def spaceStarSpace : Scan → Str → Str
  | .normal, [] => []
  | .inWs buf, [] => buf
  | .afterStar buf, [] => buf ++ [STAR]
  | .skipWs, [] => []
  | .normal, c :: cs =>
    if isSpace c then spaceStarSpace (.inWs [c]) cs else c :: spaceStarSpace .normal cs
  | .inWs buf, c :: cs =>
    if isSpace c then spaceStarSpace (.inWs (buf ++ [c])) cs
    else if c = STAR then spaceStarSpace (.afterStar buf) cs
    else buf ++ c :: spaceStarSpace .normal cs
  | .afterStar buf, c :: cs =>
    if isSpace c then [SP, STAR, SP] ++ spaceStarSpace .skipWs cs
    else buf ++ STAR :: c :: spaceStarSpace .normal cs
  | .skipWs, c :: cs =>
    if isSpace c then spaceStarSpace .skipWs cs else c :: spaceStarSpace .normal cs

/-- Embeds `s.replace(/\s*\*\s*/g, " * ")`.  Every star matches, together with the
white space around it: `buf` is the run of white space read so far, which is
dropped when a star follows and kept otherwise; `skip` is set while the
white space after a matched star is being consumed. -/
def optSpaceStar : Bool → Str → Str → Str
  | _, buf, [] => buf
  | skip, buf, c :: cs =>
    if isSpace c then
      if skip then optSpaceStar true [] cs else optSpaceStar false (buf ++ [c]) cs
    else if c = STAR then [SP, STAR, SP] ++ optSpaceStar true [] cs
    else buf ++ c :: optSpaceStar false [] cs

/-- Embeds `s.replaceAll(pat, rep)` for a non-empty `pat`: occurrences are replaced
from left to right without overlap; `skip` counts the code units of the
current occurrence still to be dropped. -/
def replaceAllAux (pat rep : Str) : Nat → Str → Str
  | _, [] => []
  | skip + 1, _ :: cs => replaceAllAux pat rep skip cs
  | 0, c :: cs =>
    if pat.isPrefixOf (c :: cs) then rep ++ replaceAllAux pat rep (pat.length - 1) cs
    else c :: replaceAllAux pat rep 0 cs

/-- Embeds `s.replaceAll(pat, rep)`. -/
def replaceAll (pat rep s : Str) : Str := replaceAllAux pat rep 0 s

/-- Embeds `parts.join(sep)`. -/
def join (sep : Str) (parts : List Str) : Str := sep.intercalate parts

/-- Embeds `s.split("*").map((p) => p.trim()).filter(Boolean)`: the trimmed,
non-empty fragments between stars. -/
def partesDe (s : Str) : List Str :=
  ((s.splitOn STAR).map trim).filter (fun p => !p.isEmpty)

/-- The template literal of a serialised key: star, the parts joined by
`" * "`, star. -/
def serializar (parts : List Str) : Str :=
  js "* " ++ join (js " * ") parts ++ js " *"

/-! ## Values and objects -/

/-- The JavaScript values that occur in rows and catalog documents.  `num`
holds the non-negative integers produced by `Number(digits)`, taken below
`2^53`, where the number is exact and `String` prints it in plain decimal;
`obj` stands for every other truthy value (an object such as a `Date`, a
function, a number that is not a non-negative integer) and carries the text
`String(...)` gives for it. -/
inductive Val
  | undefined
  | null
  | bool (b : Bool)
  | num (n : Nat)
  | str (s : Str)
  | obj (repr : Str)
  deriving DecidableEq, Repr

/-- Embeds `String(v)`. -/
def Val.toStr : Val → Str
  | .undefined => js "undefined"
  | .null => js "null"
  | .bool true => js "true"
  | .bool false => js "false"
  | .num n => (Nat.toDigits 10 n).map Char.toNat
  | .str s => s
  | .obj repr => repr

/-- Truthiness of a value, as tested by `if (v)`, `v || w` and `v && w`. -/
def Val.truthy : Val → Bool
  | .undefined => false
  | .null => false
  | .bool b => b
  | .num n => n != 0
  | .str s => !s.isEmpty
  | .obj _ => true

/-- Embeds `v || w`. -/
def Val.or (v w : Val) : Val := if v.truthy then v else w

/-- An object as the list of its own enumerable properties, in the order in
which `Object.keys` and `Object.entries` report them. -/
abbrev Obj (α : Type) := List (Str × α)

/-- Value of a decimal digit string. -/
def digitsToNat (s : Str) : Nat := s.foldl (fun acc c => 10 * acc + (c - 48)) 0

/-- The array index a property name denotes, if any: a canonical decimal
numeral below `2^32 - 1`.  Such names are enumerated first, in ascending
numeric order. -/
def arrayIndex : Str → Option Nat
  | [] => none
  | c :: cs =>
    if (c :: cs) = [48] then some 0
    else if 49 ≤ c && c ≤ 57 && cs.all isDigit && digitsToNat (c :: cs) < 4294967295 then
      some (digitsToNat (c :: cs))
    else none

/-- Own property `k` of `o`, if present. -/
def Obj.own {α : Type} (o : Obj α) (k : Str) : Option α :=
  (o.find? (fun e => e.1 = k)).map (fun e => e.2)

/-- Position of a new array-index property `i`: before the first property
that is not an array index or has a larger index. -/
def Obj.insertIndex {α : Type} (i : Nat) (k : Str) (v : α) : Obj α → Obj α
  | [] => [(k, v)]
  | e :: rest =>
    match arrayIndex e.1 with
    | some j => if j < i then e :: Obj.insertIndex i k v rest else (k, v) :: e :: rest
    | none => (k, v) :: e :: rest

/-- Creation or update of the own data property `k` (what `JSON.parse`, an
object literal and object spread do): an existing property keeps its place
and takes the new value, a new array-index property is placed among the
array indices, any other new property goes last. -/
def Obj.define {α : Type} (o : Obj α) (k : Str) (v : α) : Obj α :=
  if o.any (fun e => e.1 = k) then o.map (fun e => if e.1 = k then (k, v) else e)
  else
    match arrayIndex k with
    | some i => Obj.insertIndex i k v o
    | none => o ++ [(k, v)]

/-- The assignment `o[k] = v` of a primitive value on an object created by
`{}`: unless the object has an own property of that name, `__proto__` is an
accessor inherited from `Object.prototype` whose setter ignores primitives;
every other name is an own data property. -/
def Obj.set {α : Type} (o : Obj α) (k : Str) (v : α) : Obj α :=
  if k = js "__proto__" && !o.any (fun e => e.1 = k) then o else Obj.define o k v

/-- The object `JSON.parse` builds from the members of a JSON object, given
in the order in which the document declares them. -/
def jsonObject {α : Type} (declared : List (Str × α)) : Obj α :=
  declared.foldl (fun o e => Obj.define o e.1 e.2) []

/-- Property names every object created by `{}` inherits from
`Object.prototype`. -/
def objectPrototypeNames : List Str :=
  [js "constructor", js "__defineGetter__", js "__defineSetter__", js "hasOwnProperty",
   js "__lookupGetter__", js "__lookupSetter__", js "isPrototypeOf",
   js "propertyIsEnumerable", js "toString", js "valueOf", js "__proto__",
   js "toLocaleString"]

/-- The value `Object.prototype` provides under one of its names: the
object itself for `__proto__`, a built-in function otherwise. -/
def inherited (k : Str) : Val :=
  if k = js "__proto__" then .obj (js "[object Object]")
  else .obj (js "function " ++ (if k = js "constructor" then js "Object" else k)
    ++ js "() \x7b [native code] \x7d")

/-- The property read `o[k]` on a row: the own property, or what
`Object.prototype` provides under that name, or `undefined`. -/
def Obj.get (o : Obj Val) (k : Str) : Val :=
  match o.own k with
  | some v => v
  | none => if k ∈ objectPrototypeNames then inherited k else .undefined

/-- The property read `o[k]` on a dictionary of strings. -/
def Obj.getStr (o : Obj Str) (k : Str) : Val :=
  match o.own k with
  | some s => .str s
  | none => if k ∈ objectPrototypeNames then inherited k else .undefined

/-- A dataset: the column list and the rows. -/
structure Dataset where
  columns : List Str
  rows : List (Obj Val)
  deriving DecidableEq, Repr

/-! ## Unicode tables of the engine -/

/-- The engine operations that depend on the Unicode character database. -/
structure Unicode where
  /-- Embeds `s.normalize("NFKD")` -/
  nfkd : Str → Str
  /-- Embeds `s.replace(/\p{M}/gu, "")` -/
  stripMarks : Str → Str
  /-- Embeds `s.toLowerCase()` -/
  toLowerCase : Str → Str

/-- Compatibility decomposition of the code units below `0x100`. -/
def latin1Nfkd (c : Nat) : Str :=
  if c = 0xA0 then [0x20] else if c = 0xA8 then [0x20, 0x308]
  else if c = 0xAA then [0x61] else if c = 0xAF then [0x20, 0x304]
  else if c = 0xB2 then [0x32] else if c = 0xB3 then [0x33]
  else if c = 0xB4 then [0x20, 0x301] else if c = 0xB5 then [0x3BC]
  else if c = 0xB8 then [0x20, 0x327] else if c = 0xB9 then [0x31]
  else if c = 0xBA then [0x6F]
  else if c = 0xBC then [0x31, 0x2044, 0x34] else if c = 0xBD then [0x31, 0x2044, 0x32]
  else if c = 0xBE then [0x33, 0x2044, 0x34]
  else if c = 0xC0 then [0x41, 0x300] else if c = 0xC1 then [0x41, 0x301]
  else if c = 0xC2 then [0x41, 0x302] else if c = 0xC3 then [0x41, 0x303]
  else if c = 0xC4 then [0x41, 0x308] else if c = 0xC5 then [0x41, 0x30A]
  else if c = 0xC7 then [0x43, 0x327]
  else if c = 0xC8 then [0x45, 0x300] else if c = 0xC9 then [0x45, 0x301]
  else if c = 0xCA then [0x45, 0x302] else if c = 0xCB then [0x45, 0x308]
  else if c = 0xCC then [0x49, 0x300] else if c = 0xCD then [0x49, 0x301]
  else if c = 0xCE then [0x49, 0x302] else if c = 0xCF then [0x49, 0x308]
  else if c = 0xD1 then [0x4E, 0x303]
  else if c = 0xD2 then [0x4F, 0x300] else if c = 0xD3 then [0x4F, 0x301]
  else if c = 0xD4 then [0x4F, 0x302] else if c = 0xD5 then [0x4F, 0x303]
  else if c = 0xD6 then [0x4F, 0x308]
  else if c = 0xD9 then [0x55, 0x300] else if c = 0xDA then [0x55, 0x301]
  else if c = 0xDB then [0x55, 0x302] else if c = 0xDC then [0x55, 0x308]
  else if c = 0xDD then [0x59, 0x301]
  else if c = 0xE0 then [0x61, 0x300] else if c = 0xE1 then [0x61, 0x301]
  else if c = 0xE2 then [0x61, 0x302] else if c = 0xE3 then [0x61, 0x303]
  else if c = 0xE4 then [0x61, 0x308] else if c = 0xE5 then [0x61, 0x30A]
  else if c = 0xE7 then [0x63, 0x327]
  else if c = 0xE8 then [0x65, 0x300] else if c = 0xE9 then [0x65, 0x301]
  else if c = 0xEA then [0x65, 0x302] else if c = 0xEB then [0x65, 0x308]
  else if c = 0xEC then [0x69, 0x300] else if c = 0xED then [0x69, 0x301]
  else if c = 0xEE then [0x69, 0x302] else if c = 0xEF then [0x69, 0x308]
  else if c = 0xF1 then [0x6E, 0x303]
  else if c = 0xF2 then [0x6F, 0x300] else if c = 0xF3 then [0x6F, 0x301]
  else if c = 0xF4 then [0x6F, 0x302] else if c = 0xF5 then [0x6F, 0x303]
  else if c = 0xF6 then [0x6F, 0x308]
  else if c = 0xF9 then [0x75, 0x300] else if c = 0xFA then [0x75, 0x301]
  else if c = 0xFB then [0x75, 0x302] else if c = 0xFC then [0x75, 0x308]
  else if c = 0xFD then [0x79, 0x301] else if c = 0xFF then [0x79, 0x308]
  else [c]

/-- Lower-case mapping of the code units below `0x100`. -/
def latin1Lower (c : Nat) : Nat :=
  if 0x41 ≤ c && c ≤ 0x5A then c + 32
  else if 0xC0 ≤ c && c ≤ 0xDE && c != 0xD7 then c + 32
  else c

/-- The Unicode tables restricted to Basic Latin and Latin-1 Supplement: the
three operations are those of the engine on every string whose code units
are all below `0x100`; other code units are passed through, apart from the
combining marks `U+0300`-`U+036F`, which `stripMarks` removes. -/
def latin1 : Unicode where
  nfkd := fun s => s.flatMap latin1Nfkd
  stripMarks := fun s => s.filter (fun c => !(0x300 ≤ c && c ≤ 0x36F))
  toLowerCase := fun s => s.map latin1Lower

/-! ## util.js -/

/-- The sentinel `MISSING_INFO`. -/
def MISSING_INFO : Str := js "NÃO INFORMADO"

/-- The sentinel `MISSING_ID`. -/
def MISSING_ID : Str := js "NÃO IDENTIFICADO"

/-- High surrogate code unit. -/
def isHigh (c : Nat) : Bool := 0xD800 ≤ c && c ≤ 0xDBFF

/-- Low surrogate code unit. -/
def isLow (c : Nat) : Bool := 0xDC00 ≤ c && c ≤ 0xDFFF

/-- Removal of unpaired surrogates, the `replace` of `sanitizeString`: a high
surrogate stays when a low one follows it, a low surrogate stays when a high
one precedes it in the input; `prevHigh` tells whether the preceding code
unit of the input was a high surrogate. -/
def stripLoneSurrogates : Bool → Str → Str
  | _, [] => []
  | prevHigh, c :: cs =>
    let keep :=
      if isHigh c then (match cs with | d :: _ => isLow d | [] => false)
      else if isLow c then prevHigh
      else true
    if keep then c :: stripLoneSurrogates (isHigh c) cs
    else stripLoneSurrogates (isHigh c) cs

/-- Embeds `sanitizeString(value)`. -/
def sanitizeString : Val → Str
  | .null => []
  | .undefined => []
  | v => stripLoneSurrogates false v.toStr

/-- Embeds `normalizeSimple(value)`.  `normalize("NFKD")` does not throw, so the
`catch` branch is never taken. -/
def normalizeSimple (U : Unicode) (value : Val) : Str :=
  let text := sanitizeString value
  let text := replaceUnit 0xA0 [SP] text
  let text := U.nfkd text
  let text := U.stripMarks text
  let text := collapseWs text
  U.toLowerCase (trim text)

/-- Embeds `canonicalizarChave(value)` on a string. -/
def canonicalizarChaveS (value : Str) : Str :=
  let parts := partesDe value
  if parts.isEmpty then value else serializar parts

/-- Embeds `canonicalizarChave(value)`: values that are not strings are returned
unchanged. -/
def canonicalizarChave : Val → Val
  | .str s => .str (canonicalizarChaveS s)
  | v => v

/-- The match of `/(\d{4})/`: value of the leftmost four consecutive
digits. -/
def matchAno : Str → Option Nat
  | [] => none
  | a :: t =>
    match t with
    | b :: c :: d :: _ =>
      if isDigit a && isDigit b && isDigit c && isDigit d then some (digitsToNat [a, b, c, d])
      else matchAno t
    | _ => none

/-- Embeds `parseAno(value)`; `none` is `null`. -/
def parseAno (value : Val) : Option Nat :=
  if !value.truthy then none else matchAno value.toStr

/-! ## emp_runner.js: catalog -/

/-- Embeds `BATCH_SIZE`. -/
def BATCH_SIZE : Nat := 1000

/-- Embeds `Object.entries(CORRECOES_FORCAR)`. -/
def CORRECOES_FORCAR : List (Str × Str) :=
  [(js "GESTAO_INOVACAO", js "GESTÃO_INOVAÇÃO"),
   (js "P_GESTAO_", js "P_GESTÃO_"),
   (js "E_GESTAO_ESCOLAR", js "E_GESTÃO_ESCOLAR"),
   (js "E_GESTAO_DO_PATRIM", js "E_GESTÃO_DO_PATRIM"),
   (js "E_VALORIZACAO_PROF", js "E_VALORIZAÇÃO_PROF"),
   (js "VALORIZACAO_PRO", js "VALORIZAÇÃO_PRO"),
   (js "_GESTAO_ESCOLAR", js "_GESTÃO_ESCOLAR"),
   (js "_GESTAO_PATRIM", js "_GESTÃO_PATRIM"),
   (js "_ALFABETIZACAO", js "_ALFABETIZAÇÃO"),
   (js "E_ENSINO_MEDIO", js "E_ENSINO_MÉDIO"),
   (js "_NOVO_ENSINO_MED", js "_NOVO_ENSINO_MÉD"),
   (js "CURRICULO", js "CURRÍCULO")]

/-- Embeds `corrigirTermosCorrompidos(texto)` on a string. -/
def corrigirTermosCorrompidos (texto : Str) : Str :=
  CORRECOES_FORCAR.foldl (fun out e => replaceAll e.1 e.2 out) texto

/-- Embeds `carregarChavesPlanejamento`, on the list the catalog document holds. -/
def carregarChavesPlanejamento (chaves : List Val) : List Str :=
  chaves.filterMap (fun chave =>
    let bruto := corrigirTermosCorrompidos chave.toStr
    let bruto := replaceUnit STAR (js " * ") bruto
    let bruto := collapseWs bruto
    let parts := partesDe bruto
    if parts.isEmpty then none else some (serializar parts))

/-- Embeds `carregarCasosEspecificos`, on the members of the override document in
declaration order: the table maps each normalised trigger to its key. -/
def carregarCasosEspecificos (U : Unicode) (declared : List (Str × Val)) : Obj Str :=
  (jsonObject declared).foldl
    (fun out e =>
      let chaveSaida := canonicalizarChaveS (corrigirTermosCorrompidos e.2.toStr)
      let kCorrigido := corrigirTermosCorrompidos e.1
      let kNorm := normalizeSimple U (.str kCorrigido)
      Obj.set out kNorm chaveSaida)
    []

/-- Embeds `carregarForcarChaves`, on the members of the forced-key document in
declaration order. -/
def carregarForcarChaves (declared : List (Str × Val)) : Obj Str :=
  (jsonObject declared).foldl
    (fun normalized e =>
      let chaveTexto := replaceUnit PIPE [STAR] e.2.toStr
      let chaveTexto := corrigirTermosCorrompidos chaveTexto
      let chaveLimpa := canonicalizarChaveS chaveTexto
      Obj.set normalized (trim e.1) chaveLimpa)
    []

/-- Embeds `extrairChaveValidaDoHistorico(hist, chaves)`; `none` is `null`. -/
def extrairChaveValidaDoHistorico (hist : Str) (chaves : List Str) : Option Str :=
  chaves.find? (fun chave => includes hist chave)

/-- The sentinels for which `contarPartesChave` answers 0. -/
def SEM_PARTES : List Str :=
  [js "-", js "NÃO INFORMADO", js "NÃO IDENTIFICADO", js "NÇO INFORMADO", js "NÇO IDENTIFICADO"]

/-- Embeds `contarPartesChave(chave)` on a string. -/
def contarPartesChaveS (chave : Str) : Nat :=
  let texto := trim chave
  if texto.isEmpty || texto ∈ SEM_PARTES then 0 else (partesDe texto).length

/-- Embeds `contarPartesChave(chave)`. -/
def contarPartesChave : Val → Nat
  | .str s => contarPartesChaveS s
  | _ => 0

/-! ## emp_runner.js: key resolution -/

/-- The column `Histórico`. -/
def HISTORICO : Str := js "Histórico"

/-- The column `Nº EMP`. -/
def NUM_EMP : Str := js "Nº EMP"

/-- The property `__forcar_chave`. -/
def FORCAR_CHAVE : Str := js "__forcar_chave"

/-- The name `processEmp` gives the key column, `keyColName` (line 1098). -/
def KEY_COL : Str := js "Chave de Planejamento"

/-- Embeds `obterExercicioLinha(row)` of `identificarChavePlanejamento`: the year of
the first property whose normalised name is `exercicio` or starts with
`exerc` and whose value holds a non-zero year; `none` is `null`. -/
def obterExercicioLinha (U : Unicode) : Obj Val → Option Nat
  | [] => none
  | (key, value) :: rest =>
    let norm := normalizeSimple U (.str key)
    if norm = js "exercicio" || startsWith norm (js "exerc") then
      match parseAno value with
      | some ano => if ano != 0 then some ano else obterExercicioLinha U rest
      | none => obterExercicioLinha U rest
    else obterExercicioLinha U rest

/-- Embeds `paraPipe(chave)` of `identificarChavePlanejamento`. -/
def paraPipe (chave : Str) : Str :=
  let texto := replaceUnit STAR [PIPE] chave
  let texto := trim (collapseWs texto)
  let texto := if !startsWith texto [PIPE] then js "| " ++ texto else texto
  let texto := if !endsWith texto [PIPE] then texto ++ js " |" else texto
  collapseWs texto

/-- The part count used for a row, `partesLinha`. -/
def partesLinha (U : Unicode) (partesChave : Nat) (row : Obj Val) : Nat :=
  match obterExercicioLinha U row with
  | some anoLinha => if anoLinha ≥ 2026 then 8 else partesChave
  | none => partesChave

/-- The cleaned narration `histLimpo` (lines 646-653). -/
def limparHistorico (hist : Val) : Str :=
  let histLimpo := trim hist.toStr
  let histLimpo := replaceUnit STAR (js " * ") histLimpo
  let histLimpo := spaceStarSpace .normal histLimpo
  let histLimpo := trim (collapseWs histLimpo)
  let histLimpo := corrigirTermosCorrompidos histLimpo
  let histLimpo := if !startsWith histLimpo [STAR] then js "* " ++ histLimpo else histLimpo
  let histLimpo := if !endsWith histLimpo [STAR] then histLimpo ++ js " *" else histLimpo
  optSpaceStar false [] histLimpo

/-- The test the override loop applies to an entry (lines 673-674): the
trigger is non-empty, it occurs in the normalised star form or pipe form of
the narration, and the key has `partes` parts. -/
def casoAplica (histComp histPipeComp : Str) (partes : Nat) (e : Str × Str) : Bool :=
  !e.1.isEmpty && (includes histComp e.1 || includes histPipeComp e.1)
    && contarPartesChaveS e.2 = partes

/-- The override loop (lines 672-679): the key of the first entry of the
table, in the order of `Object.entries`, that passes the test. -/
def buscarCaso (histComp histPipeComp : Str) (partes : Nat) : Obj Str → Option Str
  | [] => none
  | e :: rest =>
    if casoAplica histComp histPipeComp partes e then some e.2
    else buscarCaso histComp histPipeComp partes rest

/-- The sliding-window loop (lines 689-702) over the windows that start at
the successive parts; `none` when the loop ends without a match. -/
def buscarJanela (chavesBase chavesPipeBase : List Str) (tamanhoJanela : Nat) :
    List Str → Option Str
  | [] => none
  | p :: ps =>
    if tamanhoJanela ≤ (p :: ps).length then
      let janela := serializar ((p :: ps).take tamanhoJanela)
      if janela ∈ chavesBase then some janela
      else
        let janelaPipe := paraPipe janela
        if janelaPipe ∈ chavesPipeBase then
          some (canonicalizarChaveS (replaceUnit PIPE [STAR] janelaPipe))
        else buscarJanela chavesBase chavesPipeBase tamanhoJanela ps
    else none

/-- The catalog keys a row is matched against, `chavesBase`: the canonical
keys that have the part count of the row. -/
def chavesBase (U : Unicode) (chavesNorm : List Str) (partesChave : Nat) (row : Obj Val) :
    List Str :=
  chavesNorm.filter (fun c => contarPartesChaveS c = partesLinha U partesChave row)

/-- The pipe forms of the keys of `chavesBase`, `chavesPipeSetBase`. -/
def chavesPipeBase (U : Unicode) (chavesNorm : List Str) (partesChave : Nat)
    (row : Obj Val) : List Str :=
  ((chavesBase U chavesNorm partesChave row).map paraPipe).filter (fun c => !c.isEmpty)

/-- The narration of a row, `hist`. -/
def historicoDe (row : Obj Val) : Val := (row.get HISTORICO).or (.str [])

/-- The canonical narration of a row, `histCanon`. -/
def histCanon (row : Obj Val) : Str := canonicalizarChaveS (limparHistorico (historicoDe row))

/-- The body of the row loop of `identificarChavePlanejamento` (lines
634-704): the value pushed on `resultados` for `row`.  `casosEspecificos` is
the loaded override table and `chavesNorm` the canonicalised catalog. -/
def resolverLinha (U : Unicode) (casosEspecificos : Obj Str) (chavesNorm : List Str)
    (partesChave : Nat) (row : Obj Val) : Str :=
  let partes := partesLinha U partesChave row
  let base := chavesBase U chavesNorm partesChave row
  let pipeBase := chavesPipeBase U chavesNorm partesChave row
  if historicoDe row = .str MISSING_INFO then MISSING_ID
  else
    let histPipe := paraPipe (histCanon row)
    let histPipeComp := normalizeSimple U (.str histPipe)
    match (extrairChaveValidaDoHistorico (histCanon row) base).filter (fun c => !c.isEmpty) with
    | some chaveDireta => canonicalizarChaveS chaveDireta
    | none =>
      if histPipe ∈ pipeBase then canonicalizarChaveS (replaceUnit PIPE [STAR] histPipe)
      else
        let histComp := normalizeSimple U (.str (histCanon row))
        match (buscarCaso histComp histPipeComp partes casosEspecificos).filter
            (fun c => !c.isEmpty) with
        | some casoEncontrado => canonicalizarChaveS casoEncontrado
        | none =>
          let partesHist := partesDe (histCanon row)
          let chaveJanela :=
            (buscarJanela base pipeBase (max 1 partes) partesHist).getD MISSING_ID
          if chaveJanela = MISSING_ID then chaveJanela else canonicalizarChaveS chaveJanela

/-- The row built by `{ [keyColName]: value, ...row }` followed by the
canonicalisation of the key column (lines 708-713). -/
def linhaComChave (keyColName : Str) (value : Str) (row : Obj Val) : Obj Val :=
  let out := row.foldl (fun o e => Obj.define o e.1 e.2) [(keyColName, Val.str value)]
  match out.get keyColName with
  | .str k =>
    if k ∉ [MISSING_ID, js "IGNORADO"] then
      Obj.define out keyColName (canonicalizarChave (.str k))
    else out
  | _ => out

/-- Embeds `identificarChavePlanejamento`, with the override document given by its
members in declaration order. -/
def identificarChavePlanejamento (U : Unicode) (dataset : Dataset)
    (chavesPlanejamento : List Str) (casosDeclarados : List (Str × Val))
    (keyColName : Str) (partesChave : Nat) : Dataset :=
  let casosEspecificos := carregarCasosEspecificos U casosDeclarados
  let chavesNorm := chavesPlanejamento.map canonicalizarChaveS
  let resultados := dataset.rows.map (resolverLinha U casosEspecificos chavesNorm partesChave)
  { columns := keyColName :: dataset.columns
    rows := (dataset.rows.zip resultados).map (fun e => linhaComChave keyColName e.2 e.1) }

/-- Embeds `forcarChavesManualmente`, with the loaded forced-key table. -/
def forcarChavesManualmente (substituicoes : Obj Str) (dataset : Dataset)
    (keyColName : Str) : Dataset :=
  if substituicoes.isEmpty then dataset
  else if !(NUM_EMP ∈ dataset.columns) then dataset
  else
    { dataset with
      rows := dataset.rows.map (fun row =>
        let numEmp := trim ((row.get NUM_EMP).or (.str [])).toStr
        if (substituicoes.getStr numEmp).truthy then
          let row := Obj.set row keyColName (canonicalizarChave (substituicoes.getStr numEmp))
          Obj.set row FORCAR_CHAVE (.bool true)
        else row) }

/-! ## emp_runner.js: records for the store -/

/-- Embeds `Object.entries(COL_MAP)`. -/
def COL_MAP : Obj Str :=
  [(js "chave", js "chave"),
   (js "chave_de_planejamento", js "chave_planejamento"),
   (js "regiao", js "regiao"),
   (js "subfuncao_ug", js "subfuncao_ug"),
   (js "adj", js "adj"),
   (js "macropolitica", js "macropolitica"),
   (js "pilar", js "pilar"),
   (js "eixo", js "eixo"),
   (js "politica_decreto", js "politica_decreto"),
   (js "exercicio", js "exercicio"),
   (js "situacao", js "situacao"),
   (js "historico", js "historico"),
   (js "no_emp", js "numero_emp"),
   (js "numero_emp", js "numero_emp"),
   (js "no_ped", js "numero_ped"),
   (js "numero_ped", js "numero_ped"),
   (js "no_contrato", js "numero_contrato"),
   (js "no_convenio", js "numero_convenio"),
   (js "dotacao_orcamentaria", js "dotacao_orcamentaria"),
   (js "funcao", js "funcao"),
   (js "subfuncao", js "subfuncao"),
   (js "programa_de_governo", js "programa_governo"),
   (js "paoe", js "paoe"),
   (js "natureza_de_despesa", js "natureza_despesa"),
   (js "cat_econ", js "cat_econ"),
   (js "grupo", js "grupo"),
   (js "modalidade", js "modalidade"),
   (js "fonte", js "fonte"),
   (js "iduso", js "iduso"),
   (js "elemento", js "elemento"),
   (js "uo", js "uo"),
   (js "nome_da_unidade_orcamentaria", js "nome_unidade_orcamentaria"),
   (js "nome_unidade_orcamentaria", js "nome_unidade_orcamentaria"),
   (js "ug", js "ug"),
   (js "nome_da_unidade_gestora", js "nome_unidade_gestora"),
   (js "nome_unidade_gestora", js "nome_unidade_gestora"),
   (js "data_emissao", js "data_emissao"),
   (js "data_criacao", js "data_criacao"),
   (js "valor_emp", js "valor_emp"),
   (js "devolucao_gcv", js "devolucao_gcv"),
   (js "valor_emp_devolucao_gcv", js "valor_emp_devolucao_gcv"),
   (js "tipo_empenho", js "tipo_empenho"),
   (js "tipo_de_despesa", js "tipo_despesa"),
   (js "credor", js "credor"),
   (js "nome_do_credor", js "nome_credor"),
   (js "nome_credor", js "nome_credor"),
   (js "cpf_cnpj_do_credor", js "cpf_cnpj_credor"),
   (js "cpf_cnpj_credor", js "cpf_cnpj_credor"),
   (js "categoria_do_credor", js "categoria_credor"),
   (js "categoria_credor", js "categoria_credor")]

/-- The class `[a-zA-Z0-9]`. -/
def isAlnum (c : Nat) : Bool :=
  (97 ≤ c && c ≤ 122) || (65 ≤ c && c ≤ 90) || (48 ≤ c && c ≤ 57)

/-- Embeds `s.replace(/[^a-zA-Z0-9]+/g, "_")`; the flag records that the previous
code unit belonged to a run already replaced. -/
def underscoreRuns : Bool → Str → Str
  | _, [] => []
  | prev, c :: cs =>
    if !isAlnum c then
      if prev then underscoreRuns true cs else 95 :: underscoreRuns true cs
    else c :: underscoreRuns false cs

/-- Embeds `normalizeColName(name)` for a property name. -/
def normalizeColName (U : Unicode) (name : Str) : Str :=
  let texto := name
  let texto := texto.map (fun c => if c = 0xBA || c = 0xB0 then 111 else c)
  let texto := U.nfkd texto
  let texto := U.stripMarks texto
  let texto := underscoreRuns false texto
  let texto := (texto.dropWhile (fun c => c = 95)).rdropWhile (fun c => c = 95)
  U.toLowerCase texto

/-- The column loop of `montarRegistrosParaDb` (lines 979-985): the payload
holding, under each store column, the value of the row column mapped to it,
with `"-"` turned into `null`. -/
def mapearColunas (U : Unicode) (row : Obj Val) : Obj Val :=
  row.foldl
    (fun payload e =>
      let key := normalizeColName U e.1
      let dbCol := COL_MAP.getStr key
      if !dbCol.truthy then payload
      else Obj.set payload dbCol.toStr (if e.2 = .str (js "-") then .null else e.2))
    []

/-- One record built by `montarRegistrosParaDb`: the payload columns, the
row serialised into `raw_payload`, and the run data copied into it.  The
column `data_atualizacao` holds the clock reading and is left out. -/
structure Registro where
  payload : Obj Val
  rawRow : Obj Val
  uploadId : Val
  dataArquivo : Val
  userEmail : Val
  deriving DecidableEq, Repr

/-- Embeds `if (col in payload) payload[col] = f(payload[col])`. -/
def converterSePresente (f : Val → Val) (payload : Obj Val) (col : Str) : Obj Val :=
  match payload.own col with
  | some v => Obj.set payload col (f v)
  | none => payload

/-- The key validation of `montarRegistrosParaDb` (lines 987-997) on the
payload of a row; `forcar` is the truthiness of `row.__forcar_chave`. -/
def validarChaves (forcar : Bool) (payload : Obj Val) : Obj Val :=
  let ano := parseAno (payload.get (js "exercicio"))
  if forcar then
    let payload := Obj.set payload (js "chave") ((payload.get (js "chave")).or .null)
    Obj.set payload (js "chave_planejamento")
      ((payload.get (js "chave_planejamento")).or .null)
  else
    let partesPlanejamento := match ano with
      | some a => if a ≥ 2026 then 8 else 7
      | none => 7
    let chavePartes := contarPartesChave (payload.get (js "chave"))
    let planejamentoPartes := contarPartesChave (payload.get (js "chave_planejamento"))
    let payload := Obj.set payload (js "chave")
      (if chavePartes = 4 then payload.get (js "chave") else .null)
    Obj.set payload (js "chave_planejamento")
      (if planejamentoPartes = partesPlanejamento then payload.get (js "chave_planejamento")
       else .null)

/-- The conversions of the monetary and date columns (lines 999-1004).
`parseValorDb` and `parseDataDb` yield floating-point numbers and `Date`
objects, which `Val` does not hold; the conversions are parameters here. -/
def converterCampos (parseValorDb parseDataDb : Val → Val) (payload : Obj Val) : Obj Val :=
  let payload := [js "valor_emp", js "devolucao_gcv", js "valor_emp_devolucao_gcv"].foldl
    (converterSePresente parseValorDb) payload
  [js "data_emissao", js "data_criacao"].foldl (converterSePresente parseDataDb) payload

/-- The body of the row loop of `montarRegistrosParaDb` (lines 978-1014). -/
def montarRegistro (U : Unicode) (parseValorDb parseDataDb : Val → Val)
    (dataArquivo userEmail uploadId : Val) (row : Obj Val) : Registro :=
  let payload := mapearColunas U row
  let payload := validarChaves (row.get FORCAR_CHAVE).truthy payload
  let payload := converterCampos parseValorDb parseDataDb payload
  { payload := payload
    rawRow := row.filter (fun e => e.1 != FORCAR_CHAVE)
    uploadId := uploadId
    dataArquivo := dataArquivo.or .null
    userEmail := userEmail }

/-- Embeds `montarRegistrosParaDb(dataset, dataArquivo, userEmail, uploadId)`. -/
def montarRegistrosParaDb (U : Unicode) (parseValorDb parseDataDb : Val → Val)
    (dataset : Dataset) (dataArquivo userEmail uploadId : Val) : List Registro :=
  dataset.rows.map (montarRegistro U parseValorDb parseDataDb dataArquivo userEmail uploadId)

/-- The value a row holds for a store column: the value of the last
property of the row whose normalised name `COL_MAP` sends to that column,
`undefined` when there is none (later properties overwrite earlier ones in
the column loop). -/
def valorDaColuna (U : Unicode) (row : Obj Val) (dbCol : Str) : Val :=
  match (row.filter (fun e => COL_MAP.getStr (normalizeColName U e.1) = .str dbCol)).getLast? with
  | some e => e.2
  | none => .undefined

/-- The part count `montarRegistrosParaDb` expects of the planning key of a
row, from the year in the row's exercise column. -/
def partesEsperadas (U : Unicode) (row : Obj Val) : Nat :=
  match parseAno (valorDaColuna U row (js "exercicio")) with
  | some a => if a ≥ 2026 then 8 else 7
  | none => 7

/-! ## emp_runner.js: the write loop of processEmp -/

/-- What can end the write loop abnormally: the error raised on
cancellation, or whatever `bulkInsert` throws. -/
inductive Erro
  | cancelado
  | sink (msg : Str)
  deriving DecidableEq, Repr

/-- The `message` of the error. -/
def Erro.message : Erro → Str
  | .cancelado => js "PROCESSAMENTO_CANCELADO"
  | .sink msg => msg

/-- A status update issued by the loop: the progress computed from the
running total and the record count, or the final value 100. -/
inductive Progresso
  | parcial (total registros : Nat)
  | completo
  deriving DecidableEq, Repr

/-- State of the write loop: the pending `batch`, the running `total`, the
batches that `bulkInsert` has written, in flush order, and the status
updates issued. -/
structure Escrita (ρ : Type) where
  batch : List ρ
  total : Nat
  gravados : List (List ρ)
  status : List Progresso

/-- The loop `for (const registro of registros)` (lines 1180-1194).
`cancel i` is the answer of `readCancelFlag` at the poll that precedes
record `i`; `sink j` is `none` when the `bulkInsert` of flush `j` resolves
and the error text when it throws; `n` is `registros.length`.  The result is
the state reached and the error that stopped the loop, if any. -/
def gravarLoop {ρ : Type} (cancel : Nat → Bool) (sink : Nat → Option Str) (n : Nat) :
    Nat → List ρ → Escrita ρ → Escrita ρ × Option Erro
  | _, [], st => (st, none)
  | i, registro :: rest, st =>
    if cancel i then (st, some .cancelado)
    else
      let batch := st.batch ++ [registro]
      if BATCH_SIZE ≤ batch.length then
        match sink st.gravados.length with
        | some msg => ({ st with batch := batch }, some (.sink msg))
        | none =>
          gravarLoop cancel sink n (i + 1) rest
            { batch := []
              total := st.total + batch.length
              gravados := st.gravados ++ [batch]
              status := st.status ++ [.parcial (st.total + batch.length) n] }
      else gravarLoop cancel sink n (i + 1) rest { st with batch := batch }

/-- Outcome of a write run. -/
inductive Resultado
  | ok (total : Nat)
  | erro (e : Erro)
  deriving DecidableEq, Repr

/-- What a write run leaves behind: the batches written, in flush order, the
status updates, and the outcome. -/
structure Execucao (ρ : Type) where
  gravados : List (List ρ)
  status : List Progresso
  resultado : Resultado

/-- The write phase of `processEmp` (lines 1178-1210): the loop followed by
the flush of the remainder. -/
def gravarRegistros {ρ : Type} (cancel : Nat → Bool) (sink : Nat → Option Str)
    (registros : List ρ) : Execucao ρ :=
  match gravarLoop cancel sink registros.length 0 registros
      { batch := [], total := 0, gravados := [], status := [] } with
  | (st, some e) => { gravados := st.gravados, status := st.status, resultado := .erro e }
  | (st, none) =>
    if !st.batch.isEmpty then
      match sink st.gravados.length with
      | some msg =>
        { gravados := st.gravados, status := st.status, resultado := .erro (.sink msg) }
      | none =>
        { gravados := st.gravados ++ [st.batch]
          status := st.status ++ [.completo]
          resultado := .ok (st.total + st.batch.length) }
    else { gravados := st.gravados, status := st.status, resultado := .ok st.total }

/-! ## emp_runner.js: derived columns -/

/-- Embeds `s.split(d).map((p) => p.trim()).filter(Boolean)` for a delimiter of one
code unit. -/
def fragmentos (d : Nat) (s : Str) : List Str :=
  ((s.splitOn d).map trim).filter (fun p => !p.isEmpty)

/-- Embeds `partes[idx] || "NÃO INFORMADO"`. -/
def parteOu (partes : List Str) (idx : Nat) : Val :=
  match partes[idx]? with
  | some p => (Val.str p).or (.str MISSING_INFO)
  | none => .str MISSING_INFO

/-- Embeds `delete o[k]`. -/
def Obj.delete {α : Type} (o : Obj α) (k : Str) : Obj α := o.filter (fun e => e.1 != k)

/-- The seven positional columns of the planning key, `cols` (line 827). -/
def COLUNAS_PLANEJAMENTO : List Str :=
  [js "Região", js "Subfunção + UG", js "ADJ", js "Macropolítica", js "Pilar", js "Eixo",
   js "Política_Decreto"]

/-- The column `Dotação Orçamentária`. -/
def DOTACAO : Str := js "Dotação Orçamentária"

/-- The column `Natureza de Despesa`. -/
def NATUREZA : Str := js "Natureza de Despesa"

/-- The columns filled from the allocation code, each with the index of the
segment it takes (lines 854-860). -/
def CAMPOS_DOTACAO : List (Str × Nat) :=
  [(js "Função", 2), (js "Subfunção", 3), (js "Programa de Governo", 4), (js "PAOE", 5),
   (NATUREZA, 7), (js "Fonte", 8), (js "Iduso", 9)]

/-- Embeds `colunasRemover` (lines 874-910). -/
def COLUNAS_REMOVER : List Str :=
  [js "Nº Processo Orçamentário de Pagamento", js "Nº NOBLIST", js "Nº DOTLIST", js "Nº OS",
   js "Nº Emenda (EP)", js "Autor da Emenda (EP)", js "Nº ABJ",
   js "Nº Processo do Sequestro Judicial", js "CBA", js "Tipo Conta Bancária",
   js "Nº Licitação", js "Ano Licitação", js "Nome do Elemento", js "RP", js "Ordenador",
   js "Nome do Ordenador de Despesa", js "Finalidade de Aplicação FUNDEB (EMP)",
   js "Grupo Despesa", js "Nome do Grupo Despesa", js "Modalidade de Aplicação",
   js "Nome da Modalidade de Aplicação", js "Usuário Responsável", js "Número da Licitação",
   js "Ano da Licitação", js "Fundamento Legal(Amparo Legal)",
   js "Justificativa para despesa sem contrato(Sim/Não)", js "Despesa em Processamento",
   js "UO Extinta", js "Nº NEX", js "Situação NEX", js "Valor da NEX", js "Nº RPV",
   js "RPV Vencido", js "Nº CAD", js "Nº NLA"]

/-- The parts of the key of a row, padded with the sentinel and truncated to
`partesChave` (lines 812-826). -/
def partesDaChave (partesChave : Nat) (chave : Val) : List Str :=
  let partes : List Str :=
    match chave with
    | .str s =>
      if trim s ∉ [[], MISSING_ID, MISSING_INFO] then
        if trim s = js "#" then List.replicate partesChave (js "#") else partesDe s
      else []
    | _ => []
  let partes :=
    if partes.length < partesChave then
      partes ++ List.replicate (partesChave - partes.length) MISSING_INFO
    else partes
  if partes.length > partesChave then partes.take partesChave else partes

/-- The planning branch of `preencherNovasColunas` on one row (lines 812-830):
each positional column takes the part of its index. -/
def preencherPlanejamento (keyColName : Str) (partesChave : Nat) (row : Obj Val) : Obj Val :=
  let partes := partesDaChave partesChave (row.get keyColName)
  COLUNAS_PLANEJAMENTO.enum.foldl (fun row e => Obj.set row e.2 (parteOu partes e.1)) row

/-- The segments of the allocation code of a row, padded with the sentinel
to 11 (lines 849-853). -/
def partesDaDotacao (row : Obj Val) : List Str :=
  let dotacao := trim ((row.get DOTACAO).or (.str [])).toStr
  let partes := fragmentos 46 dotacao
  if partes.length < 11 then partes ++ List.replicate (11 - partes.length) MISSING_INFO
  else partes

/-- The allocation-code loop of `preencherNovasColunas` on one row (lines
849-871). -/
def preencherOrcamento (row : Obj Val) : Obj Val :=
  let partes := partesDaDotacao row
  let row := CAMPOS_DOTACAO.foldl (fun row e => Obj.set row e.1 (parteOu partes e.2)) row
  let natureza := ((row.get NATUREZA).or (.str [])).toStr
  if natureza.length < 4 then
    let row := Obj.set row (js "Cat.Econ") (.str MISSING_INFO)
    let row := Obj.set row (js "Grupo") (.str MISSING_INFO)
    Obj.set row (js "Modalidade") (.str MISSING_INFO)
  else
    let row := Obj.set row (js "Cat.Econ") (.str (natureza.take 1))
    let row := Obj.set row (js "Grupo") (.str ((natureza.drop 1).take 1))
    Obj.set row (js "Modalidade") (.str ((natureza.drop 2).take 2))

/-- Embeds `preencherNovasColunas(dataset, keyColName, planejamentoAtivo, partesChave)`. -/
def preencherNovasColunas (dataset : Dataset) (keyColName : Str) (planejamentoAtivo : Bool)
    (partesChave : Nat) : Dataset :=
  let dataset : Dataset :=
    if planejamentoAtivo && decide (keyColName ∈ dataset.columns) then
      { dataset with rows := dataset.rows.map (preencherPlanejamento keyColName partesChave) }
    else
      { columns := dataset.columns.filter (fun col => decide (col ∉ COLUNAS_PLANEJAMENTO))
        rows := dataset.rows.map (fun row => COLUNAS_PLANEJAMENTO.foldl Obj.delete row) }
  let dataset : Dataset := { dataset with rows := dataset.rows.map preencherOrcamento }
  { columns := dataset.columns.filter (fun col => decide (col ∉ COLUNAS_REMOVER))
    rows := dataset.rows.map (fun row => COLUNAS_REMOVER.foldl Obj.delete row) }

/-! ## emp_runner.js: the net value -/

/-- The column `Valor EMP`. -/
def VALOR_EMP : Str := js "Valor EMP"

/-- The column `Devolução GCV`. -/
def DEVOLUCAO_GCV : Str := js "Devolução GCV"

/-- The column `Valor EMP-Devolução GCV`. -/
def VALOR_LIQUIDO : Str := js "Valor EMP-Devolução GCV"

/-- Embeds `columns.splice(start, 0, item)`: the item is inserted before position
`start`, or at the end when the list is shorter. -/
def spliceInsert (columns : List Str) (start : Nat) (item : Str) : List Str :=
  columns.take start ++ item :: columns.drop start

/-- The column list `calcularValorLiquido` leaves (lines 965-972): the net-value
column is appended when absent, the position of the deduction column is
taken, and the net-value column is removed and inserted again one place
after that position. -/
def colunasComLiquido (columns : List Str) : List Str :=
  let columns :=
    if !decide (VALOR_LIQUIDO ∈ columns) then columns ++ [VALOR_LIQUIDO] else columns
  let idx := columns.indexOf DEVOLUCAO_GCV
  if idx < columns.length then
    spliceInsert (columns.filter (fun c => c != VALOR_LIQUIDO)) (idx + 1) VALOR_LIQUIDO
  else columns

/-- Embeds `calcularValorLiquido(dataset)`.  The subtraction and `toFixed(2)` are
floating-point operations of the engine: `diferenca a b` is the text
`((Number(a) || 0) - (Number(b) || 0)).toFixed(2)` for the two texts the row
loop prepares (lines 961-963). -/
def calcularValorLiquido (diferenca : Str → Str → Str) (dataset : Dataset) : Dataset :=
  if !decide (VALOR_EMP ∈ dataset.columns) || !decide (DEVOLUCAO_GCV ∈ dataset.columns) then
    dataset
  else
    { columns := colunasComLiquido dataset.columns
      rows := dataset.rows.map (fun row =>
        let emp := replaceUnit 44 [46] ((row.get VALOR_EMP).or (.str (js "0"))).toStr
        let gcv := replaceUnit 44 [46] ((row.get DEVOLUCAO_GCV).or (.str (js "0"))).toStr
        Obj.set row VALOR_LIQUIDO (.str (diferenca emp gcv))) }

/-! ## util.js: monetary values -/

/-- A finite Number, given by the decimal numeral it was converted from: the
sign, the digits as a natural number and the count of fraction digits.  It
stands for the double nearest to `mantissa / 10 ^ escala`, negated when
`negativo` is set. -/
structure Decimal where
  negativo : Bool
  mantissa : Nat
  escala : Nat
  deriving DecidableEq, Repr

/-- What `Number(text)` yields: `NaN`, an infinity, or a finite Number. -/
inductive Numero
  | nan
  | infinito (negativo : Bool)
  | finito (valor : Decimal)
  deriving DecidableEq, Repr

/-- The least magnitude that `Number` rounds to an infinity:
`2^1024 - 2^970`, half a unit in the last place above the largest double. -/
def LIMITE_NUMERO : Nat := 2 ^ 1024 - 2 ^ 970

/-- Embeds `Number(text)` on text made of digits, `.` and `-`, which is all
that is left in `cleaned`: the empty text is 0; otherwise an optional sign
is followed by digits with at most one `.` and at least one digit, and
anything else is `NaN`. -/
def numeroDe (text : Str) : Numero :=
  if text = [] then .finito { negativo := false, mantissa := 0, escala := 0 }
  else
    let negativo : Bool := text.head? = some 45
    let semSinal := if negativo then text.drop 1 else text
    let inteiro := semSinal.takeWhile isDigit
    let resto := semSinal.dropWhile isDigit
    let fracao : Option Str :=
      match resto with
      | [] => some []
      | c :: f => if c = 46 && f.all isDigit then some f else none
    match fracao with
    | none => .nan
    | some f =>
      if inteiro = [] ∧ f = [] then .nan
      else if LIMITE_NUMERO * 10 ^ f.length ≤ digitsToNat (inteiro ++ f) then .infinito negativo
      else
        .finito { negativo := negativo, mantissa := digitsToNat (inteiro ++ f),
                  escala := f.length }

/-- The texts for which `parseValorDb` answers `null` at once. -/
def SEM_VALOR : List Str :=
  [[], js "-", MISSING_INFO, js "NAO INFORMADO", MISSING_ID, js "NAO IDENTIFICADO"]

/-- Embeds `parseValorDb(value)`; `none` is `null`. -/
def parseValorDb (value : Val) : Option Decimal :=
  match value with
  | .null => none
  | .undefined => none
  | v =>
    let text := trim v.toStr
    if text ∈ SEM_VALOR then none
    else
      let cleaned := text.filter (fun c => isDigit c || c = 44 || c = 46 || c = 45)
      let cleaned :=
        if 44 ∈ cleaned then replaceUnit 44 [46] (cleaned.filter (fun c => c != 46))
        else cleaned
      match numeroDe cleaned with
      | .finito q => some q
      | _ => none

/-! ## nob_runner.js: the write phase of processNob -/

/-- A status update of the write phase of `processNob`: the flush of a full
batch reports the message alone (lines 753-755), the flush of the remainder
reports `progress: 100` with it (lines 799-802); both carry the running
total. -/
inductive ProgressoNob
  | mensagem (totalInserted : Nat)
  | completo (totalInserted : Nat)
  deriving DecidableEq, Repr

/-- The `progress` field of the update, when it has one. -/
def ProgressoNob.progress : ProgressoNob → Option Nat
  | .mensagem _ => none
  | .completo _ => some 100

/-- State of the write phase of `processNob`: the pending `batch`,
`totalInserted`, the batches written and the status updates issued. -/
structure EscritaNob (ρ : Type) where
  batch : List ρ
  totalInserted : Nat
  gravados : List (List ρ)
  status : List ProgressoNob

/-- The tail of `processRecord` (lines 744-757) over the payloads that reach
`batch.push`, in the order of the sheet.  The cancellation flag is polled
only when a batch is full: `cancel j` is the answer at the poll that precedes
flush `j`, `sink j` the outcome of the `bulkInsert` of flush `j`. -/
def gravarLoopNob {ρ : Type} (cancel : Nat → Bool) (sink : Nat → Option Str) :
    List ρ → EscritaNob ρ → EscritaNob ρ × Option Erro
  | [], st => (st, none)
  | payload :: rest, st =>
    let batch := st.batch ++ [payload]
    if BATCH_SIZE ≤ batch.length then
      if cancel st.gravados.length then ({ st with batch := batch }, some .cancelado)
      else
        match sink st.gravados.length with
        | some msg => ({ st with batch := batch }, some (.sink msg))
        | none =>
          gravarLoopNob cancel sink rest
            { batch := []
              totalInserted := st.totalInserted + batch.length
              gravados := st.gravados ++ [batch]
              status := st.status ++ [.mensagem (st.totalInserted + batch.length)] }
    else gravarLoopNob cancel sink rest { st with batch := batch }

/-- What a write run of `processNob` leaves behind. -/
structure ExecucaoNob (ρ : Type) where
  gravados : List (List ρ)
  status : List ProgressoNob
  resultado : Resultado

/-- The write phase of `processNob`: the record loop followed by the flush
of the remainder (lines 793-812). -/
def gravarRegistrosNob {ρ : Type} (cancel : Nat → Bool) (sink : Nat → Option Str)
    (payloads : List ρ) : ExecucaoNob ρ :=
  match gravarLoopNob cancel sink payloads
      { batch := [], totalInserted := 0, gravados := [], status := [] } with
  | (st, some e) => { gravados := st.gravados, status := st.status, resultado := .erro e }
  | (st, none) =>
    if !st.batch.isEmpty then
      if cancel st.gravados.length then
        { gravados := st.gravados, status := st.status, resultado := .erro .cancelado }
      else
        match sink st.gravados.length with
        | some msg =>
          { gravados := st.gravados, status := st.status, resultado := .erro (.sink msg) }
        | none =>
          { gravados := st.gravados ++ [st.batch]
            status := st.status ++ [.completo (st.totalInserted + st.batch.length)]
            resultado := .ok (st.totalInserted + st.batch.length) }
    else { gravados := st.gravados, status := st.status, resultado := .ok st.totalInserted }

/-! ## emp_runner.js: the window loop without its star-form test -/

/-- The window loop of lines 689-702 with the star-form test of lines 692-695
removed, as C24 describes it: each window is looked up in its pipe form
only. -/
def buscarJanelaSemEstrela (chavesPipeBase : List Str) (tamanhoJanela : Nat) :
    List Str → Option Str
  | [] => none
  | p :: ps =>
    if tamanhoJanela ≤ (p :: ps).length then
      let janela := serializar ((p :: ps).take tamanhoJanela)
      let janelaPipe := paraPipe janela
      if janelaPipe ∈ chavesPipeBase then
        some (canonicalizarChaveS (replaceUnit PIPE [STAR] janelaPipe))
      else buscarJanelaSemEstrela chavesPipeBase tamanhoJanela ps
    else none

/-- The body of the row loop with the star-form window test removed:
`resolverLinha` with `buscarJanelaSemEstrela` in the place of `buscarJanela`. -/
def resolverLinhaSemEstrela (U : Unicode) (casosEspecificos : Obj Str) (chavesNorm : List Str)
    (partesChave : Nat) (row : Obj Val) : Str :=
  let partes := partesLinha U partesChave row
  let base := chavesBase U chavesNorm partesChave row
  let pipeBase := chavesPipeBase U chavesNorm partesChave row
  if historicoDe row = .str MISSING_INFO then MISSING_ID
  else
    let histPipe := paraPipe (histCanon row)
    let histPipeComp := normalizeSimple U (.str histPipe)
    match (extrairChaveValidaDoHistorico (histCanon row) base).filter (fun c => !c.isEmpty) with
    | some chaveDireta => canonicalizarChaveS chaveDireta
    | none =>
      if histPipe ∈ pipeBase then canonicalizarChaveS (replaceUnit PIPE [STAR] histPipe)
      else
        let histComp := normalizeSimple U (.str (histCanon row))
        match (buscarCaso histComp histPipeComp partes casosEspecificos).filter
            (fun c => !c.isEmpty) with
        | some casoEncontrado => canonicalizarChaveS casoEncontrado
        | none =>
          let partesHist := partesDe (histCanon row)
          let chaveJanela :=
            (buscarJanelaSemEstrela pipeBase (max 1 partes) partesHist).getD MISSING_ID
          if chaveJanela = MISSING_ID then chaveJanela else canonicalizarChaveS chaveJanela

/-- The function `identificarChavePlanejamento` with the star-form window test
removed. -/
def identificarChavePlanejamentoSemEstrela (U : Unicode) (dataset : Dataset)
    (chavesPlanejamento : List Str) (casosDeclarados : List (Str × Val))
    (keyColName : Str) (partesChave : Nat) : Dataset :=
  let casosEspecificos := carregarCasosEspecificos U casosDeclarados
  let chavesNorm := chavesPlanejamento.map canonicalizarChaveS
  let resultados :=
    dataset.rows.map (resolverLinhaSemEstrela U casosEspecificos chavesNorm partesChave)
  { columns := keyColName :: dataset.columns
    rows := (dataset.rows.zip resultados).map (fun e => linhaComChave keyColName e.2 e.1) }

/-! ## emp_runner.js: the catalog documents -/

/-- A value as `JSON.parse` returns it.  `num` carries the text `String` gives for
the number; `obj` holds the own properties of the object, in the order in
which `Object.entries` reports them. -/
inductive Json
  | null
  | bool (b : Bool)
  | num (texto : Str)
  | str (s : Str)
  | arr (itens : List Json)
  | obj (membros : List (Str × Json))

/-- What can be thrown inside the loaders: the error of `fs.readFileSync`, the
`SyntaxError` of `JSON.parse`, or a `TypeError`. -/
inductive Excecao
  | arquivo
  | sintaxe
  | tipo
  deriving DecidableEq, Repr

deriving instance DecidableEq for Except

mutual
/-- Embeds `String(v)` on a value of a JSON document.  An array is the join of
its elements with `,`, where `null` gives the empty text; an object gives
`[object Object]` through `Object.prototype.toString`, unless it has a member
named `toString`: no member of a JSON document is callable, so the conversion
finds no method that returns a primitive and throws a `TypeError`. -/
def Json.texto : Json → Except Excecao Str
  | .null => .ok (js "null")
  | .bool true => .ok (js "true")
  | .bool false => .ok (js "false")
  | .num t => .ok t
  | .str s => .ok s
  | .arr itens => (Json.textos itens).map (join (js ","))
  | .obj membros =>
    if membros.any (fun e => e.1 = js "toString") then .error .tipo
    else .ok (js "[object Object]")
/-- The texts `Array.prototype.join` converts the elements to. -/
def Json.textos : List Json → Except Excecao (List Str)
  | [] => .ok []
  | .null :: rest => (Json.textos rest).map (fun ts => [] :: ts)
  | j :: rest =>
    match Json.texto j with
    | .error e => .error e
    | .ok t => (Json.textos rest).map (fun ts => t :: ts)
end

/-- Embeds `readJsonWithBom(filePath)`.  `arquivo` is the content of the file, `none`
when `fs.readFileSync` throws; `parse` is `JSON.parse`, `none` when it throws. -/
def readJsonWithBom (parse : Str → Option Json) (arquivo : Option Str) : Except Excecao Json :=
  match arquivo with
  | none => .error .arquivo
  | some raw =>
    let text := if raw.head? = some 0xFEFF then raw.drop 1 else raw
    match parse text with
    | none => .error .sintaxe
    | some documento => .ok documento

/-- The elements the iterator of a string yields: its code points, a high
surrogate followed by a low one making one element. -/
def pontos : Str → List Str
  | [] => []
  | [c] => [[c]]
  | c :: d :: rest =>
    if isHigh c && isLow d then [c, d] :: pontos rest else [c] :: pontos (d :: rest)

/-- The elements `for (const chave of chaves)` visits: those of an array, the code
points of a string; any other value is not iterable and the loop throws a
`TypeError`. -/
def iterar : Json → Except Excecao (List Json)
  | .arr itens => .ok itens
  | .str s => .ok ((pontos s).map Json.str)
  | _ => .error .tipo

/-- The decimal numeral of an index. -/
def indice (i : Nat) : Str := (Nat.toDigits 10 i).map Char.toNat

/-- Embeds `Object.entries(v)` on a value of a JSON document: the properties of an
object, the indexed elements of an array, the indexed code units of a string,
none for a boolean or a number; on `null` it throws a `TypeError`. -/
def membrosDe : Json → Except Excecao (List (Str × Json))
  | .null => .error .tipo
  | .bool _ => .ok []
  | .num _ => .ok []
  | .str s => .ok (s.enum.map (fun e => (indice e.1, Json.str [e.2])))
  | .arr itens => .ok (itens.enum.map (fun e => (indice e.1, e.2)))
  | .obj membros => .ok membros

/-- The texts of the values of the members, `String(v)` for each. -/
def textosDosMembros : List (Str × Json) → Except Excecao (List (Str × Val))
  | [] => .ok []
  | (k, v) :: rest =>
    match Json.texto v with
    | .error e => .error e
    | .ok t => (textosDosMembros rest).map (fun ms => (k, Val.str t) :: ms)

/-- The texts `String(v)` gives for the values of a list, in order; the first
conversion that throws ends the run. -/
def textosDe : List Json → Except Excecao (List Str)
  | [] => .ok []
  | j :: rest =>
    match Json.texto j with
    | .error e => .error e
    | .ok t => (textosDe rest).map (fun ts => t :: ts)

/-- Embeds a `try` block whose `catch` clause returns `alt`: whatever the body
throws is discarded. -/
def tentar {α : Type} (corpo : Except Excecao α) (alt : α) : Except Excecao α :=
  match corpo with
  | .ok v => .ok v
  | .error _ => .ok alt

/-- Embeds `carregarChavesPlanejamento(jsonPath)` (lines 517-534) on the outcome of
reading the file.  The list `normalized` is local to the `try` block, so the
texts are converted first and the loop of `carregarChavesPlanejamento` runs on
them. -/
def carregarChavesPlanejamentoDe (parse : Str → Option Json) (arquivo : Option Str) :
    Except Excecao (List Str) :=
  tentar
    (match readJsonWithBom parse arquivo with
     | .error e => .error e
     | .ok chaves =>
       match iterar chaves with
       | .error e => .error e
       | .ok itens =>
         (textosDe itens).map (fun textos => carregarChavesPlanejamento (textos.map Val.str)))
    []

/-- Embeds `carregarCasosEspecificos(jsonPath)` (lines 536-552) on the outcome of
reading the file.  The table `out` is local to the `try` block, so the texts of
the values are converted first and the loop of `carregarCasosEspecificos` runs
on the properties, which it enumerates in the order they already have. -/
def carregarCasosEspecificosDe (U : Unicode) (parse : Str → Option Json)
    (arquivo : Option Str) : Except Excecao (Obj Str) :=
  tentar
    (match readJsonWithBom parse arquivo with
     | .error e => .error e
     | .ok casos =>
       match membrosDe casos with
       | .error e => .error e
       | .ok membros => (textosDosMembros membros).map (carregarCasosEspecificos U))
    []

/-- Embeds `carregarForcarChaves(jsonPath)` (lines 554-568) on the outcome of reading
the file. -/
def carregarForcarChavesDe (parse : Str → Option Json) (arquivo : Option Str) :
    Except Excecao (Obj Str) :=
  tentar
    (match readJsonWithBom parse arquivo with
     | .error e => .error e
     | .ok bruto =>
       match membrosDe bruto with
       | .error e => .error e
       | .ok membros => (textosDosMembros membros).map carregarForcarChaves)
    []

/-! ## nob_runner.js: columns derived from the allocation code -/

/-- Embeds `addDotacao(row)` of `nob_runner.js` (lines 478-487): the segments of
the allocation code are taken as they are, neither trimmed nor filtered. -/
def addDotacao (row : Obj Val) : Obj Val :=
  let dotacao := ((row.get DOTACAO).or (.str [])).toStr
  let parts := dotacao.splitOn 46
  let get : Nat → Val := fun idx =>
    if parts.length > idx then .str (parts.getD idx []) else .str MISSING_INFO
  let row := Obj.set row (js "Função") (get 2)
  let row := Obj.set row (js "Subfunção") (get 3)
  let row := Obj.set row (js "Programa de Governo") (get 4)
  let row := Obj.set row (js "PAOE") (get 5)
  Obj.set row NATUREZA (get 7)

/-- Embeds `addNatureza(row)` of `nob_runner.js` (lines 489-494). -/
def addNatureza (row : Obj Val) : Obj Val :=
  let natureza := trim ((row.get NATUREZA).or (.str [])).toStr
  let row := Obj.set row (js "Cat.Econ")
    (if natureza.length ≥ 1 then .str (natureza.take 1) else .str MISSING_INFO)
  let row := Obj.set row (js "Grupo")
    (if natureza.length ≥ 2 then .str ((natureza.drop 1).take 1) else .str MISSING_INFO)
  Obj.set row (js "Modalidade")
    (if natureza.length ≥ 4 then .str ((natureza.drop 2).take 2) else .str MISSING_INFO)

/-! ## util.js: dates -/

/-- A civil time: year, month (1 to 12), day of the month, hour, minute and
second. -/
structure Civil where
  ano : Nat
  mes : Nat
  dia : Nat
  hora : Nat
  minuto : Nat
  segundo : Nat
  deriving DecidableEq, Repr

/-- Days from 1 January 1970 to a day of the Gregorian calendar, of a year
from 1 on. -/
def diasDesde1970 (ano mes dia : Nat) : Int :=
  let y := if mes ≤ 2 then ano - 1 else ano
  let mp := if mes ≤ 2 then mes + 9 else mes - 3
  let doy := (153 * mp + 2) / 5 + dia - 1
  ((y * 365 + y / 4 - y / 100 + y / 400 + doy : Nat) : Int) - 719468

/-- The day that lies `z` days after 1 March of the year 0. -/
def diaDe (z : Nat) : Nat × Nat × Nat :=
  let era := z / 146097
  let doe := z % 146097
  let yoe := (doe - doe / 1460 + doe / 36524 - doe / 146096) / 365
  let doy := doe - (365 * yoe + yoe / 4 - yoe / 100)
  let mp := (5 * doy + 2) / 153
  let dia := doy - (153 * mp + 2) / 5 + 1
  let mes := if mp < 10 then mp + 3 else mp - 9
  (yoe + era * 400 + (if mes ≤ 2 then 1 else 0), mes, dia)

/-- The time value that reads as a civil time on a clock set to UTC. -/
def tempoDe (c : Civil) : Int :=
  (((diasDesde1970 c.ano c.mes c.dia * 24 + c.hora) * 60 + c.minuto) * 60 + c.segundo) * 1000

/-- The civil time a clock set to UTC shows at a time value, from the year 1
on. -/
def civilDe (t : Int) : Civil :=
  let s := t / 1000
  let dia := diaDe (s / 86400 + 719468).toNat
  let resto := (s % 86400).toNat
  { ano := dia.1, mes := dia.2.1, dia := dia.2.2, hora := resto / 3600,
    minuto := resto % 3600 / 60, segundo := resto % 60 }

/-- The time zone of the host, as the engine applies it.  `instante c` is the
time value, in milliseconds since the epoch, of the instant the `Date`
constructor gives the local civil time `c`, whatever the zone does with a
civil time it skips or repeats; `civil t` is the civil time the local clock
shows at the instant `t`, which the accessors of a `Date` report.  The local
clock is never a day or more away from UTC. -/
structure Zona where
  instante : Civil → Int
  civil : Int → Civil
  desvio : ∀ c, instante c - tempoDe c ≤ 86400000 ∧ tempoDe c - instante c ≤ 86400000

/-- A `Date` object: the invalid date, or an instant given by its time
value. -/
inductive Data
  | invalida
  | instante (t : Int)
  deriving DecidableEq, Repr

/-- The local fields of a `Date`, as `getFullYear`, `getMonth() + 1`, `getDate`,
`getHours`, `getMinutes` and `getSeconds` report them; none for the invalid
date. -/
def Data.campos (Z : Zona) : Data → Option Civil
  | .invalida => none
  | .instante t => some (Z.civil t)

/-- Embeds the engine's `TimeClip`: a time value more than 8.64e15 milliseconds
away from the epoch makes the invalid date. -/
def timeClip (t : Int) : Data :=
  if -8640000000000000 ≤ t ∧ t ≤ 8640000000000000 then .instante t else .invalida

/-- Leap years of the Gregorian calendar. -/
def anoBissexto (ano : Nat) : Bool := ano % 4 = 0 && (ano % 100 != 0 || ano % 400 = 0)

/-- Number of days of a month. -/
def diasDoMes (ano mes : Nat) : Nat :=
  if mes = 2 then (if anoBissexto ano then 29 else 28)
  else if mes = 4 || mes = 6 || mes = 9 || mes = 11 then 30
  else 31

/-- The day after a day, as year, month and day. -/
def diaSeguinte (d : Nat × Nat × Nat) : Nat × Nat × Nat :=
  if d.2.2 < diasDoMes d.1 d.2.1 then (d.1, d.2.1, d.2.2 + 1)
  else if d.2.1 < 12 then (d.1, d.2.1 + 1, 1)
  else (d.1 + 1, 1, 1)

/-- The day `n` days after a day. -/
def avancar : Nat → Nat × Nat × Nat → Nat × Nat × Nat
  | 0, d => d
  | n + 1, d => avancar n (diaSeguinte d)

/-- The local civil time `new Date(y, m - 1, d, hh, mm, ss)` stands for, for
natural numbers, as the digits of a date text give them.  A year up to 99 stands for a year of the 20th century;
the month index `m - 1` is carried into the year (month 0 is December of the
year before); the day of the month and the time of day are added to the first
day of that month, day 0 being the day before it. -/
def tempoLocal (y m d hh mm ss : Nat) : Civil :=
  let ano := if y ≤ 99 then 1900 + y else y
  let primeiro : Nat × Nat × Nat :=
    if m = 0 then (ano - 1, 12, 1) else (ano + (m - 1) / 12, (m - 1) % 12 + 1, 1)
  let segundos := hh * 3600 + mm * 60 + ss
  let dias := d + segundos / 86400
  let dia : Nat × Nat × Nat :=
    if dias = 0 then
      (if primeiro.2.1 = 1 then (primeiro.1 - 1, 12, 31)
       else (primeiro.1, primeiro.2.1 - 1, diasDoMes primeiro.1 (primeiro.2.1 - 1)))
    else avancar (dias - 1) primeiro
  { ano := dia.1, mes := dia.2.1, dia := dia.2.2, hora := segundos % 86400 / 3600,
    minuto := segundos % 3600 / 60, segundo := segundos % 60 }

/-- Embeds `new Date(y, m - 1, d, hh, mm, ss)`: the instant the zone of the host
gives the local civil time the arguments stand for, if it is in the range of
time values. -/
def novaData (Z : Zona) (y m d hh mm ss : Nat) : Data :=
  timeClip (Z.instante (tempoLocal y m d hh mm ss))

/-- A zone whose offset from UTC changes once: `antes` milliseconds until the
instant `transicao`, `depois` from then on, each of at most a day.  A local
time that the change skips or repeats is read with the offset before the
change, as the engine does. -/
def zonaDeTransicao (transicao antes depois : Int)
    (ha : -86400000 ≤ antes ∧ antes ≤ 86400000)
    (hd : -86400000 ≤ depois ∧ depois ≤ 86400000) : Zona where
  instante := fun c =>
    if transicao ≤ tempoDe c - antes ∧ transicao ≤ tempoDe c - depois then tempoDe c - depois
    else tempoDe c - antes
  civil := fun t => civilDe (t + (if t < transicao then antes else depois))
  desvio := fun c => by
    dsimp only
    split <;> omega

/-- The zone UTC. -/
def zonaUtc : Zona := zonaDeTransicao 0 0 0 (by decide) (by decide)

/-- The zone `America/Sao_Paulo` between February 2018 and February 2019: three
hours behind UTC until 4 November 2018, 03:00 UTC, when the local clock moves
from 0:00 to 1:00, two hours behind from then on. -/
def zonaSaoPaulo2018 : Zona :=
  zonaDeTransicao (tempoDe ⟨2018, 11, 4, 3, 0, 0⟩) (-10800000) (-7200000) (by decide)
    (by decide)

/-- The test of `/^\d{2}\/\d{2}\/\d{4} \d{2}:\d{2}:\d{2}$/`. -/
def formatoDataHora : Str → Bool
  | [a, b, s1, c, d, s2, e, f, g, h, s3, i, j, s4, k, l, s5, m, n] =>
    isDigit a && isDigit b && s1 = 47 && isDigit c && isDigit d && s2 = 47 &&
    isDigit e && isDigit f && isDigit g && isDigit h && s3 = 32 &&
    isDigit i && isDigit j && s4 = 58 && isDigit k && isDigit l && s5 = 58 &&
    isDigit m && isDigit n
  | _ => false

/-- The test of `/^\d{2}\/\d{2}\/\d{4}$/`. -/
def formatoData : Str → Bool
  | [a, b, s1, c, d, s2, e, f, g, h] =>
    isDigit a && isDigit b && s1 = 47 && isDigit c && isDigit d && s2 = 47 &&
    isDigit e && isDigit f && isDigit g && isDigit h
  | _ => false

/-- The test of `/^\d{4}-\d{2}-\d{2}$/`. -/
def formatoIso : Str → Bool
  | [a, b, c, d, s1, e, f, s2, g, h] =>
    isDigit a && isDigit b && isDigit c && isDigit d && s1 = 45 &&
    isDigit e && isDigit f && s2 = 45 && isDigit g && isDigit h
  | _ => false

/-- Embeds `s.split(sep).map(Number)` followed by the destructuring of three
fields, on fields made of digits: a missing field is `undefined`, which makes
the date invalid. -/
def tresCampos (sep : Nat) (s : Str) : Option (Nat × Nat × Nat) :=
  match (s.splitOn sep).map digitsToNat with
  | a :: b :: c :: _ => some (a, b, c)
  | _ => none

/-- The texts for which `parseDataDb` answers `null` at once. -/
def SEM_DATA : List Str := [[], js "-", js "00/00/0000", js "00/00/0000 00:00:00"]

/-- A value handed to `parseDataDb`: a `Date` object, or a value of any other
kind. -/
inductive Celula
  | data (d : Data)
  | valor (v : Val)

/-- Embeds `parseDataDb(value)` on a host whose time zone is `Z`; `none` is `null`. -/
def parseDataDb (Z : Zona) : Celula → Option Data
  | .data d => some d
  | .valor .null => none
  | .valor .undefined => none
  | .valor v =>
    let text := trim v.toStr
    if text ∈ SEM_DATA then none
    else
      let candidate := replaceUnit 45 [47] text
      if formatoDataHora candidate then
        match candidate.splitOn 32 with
        | datePart :: timePart :: _ =>
          match tresCampos 47 datePart, tresCampos 58 timePart with
          | some (d, m, y), some (hh, mm, ss) => some (novaData Z y m d hh mm ss)
          | _, _ => some .invalida
        | _ => some .invalida
      else if formatoData candidate then
        match tresCampos 47 candidate with
        | some (d, m, y) => some (novaData Z y m d 0 0 0)
        | none => some .invalida
      else if formatoIso text then
        match tresCampos 45 text with
        | some (y, m, d) => some (novaData Z y m d 0 0 0)
        | none => some .invalida
      else none

/-! ## util.js: amounts in pt-BR -/

/-- The class `\w`. -/
def isWord (c : Nat) : Bool := isAlnum c || c = 95

/-- The lookahead `(?=(\d{3})+(?!\d))`: the digits that follow, up to the first
code unit that is no digit, are a positive multiple of three in number. -/
def gruposDeTres (s : Str) : Bool :=
  (s.takeWhile isDigit).length != 0 && (s.takeWhile isDigit).length % 3 = 0

/-- Embeds `s.replace(/\B(?=(\d{3})+(?!\d))/g, ".")`: a point is inserted at every
position that is no word boundary and is followed by groups of three digits;
`prev` tells whether the code unit before the position is a word character.
No position at the end of the text matches, since a digit must follow. -/
def pontuarMilhares : Bool → Str → Str
  | _, [] => []
  | prev, c :: cs =>
    if (prev == isWord c) && gruposDeTres (c :: cs) then
      46 :: c :: pontuarMilhares (isWord c) cs
    else c :: pontuarMilhares (isWord c) cs

/-- Embeds `s.replace(/\.(?=\d{2}$)/, ",")`: the first point that is followed by
exactly two digits and the end of the text becomes a comma. -/
def virgulaDecimal : Str → Str
  | [] => []
  | c :: cs =>
    if c = 46 && cs.length = 2 && cs.all isDigit then 44 :: cs else c :: virgulaDecimal cs

/-- Embeds `formatNumberPtBr(value)` on the Number `Number(value)`.  `toFixed q` is the
text `num.toFixed(2)` for the finite Number `q`, a conversion of the engine. -/
def formatNumberPtBr (toFixed : Decimal → Str) (num : Numero) : Str :=
  match num with
  | .finito q => virgulaDecimal (pontuarMilhares false (toFixed q))
  | _ => js "0,00"

/-! ## emp_runner.js: output headers -/

/-- Embeds `OUTPUT_HEADER_LIST`. -/
def OUTPUT_HEADER_LIST : List Str :=
  [js "Chave de Planejamento", js "Região", js "Subfunção + UG", js "ADJ", js "Macropolítica",
   js "Pilar", js "Eixo", js "Política_Decreto", js "Exercício", js "Nº EMP", js "Nº PED",
   js "Nº Processo Orçamentário de Pagamento", js "Data emissão", js "Data criação", js "UO",
   js "Nome da Unidade Orçamentária", js "UG", js "Nome da Unidade Gestora", js "Histórico",
   js "Nº NOBLIST", js "Nº OS", js "Dotação Orçamentária", js "Função", js "Subfunção",
   js "Programa de Governo", js "PAOE", js "Natureza de Despesa", js "Cat.Econ", js "Grupo",
   js "Modalidade", js "Elemento", js "Nº Emenda (EP)", js "Fonte", js "Iduso",
   js "Tipo de Despesa", js "Nº ABJ", js "Nº Processo do Sequestro Judicial", js "Nº Convênio",
   js "Tipo Conta Bancária", js "Credor", js "Nome do Credor", js "CPF/CNPJ do Credor",
   js "Categoria do Credor", js "Nº Contrato", js "Tipo Empenho", js "Nº Licitação",
   js "Ano Licitação", js "Situação", js "Finalidade de Aplicação FUNDEB (EMP)",
   js "Modalidade de Aplicação", js "Nome da Modalidade de Aplicação", js "Usuário Responsável",
   js "Nº da Licitação", js "Ano da Licitação", js "Nº NEX", js "Situação NEX", js "Nº RPV",
   js "Devolução GCV", js "Nº CAD", js "Nº NLA", js "Valor EMP"]

/-- Embeds `s.replace(/\b(no|n)\b/g, "numero")`; `prev` tells whether the code unit
before the position is a word character.  A match starts where a word starts
with `n`: `no` is tried first and needs the word to end after it; `n` alone
needs the word to end after it. -/
def numeroPorExtenso : Bool → Str → Str
  | _, [] => []
  | prev, [c] => if !prev && c = 110 then js "numero" else [c]
  | prev, c :: d :: rest =>
    if !prev && c = 110 && d = 111 &&
        (match rest with
         | [] => true
         | e :: _ => !isWord e) then
      js "numero" ++ numeroPorExtenso true rest
    else if !prev && c = 110 && !isWord d then js "numero" ++ numeroPorExtenso true (d :: rest)
    else c :: numeroPorExtenso (isWord c) (d :: rest)

/-- The class `[a-z0-9]`. -/
def isMinusculaOuDigito (c : Nat) : Bool := (97 ≤ c && c ≤ 122) || (48 ≤ c && c ≤ 57)

/-- Embeds `s.replace(/[^a-z0-9]+/g, " ")`; the flag records that the previous code
unit belonged to a run already replaced. -/
def espacoPorRuns : Bool → Str → Str
  | _, [] => []
  | prev, c :: cs =>
    if !isMinusculaOuDigito c then
      if prev then espacoPorRuns true cs else SP :: espacoPorRuns true cs
    else c :: espacoPorRuns false cs

/-- Embeds `normalizeHeaderKey(label)`.  The replacement of `numero` by `numero` (line
99) leaves the text as it is. -/
def normalizeHeaderKey (U : Unicode) (label : Val) : Str :=
  let key := normalizeSimple U label
  let key := key.map (fun c => if c = 0xBA || c = 0xB0 then 111 else c)
  let key := numeroPorExtenso false key
  trim (espacoPorRuns false key)

/-- Embeds `normalizeHeaderKeyLoose(label)`. -/
def normalizeHeaderKeyLoose (U : Unicode) (label : Val) : Str :=
  let key := normalizeSimple U label
  let key := key.map (fun c => if c = 0xBA || c = 0xB0 then 111 else c)
  let key := key.filter (fun c => c != 63)
  let key := numeroPorExtenso false key
  key.filter isMinusculaOuDigito

/-- Embeds `OUTPUT_HEADER_MAP`. -/
def OUTPUT_HEADER_MAP (U : Unicode) : Obj Str :=
  jsonObject (OUTPUT_HEADER_LIST.map (fun label => (normalizeHeaderKey U (.str label), label)))

/-- Embeds `OUTPUT_HEADER_MAP_LOOSE`. -/
def OUTPUT_HEADER_MAP_LOOSE (U : Unicode) : Obj Str :=
  jsonObject
    (OUTPUT_HEADER_LIST.map (fun label => (normalizeHeaderKeyLoose U (.str label), label)))

/-- Embeds `fixOutputHeader(label)`; `nfc` is `normalize("NFC")` of the engine. -/
def fixOutputHeader (U : Unicode) (nfc : Str → Str) (label : Val) : Val :=
  match label with
  | .str s =>
    let key := normalizeHeaderKey U label
    if ((OUTPUT_HEADER_MAP U).getStr key).truthy then (OUTPUT_HEADER_MAP U).getStr key
    else
      let looseKey := normalizeHeaderKeyLoose U label
      if ((OUTPUT_HEADER_MAP_LOOSE U).getStr looseKey).truthy then
        (OUTPUT_HEADER_MAP_LOOSE U).getStr looseKey
      else
        match (OUTPUT_HEADER_MAP_LOOSE U).find? (fun e =>
            !e.1.isEmpty && (startsWith looseKey e.1 || startsWith e.1 looseKey)) with
        | some e => .str e.2
        | none => .str (nfc s)
  | v => v

/-! ## Predicates used in the proofs -/

/-- A trimmed, non-empty part: it starts and ends with a code unit that is
not white space. -/
def Aparada (p : Str) : Prop :=
  (∃ c t, p = c :: t ∧ isSpace c = false) ∧ (∃ t d, p = t ++ [d] ∧ isSpace d = false)

/-- The serialised key after its leading star: every part between spaces,
followed by a star. -/
def corpo (ps : List Str) : Str := ps.flatMap (fun p => SP :: (p ++ [SP, STAR]))

/-- A string that starts and ends with the delimiter `d`. -/
def Delim (d : Nat) (s : Str) : Prop := ∃ m, s = d :: (m ++ [d])

/-- The text `"-"` becomes `null` in the column loop. -/
def nulificar (v : Val) : Val := if v = .str (js "-") then .null else v

/-- A store column name that is no text of an inherited member. -/
def ColunaSimples (t : Str) : Prop :=
  t ≠ [] ∧ t ≠ js "__proto__" ∧ t ∉ objectPrototypeNames ∧
  ∀ k ∈ objectPrototypeNames, (inherited k).toStr ≠ t

/-- Invariant of the write loop before the poll of record `i`: the pending
batch is short of a full batch, every batch written is full, and the running
total counts the records written. -/
def EscritaInv {ρ : Type} (i : Nat) (st : Escrita ρ) : Prop :=
  st.batch.length < BATCH_SIZE ∧ (∀ b ∈ st.gravados, b.length = BATCH_SIZE) ∧
  st.total = BATCH_SIZE * st.gravados.length ∧ st.total + st.batch.length = i

/-- Text without an unpaired surrogate: `sanitizeString` leaves it unchanged. -/
def BemFormada (s : Str) : Prop := stripLoneSurrogates false s = s

/-- Text made of code units that are not surrogates and of pairs of a high
surrogate followed by a low one. -/
inductive Pares : Str → Prop
  | nil : Pares []
  | unidade (c : Nat) (t : Str) : isHigh c = false → isLow c = false → Pares t → Pares (c :: t)
  | par (h l : Nat) (t : Str) : isHigh h = true → isLow l = true → Pares t → Pares (h :: l :: t)

/-- Text whose white space is single spaces between other code units:
collapsing and trimming leave it unchanged. -/
def Compacta (s : Str) : Prop := trim (collapseWs s) = s

/-- Text the decomposition stage of `normalizeSimple` leaves unchanged: it is
well formed, fully decomposed and free of combining marks. -/
def Estavel (U : Unicode) (s : Str) : Prop :=
  BemFormada s ∧ U.nfkd s = s ∧ U.stripMarks s = s

/-- What `normalizeSimple` relies on from the Unicode tables of the engine.
Decomposing well-formed text and removing its marks gives stable text;
stable text stays decomposed and free of marks when its white space is
collapsed and trimmed; lower-casing keeps text stable, leaves white space in
place and is idempotent. -/
structure Unicode.Regular (U : Unicode) : Prop where
  decompor : ∀ s, BemFormada s → Estavel U (U.stripMarks (U.nfkd s))
  espacos : ∀ s, Estavel U s →
    U.nfkd (trim (collapseWs s)) = trim (collapseWs s) ∧
    U.stripMarks (trim (collapseWs s)) = trim (collapseWs s)
  minusculas : ∀ s, Estavel U s → Estavel U (U.toLowerCase s)
  minusculas_espacos : ∀ s, Compacta s → Compacta (U.toLowerCase s)
  minusculas_idem : ∀ s, U.toLowerCase (U.toLowerCase s) = U.toLowerCase s

/-- A key in serialised form: it starts with a star, ends with a star, and
none of the fragments between two consecutive stars is blank. -/
def ChaveSerializada (k : Str) : Prop :=
  startsWith k [STAR] = true ∧ endsWith k [STAR] = true ∧
  ∀ f ∈ ((k.splitOn STAR).drop 1).dropLast, trim f ≠ []

instance (k : Str) : Decidable (ChaveSerializada k) := by
  unfold ChaveSerializada; infer_instance

/-- The two digits that write a number below 100. -/
def doisDigitos (n : Nat) : Str := [48 + n / 10, 48 + n % 10]

/-- The four digits that write a number below 10000. -/
def quatroDigitos (n : Nat) : Str :=
  [48 + n / 1000, 48 + n / 100 % 10, 48 + n / 10 % 10, 48 + n % 10]

/-- A correction that only substitutes code units: the corrupted pattern is
not empty and is made of ASCII code units; the correct text has its length
and differs from it only in code units that are not ASCII; and no non-empty
tail of the correct text starts the pattern again. -/
def Substitui (pat rep : Str) : Prop :=
  pat ≠ [] ∧ (∀ c ∈ pat, c < 128) ∧ pat.length = rep.length ∧
  (∀ p ∈ pat.zip rep, p.2 = p.1 ∨ 128 ≤ p.2) ∧
  ∀ t ∈ rep.tails, t ≠ [] → ¬ t <+: pat

instance (pat rep : Str) : Decidable (Substitui pat rep) := by
  unfold Substitui; infer_instance

/-- Code unit by code unit, `t` is `s` or holds a code unit that is not
ASCII. -/
def Trocada (s t : Str) : Prop := List.Forall₂ (fun a b => b = a ∨ 128 ≤ b) s t

/-! # Properties -/

/-! ## Trimming and splitting -/

theorem dropWhile_cases (p : Nat → Bool) (l : Str) :
    l.dropWhile p = [] ∨ ∃ c t, l.dropWhile p = c :: t ∧ p c = false := by
  induction l with
  | nil => exact Or.inl rfl
  | cons x l ih =>
    cases hx : p x with
    | true => rw [List.dropWhile_cons_of_pos hx]; exact ih
    | false =>
      rw [List.dropWhile_cons_of_neg (by simp [hx])]
      exact Or.inr ⟨x, l, rfl, hx⟩

theorem rdropWhile_cons_of_neg (p : Nat → Bool) (c : Nat) (hc : p c = false) (t : Str) :
    (c :: t).rdropWhile p = c :: t.rdropWhile p := by
  induction t using List.reverseRecOn with
  | nil => simp [List.rdropWhile_singleton, hc]
  | append_singleton t x ih =>
    rw [← List.cons_append, List.rdropWhile_concat, List.rdropWhile_concat, ih]
    split <;> rfl

theorem rdropWhile_cases (p : Nat → Bool) (l : Str) :
    l.rdropWhile p = [] ∨ ∃ t d, l.rdropWhile p = t ++ [d] ∧ p d = false := by
  induction l using List.reverseRecOn with
  | nil => exact Or.inl (List.rdropWhile_nil p)
  | append_singleton l x ih =>
    rw [List.rdropWhile_concat]
    cases hx : p x with
    | true => simpa using ih
    | false => exact Or.inr ⟨l, x, by simp, hx⟩

theorem trim_eq_nil_iff (f : Str) : trim f = [] ↔ ∀ c ∈ f, isSpace c = true := by
  unfold trim
  constructor
  · intro h
    rcases dropWhile_cases isSpace f with h0 | ⟨c, t, h1, hc⟩
    · exact List.dropWhile_eq_nil_iff.mp h0
    · rw [h1, rdropWhile_cons_of_neg isSpace c hc] at h
      exact absurd h (List.cons_ne_nil _ _)
  · intro h
    rw [List.dropWhile_eq_nil_iff.mpr h]
    exact List.rdropWhile_nil _

theorem trim_aparada (f : Str) (h : trim f ≠ []) : Aparada (trim f) := by
  constructor
  · unfold trim at h ⊢
    rcases dropWhile_cases isSpace f with h0 | ⟨c, t, h1, hc⟩
    · rw [h0] at h; exact absurd (List.rdropWhile_nil _) h
    · rw [h1, rdropWhile_cons_of_neg isSpace c hc]
      exact ⟨c, _, rfl, hc⟩
  · unfold trim at h ⊢
    rcases rdropWhile_cases isSpace (f.dropWhile isSpace) with h0 | ⟨t, d, h1, hd⟩
    · exact absurd h0 h
    · exact ⟨t, d, h1, hd⟩

theorem trim_pad (p : Str) (hp : Aparada p) : trim (SP :: (p ++ [SP])) = p := by
  obtain ⟨⟨c, t, h1, hc⟩, ⟨t2, d, h2, hd⟩⟩ := hp
  unfold trim
  have hsp : isSpace SP = true := by decide
  rw [List.dropWhile_cons_of_pos hsp]
  have e1 : (p ++ [SP]).dropWhile isSpace = p ++ [SP] := by
    rw [h1, List.cons_append, List.dropWhile_cons_of_neg (by simp [hc])]
  rw [e1, List.rdropWhile_concat_pos _ _ _ hsp, h2,
    List.rdropWhile_concat_neg _ _ _ (by simp [hd])]

theorem mem_of_mem_trim (f : Str) (c : Nat) (h : c ∈ trim f) : c ∈ f := by
  unfold trim at h
  exact List.dropWhile_subset _ ((List.rdropWhile_prefix _ _).subset h)

theorem splitOn_cons (d x : Nat) (xs : Str) :
    (x :: xs).splitOn d
      = if x = d then [] :: xs.splitOn d else (xs.splitOn d).modifyHead (List.cons x) := by
  unfold List.splitOn
  rw [List.splitOnP_cons]
  by_cases h : x = d
  · simp [h]
  · simp [h]

theorem splitOn_ne_nil (d : Nat) (s : Str) : s.splitOn d ≠ [] := List.splitOnP_ne_nil _ _

/-- The fragments of a split do not contain the delimiter and are made of
code units of the string. -/
theorem mem_splitOn (d : Nat) (s : Str) :
    ∀ f ∈ s.splitOn d, d ∉ f ∧ ∀ c ∈ f, c ∈ s := by
  induction s with
  | nil =>
    intro f hf
    simp only [List.splitOn_nil, List.mem_singleton] at hf
    subst hf
    simp
  | cons x xs ih =>
    intro f hf
    rw [splitOn_cons] at hf
    by_cases hx : x = d
    · rw [if_pos hx] at hf
      rcases List.mem_cons.mp hf with h | h
      · subst h; simp
      · have := ih f h
        exact ⟨this.1, fun c hc => List.mem_cons_of_mem _ (this.2 c hc)⟩
    · rw [if_neg hx] at hf
      cases hs : xs.splitOn d with
      | nil => exact absurd hs (splitOn_ne_nil d xs)
      | cons r rs =>
        rw [hs] at hf ih
        simp only [List.modifyHead_cons, List.mem_cons] at hf
        rcases hf with h | h
        · subst h
          have := ih r (List.mem_cons_self _ _)
          refine ⟨?_, ?_⟩
          · intro hm
            rcases List.mem_cons.mp hm with e | e
            · exact hx e.symm
            · exact this.1 e
          · intro c hc
            rcases List.mem_cons.mp hc with e | e
            · subst e; exact List.mem_cons_self _ _
            · exact List.mem_cons_of_mem _ (this.2 c e)
        · have := ih f (List.mem_cons_of_mem _ h)
          exact ⟨this.1, fun c hc => List.mem_cons_of_mem _ (this.2 c hc)⟩

/-- Splitting at the first delimiter. -/
theorem splitOn_first (d : Nat) (f rest : Str) (hf : d ∉ f) :
    (f ++ d :: rest).splitOn d = f :: rest.splitOn d := by
  unfold List.splitOn
  exact List.splitOnP_first _ f
    (fun x hx h => hf (by rw [beq_iff_eq] at h; exact h ▸ hx)) d (by simp) rest

theorem splitOn_single (d : Nat) (f : Str) (hf : d ∉ f) : f.splitOn d = [f] := by
  unfold List.splitOn
  exact List.splitOnP_eq_single _ f
    (fun x hx h => hf (by rw [beq_iff_eq] at h; exact h ▸ hx))

/-- Every part is trimmed, non-empty and free of stars. -/
theorem partesDe_boas (s : Str) : ∀ p ∈ partesDe s, Aparada p ∧ STAR ∉ p := by
  intro p hp
  unfold partesDe at hp
  rw [List.mem_filter, List.mem_map] at hp
  obtain ⟨⟨f, hf, rfl⟩, hne⟩ := hp
  have hne2 : trim f ≠ [] := by
    intro h; rw [h] at hne; simp at hne
  exact ⟨trim_aparada f hne2, fun h => (mem_splitOn STAR s f hf).1 (mem_of_mem_trim f STAR h)⟩

theorem corpo_cons (p : Str) (ps : List Str) :
    corpo (p :: ps) = SP :: (p ++ [SP]) ++ STAR :: corpo ps := by
  simp [corpo]

theorem join_corpo (p : Str) (ps : List Str) :
    [SP] ++ join [SP, STAR, SP] (p :: ps) ++ [SP, STAR] = corpo (p :: ps) := by
  induction ps generalizing p with
  | nil => simp [join, List.intercalate, corpo]
  | cons q qs ih =>
    have hj : join [SP, STAR, SP] (p :: q :: qs)
        = p ++ [SP, STAR, SP] ++ join [SP, STAR, SP] (q :: qs) := by
      simp [join, List.intercalate]
    rw [hj, corpo_cons, ← ih q]
    simp

theorem serializar_eq (ps : List Str) (h : ps ≠ []) : serializar ps = STAR :: corpo ps := by
  cases ps with
  | nil => exact absurd rfl h
  | cons p ps =>
    rw [← join_corpo]
    have h1 : js "* " = [STAR, SP] := by decide
    have h2 : js " * " = [SP, STAR, SP] := by decide
    have h3 : js " *" = [SP, STAR] := by decide
    unfold serializar
    rw [h1, h2, h3]
    simp

theorem splitOn_corpo (ps : List Str) (h : ∀ p ∈ ps, STAR ∉ p) :
    (corpo ps).splitOn STAR = ps.map (fun p => SP :: (p ++ [SP])) ++ [[]] := by
  induction ps with
  | nil => rfl
  | cons p ps ih =>
    rw [corpo_cons, splitOn_first, ih (fun q hq => h q (List.mem_cons_of_mem _ hq))]
    · rfl
    · intro hm
      rcases List.mem_cons.mp hm with e | e
      · exact absurd e (by decide)
      · rcases List.mem_append.mp e with e | e
        · exact h p (List.mem_cons_self _ _) e
        · simp at e

/-- Splitting a serialised key gives back its parts. -/
theorem partesDe_serializar (ps : List Str) (hne : ps ≠ [])
    (h : ∀ p ∈ ps, Aparada p ∧ STAR ∉ p) : partesDe (serializar ps) = ps := by
  rw [serializar_eq ps hne]
  unfold partesDe
  rw [splitOn_cons, if_pos rfl, splitOn_corpo ps (fun p hp => (h p hp).2)]
  simp only [List.map_cons, List.map_append, List.map_map, List.map_nil]
  have htn : trim [] = [] := rfl
  rw [htn, List.filter_cons_of_neg (by simp), List.filter_append]
  have h1 : List.filter (fun p : Str => !p.isEmpty) [[]] = [] := rfl
  rw [h1, List.append_nil]
  clear hne
  induction ps with
  | nil => rfl
  | cons p ps ih =>
    have hp := h p (List.mem_cons_self _ _)
    rw [List.map_cons, Function.comp_apply, trim_pad p hp.1, List.filter_cons_of_pos,
      ih (fun q hq => h q (List.mem_cons_of_mem _ hq))]
    obtain ⟨⟨c, t, hc, _⟩, _⟩ := hp.1
    rw [hc]; rfl

/-- Canonicalising a key keeps its parts. -/
theorem partesDe_canonicalizar (x : Str) : partesDe (canonicalizarChaveS x) = partesDe x := by
  unfold canonicalizarChaveS
  by_cases h : (partesDe x).isEmpty = true
  · simp only [h, if_true]
  · simp only [h, Bool.false_eq_true, if_false]
    exact partesDe_serializar _ (fun e => h (by rw [e]; rfl)) (partesDe_boas x)

theorem canonicalizar_def (y : Str) :
    canonicalizarChaveS y = if (partesDe y).isEmpty then y else serializar (partesDe y) := rfl

/-- Canonicalising twice is canonicalising once. -/
theorem canonicalizar_idem (x : Str) :
    canonicalizarChaveS (canonicalizarChaveS x) = canonicalizarChaveS x := by
  rw [canonicalizar_def (canonicalizarChaveS x), partesDe_canonicalizar]
  by_cases h : (partesDe x).isEmpty = true
  · rw [if_pos h]
  · rw [if_neg h, canonicalizar_def x, if_neg h]

theorem trim_of_aparada (p : Str) (hp : Aparada p) : trim p = p := by
  obtain ⟨⟨c, t, h1, hc⟩, ⟨t2, d, h2, hd⟩⟩ := hp
  unfold trim
  have e1 : p.dropWhile isSpace = p := by
    rw [h1, List.dropWhile_cons_of_neg (by simp [hc])]
  rw [e1, h2, List.rdropWhile_concat_neg _ _ _ (by simp [hd])]

theorem serializar_aparada (ps : List Str) : Aparada (serializar ps) := by
  have h1 : js "* " = [STAR, SP] := by decide
  have h3 : js " *" = [SP, STAR] := by decide
  unfold serializar
  rw [h1, h3]
  refine ⟨⟨STAR, _, rfl, by decide⟩,
    ⟨[STAR, SP] ++ join (js " * ") ps ++ [SP], STAR, ?_, by decide⟩⟩
  simp

theorem sem_partes_cabeca : ∀ s ∈ SEM_PARTES, s.head? ≠ some STAR := by decide

theorem contar_de_aparada (c : Str) (hc : Aparada c) (hs : c.head? = some STAR) :
    contarPartesChaveS c = (partesDe c).length := by
  unfold contarPartesChaveS
  simp only [trim_of_aparada c hc]
  have h1 : c.isEmpty = false := by
    obtain ⟨⟨a, t, h, _⟩, _⟩ := hc
    rw [h]; rfl
  have h2 : ¬ c ∈ SEM_PARTES := fun hm => sem_partes_cabeca c hm hs
  simp [h1, h2]

/-- The part count of a serialised key. -/
theorem contar_serializar (ps : List Str) (hne : ps ≠ [])
    (h : ∀ p ∈ ps, Aparada p ∧ STAR ∉ p) :
    contarPartesChaveS (serializar ps) = ps.length := by
  rw [contar_de_aparada _ (serializar_aparada ps), partesDe_serializar ps hne h]
  rw [serializar_eq ps hne]; rfl

theorem mem_splitOn_of_mem (d : Nat) (s : Str) :
    ∀ c ∈ s, c = d ∨ ∃ f ∈ s.splitOn d, c ∈ f := by
  induction s with
  | nil => intro c hc; simp at hc
  | cons x xs ih =>
    intro c hc
    rw [splitOn_cons]
    by_cases hx : x = d
    · rw [if_pos hx]
      rcases List.mem_cons.mp hc with e | e
      · exact Or.inl (e.trans hx)
      · rcases ih c e with h | ⟨f, hf, hcf⟩
        · exact Or.inl h
        · exact Or.inr ⟨f, List.mem_cons_of_mem _ hf, hcf⟩
    · rw [if_neg hx]
      cases hs : xs.splitOn d with
      | nil => exact absurd hs (splitOn_ne_nil d xs)
      | cons r rs =>
        rw [hs] at ih
        simp only [List.modifyHead_cons]
        rcases List.mem_cons.mp hc with e | e
        · exact Or.inr ⟨x :: r, List.mem_cons_self _ _, by
            rw [e]; exact List.mem_cons_self _ _⟩
        · rcases ih c e with h | ⟨f, hf, hcf⟩
          · exact Or.inl h
          · rcases List.mem_cons.mp hf with e2 | e2
            · exact Or.inr ⟨x :: r, List.mem_cons_self _ _, by
                rw [e2] at hcf; exact List.mem_cons_of_mem _ hcf⟩
            · exact Or.inr ⟨f, List.mem_cons_of_mem _ e2, hcf⟩

/-- A string has no part exactly when it is made of white space and stars. -/
theorem partesDe_eq_nil_iff (x : Str) :
    partesDe x = [] ↔ ∀ c ∈ x, isSpace c = true ∨ c = STAR := by
  unfold partesDe
  rw [List.filter_eq_nil_iff]
  constructor
  · intro h c hc
    rcases mem_splitOn_of_mem STAR x c hc with e | ⟨f, hf, hcf⟩
    · exact Or.inr e
    · have := h (trim f) (List.mem_map_of_mem _ hf)
      have ht : trim f = [] := by
        cases hq : trim f with
        | nil => rfl
        | cons a t => rw [hq] at this; simp at this
      exact Or.inl ((trim_eq_nil_iff f).mp ht c hcf)
  · intro h p hp
    obtain ⟨f, hf, rfl⟩ := List.mem_map.mp hp
    have hfr := mem_splitOn STAR x f hf
    have : trim f = [] := (trim_eq_nil_iff f).mpr (fun c hc => by
      rcases h c (hfr.2 c hc) with e | e
      · exact e
      · exact absurd (e ▸ hc) hfr.1)
    rw [this]; simp

/-- A string without parts counts 0 parts. -/
theorem contar_sem_partes (x : Str) (h : partesDe x = []) : contarPartesChaveS x = 0 := by
  have h2 : partesDe (trim x) = [] :=
    (partesDe_eq_nil_iff _).mpr (fun c hc =>
      (partesDe_eq_nil_iff x).mp h c (mem_of_mem_trim x c hc))
  unfold contarPartesChaveS
  simp only [h2, List.length_nil]
  split <;> rfl

/-- A canonicalised key that counts at least one part is the serialisation
of its parts, and counts them. -/
theorem canonica_forma (x : Str) (h : 0 < contarPartesChaveS (canonicalizarChaveS x)) :
    partesDe x ≠ [] ∧ canonicalizarChaveS x = serializar (partesDe x) ∧
    contarPartesChaveS (canonicalizarChaveS x) = (partesDe x).length := by
  have hne : partesDe x ≠ [] := by
    intro he
    have hc : canonicalizarChaveS x = x := by
      rw [canonicalizar_def, he]; rfl
    rw [hc, contar_sem_partes x he] at h
    exact absurd h (by decide)
  have hemp : ¬ (partesDe x).isEmpty = true := fun e => hne (List.isEmpty_iff.mp e)
  have hc : canonicalizarChaveS x = serializar (partesDe x) := by
    rw [canonicalizar_def, if_neg hemp]
  exact ⟨hne, hc, by rw [hc]; exact contar_serializar _ hne (partesDe_boas x)⟩

/-- Canonicalising a string that has parts gives a key that counts them. -/
theorem contar_canonicalizar (x : Str) (h : partesDe x ≠ []) :
    contarPartesChaveS (canonicalizarChaveS x) = (partesDe x).length := by
  have hemp : ¬ (partesDe x).isEmpty = true := fun e => h (List.isEmpty_iff.mp e)
  rw [canonicalizar_def, if_neg hemp]
  exact contar_serializar _ h (partesDe_boas x)

/-! ## Pipe forms -/

theorem replaceUnit_cons (a b x : Nat) (xs : Str) :
    replaceUnit a [b] (x :: xs) = (if x = a then b else x) :: replaceUnit a [b] xs := by
  unfold replaceUnit
  by_cases h : x = a
  · simp [h]
  · simp [h]

/-- Replacing the delimiter `a` by a code unit `b` that does not occur in the
string turns the fragments between `a` into the fragments between `b`. -/
theorem splitOn_troca (a b : Nat) (s : Str) (hb : b ∉ s) :
    (replaceUnit a [b] s).splitOn b = s.splitOn a := by
  induction s with
  | nil => rfl
  | cons x xs ih =>
    have hxs : b ∉ xs := fun h => hb (List.mem_cons_of_mem _ h)
    have hx : x ≠ b := fun h => hb (h ▸ List.mem_cons_self _ _)
    rw [replaceUnit_cons, splitOn_cons, splitOn_cons, ih hxs]
    by_cases h : x = a
    · rw [if_pos h, if_pos rfl, if_pos h]
    · rw [if_neg h, if_neg hx, if_neg h]

theorem not_mem_replaceUnit (a b : Nat) (hab : a ≠ b) (s : Str) : a ∉ replaceUnit a [b] s := by
  induction s with
  | nil => simp [replaceUnit]
  | cons x xs ih =>
    rw [replaceUnit_cons]
    intro h
    rcases List.mem_cons.mp h with e | e
    · by_cases hx : x = a
      · rw [if_pos hx] at e; exact hab e
      · rw [if_neg hx] at e; exact hx e.symm
    · exact ih e

theorem mem_collapseWsAux (prev : Bool) (s : Str) :
    ∀ c ∈ collapseWsAux prev s, c = SP ∨ c ∈ s := by
  induction s generalizing prev with
  | nil => intro c hc; simp [collapseWsAux] at hc
  | cons x xs ih =>
    intro c hc
    unfold collapseWsAux at hc
    split at hc
    · split at hc
      · rcases ih true c hc with e | e
        · exact Or.inl e
        · exact Or.inr (List.mem_cons_of_mem _ e)
      · rcases List.mem_cons.mp hc with e | e
        · exact Or.inl e
        · rcases ih true c e with e | e
          · exact Or.inl e
          · exact Or.inr (List.mem_cons_of_mem _ e)
    · rcases List.mem_cons.mp hc with e | e
      · exact Or.inr (e ▸ List.mem_cons_self _ _)
      · rcases ih false c e with e | e
        · exact Or.inl e
        · exact Or.inr (List.mem_cons_of_mem _ e)

theorem mem_collapseWsAux_of_mem (prev : Bool) (s : Str) :
    ∀ c ∈ s, isSpace c = false → c ∈ collapseWsAux prev s := by
  induction s generalizing prev with
  | nil => intro c hc; simp at hc
  | cons x xs ih =>
    intro c hc hns
    unfold collapseWsAux
    rcases List.mem_cons.mp hc with e | e
    · subst e
      simp [hns]
    · split
      · split
        · exact ih true c e hns
        · exact List.mem_cons_of_mem _ (ih true c e hns)
      · exact List.mem_cons_of_mem _ (ih false c e hns)

/-- Collapsing white space keeps a fragment blank or not blank. -/
theorem trim_collapseWs_eq_nil_iff (f : Str) : trim (collapseWs f) = [] ↔ trim f = [] := by
  rw [trim_eq_nil_iff, trim_eq_nil_iff]
  constructor
  · intro h c hc
    by_cases hs : isSpace c = true
    · exact hs
    · exact h c (mem_collapseWsAux_of_mem false f c hc (by simpa using hs))
  · intro h c hc
    rcases mem_collapseWsAux false f c hc with e | e
    · rw [e]; decide
    · exact h c e

/-- The fragments of a string with collapsed white space are the collapsed
fragments of the string, for a delimiter that is not white space. -/
theorem splitOn_collapseWsAux (d : Nat) (hd : isSpace d = false) (s : Str) :
    ∀ prev, (collapseWsAux prev s).splitOn d
      = match s.splitOn d with
        | [] => []
        | f :: fs => collapseWsAux prev f :: fs.map (collapseWsAux false) := by
  have hsp : SP ≠ d := fun h => by rw [← h] at hd; exact absurd hd (by decide)
  induction s with
  | nil => intro prev; rfl
  | cons x xs ih =>
    intro prev
    cases hs : xs.splitOn d with
    | nil => exact absurd hs (splitOn_ne_nil d xs)
    | cons r rs =>
      by_cases hx : x = d
      · subst hx
        have e1 : collapseWsAux prev (x :: xs) = x :: collapseWsAux false xs := by
          simp [collapseWsAux, hd]
        rw [e1, splitOn_cons, if_pos rfl, ih false, splitOn_cons, if_pos rfl, hs]
        rfl
      · rw [splitOn_cons d x xs, if_neg hx, hs]
        simp only [List.modifyHead_cons]
        by_cases hw : isSpace x = true
        · cases prev with
          | true =>
            have e1 : collapseWsAux true (x :: xs) = collapseWsAux true xs := by
              simp [collapseWsAux, hw]
            have e2 : collapseWsAux true (x :: r) = collapseWsAux true r := by
              simp [collapseWsAux, hw]
            rw [e1, e2, ih true, hs]
          | false =>
            have e1 : collapseWsAux false (x :: xs) = SP :: collapseWsAux true xs := by
              simp [collapseWsAux, hw]
            have e2 : collapseWsAux false (x :: r) = SP :: collapseWsAux true r := by
              simp [collapseWsAux, hw]
            rw [e1, e2, splitOn_cons, if_neg hsp, ih true, hs]
            rfl
        · have e1 : collapseWsAux prev (x :: xs) = x :: collapseWsAux false xs := by
            simp [collapseWsAux, hw]
          have e2 : collapseWsAux prev (x :: r) = x :: collapseWsAux false r := by
            simp [collapseWsAux, hw]
          rw [e1, e2, splitOn_cons, if_neg hx, ih false, hs]
          rfl

theorem splitOn_collapseWs (d : Nat) (hd : isSpace d = false) (s : Str) :
    (collapseWs s).splitOn d = (s.splitOn d).map collapseWs := by
  unfold collapseWs
  rw [splitOn_collapseWsAux d hd s false]
  cases hs : s.splitOn d with
  | nil => rfl
  | cons f fs => rfl

theorem collapseWsAux_concat (d : Nat) (hd : isSpace d = false) (m : Str) :
    ∀ prev, collapseWsAux prev (m ++ [d]) = collapseWsAux prev m ++ [d] := by
  induction m with
  | nil => intro prev; simp [collapseWsAux, hd]
  | cons x xs ih =>
    intro prev
    rw [List.cons_append]
    unfold collapseWsAux
    split
    · split
      · exact ih true
      · rw [ih true]; rfl
    · rw [ih false]; rfl

theorem delim_collapseWs (d : Nat) (hd : isSpace d = false) (s : Str) (h : Delim d s) :
    Delim d (collapseWs s) := by
  obtain ⟨m, rfl⟩ := h
  refine ⟨collapseWsAux false m, ?_⟩
  unfold collapseWs
  have : collapseWsAux false (d :: (m ++ [d])) = d :: collapseWsAux false (m ++ [d]) := by
    simp [collapseWsAux, hd]
  rw [this, collapseWsAux_concat d hd m false]

theorem delim_aparada (d : Nat) (hd : isSpace d = false) (s : Str) (h : Delim d s) :
    Aparada s := by
  obtain ⟨m, rfl⟩ := h
  exact ⟨⟨d, _, rfl, hd⟩, ⟨d :: m, d, by simp, hd⟩⟩

theorem delim_replaceUnit (a b : Nat) (s : Str) (h : Delim a s) :
    Delim b (replaceUnit a [b] s) := by
  obtain ⟨m, rfl⟩ := h
  refine ⟨replaceUnit a [b] m, ?_⟩
  rw [replaceUnit_cons, if_pos rfl]
  congr 1
  unfold replaceUnit
  rw [List.flatMap_append]
  simp

theorem delim_serializar (ps : List Str) : Delim STAR (serializar ps) := by
  have h1 : js "* " = [STAR, SP] := by decide
  have h3 : js " *" = [SP, STAR] := by decide
  refine ⟨SP :: (join (js " * ") ps ++ [SP]), ?_⟩
  unfold serializar
  rw [h1, h3]
  simp

theorem startsWith_delim (d : Nat) (s : Str) (h : Delim d s) : startsWith s [d] = true := by
  obtain ⟨m, rfl⟩ := h
  simp [startsWith, List.isPrefixOf]

theorem endsWith_delim (d : Nat) (s : Str) (h : Delim d s) : endsWith s [d] = true := by
  obtain ⟨m, rfl⟩ := h
  unfold endsWith
  rw [List.isSuffixOf_iff_suffix]
  exact ⟨d :: m, by simp⟩

/-- The pipe form of a key that starts and ends with a star. -/
theorem paraPipe_delim (c : Str) (h : Delim STAR c) :
    paraPipe c = collapseWs (collapseWs (replaceUnit STAR [PIPE] c)) := by
  have hp : isSpace PIPE = false := by decide
  have hd : Delim PIPE (collapseWs (replaceUnit STAR [PIPE] c)) :=
    delim_collapseWs PIPE hp _ (delim_replaceUnit STAR PIPE c h)
  unfold paraPipe
  simp only [trim_of_aparada _ (delim_aparada PIPE hp _ hd), startsWith_delim PIPE _ hd,
    endsWith_delim PIPE _ hd, Bool.not_true, Bool.false_eq_true, if_false]

theorem not_mem_collapseWs (d : Nat) (hd : d ≠ SP) (s : Str) (h : d ∉ s) :
    d ∉ collapseWs s := by
  intro hm
  rcases mem_collapseWsAux false s d hm with e | e
  · exact hd e
  · exact h e

/-- The key read back from the pipe form of a catalog key without pipes has
as many parts as the catalog key. -/
theorem pipe_contagem (c : Str) (h : Delim STAR c) (hp : PIPE ∉ c) :
    (partesDe (replaceUnit PIPE [STAR] (paraPipe c))).length = (partesDe c).length := by
  have hstar : STAR ∉ paraPipe c := by
    rw [paraPipe_delim c h]
    exact not_mem_collapseWs STAR (by decide) _
      (not_mem_collapseWs STAR (by decide) _ (not_mem_replaceUnit STAR PIPE (by decide) c))
  have hsplit : (replaceUnit PIPE [STAR] (paraPipe c)).splitOn STAR
      = ((c.splitOn STAR).map collapseWs).map collapseWs := by
    rw [splitOn_troca PIPE STAR _ hstar, paraPipe_delim c h,
      splitOn_collapseWs PIPE (by decide), splitOn_collapseWs PIPE (by decide),
      splitOn_troca STAR PIPE c hp]
  unfold partesDe
  rw [hsplit, List.map_map, List.map_map, List.filter_map, List.filter_map, List.length_map,
    List.length_map]
  congr 1
  apply List.filter_congr
  intro f _
  have h1 := trim_collapseWs_eq_nil_iff (collapseWs f)
  have h2 := trim_collapseWs_eq_nil_iff f
  simp only [Function.comp_apply]
  by_cases he : trim f = []
  · rw [he, h1.mpr (h2.mpr he)]
  · have he2 : trim (collapseWs (collapseWs f)) ≠ [] := fun e => he (h2.mp (h1.mp e))
    cases hq : trim f with
    | nil => exact absurd hq he
    | cons a t =>
      cases hq2 : trim (collapseWs (collapseWs f)) with
      | nil => exact absurd hq2 he2
      | cons a2 t2 => rfl

/-! ## Objects -/

theorem own_nil {α : Type} (t : Str) : Obj.own ([] : Obj α) t = none := rfl

theorem own_cons {α : Type} (e : Str × α) (o : Obj α) (t : Str) :
    Obj.own (e :: o) t = if e.1 = t then some e.2 else Obj.own o t := by
  unfold Obj.own
  by_cases h : e.1 = t
  · simp [List.find?, h]
  · simp [List.find?, h]

theorem own_eq_none_of_not_any {α : Type} (o : Obj α) (k : Str)
    (h : o.any (fun e => e.1 = k) = false) : Obj.own o k = none := by
  induction o with
  | nil => rfl
  | cons e o ih =>
    simp only [List.any_cons, Bool.or_eq_false_iff, decide_eq_false_iff_not] at h
    rw [own_cons, if_neg h.1]
    exact ih h.2

theorem own_replace_other {α : Type} (o : Obj α) (k t : Str) (v : α) (htk : t ≠ k) :
    Obj.own (o.map (fun e => if e.1 = k then (k, v) else e)) t = Obj.own o t := by
  induction o with
  | nil => rfl
  | cons e o ih =>
    rw [List.map_cons, own_cons, ih, own_cons]
    by_cases hek : e.1 = k
    · have h1 : ¬ k = t := fun h => htk h.symm
      have h2 : ¬ e.1 = t := fun h => htk (h.symm.trans hek)
      rw [if_pos hek, if_neg h1, if_neg h2]
    · rw [if_neg hek]

theorem own_replace_same {α : Type} (o : Obj α) (k : Str) (v : α)
    (h : o.any (fun e => e.1 = k) = true) :
    Obj.own (o.map (fun e => if e.1 = k then (k, v) else e)) k = some v := by
  induction o with
  | nil => simp at h
  | cons e o ih =>
    rw [List.map_cons, own_cons]
    by_cases hek : e.1 = k
    · rw [if_pos hek, if_pos rfl]
    · rw [if_neg hek, if_neg hek]
      apply ih
      rw [List.any_cons, Bool.or_eq_true] at h
      rcases h with h | h
      · exact absurd (of_decide_eq_true h) hek
      · exact h

theorem own_insertIndex {α : Type} (i : Nat) (k t : Str) (v : α) (o : Obj α)
    (h : o.any (fun e => e.1 = k) = false) :
    Obj.own (Obj.insertIndex i k v o) t = if t = k then some v else Obj.own o t := by
  induction o with
  | nil =>
    simp only [Obj.insertIndex, own_cons, own_nil]
    by_cases htk : t = k
    · simp [htk]
    · have : ¬ k = t := fun h => htk h.symm
      simp [htk, this]
  | cons e o ih =>
    simp only [List.any_cons, Bool.or_eq_false_iff, decide_eq_false_iff_not] at h
    have base : Obj.own ((k, v) :: e :: o) t = if t = k then some v else Obj.own (e :: o) t := by
      rw [own_cons]
      by_cases htk : t = k
      · simp [htk]
      · have : ¬ k = t := fun h => htk h.symm
        simp [htk, this]
    unfold Obj.insertIndex
    split
    · split
      · rw [own_cons, ih h.2, own_cons]
        by_cases htk : t = k
        · subst htk; simp [h.1]
        · simp [htk]
      · exact base
    · exact base

theorem own_append_single {α : Type} (o : Obj α) (k t : Str) (v : α)
    (h : o.any (fun e => e.1 = k) = false) :
    Obj.own (o ++ [(k, v)]) t = if t = k then some v else Obj.own o t := by
  induction o with
  | nil =>
    simp only [List.nil_append, own_cons, own_nil]
    by_cases htk : t = k
    · simp [htk]
    · have : ¬ k = t := fun h => htk h.symm
      simp [htk, this]
  | cons e o ih =>
    simp only [List.any_cons, Bool.or_eq_false_iff, decide_eq_false_iff_not] at h
    rw [List.cons_append, own_cons, ih h.2, own_cons]
    by_cases htk : t = k
    · subst htk; simp [h.1]
    · simp [htk]

/-- Reading a property after `Obj.define`. -/
theorem own_define {α : Type} (o : Obj α) (k t : Str) (v : α) :
    Obj.own (Obj.define o k v) t = if t = k then some v else Obj.own o t := by
  unfold Obj.define
  by_cases hany : o.any (fun e => e.1 = k) = true
  · rw [if_pos hany]
    by_cases htk : t = k
    · rw [if_pos htk, htk]; exact own_replace_same o k v hany
    · rw [if_neg htk]; exact own_replace_other o k t v htk
  · rw [if_neg hany]
    have hany2 : o.any (fun e => e.1 = k) = false := Bool.eq_false_iff.mpr hany
    cases arrayIndex k with
    | some i => exact own_insertIndex i k t v o hany2
    | none => exact own_append_single o k t v hany2

/-- Reading a property other than `__proto__` after an assignment. -/
theorem own_set {α : Type} (o : Obj α) (k t : Str) (v : α) (ht : t ≠ js "__proto__") :
    Obj.own (Obj.set o k v) t = if t = k then some v else Obj.own o t := by
  unfold Obj.set
  split
  · rename_i h
    simp only [Bool.and_eq_true, decide_eq_true_eq] at h
    have : ¬ t = k := fun e => ht (e.trans h.1)
    rw [if_neg this]
  · exact own_define o k t v

/-! ## Records for the store -/

theorem getStr_cases (o : Obj Str) (k t : Str) (ht : ColunaSimples t) :
    ((o.getStr k).truthy = true ∧ (o.getStr k).toStr = t) ↔ o.getStr k = .str t := by
  obtain ⟨hne, _, _, hinh⟩ := ht
  unfold Obj.getStr
  cases o.own k with
  | some s =>
    simp only [Val.truthy, Val.toStr, Val.str.injEq]
    constructor
    · exact fun h => h.2
    · intro h; subst h
      exact ⟨by cases s <;> simp_all, rfl⟩
  | none =>
    by_cases hk : k ∈ objectPrototypeNames
    · simp only [hk, if_true]
      constructor
      · exact fun h => absurd h.2 (hinh k hk)
      · intro h
        unfold inherited at h
        split at h <;> simp at h
    · simp [hk, Val.truthy]

/-- The column loop started from any payload: a store column holds the value
of the last row property mapped to it. -/
theorem mapear_own_aux (U : Unicode) (t : Str) (ht : ColunaSimples t) :
    ∀ (row : Obj Val) (p0 : Obj Val),
      Obj.own (row.foldl
        (fun payload e =>
          let key := normalizeColName U e.1
          let dbCol := COL_MAP.getStr key
          if !dbCol.truthy then payload
          else Obj.set payload dbCol.toStr (if e.2 = .str (js "-") then .null else e.2)) p0) t
      = match (row.filter
            (fun e => COL_MAP.getStr (normalizeColName U e.1) = .str t)).getLast? with
        | some e => some (nulificar e.2)
        | none => Obj.own p0 t := by
  intro row
  induction row with
  | nil => intro p0; rfl
  | cons e row ih =>
    intro p0
    rw [List.foldl_cons, ih]
    have hcase := getStr_cases COL_MAP (normalizeColName U e.1) t ht
    by_cases hm : COL_MAP.getStr (normalizeColName U e.1) = .str t
    · have hf : (e :: row).filter
          (fun e => COL_MAP.getStr (normalizeColName U e.1) = .str t)
          = e :: row.filter (fun e => COL_MAP.getStr (normalizeColName U e.1) = .str t) := by
        rw [List.filter_cons]; simp [hm]
      rw [hf, List.getLast?_cons]
      cases hl : (row.filter
          (fun e => COL_MAP.getStr (normalizeColName U e.1) = .str t)).getLast? with
      | some e2 => rfl
      | none =>
        simp only [Option.getD_none]
        have htr := hcase.mpr hm
        simp only [htr.1, Bool.not_true, Bool.false_eq_true, if_false]
        rw [own_set _ _ _ _ ht.2.1, htr.2, if_pos rfl]
        rfl
    · have hf : (e :: row).filter
          (fun e => COL_MAP.getStr (normalizeColName U e.1) = .str t)
          = row.filter (fun e => COL_MAP.getStr (normalizeColName U e.1) = .str t) := by
        rw [List.filter_cons]; simp [hm]
      rw [hf]
      cases hl : (row.filter
          (fun e => COL_MAP.getStr (normalizeColName U e.1) = .str t)).getLast? with
      | some e2 => rfl
      | none =>
        simp only []
        by_cases htr : (COL_MAP.getStr (normalizeColName U e.1)).truthy = true
        · simp only [htr, Bool.not_true, Bool.false_eq_true, if_false]
          have hk : ¬ t = (COL_MAP.getStr (normalizeColName U e.1)).toStr :=
            fun h => hm (hcase.mp ⟨htr, h.symm⟩)
          rw [own_set _ _ _ _ ht.2.1, if_neg hk]
        · simp [htr]

/-- What the payload holds under a store column after the column loop. -/
theorem mapear_get (U : Unicode) (row : Obj Val) (t : Str) (ht : ColunaSimples t) :
    (mapearColunas U row).get t = nulificar (valorDaColuna U row t) := by
  unfold Obj.get mapearColunas valorDaColuna
  rw [mapear_own_aux U t ht row []]
  cases (row.filter (fun e => COL_MAP.getStr (normalizeColName U e.1) = .str t)).getLast? with
  | some e => rfl
  | none => simp [own_nil, ht.2.2.1, nulificar]

theorem get_of_own (p : Obj Val) (t : Str) (ht : t ∉ objectPrototypeNames) :
    p.get t = (p.own t).getD .undefined := by
  unfold Obj.get
  cases p.own t with
  | some v => rfl
  | none => simp [ht]

theorem get_set (p : Obj Val) (k t : Str) (v : Val) (ht : t ∉ objectPrototypeNames) :
    (Obj.set p k v).get t = if t = k then v else p.get t := by
  have hp : t ≠ js "__proto__" := fun h => ht (h ▸ by decide)
  rw [get_of_own _ _ ht, get_of_own _ _ ht, own_set _ _ _ _ hp]
  by_cases h : t = k
  · simp [h]
  · simp [h]

theorem get_converterSePresente (f : Val → Val) (p : Obj Val) (col t : Str)
    (ht : ColunaSimples t) (hne : t ≠ col) :
    (converterSePresente f p col).get t = p.get t := by
  unfold converterSePresente
  cases p.own col with
  | some v => rw [get_set _ _ _ _ ht.2.2.1, if_neg hne]
  | none => rfl

theorem get_foldl_converter (f : Val → Val) (t : Str) (ht : ColunaSimples t) :
    ∀ (cols : List Str) (p : Obj Val), t ∉ cols →
      (cols.foldl (converterSePresente f) p).get t = p.get t := by
  intro cols
  induction cols with
  | nil => intro p _; rfl
  | cons c cols ih =>
    intro p hnot
    rw [List.foldl_cons, ih _ (fun h => hnot (List.mem_cons_of_mem _ h)),
      get_converterSePresente f p c t ht (fun h => hnot (h ▸ List.mem_cons_self _ _))]

theorem colunaSimples_chave : ColunaSimples (js "chave") := by
  unfold ColunaSimples; decide

theorem colunaSimples_chave_planejamento : ColunaSimples (js "chave_planejamento") := by
  unfold ColunaSimples; decide

theorem colunaSimples_exercicio : ColunaSimples (js "exercicio") := by
  unfold ColunaSimples; decide

/-- The conversions of monetary and date columns leave the two key columns
as the validation set them. -/
theorem get_converterCampos (pv pd : Val → Val) (p : Obj Val) (t : Str)
    (ht : ColunaSimples t)
    (h1 : t ∉ [js "valor_emp", js "devolucao_gcv", js "valor_emp_devolucao_gcv"])
    (h2 : t ∉ [js "data_emissao", js "data_criacao"]) :
    (converterCampos pv pd p).get t = p.get t := by
  unfold converterCampos
  rw [get_foldl_converter pd t ht _ _ h2, get_foldl_converter pv t ht _ _ h1]

theorem contar_nulificar (v : Val) : contarPartesChave (nulificar v) = contarPartesChave v := by
  unfold nulificar
  split
  · rename_i h; subst h; decide
  · rfl

theorem parseAno_nulificar (v : Val) : parseAno (nulificar v) = parseAno v := by
  unfold nulificar
  split
  · rename_i h; subst h; decide
  · rfl

theorem contar_traco : contarPartesChave (.str (js "-")) = 0 := by decide

/-- The key columns of the record of a row, in terms of the values the row
holds for them. -/
theorem montarRegistro_chaves (U : Unicode) (pv pd : Val → Val)
    (dataArquivo userEmail uploadId : Val) (row : Obj Val) :
    ((row.get FORCAR_CHAVE).truthy = false →
      (montarRegistro U pv pd dataArquivo userEmail uploadId row).payload.get
          (js "chave_planejamento")
        = (if contarPartesChave (valorDaColuna U row (js "chave_planejamento"))
              = partesEsperadas U row
           then valorDaColuna U row (js "chave_planejamento") else .null) ∧
      (montarRegistro U pv pd dataArquivo userEmail uploadId row).payload.get (js "chave")
        = (if contarPartesChave (valorDaColuna U row (js "chave")) = 4
           then valorDaColuna U row (js "chave") else .null)) ∧
    ((row.get FORCAR_CHAVE).truthy = true →
      (montarRegistro U pv pd dataArquivo userEmail uploadId row).payload.get
          (js "chave_planejamento")
        = (nulificar (valorDaColuna U row (js "chave_planejamento"))).or .null ∧
      (montarRegistro U pv pd dataArquivo userEmail uploadId row).payload.get (js "chave")
        = (nulificar (valorDaColuna U row (js "chave"))).or .null) := by
  have hcp := colunaSimples_chave_planejamento
  have hc := colunaSimples_chave
  have hne : js "chave_planejamento" ≠ js "chave" := by decide
  have hne2 : js "chave" ≠ js "chave_planejamento" := by decide
  have e1 : (montarRegistro U pv pd dataArquivo userEmail uploadId row).payload.get
      (js "chave_planejamento")
      = (validarChaves (row.get FORCAR_CHAVE).truthy (mapearColunas U row)).get
        (js "chave_planejamento") := by
    show (converterCampos pv pd _).get _ = _
    exact get_converterCampos pv pd _ _ hcp (by decide) (by decide)
  have e2 : (montarRegistro U pv pd dataArquivo userEmail uploadId row).payload.get (js "chave")
      = (validarChaves (row.get FORCAR_CHAVE).truthy (mapearColunas U row)).get (js "chave") := by
    show (converterCampos pv pd _).get _ = _
    exact get_converterCampos pv pd _ _ hc (by decide) (by decide)
  rw [e1, e2]
  constructor
  · intro hf
    rw [hf]
    unfold validarChaves
    simp only [Bool.false_eq_true, if_false]
    rw [get_set _ _ _ _ hcp.2.2.1, if_pos rfl, get_set _ _ _ _ hc.2.2.1, if_neg hne2,
      get_set _ _ _ _ hc.2.2.1, if_pos rfl, get_set _ _ _ _ hcp.2.2.1, if_neg hne,
      mapear_get U row _ hcp, mapear_get U row _ hc,
      mapear_get U row _ colunaSimples_exercicio, contar_nulificar, contar_nulificar,
      parseAno_nulificar]
    constructor
    · show (if contarPartesChave (valorDaColuna U row (js "chave_planejamento"))
          = partesEsperadas U row then _ else _) = _
      by_cases hk : valorDaColuna U row (js "chave_planejamento") = .str (js "-")
      · have h0 : ¬ (0 = partesEsperadas U row) := by
          unfold partesEsperadas
          split
          · split <;> decide
          · decide
        rw [hk, contar_traco, if_neg h0, if_neg h0]
      · simp only [nulificar, hk, if_false]
    · by_cases hk : valorDaColuna U row (js "chave") = .str (js "-")
      · rw [hk, contar_traco]; rfl
      · simp only [nulificar, hk, if_false]
  · intro hf
    rw [hf]
    unfold validarChaves
    simp only [if_true]
    rw [get_set _ _ _ _ hcp.2.2.1, if_pos rfl, get_set _ _ _ _ hc.2.2.1, if_neg hne2,
      get_set _ _ _ _ hc.2.2.1, if_pos rfl, get_set _ _ _ _ hcp.2.2.1, if_neg hne,
      mapear_get U row _ hcp, mapear_get U row _ hc]
    exact ⟨rfl, rfl⟩

/-! ## The write loop -/

theorem escritaInv_inicial {ρ : Type} :
    EscritaInv 0 ({ batch := [], total := 0, gravados := [], status := [] } : Escrita ρ) := by
  simp [EscritaInv, BATCH_SIZE]

/-- A loop that ends without error keeps the invariant, has consumed the
records in order, and met no cancellation at any poll. -/
theorem gravarLoop_ok {ρ : Type} (cancel : Nat → Bool) (sink : Nat → Option Str) (n : Nat) :
    ∀ (rs : List ρ) (i : Nat) (st st1 : Escrita ρ),
      gravarLoop cancel sink n i rs st = (st1, none) → EscritaInv i st →
      EscritaInv (i + rs.length) st1 ∧
      st1.gravados.flatten ++ st1.batch = st.gravados.flatten ++ st.batch ++ rs := by
  intro rs
  induction rs with
  | nil =>
    intro i st st1 h hinv
    simp only [gravarLoop, Prod.mk.injEq, and_true] at h
    subst h
    simpa using hinv
  | cons r rs ih =>
    intro i st st1 h hinv
    obtain ⟨hb, hg, ht, hi⟩ := hinv
    simp only [gravarLoop] at h
    split at h
    · simp at h
    · split at h
      · rename_i hfull
        split at h
        · simp at h
        · have hlen : (st.batch ++ [r]).length = BATCH_SIZE := by
            simp only [List.length_append, List.length_singleton] at hfull ⊢
            omega
          have := ih (i + 1) _ st1 h (by
            refine ⟨by simp [BATCH_SIZE], ?_, ?_, ?_⟩
            · intro b hbm
              simp only [List.mem_append, List.mem_singleton] at hbm
              rcases hbm with hbm | hbm
              · exact hg b hbm
              · rw [hbm]; exact hlen
            · simp only [List.length_append, List.length_singleton] at hlen ⊢
              rw [Nat.mul_add, ← ht]; omega
            · simp only [List.length_append, List.length_singleton] at hlen ⊢
              simp only [List.length_nil]; omega)
          refine ⟨by simpa [Nat.add_assoc, Nat.add_comm 1] using this.1, ?_⟩
          rw [this.2]; simp
      · rename_i hfull
        have := ih (i + 1) _ st1 h (by
          refine ⟨?_, hg, ht, ?_⟩
          · simp only [List.length_append, List.length_singleton] at hfull ⊢
            omega
          · simp only [List.length_append, List.length_singleton]; omega)
        refine ⟨by simpa [Nat.add_assoc, Nat.add_comm 1] using this.1, ?_⟩
        rw [this.2]; simp

/-- While no poll reports a cancellation and no flush is rejected, the loop
runs on: after the records `xs` it continues on `ys` from a state that
satisfies the invariant and holds `xs` in order. -/
theorem gravarLoop_avanca {ρ : Type} (cancel : Nat → Bool) (sink : Nat → Option Str)
    (n : Nat) (ys : List ρ) :
    ∀ (xs : List ρ) (i : Nat) (st : Escrita ρ),
      (∀ p, i ≤ p → p < i + xs.length → cancel p = false) →
      (∀ j, BATCH_SIZE * (j + 1) ≤ i + xs.length → sink j = none) →
      EscritaInv i st →
      ∃ st1, gravarLoop cancel sink n i (xs ++ ys) st
          = gravarLoop cancel sink n (i + xs.length) ys st1 ∧
        EscritaInv (i + xs.length) st1 ∧
        st1.gravados.flatten ++ st1.batch = st.gravados.flatten ++ st.batch ++ xs := by
  intro xs
  induction xs with
  | nil =>
    intro i st _ _ hinv
    exact ⟨st, by simp, by simpa using hinv, by simp⟩
  | cons x xs ih =>
    intro i st hc hs hinv
    obtain ⟨hb, hg, ht, hi⟩ := hinv
    have hci : cancel i = false := hc i (Nat.le_refl i) (by simp)
    have hcons : (x :: xs).length = xs.length + 1 := rfl
    have hbx : (st.batch ++ [x]).length = st.batch.length + 1 := by simp
    by_cases hfull : BATCH_SIZE ≤ (st.batch ++ [x]).length
    · have hlen : (st.batch ++ [x]).length = BATCH_SIZE := by omega
      have hsink : sink st.gravados.length = none := by
        apply hs
        rw [Nat.mul_add, ← ht]; omega
      have step : gravarLoop cancel sink n i (x :: xs ++ ys) st
          = gravarLoop cancel sink n (i + 1) (xs ++ ys)
            { batch := []
              total := st.total + (st.batch ++ [x]).length
              gravados := st.gravados ++ [st.batch ++ [x]]
              status := st.status ++ [.parcial (st.total + (st.batch ++ [x]).length) n] } := by
        simp only [List.cons_append, gravarLoop, hci, Bool.false_eq_true, if_false, hfull,
          if_true, hsink]
        rfl
      obtain ⟨st1, h1, h2, h3⟩ := ih (i + 1)
        { batch := []
          total := st.total + (st.batch ++ [x]).length
          gravados := st.gravados ++ [st.batch ++ [x]]
          status := st.status ++ [.parcial (st.total + (st.batch ++ [x]).length) n] }
        (fun p hp1 hp2 => hc p (by omega) (by omega))
        (fun j hj => hs j (by omega))
        (by
          refine ⟨by simp [BATCH_SIZE], ?_, ?_, ?_⟩
          · intro b hbm
            simp only [List.mem_append, List.mem_singleton] at hbm
            rcases hbm with hbm | hbm
            · exact hg b hbm
            · rw [hbm]; exact hlen
          · show st.total + (st.batch ++ [x]).length
              = BATCH_SIZE * (st.gravados ++ [st.batch ++ [x]]).length
            have hg1 : (st.gravados ++ [st.batch ++ [x]]).length = st.gravados.length + 1 := by
              simp
            rw [hg1, Nat.mul_add, ← ht]; omega
          · show st.total + (st.batch ++ [x]).length + ([] : List ρ).length = i + 1
            rw [List.length_nil]; omega)
      refine ⟨st1, ?_, ?_, ?_⟩
      · rw [step, h1, hcons, Nat.add_assoc, Nat.add_comm 1]
      · rw [hcons, ← Nat.add_assoc, Nat.add_right_comm]
        simpa [Nat.add_assoc, Nat.add_comm 1] using h2
      · rw [h3]; simp
    · have step : gravarLoop cancel sink n i (x :: xs ++ ys) st
          = gravarLoop cancel sink n (i + 1) (xs ++ ys) { st with batch := st.batch ++ [x] } := by
        simp only [List.cons_append, gravarLoop, hci, Bool.false_eq_true, if_false, hfull]
        rfl
      obtain ⟨st1, h1, h2, h3⟩ := ih (i + 1) { st with batch := st.batch ++ [x] }
        (fun p hp1 hp2 => hc p (by omega) (by omega))
        (fun j hj => hs j (by omega))
        (by
          refine ⟨?_, hg, ht, ?_⟩
          · show (st.batch ++ [x]).length < BATCH_SIZE
            omega
          · show st.total + (st.batch ++ [x]).length = i + 1
            omega)
      refine ⟨st1, ?_, ?_, ?_⟩
      · rw [step, h1, hcons, Nat.add_assoc, Nat.add_comm 1]
      · rw [hcons, ← Nat.add_assoc, Nat.add_right_comm]
        simpa [Nat.add_assoc, Nat.add_comm 1] using h2
      · rw [h3]; simp

/-- Full batches that concatenate to a list of `BATCH_SIZE * k` records are
`k` in number. -/
theorem lotes_cheios_contagem {ρ : Type} (g : List (List ρ))
    (hg : ∀ b ∈ g, b.length = BATCH_SIZE) : g.flatten.length = BATCH_SIZE * g.length := by
  induction g with
  | nil => simp
  | cons b g ih =>
    simp only [List.flatten_cons, List.length_append, List.length_cons]
    rw [ih (fun c hc => hg c (List.mem_cons_of_mem _ hc)), hg b (List.mem_cons_self _ _)]
    rw [Nat.mul_add]; omega

/-- A run with no cancellation at the polls it makes and no rejected flush
completes with the number of records as total. -/
theorem gravarRegistros_completa {ρ : Type} (cancel : Nat → Bool) (sink : Nat → Option Str)
    (registros : List ρ) (hc : ∀ p < registros.length, cancel p = false)
    (hs : ∀ j, sink j = none) :
    (gravarRegistros cancel sink registros).resultado = .ok registros.length := by
  obtain ⟨st1, h1, h2, h3⟩ := gravarLoop_avanca cancel sink registros.length [] registros 0
    { batch := [], total := 0, gravados := [], status := [] }
    (fun p _ hp => hc p (by omega)) (fun j _ => hs j) escritaInv_inicial
  simp only [List.append_nil, gravarLoop] at h1
  obtain ⟨_, _, _, hi⟩ := h2
  unfold gravarRegistros
  rw [h1]
  by_cases hb : st1.batch.isEmpty
  · simp only [hb, Bool.not_true, Bool.false_eq_true, if_false]
    have : st1.batch.length = 0 := by simpa using hb
    congr 1; omega
  · simp only [hb, Bool.not_false, if_true, hs]
    congr 1; omega

/-! ## Claims on the write loop -/

/-- C9. A write run of `processEmp` that completes has passed to
`bulkInsert`, in flush order, batches whose concatenation is the input list:
the batch sizes sum to the number of records, which is also the returned
total, every batch has at most 1000 records and every batch but the last has
exactly 1000. -/
theorem gravarRegistros_sem_perda {ρ : Type} (cancel : Nat → Bool)
    (sink : Nat → Option Str) (registros : List ρ) (total : Nat)
    (h : (gravarRegistros cancel sink registros).resultado = .ok total) :
    (gravarRegistros cancel sink registros).gravados.flatten = registros ∧
    ((gravarRegistros cancel sink registros).gravados.map List.length).sum
      = registros.length ∧
    total = registros.length ∧
    (∀ b ∈ (gravarRegistros cancel sink registros).gravados, b.length ≤ 1000) ∧
    (∀ b ∈ (gravarRegistros cancel sink registros).gravados.dropLast, b.length = 1000) := by
  have key : (gravarRegistros cancel sink registros).gravados.flatten = registros ∧
      total = registros.length ∧
      (∀ b ∈ (gravarRegistros cancel sink registros).gravados, b.length ≤ 1000) ∧
      (∀ b ∈ (gravarRegistros cancel sink registros).gravados.dropLast, b.length = 1000) := by
    unfold gravarRegistros at h ⊢
    generalize hrun : gravarLoop cancel sink registros.length 0 registros
      { batch := [], total := 0, gravados := [], status := [] } = run at h ⊢
    obtain ⟨st, oe⟩ := run
    cases oe with
    | some e => simp at h
    | none =>
      obtain ⟨⟨hb, hg, ht, hi⟩, hcat⟩ :=
        gravarLoop_ok cancel sink _ _ _ _ _ hrun escritaInv_inicial
      simp only [List.flatten_nil, List.nil_append, Nat.zero_add] at hcat hi
      have hcount := lotes_cheios_contagem st.gravados hg
      have hlen : st.gravados.flatten.length + st.batch.length = registros.length := by
        rw [← hcat, List.length_append]
      simp only [BATCH_SIZE] at hb hg ht hcount
      by_cases hbe : st.batch.isEmpty
      · have hnil : st.batch = [] := by simpa using hbe
        simp only [hbe, Bool.not_true, Bool.false_eq_true, if_false] at h ⊢
        simp only [Resultado.ok.injEq] at h
        have hb0 : st.batch.length = 0 := by rw [hnil]; rfl
        refine ⟨by simpa [hnil] using hcat, by omega, fun b hbm => by rw [hg b hbm], ?_⟩
        exact fun b hbm => hg b (List.mem_of_mem_dropLast hbm)
      · simp only [hbe, Bool.not_false, if_true] at h ⊢
        cases hs : sink st.gravados.length with
        | some msg => simp [hs] at h
        | none =>
          simp only [hs, Resultado.ok.injEq] at h ⊢
          refine ⟨by simpa using hcat, by omega, ?_, ?_⟩
          · intro b hbm
            simp only [List.mem_append, List.mem_singleton] at hbm
            rcases hbm with hbm | hbm
            · rw [hg b hbm]
            · rw [hbm]; omega
          · intro b hbm
            rw [List.dropLast_append_of_ne_nil _ (by simp), List.dropLast_single,
              List.append_nil] at hbm
            exact hg b hbm
  refine ⟨key.1, ?_, key.2.1, key.2.2.1, key.2.2.2⟩
  rw [← List.length_flatten, key.1]

/-- C9, on a run of three records. -/
theorem gravarRegistros_sem_perda_witness :
    (gravarRegistros (fun _ => false) (fun _ => none) [10, 20, 30]).resultado = .ok 3 ∧
    (gravarRegistros (fun _ => false) (fun _ => none) [10, 20, 30]).gravados.flatten
      = [10, 20, 30] :=
  ⟨by decide,
   (gravarRegistros_sem_perda (fun _ => false) (fun _ => none) [10, 20, 30] 3 (by decide)).1⟩

/-- C10 as stated fails when no record is left after the `k` full batches:
with 1000 records and the flag set from poll 1000 on, the flag is unset
while the one full batch is flushed and set from then on, yet the loop makes
no further poll and the run completes normally. -/
theorem cancelamento_sem_registro_restante :
    (∀ p < 1000 * 1, (fun i => decide (1000 ≤ i)) p = false) ∧
    (∀ p ≥ 1000 * 1, (fun i => decide (1000 ≤ i)) p = true) ∧
    (gravarRegistros (fun i => decide (1000 ≤ i)) (fun _ => none)
      (List.replicate 1000 (0 : Nat))).resultado = .ok 1000 := by
  refine ⟨fun p hp => by simp; omega, fun p hp => by simp; omega, ?_⟩
  have := gravarRegistros_completa (fun i => decide (1000 ≤ i)) (fun _ => none)
    (List.replicate 1000 (0 : Nat))
    (fun p hp => by rw [List.length_replicate] at hp; simp; omega) (fun _ => rfl)
  rw [List.length_replicate] at this
  exact this

/-- C10, amended. If the cancellation flag is unset at the polls of the
first `1000 * k` records, set at the next poll, no flush of these `k` batches
is rejected, and at least one record remains after them, then exactly `k`
batches have been written, they are full and hold the first `1000 * k`
records in order, and the run fails with the error whose message is
`PROCESSAMENTO_CANCELADO`. -/
theorem cancelamento_apos_k_lotes {ρ : Type} (cancel : Nat → Bool)
    (sink : Nat → Option Str) (registros : List ρ) (k : Nat)
    (hlen : 1000 * k < registros.length)
    (h0 : ∀ p < 1000 * k, cancel p = false) (h1 : cancel (1000 * k) = true)
    (hs : ∀ j < k, sink j = none) :
    (gravarRegistros cancel sink registros).resultado = .erro .cancelado ∧
    Erro.message .cancelado = js "PROCESSAMENTO_CANCELADO" ∧
    (gravarRegistros cancel sink registros).gravados.length = k ∧
    (gravarRegistros cancel sink registros).gravados.flatten = registros.take (1000 * k) ∧
    (∀ b ∈ (gravarRegistros cancel sink registros).gravados, b.length = 1000) := by
  have hxs : (registros.take (1000 * k)).length = 1000 * k := by
    rw [List.length_take]; omega
  obtain ⟨r, rest, hdrop⟩ : ∃ r rest, registros.drop (1000 * k) = r :: rest := by
    cases hd : registros.drop (1000 * k) with
    | nil =>
      have := congrArg List.length hd
      rw [List.length_drop] at this
      simp at this; omega
    | cons r rest => exact ⟨r, rest, rfl⟩
  obtain ⟨st1, hrun, ⟨hb, hg, ht, hi⟩, hcat⟩ := gravarLoop_avanca cancel sink
    registros.length (r :: rest) (registros.take (1000 * k)) 0
    { batch := [], total := 0, gravados := [], status := [] }
    (fun p _ hp => h0 p (by omega))
    (fun j hj => hs j (by simp only [BATCH_SIZE] at hj; omega)) escritaInv_inicial
  rw [← hdrop, List.take_append_drop, Nat.zero_add, hxs, hdrop] at hrun
  simp only [gravarLoop, h1, if_true] at hrun
  simp only [List.flatten_nil, List.nil_append] at hcat
  simp only [BATCH_SIZE] at hb hg ht
  rw [Nat.zero_add, hxs] at hi
  have hbn : st1.batch = [] := List.eq_nil_of_length_eq_zero (by omega)
  rw [hbn, List.append_nil] at hcat
  have hk : st1.gravados.length = k := by omega
  unfold gravarRegistros
  rw [hrun]
  exact ⟨rfl, rfl, hk, hcat, hg⟩

/-- C10 amended, for cancellation after batch 3 of 10. -/
theorem cancelamento_apos_k_lotes_witness :
    (gravarRegistros (fun i => decide (3000 ≤ i)) (fun _ => none)
      (List.range 10000)).resultado = .erro .cancelado ∧
    (gravarRegistros (fun i => decide (3000 ≤ i)) (fun _ => none)
      (List.range 10000)).gravados.length = 3 := by
  have h := cancelamento_apos_k_lotes (fun i => decide (3000 ≤ i)) (fun _ => none)
    (List.range 10000) 3 (by rw [List.length_range]; decide) (fun p hp => by simp; omega)
    (by simp) (fun _ _ => rfl)
  exact ⟨h.1, h.2.2.1⟩

/-! ## Claims on the records for the store -/

/-- C7. `montarRegistrosParaDb` emits exactly one record per input row, in
input order (record `i` carries row `i` as its raw payload); for a row that
is not flagged as forced, the persisted `chave_planejamento` is the row's
planning key when `contarPartesChave` counts 8 parts for a row of year 2026
or later and 7 parts otherwise, and `null` in every other case, and the
persisted `chave` is the row's short key when it has 4 parts and `null`
otherwise. -/
theorem montarRegistrosParaDb_valida (U : Unicode) (pv pd : Val → Val) (dataset : Dataset)
    (dataArquivo userEmail uploadId : Val) :
    (montarRegistrosParaDb U pv pd dataset dataArquivo userEmail uploadId).length
      = dataset.rows.length ∧
    ∀ (i : Nat) (row : Obj Val), dataset.rows[i]? = some row →
      ∃ reg, (montarRegistrosParaDb U pv pd dataset dataArquivo userEmail uploadId)[i]?
          = some reg ∧
        reg.rawRow = row.filter (fun e => e.1 != FORCAR_CHAVE) ∧
        ((row.get FORCAR_CHAVE).truthy = false →
          reg.payload.get (js "chave_planejamento")
            = (if contarPartesChave (valorDaColuna U row (js "chave_planejamento"))
                  = partesEsperadas U row
               then valorDaColuna U row (js "chave_planejamento") else .null) ∧
          reg.payload.get (js "chave")
            = (if contarPartesChave (valorDaColuna U row (js "chave")) = 4
               then valorDaColuna U row (js "chave") else .null)) := by
  refine ⟨by simp [montarRegistrosParaDb], ?_⟩
  intro i row hrow
  refine ⟨montarRegistro U pv pd dataArquivo userEmail uploadId row, ?_, rfl, ?_⟩
  · simp [montarRegistrosParaDb, hrow]
  · exact (montarRegistro_chaves U pv pd dataArquivo userEmail uploadId row).1

/-- C7, on a row of 2026 with an 8-part key and a 3-part short key: the
planning key is persisted and the short key is nulled. -/
theorem montarRegistrosParaDb_valida_witness :
    ∃ reg, (montarRegistrosParaDb latin1 id id
        { columns := [js "Chave de Planejamento", js "Chave", js "Exercício"]
          rows := [[(js "Chave de Planejamento", .str (js "* A * B * C * D * E * F * G * H *")),
                    (js "Chave", .str (js "* DOT * X * 2026 *")),
                    (js "Exercício", .num 2026)]] }
        .null .null (.num 1))[0]? = some reg ∧
      reg.payload.get (js "chave_planejamento") = .str (js "* A * B * C * D * E * F * G * H *") ∧
      reg.payload.get (js "chave") = .null := by
  obtain ⟨reg, h1, _, h3⟩ := (montarRegistrosParaDb_valida latin1 id id
    { columns := [js "Chave de Planejamento", js "Chave", js "Exercício"]
      rows := [[(js "Chave de Planejamento", .str (js "* A * B * C * D * E * F * G * H *")),
                (js "Chave", .str (js "* DOT * X * 2026 *")),
                (js "Exercício", .num 2026)]] }
    .null .null (.num 1)).2 0 _ rfl
  refine ⟨reg, h1, ?_, ?_⟩
  · rw [(h3 (by decide)).1]; decide
  · rw [(h3 (by decide)).2]; decide

/-- C8 as stated fails for the key `"-"`: the column loop turns `"-"` into
`null` before the forced branch runs, so the flagged row persists `null`
although its planning key is a non-empty string. -/
theorem forcado_traco_vira_null :
    valorDaColuna latin1
      [(js "Chave de Planejamento", .str (js "-")), (FORCAR_CHAVE, .bool true)]
      (js "chave_planejamento") = .str (js "-") ∧
    (Obj.get [(js "Chave de Planejamento", .str (js "-")), (FORCAR_CHAVE, .bool true)]
      FORCAR_CHAVE).truthy = true ∧
    (montarRegistro latin1 id id .null .null (.num 1)
      [(js "Chave de Planejamento", .str (js "-")), (FORCAR_CHAVE, .bool true)]).payload.get
      (js "chave_planejamento") = .null := by
  decide

/-- C8, amended. For a row whose planning key is a non-empty string other
than `"-"`: when the row is flagged `__forcar_chave` the persisted
`chave_planejamento` is that key, whatever its number of parts; when the row
is not flagged the key is persisted only if its part count is the one
expected for the row's year, and `null` is persisted otherwise. -/
theorem forcado_suprime_validacao (U : Unicode) (pv pd : Val → Val)
    (dataArquivo userEmail uploadId : Val) (row : Obj Val) (chave : Str)
    (hk : valorDaColuna U row (js "chave_planejamento") = .str chave)
    (hne : chave ≠ []) (htraco : chave ≠ js "-") :
    ((row.get FORCAR_CHAVE).truthy = true →
      (montarRegistro U pv pd dataArquivo userEmail uploadId row).payload.get
        (js "chave_planejamento") = .str chave) ∧
    ((row.get FORCAR_CHAVE).truthy = false →
      (montarRegistro U pv pd dataArquivo userEmail uploadId row).payload.get
        (js "chave_planejamento")
        = if contarPartesChaveS chave = partesEsperadas U row then .str chave else .null) := by
  constructor
  · intro hf
    rw [((montarRegistro_chaves U pv pd dataArquivo userEmail uploadId row).2 hf).1, hk]
    have h1 : nulificar (.str chave) = .str chave := by
      unfold nulificar
      rw [if_neg (fun h => htraco (Val.str.inj h))]
    rw [h1]
    unfold Val.or
    cases chave with
    | nil => exact absurd rfl hne
    | cons c cs => rfl
  · intro hf
    rw [((montarRegistro_chaves U pv pd dataArquivo userEmail uploadId row).1 hf).1, hk]
    rfl

/-- C8 amended, on a forced 3-part key in a row of 2026: the flagged row
persists it, the same row without the flag persists `null`. -/
theorem forcado_suprime_validacao_witness :
    (montarRegistro latin1 id id .null .null (.num 1)
      [(js "Chave de Planejamento", .str (js "* A * B * C *")), (js "Exercício", .num 2026),
       (FORCAR_CHAVE, .bool true)]).payload.get (js "chave_planejamento")
      = .str (js "* A * B * C *") ∧
    (montarRegistro latin1 id id .null .null (.num 1)
      [(js "Chave de Planejamento", .str (js "* A * B * C *")),
       (js "Exercício", .num 2026)]).payload.get (js "chave_planejamento") = .null := by
  constructor
  · exact (forcado_suprime_validacao latin1 id id .null .null (.num 1)
      [(js "Chave de Planejamento", .str (js "* A * B * C *")), (js "Exercício", .num 2026),
       (FORCAR_CHAVE, .bool true)] (js "* A * B * C *") (by decide) (by decide) (by decide)).1
      (by decide)
  · rw [(forcado_suprime_validacao latin1 id id .null .null (.num 1)
      [(js "Chave de Planejamento", .str (js "* A * B * C *")), (js "Exercício", .num 2026)]
      (js "* A * B * C *") (by decide) (by decide) (by decide)).2 (by decide)]
    decide

/-! ## Claims on forced assignment -/

/-- C1 as stated fails for an entry whose key is empty: the forced-key
document that maps `1` to the empty string loads into a table that has an
entry for `1`, yet the truthiness test on the entry leaves the row as it was,
not flagged.  It also fails for a row without an entry whose `Nº EMP` is the
name of a member of `Object.prototype`: the lookup finds the inherited
member, and the row is overwritten and flagged. -/
theorem forcar_entrada_vazia :
    ((carregarForcarChaves [(js "1", .str [])]).own (js "1") = some [] ∧
      forcarChavesManualmente (carregarForcarChaves [(js "1", .str [])])
        { columns := [js "Chave de Planejamento", NUM_EMP]
          rows := [[(js "Chave de Planejamento", .str (js "* A *")),
                    (NUM_EMP, .str (js "1"))]] }
        (js "Chave de Planejamento")
      = { columns := [js "Chave de Planejamento", NUM_EMP]
          rows := [[(js "Chave de Planejamento", .str (js "* A *")),
                    (NUM_EMP, .str (js "1"))]] }) ∧
    ((carregarForcarChaves [(js "1", .str (js "A|B"))]).own (js "constructor") = none ∧
      forcarChavesManualmente (carregarForcarChaves [(js "1", .str (js "A|B"))])
        { columns := [js "Chave de Planejamento", NUM_EMP]
          rows := [[(js "Chave de Planejamento", .str (js "* A *")),
                    (NUM_EMP, .str (js "constructor"))]] }
        (js "Chave de Planejamento")
      = { columns := [js "Chave de Planejamento", NUM_EMP]
          rows := [[(js "Chave de Planejamento", inherited (js "constructor")),
                    (NUM_EMP, .str (js "constructor")),
                    (FORCAR_CHAVE, .bool true)]] }) := by
  decide

/-- The effect of `forcarChavesManualmente` on each row, for a key column
that is neither the flag nor a name of `Object.prototype`. -/
theorem forcarChavesManualmente_linhas (substituicoes : Obj Str) (dataset : Dataset)
    (keyColName : Str) (hcol : NUM_EMP ∈ dataset.columns)
    (hkey : keyColName ∉ objectPrototypeNames) (hkf : keyColName ≠ FORCAR_CHAVE) :
    (forcarChavesManualmente substituicoes dataset keyColName).columns = dataset.columns ∧
    (forcarChavesManualmente substituicoes dataset keyColName).rows.length
      = dataset.rows.length ∧
    ∀ (i : Nat) (row : Obj Val), dataset.rows[i]? = some row →
      (∀ chave, substituicoes.own (trim ((row.get NUM_EMP).or (.str [])).toStr) = some chave →
        chave ≠ [] →
        ∃ forcada, (forcarChavesManualmente substituicoes dataset keyColName).rows[i]?
            = some forcada ∧
          forcada.get keyColName = .str (canonicalizarChaveS chave) ∧
          forcada.get FORCAR_CHAVE = .bool true) ∧
      ((substituicoes.own (trim ((row.get NUM_EMP).or (.str [])).toStr) = some [] ∨
        (substituicoes.own (trim ((row.get NUM_EMP).or (.str [])).toStr) = none ∧
          trim ((row.get NUM_EMP).or (.str [])).toStr ∉ objectPrototypeNames)) →
        (forcarChavesManualmente substituicoes dataset keyColName).rows[i]? = some row) := by
  unfold forcarChavesManualmente
  by_cases hemp : substituicoes.isEmpty = true
  · have hnil : substituicoes = [] := List.isEmpty_iff.mp hemp
    subst hnil
    refine ⟨by simp, by simp, ?_⟩
    intro i row hrow
    refine ⟨fun chave h _ => by simp [own_nil] at h, fun _ => by simpa using hrow⟩
  · rw [if_neg hemp]
    have hc : (!decide (NUM_EMP ∈ dataset.columns)) = false := by simp [hcol]
    rw [if_neg (by rw [hc]; simp)]
    refine ⟨rfl, by simp, ?_⟩
    intro i row hrow
    simp only [List.getElem?_map, hrow, Option.map_some']
    constructor
    · intro chave hown hne
      have hget : substituicoes.getStr (trim ((row.get NUM_EMP).or (.str [])).toStr)
          = .str chave := by
        unfold Obj.getStr; rw [hown]
      have htr : (Val.str chave).truthy = true := by
        cases chave with
        | nil => exact absurd rfl hne
        | cons c cs => rfl
      refine ⟨_, rfl, ?_, ?_⟩
      · simp only [hget, htr, if_true]
        rw [get_set _ _ _ _ hkey, if_neg hkf, get_set _ _ _ _ hkey, if_pos rfl]
        rfl
      · simp only [hget, htr, if_true]
        rw [get_set _ _ _ _ (by decide), if_pos rfl]
    · intro h
      rcases h with h | ⟨h, hn⟩
      · have hget : substituicoes.getStr (trim ((row.get NUM_EMP).or (.str [])).toStr)
            = .str [] := by
          unfold Obj.getStr; rw [h]
        simp [hget, Val.truthy]
      · have hget : substituicoes.getStr (trim ((row.get NUM_EMP).or (.str [])).toStr)
            = .undefined := by
          unfold Obj.getStr; rw [h]; simp [hn]
        simp [hget, Val.truthy]

/-- C1, amended. In a dataset that has the column `Nº EMP`, a row whose
trimmed `Nº EMP` has a non-empty entry in the forced-key table leaves
`forcarChavesManualmente` with the canonicalised forced key in its
planning-key column and with the flag `__forcar_chave`, whatever the row
held before; a row whose trimmed `Nº EMP` has an empty entry, or has no entry
and is not the name of a member inherited from `Object.prototype`, is left
unchanged.  Rows keep their number and order and the columns are kept. -/
theorem forcarChavesManualmente_vence (substituicoes : Obj Str) (dataset : Dataset)
    (hcol : NUM_EMP ∈ dataset.columns) :
    (forcarChavesManualmente substituicoes dataset KEY_COL).columns = dataset.columns ∧
    (forcarChavesManualmente substituicoes dataset KEY_COL).rows.length
      = dataset.rows.length ∧
    ∀ (i : Nat) (row : Obj Val), dataset.rows[i]? = some row →
      (∀ chave, substituicoes.own (trim ((row.get NUM_EMP).or (.str [])).toStr) = some chave →
        chave ≠ [] →
        ∃ forcada, (forcarChavesManualmente substituicoes dataset KEY_COL).rows[i]?
            = some forcada ∧
          forcada.get KEY_COL = .str (canonicalizarChaveS chave) ∧
          forcada.get FORCAR_CHAVE = .bool true) ∧
      ((substituicoes.own (trim ((row.get NUM_EMP).or (.str [])).toStr) = some [] ∨
        (substituicoes.own (trim ((row.get NUM_EMP).or (.str [])).toStr) = none ∧
          trim ((row.get NUM_EMP).or (.str [])).toStr ∉ objectPrototypeNames)) →
        (forcarChavesManualmente substituicoes dataset KEY_COL).rows[i]? = some row) :=
  forcarChavesManualmente_linhas substituicoes dataset KEY_COL hcol (by decide) (by decide)

/-- C1 amended, on a row whose narration names another key: the forced key
of entry `2025NE1` replaces the resolved key and the row is flagged. -/
theorem forcarChavesManualmente_vence_witness :
    ∃ forcada, (forcarChavesManualmente (carregarForcarChaves [(js "2025NE1", .str (js "X|Y|Z"))])
        { columns := [KEY_COL, NUM_EMP, HISTORICO]
          rows := [[(KEY_COL, .str (js "* A * B *")),
                    (NUM_EMP, .str (js " 2025NE1 ")), (HISTORICO, .str (js "A * B"))]] }
        KEY_COL).rows[0]? = some forcada ∧
      forcada.get KEY_COL = .str (js "* X * Y * Z *") ∧
      forcada.get FORCAR_CHAVE = .bool true := by
  obtain ⟨forcada, h1, h2, h3⟩ := ((forcarChavesManualmente_vence
    (carregarForcarChaves [(js "2025NE1", .str (js "X|Y|Z"))])
    { columns := [KEY_COL, NUM_EMP, HISTORICO]
      rows := [[(KEY_COL, .str (js "* A * B *")),
                (NUM_EMP, .str (js " 2025NE1 ")), (HISTORICO, .str (js "A * B"))]] }
    (by decide)).2.2 0 _ rfl).1
    (js "* X * Y * Z *") (by decide) (by decide)
  exact ⟨forcada, h1, by rw [h2]; decide, h3⟩

/-! ## Rows of the resolved dataset -/

theorem zip_map_self {α β γ : Type} (f : α → β) (g : α × β → γ) (l : List α) :
    (l.zip (l.map f)).map g = l.map (fun x => g (x, f x)) := by
  induction l with
  | nil => rfl
  | cons x l ih => simp [ih]

/-- Row `i` of the dataset `identificarChavePlanejamento` returns is row `i`
of the input with the key column set from the value `resolverLinha` computes
for it, on the loaded override table and the canonicalised catalog. -/
theorem identificar_linhas (U : Unicode) (dataset : Dataset) (chaves : List Str)
    (declarados : List (Str × Val)) (keyColName : Str) (partesChave : Nat) :
    (identificarChavePlanejamento U dataset chaves declarados keyColName partesChave).rows
      = dataset.rows.map (fun row =>
          linhaComChave keyColName
            (resolverLinha U (carregarCasosEspecificos U declarados)
              (chaves.map canonicalizarChaveS) partesChave row) row) := by
  unfold identificarChavePlanejamento
  exact zip_map_self _ _ _

/-! ## Claims on key resolution -/

/-- C3. A row of 2025 inside a batch whose default part count is 8: the
narration holds an 8-part catalog key, `identificarChavePlanejamento`
resolves the row to it, and `montarRegistrosParaDb`, which expects 7 parts of
a row of 2025, persists `null` for the key just resolved. -/
theorem linha_2025_em_lote_de_8_partes :
    obterExercicioLinha latin1
      [(js "Exercício", .num 2025),
       (HISTORICO, .str (js "PAGAMENTO * A * B * C * D * E * F * G * H * REF"))] = some 2025 ∧
    (identificarChavePlanejamento latin1
      { columns := [js "Exercício", HISTORICO]
        rows := [[(js "Exercício", .num 2025),
                  (HISTORICO, .str (js "PAGAMENTO * A * B * C * D * E * F * G * H * REF"))]] }
      [js "* A * B * C * D * E * F * G * H *"] [] KEY_COL 8).rows
      = [[(KEY_COL, .str (js "* A * B * C * D * E * F * G * H *")),
          (js "Exercício", .num 2025),
          (HISTORICO, .str (js "PAGAMENTO * A * B * C * D * E * F * G * H * REF"))]] ∧
    contarPartesChaveS (js "* A * B * C * D * E * F * G * H *") = 8 ∧
    (montarRegistrosParaDb latin1 id id
      (identificarChavePlanejamento latin1
        { columns := [js "Exercício", HISTORICO]
          rows := [[(js "Exercício", .num 2025),
                    (HISTORICO,
                      .str (js "PAGAMENTO * A * B * C * D * E * F * G * H * REF"))]] }
        [js "* A * B * C * D * E * F * G * H *"] [] KEY_COL 8)
      .null .null (.num 1)).map (fun reg => reg.payload.get (js "chave_planejamento"))
      = [.null] := by
  decide

/-- C4 as stated fails: the narration holds the key `H..N` in the window
that starts at token 0 and the key `A..G` in the window that starts at token
7; with `A..G` listed first in the catalog the row resolves to `A..G`, and
with the catalog order swapped it resolves to `H..N`. -/
theorem primeira_chave_do_catalogo_vence :
    resolverLinha latin1 []
      [js "* A * B * C * D * E * F * G *", js "* H * I * J * K * L * M * N *"] 7
      [(js "Exercício", .num 2025),
       (HISTORICO, .str (js "H * I * J * K * L * M * N * A * B * C * D * E * F * G"))]
      = js "* A * B * C * D * E * F * G *" ∧
    resolverLinha latin1 []
      [js "* H * I * J * K * L * M * N *", js "* A * B * C * D * E * F * G *"] 7
      [(js "Exercício", .num 2025),
       (HISTORICO, .str (js "H * I * J * K * L * M * N * A * B * C * D * E * F * G"))]
      = js "* H * I * J * K * L * M * N *" := by
  decide

/-- C5 as stated fails.  (1) The override document declares the trigger `b`
before the trigger `1`, both occur in the narration and both keys have 7
parts, yet the loaded table enumerates the array-index trigger `1` first and
the row resolves to its key.  (2) A trigger that normalises to the empty
string is a substring of every narration, yet the loop skips it and the row
resolves to the key of the next entry.  (3) The trigger `a | b` is no
substring of the canonical narration `* a * b *`, yet it occurs in the pipe
form of the narration and the row resolves to its key. -/
theorem gatilho_numerico_passa_a_frente :
    (carregarCasosEspecificos latin1
        [(js "b", .str (js "* A * B * C * D * E * F * G *")),
         (js "1", .str (js "* H * I * J * K * L * M * N *"))]
        = [(js "1", js "* H * I * J * K * L * M * N *"),
           (js "b", js "* A * B * C * D * E * F * G *")] ∧
      resolverLinha latin1
        (carregarCasosEspecificos latin1
          [(js "b", .str (js "* A * B * C * D * E * F * G *")),
           (js "1", .str (js "* H * I * J * K * L * M * N *"))])
        [] 7 [(js "Exercício", .num 2025), (HISTORICO, .str (js "b 1"))]
        = js "* H * I * J * K * L * M * N *") ∧
    (carregarCasosEspecificos latin1
        [(js " ", .str (js "* A * B * C * D * E * F * G *")),
         (js "b", .str (js "* H * I * J * K * L * M * N *"))]
        = [([], js "* A * B * C * D * E * F * G *"),
           (js "b", js "* H * I * J * K * L * M * N *")] ∧
      includes (normalizeSimple latin1
        (.str (histCanon [(js "Exercício", .num 2025), (HISTORICO, .str (js "b"))]))) []
        = true ∧
      resolverLinha latin1
        (carregarCasosEspecificos latin1
          [(js " ", .str (js "* A * B * C * D * E * F * G *")),
           (js "b", .str (js "* H * I * J * K * L * M * N *"))])
        [] 7 [(js "Exercício", .num 2025), (HISTORICO, .str (js "b"))]
        = js "* H * I * J * K * L * M * N *") ∧
    (includes (normalizeSimple latin1
        (.str (histCanon [(js "Exercício", .num 2025), (HISTORICO, .str (js "a * b"))])))
        (normalizeSimple latin1 (.str (js "a | b"))) = false ∧
      resolverLinha latin1
        (carregarCasosEspecificos latin1
          [(js "a | b", .str (js "* A * B * C * D * E * F * G *"))])
        [] 7 [(js "Exercício", .num 2025), (HISTORICO, .str (js "a * b"))]
        = js "* A * B * C * D * E * F * G *") := by
  decide

/-- C6 as stated fails.  (1) The narration holds the catalog key written in
lower case, and the row is not resolved.  (2) The narration holds the catalog
key `H..N` in its own spelling, yet the row resolves to the key `A..G`, which
also occurs in the narration and is listed first. -/
theorem chave_em_minusculas_nao_resolve :
    resolverLinha latin1 [] [js "* A * B * C * D * E * F * G *"] 7
      [(js "Exercício", .num 2025),
       (HISTORICO, .str (js "pagamento * a * b * c * d * e * f * g * ref"))]
      = MISSING_ID ∧
    resolverLinha latin1 []
      [js "* A * B * C * D * E * F * G *", js "* H * I * J * K * L * M * N *"] 7
      [(js "Exercício", .num 2025),
       (HISTORICO, .str (js "H * I * J * K * L * M * N * e * A * B * C * D * E * F * G"))]
      = js "* A * B * C * D * E * F * G *" := by
  decide

/-- C2 as stated fails: the 8-part catalog key has a part that contains a
pipe; a narration of 2026 with 9 star-delimited parts has the same pipe form
and resolves, through the pipe-normalised match, to a key of 9 parts. -/
theorem chave_com_barra_resolve_9_partes :
    obterExercicioLinha latin1
      [(js "Exercício", .num 2026),
       (HISTORICO, .str (js "A * B * C * D * E * F * G * H * I"))] = some 2026 ∧
    carregarChavesPlanejamento [.str (js "* A | B * C * D * E * F * G * H * I *")]
      = [js "* A | B * C * D * E * F * G * H * I *"] ∧
    contarPartesChaveS (js "* A | B * C * D * E * F * G * H * I *") = 8 ∧
    resolverLinha latin1 [] [js "* A | B * C * D * E * F * G * H * I *"] 7
      [(js "Exercício", .num 2026),
       (HISTORICO, .str (js "A * B * C * D * E * F * G * H * I"))]
      = js "* A * B * C * D * E * F * G * H * I *" ∧
    contarPartesChaveS (js "* A * B * C * D * E * F * G * H * I *") = 9 := by
  decide

theorem find_primeiro {α : Type} (p : α → Bool) (pre post : List α) (k : α)
    (hpre : ∀ x ∈ pre, p x = false) (hk : p k = true) :
    (pre ++ k :: post).find? p = some k := by
  induction pre with
  | nil => simp [List.find?, hk]
  | cons x pre ih =>
    have hx : p x = false := hpre x (List.mem_cons_self _ _)
    rw [List.cons_append, List.find?_cons, hx]
    exact ih (fun y hy => hpre y (List.mem_cons_of_mem _ hy))

theorem contar_vazio : contarPartesChaveS [] = 0 := by decide

theorem mem_chavesBase (U : Unicode) (chavesNorm : List Str) (partesChave : Nat)
    (row : Obj Val) (k : Str) (h : k ∈ chavesBase U chavesNorm partesChave row) :
    k ∈ chavesNorm ∧ contarPartesChaveS k = partesLinha U partesChave row := by
  unfold chavesBase at h
  rw [List.mem_filter] at h
  exact ⟨h.1, of_decide_eq_true h.2⟩

/-- The direct-containment stage decides the result of a row whose narration
is not the sentinel. -/
theorem resolver_direta (U : Unicode) (casos : Obj Str) (chavesNorm : List Str)
    (partesChave : Nat) (row : Obj Val) (k : Str)
    (hh : historicoDe row ≠ .str MISSING_INFO)
    (hfind : extrairChaveValidaDoHistorico (histCanon row)
      (chavesBase U chavesNorm partesChave row) = some k)
    (hne : k ≠ []) :
    resolverLinha U casos chavesNorm partesChave row = canonicalizarChaveS k := by
  unfold resolverLinha
  simp only [hh, if_false, hfind]
  have : (Option.filter (fun c : Str => !c.isEmpty) (some k)) = some k := by
    cases k with
    | nil => exact absurd rfl hne
    | cons c cs => rfl
  rw [this]

/-- C4, amended. Direct containment is first-match by catalog order: when
the canonical narration of a row contains two catalog keys of the expected
part count, the row resolves to the one listed first in the catalog (`k1`,
before which no listed key occurs in the narration), wherever the two keys
stand in the narration. -/
theorem contencao_direta_ordem_do_catalogo (U : Unicode) (casos : Obj Str)
    (chavesNorm : List Str) (partesChave : Nat) (row : Obj Val)
    (pre post : List Str) (k1 k2 : Str)
    (hp : 0 < partesChave)
    (hh : historicoDe row ≠ .str MISSING_INFO)
    (hbase : chavesBase U chavesNorm partesChave row = pre ++ k1 :: post)
    (hpre : ∀ k ∈ pre, includes (histCanon row) k = false)
    (h1 : includes (histCanon row) k1 = true)
    (_h2 : k2 ∈ post) (_h2i : includes (histCanon row) k2 = true) :
    resolverLinha U casos chavesNorm partesChave row = canonicalizarChaveS k1 := by
  have hmem : k1 ∈ chavesBase U chavesNorm partesChave row := by
    rw [hbase]; simp
  have hcount := (mem_chavesBase U chavesNorm partesChave row k1 hmem).2
  have hpos : 0 < partesLinha U partesChave row := by
    unfold partesLinha
    split
    · split
      · decide
      · exact hp
    · exact hp
  have hne : k1 ≠ [] := by
    intro h
    rw [h, contar_vazio] at hcount
    omega
  apply resolver_direta U casos chavesNorm partesChave row k1 hh _ hne
  unfold extrairChaveValidaDoHistorico
  rw [hbase]
  exact find_primeiro _ pre post k1 hpre h1

/-- C4 amended, on the narration that holds `H..N` before `A..G` with the
catalog listing `A..G` first. -/
theorem contencao_direta_ordem_do_catalogo_witness :
    resolverLinha latin1 []
      [js "* A * B * C * D * E * F * G *", js "* H * I * J * K * L * M * N *"] 7
      [(js "Exercício", .num 2025),
       (HISTORICO, .str (js "H * I * J * K * L * M * N * A * B * C * D * E * F * G"))]
      = canonicalizarChaveS (js "* A * B * C * D * E * F * G *") :=
  contencao_direta_ordem_do_catalogo latin1 []
    [js "* A * B * C * D * E * F * G *", js "* H * I * J * K * L * M * N *"] 7
    [(js "Exercício", .num 2025),
     (HISTORICO, .str (js "H * I * J * K * L * M * N * A * B * C * D * E * F * G"))]
    [] [js "* H * I * J * K * L * M * N *"]
    (js "* A * B * C * D * E * F * G *") (js "* H * I * J * K * L * M * N *")
    (by decide) (by decide) (by decide) (by decide) (by decide) (by decide) (by decide)

theorem buscarCaso_primeiro (histComp histPipeComp : Str) (partes : Nat)
    (pre post : Obj Str) (e : Str × Str)
    (hpre : ∀ x ∈ pre, casoAplica histComp histPipeComp partes x = false)
    (he : casoAplica histComp histPipeComp partes e = true) :
    buscarCaso histComp histPipeComp partes (pre ++ e :: post) = some e.2 := by
  induction pre with
  | nil => simp [buscarCaso, he]
  | cons x pre ih =>
    have hx := hpre x (List.mem_cons_self _ _)
    simp only [List.cons_append, buscarCaso, hx, Bool.false_eq_true, if_false]
    exact ih (fun y hy => hpre y (List.mem_cons_of_mem _ hy))

theorem partesLinha_pos (U : Unicode) (partesChave : Nat) (row : Obj Val)
    (hp : 0 < partesChave) : 0 < partesLinha U partesChave row := by
  unfold partesLinha
  split
  · split
    · decide
    · exact hp
  · exact hp

/-- C5, amended. When the narration of a row is not the sentinel and neither
containment stage matches, the row resolves to the key of the first entry, in
the enumeration order of the loaded override table, whose normalised trigger
is non-empty, occurs in the normalised star form or pipe form of the
canonical narration, and whose key has the expected part count. -/
theorem casos_primeiro_da_tabela (U : Unicode) (declarados : List (Str × Val))
    (chavesNorm : List Str) (partesChave : Nat) (row : Obj Val)
    (pre post : Obj Str) (gatilho chave : Str)
    (hp : 0 < partesChave)
    (hh : historicoDe row ≠ .str MISSING_INFO)
    (hdir : extrairChaveValidaDoHistorico (histCanon row)
      (chavesBase U chavesNorm partesChave row) = none)
    (hpipe : paraPipe (histCanon row) ∉ chavesPipeBase U chavesNorm partesChave row)
    (htab : carregarCasosEspecificos U declarados = pre ++ (gatilho, chave) :: post)
    (hpre : ∀ e ∈ pre,
      casoAplica (normalizeSimple U (.str (histCanon row)))
        (normalizeSimple U (.str (paraPipe (histCanon row))))
        (partesLinha U partesChave row) e = false)
    (hk : casoAplica (normalizeSimple U (.str (histCanon row)))
        (normalizeSimple U (.str (paraPipe (histCanon row))))
        (partesLinha U partesChave row) (gatilho, chave) = true) :
    resolverLinha U (carregarCasosEspecificos U declarados) chavesNorm partesChave row
      = canonicalizarChaveS chave := by
  have hcount : contarPartesChaveS chave = partesLinha U partesChave row := by
    unfold casoAplica at hk
    simp only [Bool.and_eq_true, decide_eq_true_eq] at hk
    exact hk.2
  have hne : chave ≠ [] := by
    intro h
    have := partesLinha_pos U partesChave row hp
    rw [h, contar_vazio] at hcount
    omega
  unfold resolverLinha
  simp only [hh, if_false, hdir, Option.filter_none, hpipe, htab]
  rw [buscarCaso_primeiro _ _ _ pre post (gatilho, chave) hpre hk]
  have : (Option.filter (fun c : Str => !c.isEmpty) (some chave)) = some chave := by
    cases chave with
    | nil => exact absurd rfl hne
    | cons c cs => rfl
  rw [this]

/-- C5 amended, on the override document that declares `b` before `1`. -/
theorem casos_primeiro_da_tabela_witness :
    resolverLinha latin1
      (carregarCasosEspecificos latin1
        [(js "b", .str (js "* A * B * C * D * E * F * G *")),
         (js "1", .str (js "* H * I * J * K * L * M * N *"))])
      [] 7 [(js "Exercício", .num 2025), (HISTORICO, .str (js "b 1"))]
      = canonicalizarChaveS (js "* H * I * J * K * L * M * N *") :=
  casos_primeiro_da_tabela latin1
    [(js "b", .str (js "* A * B * C * D * E * F * G *")),
     (js "1", .str (js "* H * I * J * K * L * M * N *"))]
    [] 7 [(js "Exercício", .num 2025), (HISTORICO, .str (js "b 1"))]
    [] [(js "b", js "* A * B * C * D * E * F * G *")]
    (js "1") (js "* H * I * J * K * L * M * N *")
    (by decide) (by decide) (by decide) (by decide) (by decide) (by decide) (by decide)

/-! ## Part counts of resolved keys -/

theorem mem_insertIndex {α : Type} (i : Nat) (k : Str) (v : α) (o : Obj α) :
    ∀ e ∈ Obj.insertIndex i k v o, e = (k, v) ∨ e ∈ o := by
  induction o with
  | nil => intro e he; simp [Obj.insertIndex] at he; exact Or.inl he
  | cons x o ih =>
    intro e he
    unfold Obj.insertIndex at he
    split at he
    · split at he
      · rcases List.mem_cons.mp he with h | h
        · exact Or.inr (h ▸ List.mem_cons_self _ _)
        · rcases ih e h with h | h
          · exact Or.inl h
          · exact Or.inr (List.mem_cons_of_mem _ h)
      · rcases List.mem_cons.mp he with h | h
        · exact Or.inl h
        · exact Or.inr h
    · rcases List.mem_cons.mp he with h | h
      · exact Or.inl h
      · exact Or.inr h

theorem mem_set {α : Type} (o : Obj α) (k : Str) (v : α) :
    ∀ e ∈ Obj.set o k v, e = (k, v) ∨ e ∈ o := by
  intro e he
  unfold Obj.set at he
  split at he
  · exact Or.inr he
  · unfold Obj.define at he
    split at he
    · obtain ⟨x, hx, hxe⟩ := List.mem_map.mp he
      by_cases h : x.1 = k
      · rw [if_pos h] at hxe; exact Or.inl hxe.symm
      · rw [if_neg h] at hxe; exact Or.inr (hxe ▸ hx)
    · split at he
      · exact mem_insertIndex _ k v o e he
      · rcases List.mem_append.mp he with h | h
        · exact Or.inr h
        · exact Or.inl (List.mem_singleton.mp h)

/-- Every key of the loaded override table is canonicalised. -/
theorem casos_canonicos (U : Unicode) (declarados : List (Str × Val)) :
    ∀ e ∈ carregarCasosEspecificos U declarados, ∃ x, e.2 = canonicalizarChaveS x := by
  unfold carregarCasosEspecificos
  generalize jsonObject declarados = entradas
  suffices h : ∀ (acc : Obj Str), (∀ e ∈ acc, ∃ x, e.2 = canonicalizarChaveS x) →
      ∀ e ∈ entradas.foldl
        (fun out e =>
          let chaveSaida := canonicalizarChaveS (corrigirTermosCorrompidos e.2.toStr)
          let kCorrigido := corrigirTermosCorrompidos e.1
          let kNorm := normalizeSimple U (.str kCorrigido)
          Obj.set out kNorm chaveSaida) acc, ∃ x, e.2 = canonicalizarChaveS x from
    h [] (fun e he => by simp at he)
  induction entradas with
  | nil => intro acc hacc; exact hacc
  | cons d ds ih =>
    intro acc hacc
    rw [List.foldl_cons]
    apply ih
    intro e he
    rcases mem_set _ _ _ e he with h | h
    · exact ⟨_, by rw [h]⟩
    · exact hacc e h

theorem buscarCaso_some (histComp histPipeComp : Str) (partes : Nat) (casos : Obj Str)
    (chave : Str) (h : buscarCaso histComp histPipeComp partes casos = some chave) :
    ∃ e ∈ casos, e.2 = chave ∧ casoAplica histComp histPipeComp partes e = true := by
  induction casos with
  | nil => simp [buscarCaso] at h
  | cons e rest ih =>
    unfold buscarCaso at h
    split at h
    · rename_i hap
      exact ⟨e, List.mem_cons_self _ _, Option.some.inj h, hap⟩
    · obtain ⟨e2, hm, h2⟩ := ih h
      exact ⟨e2, List.mem_cons_of_mem _ hm, h2⟩

theorem buscarJanela_some (base pipeBase : List Str) (n : Nat) (partes : List Str) (j : Str)
    (h : buscarJanela base pipeBase n partes = some j) :
    j ∈ base ∨ ∃ t ∈ pipeBase, j = canonicalizarChaveS (replaceUnit PIPE [STAR] t) := by
  induction partes with
  | nil => simp [buscarJanela] at h
  | cons p ps ih =>
    unfold buscarJanela at h
    split at h
    · dsimp only at h
      split at h
      · rename_i hm
        exact Or.inl (Option.some.inj h ▸ hm)
      · split at h
        · rename_i hm
          exact Or.inr ⟨_, hm, (Option.some.inj h).symm⟩
        · exact ih h
    · simp at h

theorem mem_chavesPipeBase (U : Unicode) (chavesNorm : List Str) (partesChave : Nat)
    (row : Obj Val) (t : Str) (h : t ∈ chavesPipeBase U chavesNorm partesChave row) :
    ∃ c ∈ chavesBase U chavesNorm partesChave row, t = paraPipe c := by
  unfold chavesPipeBase at h
  obtain ⟨c, hc, rfl⟩ := List.mem_map.mp (List.mem_filter.mp h).1
  exact ⟨c, hc, rfl⟩

theorem canonica_ne_missing (x : Str) (h : 0 < contarPartesChaveS (canonicalizarChaveS x)) :
    canonicalizarChaveS x ≠ MISSING_ID := by
  rw [(canonica_forma x h).2.1, serializar_eq _ (canonica_forma x h).1]
  intro e
  have h1 : MISSING_ID.head? = some 78 := by decide
  have h2 : (STAR :: corpo (partesDe x)).head? = MISSING_ID.head? := by rw [e]
  rw [h1] at h2
  exact absurd (Option.some.inj h2) (by decide)

theorem filter_some_cases (o : Option Str) (k : Str)
    (h : o.filter (fun c => !c.isEmpty) = some k) : o = some k := by
  cases o with
  | none => simp [Option.filter] at h
  | some v =>
    simp only [Option.filter] at h
    split at h
    · exact h
    · simp at h

/-- The stages of the row loop: every result is the sentinel, a catalog key
found by containment or by a window, the key read back from a matched pipe
form, or the key of an override entry that passes the test. -/
theorem resolver_casos (U : Unicode) (casos : Obj Str) (chavesNorm : List Str)
    (partesChave : Nat) (row : Obj Val) :
    resolverLinha U casos chavesNorm partesChave row = MISSING_ID ∨
    (∃ k ∈ chavesBase U chavesNorm partesChave row,
      resolverLinha U casos chavesNorm partesChave row = canonicalizarChaveS k) ∨
    (∃ c ∈ chavesBase U chavesNorm partesChave row,
      resolverLinha U casos chavesNorm partesChave row
        = canonicalizarChaveS (replaceUnit PIPE [STAR] (paraPipe c))) ∨
    (∃ e ∈ casos, contarPartesChaveS e.2 = partesLinha U partesChave row ∧
      resolverLinha U casos chavesNorm partesChave row = canonicalizarChaveS e.2) ∨
    (∃ c ∈ chavesBase U chavesNorm partesChave row,
      resolverLinha U casos chavesNorm partesChave row
        = canonicalizarChaveS (canonicalizarChaveS (replaceUnit PIPE [STAR] (paraPipe c)))) := by
  unfold resolverLinha
  dsimp only
  split
  · exact Or.inl rfl
  · split
    · rename_i k hk
      have hf := filter_some_cases _ k hk
      exact Or.inr (Or.inl ⟨k, List.mem_of_find?_eq_some hf, rfl⟩)
    · split
      · rename_i hm
        obtain ⟨c, hc, hpc⟩ := mem_chavesPipeBase U chavesNorm partesChave row _ hm
        exact Or.inr (Or.inr (Or.inl ⟨c, hc, by rw [hpc]⟩))
      · split
        · rename_i k hk
          have hf := filter_some_cases _ k hk
          obtain ⟨e, he, hek, hap⟩ := buscarCaso_some _ _ _ _ _ hf
          refine Or.inr (Or.inr (Or.inr (Or.inl ⟨e, he, ?_, by rw [hek]⟩)))
          unfold casoAplica at hap
          simp only [Bool.and_eq_true, decide_eq_true_eq] at hap
          exact hap.2
        · split
          · rename_i hj
            exact Or.inl hj
          · cases hw : buscarJanela (chavesBase U chavesNorm partesChave row)
                (chavesPipeBase U chavesNorm partesChave row)
                (max 1 (partesLinha U partesChave row)) (partesDe (histCanon row)) with
            | none =>
              rename_i hj
              rw [hw] at hj
              exact absurd rfl hj
            | some j =>
              simp only [Option.getD_some]
              rcases buscarJanela_some _ _ _ _ j hw with h | ⟨t, ht, hjt⟩
              · exact Or.inr (Or.inl ⟨j, h, rfl⟩)
              · obtain ⟨c, hc, hpc⟩ := mem_chavesPipeBase U chavesNorm partesChave row _ ht
                exact Or.inr (Or.inr (Or.inr (Or.inr ⟨c, hc, by rw [hjt, hpc]⟩)))

/-- A key of the base of a row, in a catalog of canonicalised keys. -/
theorem base_canonica (U : Unicode) (chaves : List Str) (partesChave : Nat) (row : Obj Val)
    (hpos : 0 < partesLinha U partesChave row) (c : Str)
    (hc : c ∈ chavesBase U (chaves.map canonicalizarChaveS) partesChave row) :
    canonicalizarChaveS c = c ∧ contarPartesChaveS c = partesLinha U partesChave row ∧
    Delim STAR c ∧ (partesDe c).length = partesLinha U partesChave row := by
  obtain ⟨hm, hcount⟩ := mem_chavesBase U _ partesChave row c hc
  obtain ⟨x, _, rfl⟩ := List.mem_map.mp hm
  have hf := canonica_forma x (by rw [hcount]; exact hpos)
  refine ⟨canonicalizar_idem x, hcount, ?_, ?_⟩
  · rw [hf.2.1]; exact delim_serializar _
  · rw [partesDe_canonicalizar, ← hf.2.2, hcount]

/-- The key read back from the pipe form of a catalog key without pipes. -/
theorem pipe_resultado (c : Str) (n : Nat) (hn : 0 < n) (hd : Delim STAR c)
    (hlen : (partesDe c).length = n) (hp : PIPE ∉ c) :
    contarPartesChaveS (canonicalizarChaveS (replaceUnit PIPE [STAR] (paraPipe c))) = n := by
  have h := pipe_contagem c hd hp
  rw [hlen] at h
  have hne : partesDe (replaceUnit PIPE [STAR] (paraPipe c)) ≠ [] := by
    intro e; rw [e] at h; simp at h; omega
  rw [contar_canonicalizar _ hne, h]

/-- Every resolved key has the part count of its row, in a catalog whose
keys of that part count hold no pipe. -/
theorem resolver_contagem (U : Unicode) (declarados : List (Str × Val)) (chaves : List Str)
    (partesChave : Nat) (row : Obj Val)
    (hpos : 0 < partesLinha U partesChave row)
    (hpipe : ∀ c ∈ chavesBase U (chaves.map canonicalizarChaveS) partesChave row, PIPE ∉ c)
    (hres : resolverLinha U (carregarCasosEspecificos U declarados)
      (chaves.map canonicalizarChaveS) partesChave row ≠ MISSING_ID) :
    contarPartesChaveS (resolverLinha U (carregarCasosEspecificos U declarados)
      (chaves.map canonicalizarChaveS) partesChave row) = partesLinha U partesChave row := by
  rcases resolver_casos U (carregarCasosEspecificos U declarados)
    (chaves.map canonicalizarChaveS) partesChave row with h | ⟨k, hk, h⟩ | ⟨c, hc, h⟩ |
    ⟨e, he, hcount, h⟩ | ⟨c, hc, h⟩
  · exact absurd h hres
  · have hb := base_canonica U chaves partesChave row hpos k hk
    rw [h, hb.1, hb.2.1]
  · have hb := base_canonica U chaves partesChave row hpos c hc
    rw [h]
    exact pipe_resultado c _ hpos hb.2.2.1 hb.2.2.2 (hpipe c hc)
  · obtain ⟨x, hx⟩ := casos_canonicos U declarados e he
    rw [h, hx, canonicalizar_idem, ← hx, hcount]
  · have hb := base_canonica U chaves partesChave row hpos c hc
    rw [h, canonicalizar_idem]
    exact pipe_resultado c _ hpos hb.2.2.1 hb.2.2.2 (hpipe c hc)

/-- C2, amended. For a row whose own year, read from its exercise column,
is 2026 or later, every key `identificarChavePlanejamento` resolves (every
result other than the sentinel) has exactly 8 parts, whichever stage produced
it, provided no catalog key of 8 parts contains the pipe character. -/
theorem linha_2026_resolve_8_partes (U : Unicode) (declarados : List (Str × Val))
    (chaves : List Str) (partesChave : Nat) (row : Obj Val) (y : Nat)
    (hy : obterExercicioLinha U row = some y) (h2026 : 2026 ≤ y)
    (hpipe : ∀ c ∈ chaves.map canonicalizarChaveS, contarPartesChaveS c = 8 → PIPE ∉ c)
    (hres : resolverLinha U (carregarCasosEspecificos U declarados)
      (chaves.map canonicalizarChaveS) partesChave row ≠ MISSING_ID) :
    contarPartesChaveS (resolverLinha U (carregarCasosEspecificos U declarados)
      (chaves.map canonicalizarChaveS) partesChave row) = 8 := by
  have hp : partesLinha U partesChave row = 8 := by
    unfold partesLinha
    rw [hy]
    simp only [ge_iff_le, h2026, if_true]
  have := resolver_contagem U declarados chaves partesChave row (by rw [hp]; decide)
    (fun c hc => by
      have hm := mem_chavesBase U _ partesChave row c hc
      exact hpipe c hm.1 (by rw [hm.2, hp]))
    hres
  rw [this, hp]

/-- C2 amended, on a row of 2026 whose narration holds an 8-part catalog key
while the batch default is 7. -/
theorem linha_2026_resolve_8_partes_witness :
    contarPartesChaveS (resolverLinha latin1 (carregarCasosEspecificos latin1 [])
      ([js "* A * B * C * D * E * F * G * H *"].map canonicalizarChaveS) 7
      [(js "Exercício", .num 2026),
       (HISTORICO, .str (js "PAGAMENTO * A * B * C * D * E * F * G * H * REF"))]) = 8 :=
  linha_2026_resolve_8_partes latin1 [] [js "* A * B * C * D * E * F * G * H *"] 7
    [(js "Exercício", .num 2026),
     (HISTORICO, .str (js "PAGAMENTO * A * B * C * D * E * F * G * H * REF"))]
    2026 (by decide) (by decide) (by decide) (by decide)

theorem corpo_append (a b : List Str) : corpo (a ++ b) = corpo a ++ corpo b := by
  simp [corpo]

theorem serializar_fim (a : List Str) : ∃ ini, STAR :: corpo a = ini ++ [STAR] := by
  rcases List.eq_nil_or_concat a with h | ⟨a2, p, h⟩
  · exact ⟨[], by rw [h]; rfl⟩
  · refine ⟨STAR :: (corpo a2 ++ SP :: (p ++ [SP])), ?_⟩
    rw [h, List.concat_eq_append, corpo_append]
    simp [corpo]

/-- A contiguous run of the parts of a serialised key serialises to a
substring of the key. -/
theorem serializar_infix (w ps : List Str) (hw : w ≠ []) (h : w <:+: ps) :
    serializar w <:+: serializar ps := by
  obtain ⟨a, b, hab⟩ := h
  have hps : ps ≠ [] := by
    intro e; rw [e] at hab
    simp at hab
    exact hw hab.2.1
  rw [serializar_eq w hw, serializar_eq ps hps, ← hab, corpo_append, corpo_append]
  obtain ⟨ini, hini⟩ := serializar_fim a
  refine ⟨ini, corpo b, ?_⟩
  have : STAR :: (corpo a ++ corpo w ++ corpo b) = (STAR :: corpo a) ++ corpo w ++ corpo b := by
    simp
  rw [this, hini]
  simp

/-- C6, amended. Key comparison is exact: when the narration of a row is not
the sentinel and its canonical token sequence contains the parts of a catalog
key `K` of the expected part count, unchanged, as a contiguous run, the row
resolves to a catalog key of that part count that occurs verbatim in the
canonical narration, and to `K` itself when no key listed before `K` occurs
in it. -/
theorem comparacao_exata (U : Unicode) (casos : Obj Str) (chaves : List Str)
    (partesChave : Nat) (row : Obj Val) (K : Str)
    (hp : 0 < partesChave)
    (hh : historicoDe row ≠ .str MISSING_INFO)
    (hK : K ∈ chavesBase U (chaves.map canonicalizarChaveS) partesChave row)
    (hwin : partesDe K <:+: partesDe (histCanon row)) :
    resolverLinha U casos (chaves.map canonicalizarChaveS) partesChave row ≠ MISSING_ID ∧
    (∃ k ∈ chavesBase U (chaves.map canonicalizarChaveS) partesChave row,
      includes (histCanon row) k = true ∧
      resolverLinha U casos (chaves.map canonicalizarChaveS) partesChave row = k) ∧
    (∀ pre post, chavesBase U (chaves.map canonicalizarChaveS) partesChave row
        = pre ++ K :: post →
      (∀ x ∈ pre, includes (histCanon row) x = false) →
      resolverLinha U casos (chaves.map canonicalizarChaveS) partesChave row = K) := by
  have hpos := partesLinha_pos U partesChave row hp
  have hb := base_canonica U chaves partesChave row hpos K hK
  obtain ⟨x, _, hx⟩ := List.mem_map.mp (mem_chavesBase U _ partesChave row K hK).1
  have hKpos : 0 < contarPartesChaveS (canonicalizarChaveS x) := by
    rw [hx, hb.2.1]; exact hpos
  have hKne : partesDe K ≠ [] := by
    rw [← hx, partesDe_canonicalizar]; exact (canonica_forma x hKpos).1
  have hKser : K = serializar (partesDe K) := by
    rw [← hx, partesDe_canonicalizar]; exact (canonica_forma x hKpos).2.1
  have hHne : partesDe (histCanon row) ≠ [] := by
    intro e
    rw [e] at hwin
    exact hKne (List.eq_nil_of_infix_nil hwin)
  have hHser : histCanon row = serializar (partesDe (histCanon row)) := by
    have h1 : partesDe (limparHistorico (historicoDe row)) ≠ [] := by
      rw [← partesDe_canonicalizar]; exact hHne
    have hemp : ¬ (partesDe (limparHistorico (historicoDe row))).isEmpty = true :=
      fun e => h1 (List.isEmpty_iff.mp e)
    conv_lhs => rw [histCanon, canonicalizar_def, if_neg hemp]
    rw [histCanon, partesDe_canonicalizar]
  have hinc : includes (histCanon row) K = true := by
    unfold includes
    rw [decide_eq_true_eq, hHser]
    rw [hKser]
    exact serializar_infix _ _ hKne hwin
  have hsome : ∃ k, extrairChaveValidaDoHistorico (histCanon row)
      (chavesBase U (chaves.map canonicalizarChaveS) partesChave row) = some k := by
    cases hf : extrairChaveValidaDoHistorico (histCanon row)
        (chavesBase U (chaves.map canonicalizarChaveS) partesChave row) with
    | some k => exact ⟨k, rfl⟩
    | none =>
      unfold extrairChaveValidaDoHistorico at hf
      have := List.find?_eq_none.mp hf K hK
      exact absurd hinc this
  obtain ⟨k, hk⟩ := hsome
  have hkm : k ∈ chavesBase U (chaves.map canonicalizarChaveS) partesChave row :=
    List.mem_of_find?_eq_some hk
  have hkb := base_canonica U chaves partesChave row hpos k hkm
  have hkne : k ≠ [] := by
    intro e
    have := hkb.2.1
    rw [e, contar_vazio] at this
    omega
  have hres := resolver_direta U casos _ partesChave row k hh hk hkne
  rw [hkb.1] at hres
  refine ⟨?_, ⟨k, hkm, ?_, hres⟩, ?_⟩
  · rw [hres]
    obtain ⟨x2, _, hx2⟩ := List.mem_map.mp (mem_chavesBase U _ partesChave row k hkm).1
    rw [← hx2]
    exact canonica_ne_missing x2 (by rw [hx2, hkb.2.1]; exact hpos)
  · have := List.find?_some hk
    simpa using this
  · intro pre post hsplit hpre
    have hK2 : extrairChaveValidaDoHistorico (histCanon row)
        (chavesBase U (chaves.map canonicalizarChaveS) partesChave row) = some K := by
      unfold extrairChaveValidaDoHistorico
      rw [hsplit]
      exact find_primeiro _ pre post K hpre hinc
    rw [hk] at hK2
    rw [hres, Option.some.inj hK2]

/-- C6 amended, on a narration that holds the catalog key in its own
spelling between other tokens. -/
theorem comparacao_exata_witness :
    resolverLinha latin1 [] ([js "* A * B * C * D * E * F * G *"].map canonicalizarChaveS) 7
      [(js "Exercício", .num 2025),
       (HISTORICO, .str (js "pagamento * A * B * C * D * E * F * G * ref"))]
      = js "* A * B * C * D * E * F * G *" :=
  (comparacao_exata latin1 [] [js "* A * B * C * D * E * F * G *"] 7
    [(js "Exercício", .num 2025),
     (HISTORICO, .str (js "pagamento * A * B * C * D * E * F * G * ref"))]
    (js "* A * B * C * D * E * F * G *") (by decide) (by decide) (by decide) (by decide)).2.2
    [] [] (by decide) (by decide)

/-! ## Completion of a write run -/

/-- Records that do not fill the pending batch are only appended to it. -/
theorem gravarLoopNob_pendente {ρ : Type} (cancel : Nat → Bool) (sink : Nat → Option Str)
    (ys : List ρ) :
    ∀ (xs : List ρ) (st : EscritaNob ρ), st.batch.length + xs.length < BATCH_SIZE →
      gravarLoopNob cancel sink (xs ++ ys) st
        = gravarLoopNob cancel sink ys { st with batch := st.batch ++ xs } := by
  intro xs
  induction xs with
  | nil => intro st _; simp
  | cons x xs ih =>
    intro st h
    have hlen : (st.batch ++ [x]).length = st.batch.length + 1 := by simp
    have hlt : ¬ BATCH_SIZE ≤ (st.batch ++ [x]).length := by
      rw [hlen]; simp only [List.length_cons] at h; omega
    have hnext : ({ st with batch := st.batch ++ [x] } : EscritaNob ρ).batch.length + xs.length
        < BATCH_SIZE := by
      show (st.batch ++ [x]).length + xs.length < BATCH_SIZE
      rw [hlen]; simp only [List.length_cons] at h; omega
    show gravarLoopNob cancel sink (x :: (xs ++ ys)) st = _
    rw [gravarLoopNob]
    simp only [hlt, if_false]
    rw [ih _ hnext]
    simp [List.append_assoc]

/-- A run of `processNob` over exactly one full batch: the batch is written,
the only status update is the one of the full batch, and the run completes. -/
theorem gravarRegistrosNob_lote_exato {ρ : Type} (cancel : Nat → Bool)
    (sink : Nat → Option Str) (payloads : List ρ) (hlen : payloads.length = BATCH_SIZE)
    (hc : cancel 0 = false) (hs : sink 0 = none) :
    (gravarRegistrosNob cancel sink payloads).resultado = .ok BATCH_SIZE ∧
    (gravarRegistrosNob cancel sink payloads).status = [.mensagem BATCH_SIZE] ∧
    (gravarRegistrosNob cancel sink payloads).gravados = [payloads] := by
  rcases List.eq_nil_or_concat payloads with h0 | ⟨xs, x, hx⟩
  · rw [h0] at hlen; exact absurd hlen (by simp [BATCH_SIZE])
  · have hxs : xs.length + 1 = BATCH_SIZE := by
      rw [hx] at hlen; simpa using hlen
    have h := gravarLoopNob_pendente cancel sink [x] xs
      { batch := [], totalInserted := 0, gravados := [], status := [] }
      (by show 0 + xs.length < BATCH_SIZE; omega)
    have hl : (xs ++ [x]).length = BATCH_SIZE := by
      simp only [List.length_append, List.length_singleton]; exact hxs
    have hloop : gravarLoopNob cancel sink payloads
        { batch := [], totalInserted := 0, gravados := [], status := [] }
        = ({ batch := [], totalInserted := BATCH_SIZE,
             gravados := [payloads], status := [.mensagem BATCH_SIZE] }, none) := by
      rw [hx, List.concat_eq_append, h, gravarLoopNob]
      simp only [List.length_nil, hc, Bool.false_eq_true, if_false, hs,
        gravarLoopNob, List.nil_append, Nat.zero_add, hl, le_refl, if_true]
    simp only [gravarRegistrosNob, hloop, List.isEmpty_nil, Bool.not_true, Bool.false_eq_true,
      if_false, and_self]

/-- C11. A write run of `processEmp` over an empty record list completes
with total 0 and has issued no status update, and a write run of `processNob`
over exactly 1000 records (or none) completes having issued only the update
of the full batch, which carries no `progress` field: in neither run is
progress set to 100. -/
theorem conclusao_sem_progresso_100 :
    (gravarRegistros (fun _ => false) (fun _ => none) ([] : List Nat)).resultado = .ok 0 ∧
    (gravarRegistros (fun _ => false) (fun _ => none) ([] : List Nat)).status = [] ∧
    (gravarRegistrosNob (fun _ => false) (fun _ => none)
      (List.replicate 1000 (0 : Nat))).resultado = .ok 1000 ∧
    (gravarRegistrosNob (fun _ => false) (fun _ => none)
      (List.replicate 1000 (0 : Nat))).status = [.mensagem 1000] ∧
    ProgressoNob.progress (.mensagem 1000) = none ∧
    (gravarRegistrosNob (fun _ => false) (fun _ => none) ([] : List Nat)).resultado = .ok 0 ∧
    (gravarRegistrosNob (fun _ => false) (fun _ => none) ([] : List Nat)).status = [] := by
  have h := gravarRegistrosNob_lote_exato (fun _ => false) (fun _ => none)
    (List.replicate 1000 (0 : Nat)) (List.length_replicate 1000 0) rfl rfl
  exact ⟨by decide, by decide, h.1, h.2.1, rfl, by decide, by decide⟩

/-! ## Surrogates -/

theorem isHigh_of_isLow (c : Nat) (h : isLow c = true) : isHigh c = false := by
  simp only [isLow, isHigh, Bool.and_eq_true, decide_eq_true_eq, Bool.and_eq_false_imp] at *
  intro _
  simp only [decide_eq_false_iff_not]
  omega

theorem isSpace_of_isHigh (c : Nat) (h : isHigh c = true) : isSpace c = false := by
  simp only [isHigh, Bool.and_eq_true, decide_eq_true_eq] at h
  simp only [isSpace, Bool.or_eq_false_iff, decide_eq_false_iff_not, Bool.and_eq_false_imp,
    decide_eq_true_eq]
  refine ⟨⟨⟨⟨⟨⟨⟨⟨⟨⟨⟨⟨⟨⟨?_, ?_⟩, ?_⟩, ?_⟩, ?_⟩, ?_⟩, ?_⟩, ?_⟩, ?_⟩, ?_⟩, ?_⟩, ?_⟩, ?_⟩, ?_⟩, ?_⟩ <;>
    omega

theorem isSpace_of_isLow (c : Nat) (h : isLow c = true) : isSpace c = false := by
  simp only [isLow, Bool.and_eq_true, decide_eq_true_eq] at h
  simp only [isSpace, Bool.or_eq_false_iff, decide_eq_false_iff_not, Bool.and_eq_false_imp,
    decide_eq_true_eq]
  refine ⟨⟨⟨⟨⟨⟨⟨⟨⟨⟨⟨⟨⟨⟨?_, ?_⟩, ?_⟩, ?_⟩, ?_⟩, ?_⟩, ?_⟩, ?_⟩, ?_⟩, ?_⟩, ?_⟩, ?_⟩, ?_⟩, ?_⟩, ?_⟩ <;>
    omega

/-- Well-paired text is left unchanged by the removal of unpaired surrogates. -/
theorem strip_pares (s : Str) (h : Pares s) : stripLoneSurrogates false s = s := by
  induction h with
  | nil => rfl
  | unidade c t hc hl _ ih =>
    simp only [stripLoneSurrogates, hc, hl, Bool.false_eq_true, if_false, if_true, ih]
  | par h l t hh hl _ ih =>
    have hlh : isHigh l = false := isHigh_of_isLow l hl
    simp only [stripLoneSurrogates, hh, hl, hlh, Bool.false_eq_true, if_false, if_true, ih]

/-- After a high surrogate that was dropped, the scan goes on as from the
start: the text that follows does not begin with a low surrogate. -/
theorem strip_true_eq (s : Str) (h : ∀ d t, s = d :: t → isLow d = false) :
    stripLoneSurrogates true s = stripLoneSurrogates false s := by
  cases s with
  | nil => rfl
  | cons d t =>
    have hd := h d t rfl
    simp only [stripLoneSurrogates, hd, Bool.false_eq_true, if_false]

/-- The removal of unpaired surrogates yields well-paired text. -/
theorem pares_strip (s : Str) : Pares (stripLoneSurrogates false s) := by
  suffices hsuf : ∀ (n : Nat) (s : Str), s.length = n → Pares (stripLoneSurrogates false s) from
    hsuf _ s rfl
  intro n
  induction n using Nat.strong_induction_on with
  | _ n ih =>
    intro s hn
    cases s with
    | nil => exact Pares.nil
    | cons c cs =>
      have hcs : cs.length < n := by rw [← hn]; simp
      by_cases hh : isHigh c = true
      · cases cs with
        | nil =>
          simp only [stripLoneSurrogates, hh, if_true, Bool.false_eq_true, if_false]
          exact Pares.nil
        | cons d t =>
          by_cases hd : isLow d = true
          · have hdh : isHigh d = false := isHigh_of_isLow d hd
            have ht : t.length < n := by rw [← hn]; simp; omega
            simp only [stripLoneSurrogates, hh, hd, hdh, if_true, Bool.false_eq_true, if_false]
            exact Pares.par c d _ hh hd (ih _ ht t rfl)
          · have hd0 : isLow d = false := by simpa using hd
            have h1 : stripLoneSurrogates false (c :: d :: t)
                = stripLoneSurrogates true (d :: t) := by
              simp only [stripLoneSurrogates, hh, hd0, if_true, Bool.false_eq_true, if_false]
            rw [h1, strip_true_eq]
            · exact ih _ hcs (d :: t) rfl
            · intro d1 t1 he
              cases he
              exact hd0
      · have hh0 : isHigh c = false := by simpa using hh
        by_cases hl : isLow c = true
        · have h1 : stripLoneSurrogates false (c :: cs) = stripLoneSurrogates false cs := by
            simp only [stripLoneSurrogates, hh0, hl, if_true, Bool.false_eq_true, if_false]
          rw [h1]
          exact ih _ hcs cs rfl
        · have hl0 : isLow c = false := by simpa using hl
          have h1 : stripLoneSurrogates false (c :: cs) = c :: stripLoneSurrogates false cs := by
            simp only [stripLoneSurrogates, hh0, hl0, if_true, Bool.false_eq_true, if_false]
          rw [h1]
          exact Pares.unidade c _ hh0 hl0 (ih _ hcs cs rfl)

theorem bemFormada_iff (s : Str) : BemFormada s ↔ Pares s := by
  constructor
  · intro h
    have := pares_strip s
    rw [h] at this
    exact this
  · exact strip_pares s

theorem bemFormada_strip (s : Str) : BemFormada (stripLoneSurrogates false s) :=
  (bemFormada_iff _).mpr (pares_strip s)

/-! ## Well-paired text under the string operations -/

theorem pares_append_simples (u v : Str) (hu : ∀ c ∈ u, isHigh c = false ∧ isLow c = false)
    (hv : Pares v) : Pares (u ++ v) := by
  induction u with
  | nil => exact hv
  | cons c t ih =>
    have hc := hu c (List.mem_cons_self _ _)
    exact Pares.unidade c _ hc.1 hc.2 (ih (fun x hx => hu x (List.mem_cons_of_mem _ hx)))

/-- A substitution that leaves surrogates alone and introduces none keeps
text well paired. -/
theorem pares_flatMap (f : Nat → Str)
    (hsur : ∀ c, isHigh c = true ∨ isLow c = true → f c = [c])
    (hout : ∀ c, isHigh c = false → isLow c = false →
      ∀ e ∈ f c, isHigh e = false ∧ isLow e = false)
    (s : Str) (h : Pares s) : Pares (s.flatMap f) := by
  induction h with
  | nil => exact Pares.nil
  | unidade c t hc hl _ ih =>
    rw [List.flatMap_cons]
    exact pares_append_simples _ _ (hout c hc hl) ih
  | par h l t hh hl _ ih =>
    rw [List.flatMap_cons, List.flatMap_cons, hsur h (Or.inl hh), hsur l (Or.inr hl)]
    exact Pares.par h l _ hh hl ih

theorem pares_replaceUnit (a b : Nat) (ha : isHigh a = false ∧ isLow a = false)
    (hb : isHigh b = false ∧ isLow b = false) (s : Str) (h : Pares s) :
    Pares (replaceUnit a [b] s) := by
  apply pares_flatMap _ _ _ s h
  · intro c hc
    have hca : c ≠ a := by
      rintro rfl
      rcases hc with hc | hc
      · rw [ha.1] at hc; cases hc
      · rw [ha.2] at hc; cases hc
    simp [hca]
  · intro c hc hl e he
    by_cases hca : c = a
    · simp only [hca, if_true, List.mem_singleton] at he
      rw [he]; exact hb
    · simp only [hca, if_false, List.mem_singleton] at he
      rw [he]; exact ⟨hc, hl⟩

theorem pares_filter (p : Nat → Bool) (hp : ∀ c, isHigh c = true ∨ isLow c = true → p c = true)
    (s : Str) (h : Pares s) : Pares (s.filter p) := by
  induction h with
  | nil => exact Pares.nil
  | unidade c t hc hl _ ih =>
    by_cases hpc : p c = true
    · rw [List.filter_cons_of_pos hpc]; exact Pares.unidade c _ hc hl ih
    · rw [List.filter_cons_of_neg hpc]; exact ih
  | par h l t hh hl _ ih =>
    rw [List.filter_cons_of_pos (hp h (Or.inl hh)), List.filter_cons_of_pos (hp l (Or.inr hl))]
    exact Pares.par h l _ hh hl ih

theorem pares_collapseWsAux (s : Str) (h : Pares s) :
    ∀ prev, Pares (collapseWsAux prev s) := by
  induction h with
  | nil => intro _; exact Pares.nil
  | unidade c t hc hl _ ih =>
    intro prev
    by_cases hs : isSpace c = true
    · cases prev with
      | true => simp only [collapseWsAux, hs, if_true]; exact ih true
      | false =>
        simp only [collapseWsAux, hs, if_true, Bool.false_eq_true, if_false]
        exact Pares.unidade SP _ (by decide) (by decide) (ih true)
    · simp only [collapseWsAux, hs, if_false]
      exact Pares.unidade c _ hc hl (ih false)
  | par h l t hh hl _ ih =>
    intro prev
    have h1 : isSpace h = false := isSpace_of_isHigh h hh
    have h2 : isSpace l = false := isSpace_of_isLow l hl
    simp only [collapseWsAux, h1, h2, Bool.false_eq_true, if_false]
    exact Pares.par h l _ hh hl (ih false)

theorem pares_dropWhile (s : Str) (h : Pares s) : Pares (s.dropWhile isSpace) := by
  induction h with
  | nil => exact Pares.nil
  | unidade c t hc hl ht ih =>
    by_cases hs : isSpace c = true
    · rw [List.dropWhile_cons_of_pos hs]; exact ih
    · rw [List.dropWhile_cons_of_neg hs]; exact Pares.unidade c t hc hl ht
  | par h l t hh hl ht _ =>
    have h1 : ¬ isSpace h = true := by rw [isSpace_of_isHigh h hh]; simp
    rw [List.dropWhile_cons_of_neg h1]
    exact Pares.par h l t hh hl ht

theorem rdropWhile_cons_of_pos (p : Nat → Bool) (c : Nat) (hc : p c = true) (t : Str) :
    (c :: t).rdropWhile p = if t.rdropWhile p = [] then [] else c :: t.rdropWhile p := by
  induction t using List.reverseRecOn with
  | nil => simp [List.rdropWhile, hc]
  | append_singleton t d ih =>
    rw [← List.cons_append]
    by_cases hd : p d = true
    · rw [List.rdropWhile_concat_pos _ _ _ hd, List.rdropWhile_concat_pos _ _ _ hd]
      exact ih
    · rw [List.rdropWhile_concat_neg _ _ _ hd, List.rdropWhile_concat_neg _ _ _ hd]
      simp

theorem pares_rdropWhile (s : Str) (h : Pares s) : Pares (s.rdropWhile isSpace) := by
  induction h with
  | nil => exact Pares.nil
  | unidade c t hc hl _ ih =>
    by_cases hs : isSpace c = true
    · rw [rdropWhile_cons_of_pos _ c hs]
      split
      · exact Pares.nil
      · exact Pares.unidade c _ hc hl ih
    · rw [rdropWhile_cons_of_neg _ c (by simpa using hs)]
      exact Pares.unidade c _ hc hl ih
  | par h l t hh hl _ ih =>
    rw [rdropWhile_cons_of_neg _ h (isSpace_of_isHigh h hh),
      rdropWhile_cons_of_neg _ l (isSpace_of_isLow l hl)]
    exact Pares.par h l _ hh hl ih

theorem pares_trim (s : Str) (h : Pares s) : Pares (trim s) :=
  pares_rdropWhile _ (pares_dropWhile s h)

/-! ## Collapsed white space -/

/-- In collapsed text every white-space unit is a space, no two of them are
adjacent, and after a white-space unit of the input none comes first. -/
theorem collapseWsAux_forma (s : Str) :
    ∀ prev, (∀ c ∈ collapseWsAux prev s, isSpace c = true → c = SP) ∧
      List.Chain' (fun a b => ¬ (isSpace a = true ∧ isSpace b = true)) (collapseWsAux prev s) ∧
      (prev = true → ∀ c ∈ (collapseWsAux prev s).head?, isSpace c = false) := by
  induction s with
  | nil => intro prev; simp [collapseWsAux]
  | cons c cs ih =>
    intro prev
    by_cases hs : isSpace c = true
    · cases prev with
      | true =>
        have hstep : collapseWsAux true (c :: cs) = collapseWsAux true cs := by
          simp only [collapseWsAux, hs, if_true]
        rw [hstep]
        exact ih true
      | false =>
        have hstep : collapseWsAux false (c :: cs) = SP :: collapseWsAux true cs := by
          simp only [collapseWsAux, hs, if_true, Bool.false_eq_true, if_false]
        rw [hstep]
        obtain ⟨h1, h2, h3⟩ := ih true
        refine ⟨?_, ?_, by simp⟩
        · intro x hx hxs
          rcases List.mem_cons.mp hx with rfl | hx
          · rfl
          · exact h1 x hx hxs
        · apply List.Chain'.cons' h2
          intro y hy
          have := h3 rfl y hy
          simp [this]
    · have hs0 : isSpace c = false := by simpa using hs
      have hstep : collapseWsAux prev (c :: cs) = c :: collapseWsAux false cs := by
        simp only [collapseWsAux, hs0, Bool.false_eq_true, if_false]
      rw [hstep]
      obtain ⟨h1, h2, _⟩ := ih false
      refine ⟨?_, ?_, ?_⟩
      · intro x hx hxs
        rcases List.mem_cons.mp hx with rfl | hx
        · rw [hs0] at hxs; cases hxs
        · exact h1 x hx hxs
      · apply List.Chain'.cons' h2
        intro y _
        simp [hs0]
      · intro _ x hx
        simp only [List.head?_cons, Option.mem_def, Option.some.injEq] at hx
        rw [← hx]; exact hs0

/-- Text of that form is left unchanged by collapsing. -/
theorem collapseWsAux_fixo (s : Str) (h1 : ∀ c ∈ s, isSpace c = true → c = SP)
    (h2 : List.Chain' (fun a b => ¬ (isSpace a = true ∧ isSpace b = true)) s) :
    collapseWsAux false s = s ∧
    ((∀ c ∈ s.head?, isSpace c = false) → collapseWsAux true s = s) := by
  induction s with
  | nil => simp [collapseWsAux]
  | cons c cs ih =>
    have hcs1 : ∀ x ∈ cs, isSpace x = true → x = SP :=
      fun x hx => h1 x (List.mem_cons_of_mem _ hx)
    have hcs2 := h2.tail
    obtain ⟨ihf, iht⟩ := ih hcs1 hcs2
    by_cases hs : isSpace c = true
    · have hc : c = SP := h1 c (List.mem_cons_self _ _) hs
      have hhead : ∀ x ∈ cs.head?, isSpace x = false := by
        intro x hx
        have hrel := (List.chain'_cons'.mp h2).1 x hx
        simp only [hs, true_and, Bool.not_eq_true] at hrel
        exact hrel
      refine ⟨?_, ?_⟩
      · simp only [collapseWsAux, hs, if_true, Bool.false_eq_true, if_false, iht hhead]
        rw [hc]
      · intro hh
        have := hh c (by simp)
        rw [hs] at this; cases this
    · have hs0 : isSpace c = false := by simpa using hs
      simp only [collapseWsAux, hs0, Bool.false_eq_true, if_false, ihf, and_self, implies_true]

theorem collapseWs_idem (s : Str) : collapseWs (collapseWs s) = collapseWs s := by
  obtain ⟨h1, h2, _⟩ := collapseWsAux_forma s false
  exact (collapseWsAux_fixo _ h1 h2).1

theorem trim_contida (s : Str) : trim s <:+: s := by
  unfold trim
  have h1 : (s.dropWhile isSpace).rdropWhile isSpace <+: s.dropWhile isSpace :=
    List.rdropWhile_prefix _ _
  have h2 : s.dropWhile isSpace <:+ s := List.dropWhile_suffix _
  exact List.IsInfix.trans h1.isInfix h2.isInfix

theorem trim_idem (s : Str) : trim (trim s) = trim s := by
  by_cases h : trim s = []
  · rw [h]; rfl
  · exact trim_of_aparada _ (trim_aparada s h)

/-- Once collapsed and trimmed, text is compact. -/
theorem compacta_trim_collapseWs (s : Str) : Compacta (trim (collapseWs s)) := by
  obtain ⟨h1, h2, _⟩ := collapseWsAux_forma s false
  have hin : trim (collapseWs s) <:+: collapseWsAux false s := trim_contida _
  have h1t : ∀ c ∈ trim (collapseWs s), isSpace c = true → c = SP :=
    fun c hc => h1 c (hin.subset hc)
  have h2t := h2.infix hin
  unfold Compacta
  show trim (collapseWsAux false (trim (collapseWs s))) = _
  rw [(collapseWsAux_fixo _ h1t h2t).1, trim_idem]

theorem replaceUnit_of_not_mem (a : Nat) (r : Str) (s : Str) (h : a ∉ s) :
    replaceUnit a r s = s := by
  unfold replaceUnit
  induction s with
  | nil => rfl
  | cons c cs ih =>
    simp only [List.mem_cons, not_or] at h
    have hc : c ≠ a := fun e => h.1 e.symm
    rw [List.flatMap_cons, ih h.2]
    simp only [hc, if_false, List.singleton_append]

/-- Compact text holds no no-break space. -/
theorem compacta_replaceUnit (s : Str) (h : Compacta s) : replaceUnit 0xA0 [SP] s = s := by
  obtain ⟨h1, _, _⟩ := collapseWsAux_forma s false
  have hmem : (0xA0 : Nat) ∉ s := by
    intro hm
    rw [← h] at hm
    have := h1 _ ((trim_contida _).subset hm) (by decide)
    exact absurd this (by decide)
  exact replaceUnit_of_not_mem _ _ _ hmem

/-! ## Idempotence of normalizeSimple -/

theorem bemFormada_sanitize (x : Val) : BemFormada (sanitizeString x) := by
  cases x with
  | undefined => exact (bemFormada_iff _).mpr Pares.nil
  | null => exact (bemFormada_iff _).mpr Pares.nil
  | bool b => exact bemFormada_strip _
  | num n => exact bemFormada_strip _
  | str s => exact bemFormada_strip _
  | obj r => exact bemFormada_strip _

/-- The result of `normalizeSimple` is stable, compact and in lower case. -/
theorem normalizeSimple_forma (U : Unicode) (hU : U.Regular) (x : Val) :
    Estavel U (normalizeSimple U x) ∧ Compacta (normalizeSimple U x) ∧
    U.toLowerCase (normalizeSimple U x) = normalizeSimple U x := by
  have h0 : BemFormada (replaceUnit 0xA0 [SP] (sanitizeString x)) :=
    (bemFormada_iff _).mpr
      (pares_replaceUnit _ _ (by decide) (by decide) _
        ((bemFormada_iff _).mp (bemFormada_sanitize x)))
  have h1 := hU.decompor _ h0
  have h2 := hU.espacos _ h1
  have h3 : Estavel U (trim (collapseWs
      (U.stripMarks (U.nfkd (replaceUnit 0xA0 [SP] (sanitizeString x)))))) :=
    ⟨(bemFormada_iff _).mpr
        (pares_trim _ (pares_collapseWsAux _ ((bemFormada_iff _).mp h1.1) false)),
      h2.1, h2.2⟩
  exact ⟨hU.minusculas _ h3, hU.minusculas_espacos _ (compacta_trim_collapseWs _),
    hU.minusculas_idem _⟩

/-- C12. `normalizeSimple` is idempotent.  For Unicode tables with the
closure properties of `Unicode.Regular` and every value `x`, normalising the
result of `normalizeSimple(x)` again returns it unchanged. -/
theorem normalizeSimple_idempotente (U : Unicode) (hU : U.Regular) (x : Val) :
    normalizeSimple U (.str (normalizeSimple U x)) = normalizeSimple U x := by
  obtain ⟨⟨hb, hn, hm⟩, hc, hl⟩ := normalizeSimple_forma U hU x
  have hs : sanitizeString (.str (normalizeSimple U x)) = normalizeSimple U x := hb
  show U.toLowerCase (trim (collapseWs (U.stripMarks (U.nfkd
    (replaceUnit 0xA0 [SP] (sanitizeString (.str (normalizeSimple U x)))))))) = _
  rw [hs, compacta_replaceUnit _ hc, hn, hm, hc, hl]

/-! ## The Latin-1 tables -/

theorem latin1Nfkd_acima (c : Nat) (h : 256 ≤ c) : latin1Nfkd c = [c] := by
  have hne : ∀ k, k < 256 → (c = k ↔ False) := fun k hk =>
    ⟨fun e => by omega, fun f => f.elim⟩
  unfold latin1Nfkd
  simp only [hne, Nat.reduceLT, if_false]

theorem latin1Lower_acima (c : Nat) (h : 256 ≤ c) : latin1Lower c = c := by
  unfold latin1Lower
  have h1 : ¬ c ≤ 0x5A := by omega
  have h2 : ¬ c ≤ 0xDE := by omega
  simp [h1, h2]

set_option maxRecDepth 100000 in
theorem latin1Nfkd_abaixo : ∀ c < 256, ∀ e ∈ latin1Nfkd c,
    ((0x300 ≤ e ∧ e ≤ 0x36F) ∨ latin1Nfkd e = [e]) ∧ isHigh e = false ∧ isLow e = false := by
  decide

set_option maxRecDepth 100000 in
theorem latin1Lower_abaixo : ∀ c < 256,
    (latin1Nfkd c = [c] → latin1Nfkd (latin1Lower c) = [latin1Lower c]) ∧
    isSpace (latin1Lower c) = isSpace c ∧ latin1Lower c < 0x300 ∧
    (c = SP ↔ latin1Lower c = SP) ∧
    latin1Lower (latin1Lower c) = latin1Lower c := by
  decide

theorem latin1Nfkd_partes (c : Nat) : ∀ e ∈ latin1Nfkd c,
    ((0x300 ≤ e ∧ e ≤ 0x36F) ∨ latin1Nfkd e = [e]) ∧
    (isHigh c = false → isLow c = false → isHigh e = false ∧ isLow e = false) := by
  intro e he
  by_cases hc : c < 256
  · have h := latin1Nfkd_abaixo c hc e he
    exact ⟨h.1, fun _ _ => h.2⟩
  · have h256 : 256 ≤ c := by omega
    rw [latin1Nfkd_acima c h256, List.mem_singleton] at he
    subst he
    exact ⟨Or.inr (latin1Nfkd_acima e h256), fun h1 h2 => ⟨h1, h2⟩⟩

theorem surrogate_acima (c : Nat) (h : isHigh c = true ∨ isLow c = true) : 256 ≤ c := by
  simp only [isHigh, isLow, Bool.and_eq_true, decide_eq_true_eq] at h
  omega

theorem latin1Lower_fatos (c : Nat) :
    (latin1Nfkd c = [c] → latin1Nfkd (latin1Lower c) = [latin1Lower c]) ∧
    isSpace (latin1Lower c) = isSpace c ∧
    (c < 0x300 ∨ 0x36F < c → latin1Lower c < 0x300 ∨ 0x36F < latin1Lower c) ∧
    (c = SP ↔ latin1Lower c = SP) ∧
    latin1Lower (latin1Lower c) = latin1Lower c ∧
    (isHigh c = false → isLow c = false →
      isHigh (latin1Lower c) = false ∧ isLow (latin1Lower c) = false) := by
  by_cases hc : c < 256
  · obtain ⟨h1, h2, h3, h4, h5⟩ := latin1Lower_abaixo c hc
    refine ⟨h1, h2, fun _ => Or.inl h3, h4, h5, fun _ _ => ?_⟩
    have : latin1Lower c < 0x300 := h3
    simp only [isHigh, isLow, Bool.and_eq_false_imp, decide_eq_true_eq, decide_eq_false_iff_not]
    constructor <;> intro <;> omega
  · have h256 : 256 ≤ c := by omega
    rw [latin1Lower_acima c h256]
    exact ⟨id, rfl, id, Iff.rfl, latin1Lower_acima c h256, fun h1 h2 => ⟨h1, h2⟩⟩

theorem flatMap_fixo (d : Nat → Str) (l : Str) (h : ∀ e ∈ l, d e = [e]) : l.flatMap d = l := by
  induction l with
  | nil => rfl
  | cons c t ih =>
    rw [List.flatMap_cons, h c (List.mem_cons_self _ _),
      ih (fun e he => h e (List.mem_cons_of_mem _ he))]
    rfl

/-- A substitution without empty images that leaves a text unchanged leaves
each of its code units unchanged. -/
theorem fixo_flatMap (d : Nat → Str) (hd : ∀ c, d c ≠ []) (l : Str) (h : l.flatMap d = l) :
    ∀ e ∈ l, d e = [e] := by
  have hlen : ∀ t : Str, t.length ≤ (t.flatMap d).length := by
    intro t
    induction t with
    | nil => simp
    | cons c t ih =>
      rw [List.flatMap_cons, List.length_append, List.length_cons]
      have : 0 < (d c).length := List.length_pos.mpr (hd c)
      omega
  induction l with
  | nil => intro e he; cases he
  | cons c t ih =>
    rw [List.flatMap_cons] at h
    have hl := congrArg List.length h
    rw [List.length_append, List.length_cons] at hl
    have h1 : 0 < (d c).length := List.length_pos.mpr (hd c)
    have h2 := hlen t
    have hdc : (d c).length = 1 := by omega
    obtain ⟨a, ha⟩ := List.length_eq_one.mp hdc
    rw [ha, List.singleton_append] at h
    injection h with hac ht
    intro e he
    rcases List.mem_cons.mp he with rfl | he
    · rw [ha, hac]
    · exact ih ht e he

set_option maxRecDepth 100000 in
theorem latin1Nfkd_ne_nil_abaixo : ∀ c < 256, latin1Nfkd c ≠ [] := by
  decide

theorem latin1Nfkd_ne_nil (c : Nat) : latin1Nfkd c ≠ [] := by
  by_cases hc : c < 256
  · exact latin1Nfkd_ne_nil_abaixo c hc
  · rw [latin1Nfkd_acima c (by omega)]
    exact List.cons_ne_nil _ _

theorem collapseWsAux_map (f : Nat → Nat) (hf : ∀ c, isSpace (f c) = isSpace c)
    (hsp : f SP = SP) (s : Str) :
    ∀ prev, collapseWsAux prev (s.map f) = (collapseWsAux prev s).map f := by
  induction s with
  | nil => intro _; rfl
  | cons c cs ih =>
    intro prev
    rw [List.map_cons]
    by_cases hs : isSpace c = true
    · have hs1 : isSpace (f c) = true := by rw [hf]; exact hs
      cases prev with
      | true => simp only [collapseWsAux, hs, hs1, if_true, ih]
      | false =>
        simp only [collapseWsAux, hs, hs1, if_true, Bool.false_eq_true, if_false, ih,
          List.map_cons, hsp]
    · have hs0 : isSpace c = false := by simpa using hs
      have hs1 : isSpace (f c) = false := by rw [hf]; exact hs0
      simp only [collapseWsAux, hs0, hs1, Bool.false_eq_true, if_false, ih, List.map_cons]

theorem trim_map (f : Nat → Nat) (hf : ∀ c, isSpace (f c) = isSpace c) (s : Str) :
    trim (s.map f) = (trim s).map f := by
  have hcomp : isSpace ∘ f = isSpace := funext hf
  unfold trim
  rw [List.dropWhile_map, hcomp]
  unfold List.rdropWhile
  rw [← List.map_reverse, List.dropWhile_map, hcomp, List.map_reverse]

/-- The Latin-1 tables have the closure properties `normalizeSimple` relies
on. -/
theorem latin1_regular : latin1.Regular where
  decompor := by
    intro s hs
    refine ⟨?_, ?_, ?_⟩
    · apply (bemFormada_iff _).mpr
      apply pares_filter
      · intro c hc
        have := surrogate_acima c hc
        simp only [isHigh, isLow, Bool.and_eq_true, decide_eq_true_eq] at hc
        simp only [Bool.not_eq_true', Bool.and_eq_false_imp, decide_eq_true_eq,
          decide_eq_false_iff_not]
        omega
      · apply pares_flatMap _ _ _ _ ((bemFormada_iff _).mp hs)
        · intro c hc
          exact latin1Nfkd_acima c (surrogate_acima c hc)
        · intro c h1 h2 e he
          exact (latin1Nfkd_partes c e he).2 h1 h2
    · show (List.filter _ (s.flatMap latin1Nfkd)).flatMap latin1Nfkd = _
      apply flatMap_fixo
      intro e he
      obtain ⟨hm, hp⟩ := List.mem_filter.mp he
      obtain ⟨c, _, hec⟩ := List.mem_flatMap.mp hm
      rcases (latin1Nfkd_partes c e hec).1 with hmark | hfix
      · simp only [Bool.not_eq_true', Bool.and_eq_false_imp, decide_eq_true_eq,
          decide_eq_false_iff_not] at hp
        omega
      · exact hfix
    · show List.filter _ (List.filter _ _) = List.filter _ _
      rw [List.filter_filter]
      simp only [Bool.and_self]
  espacos := by
    intro s hs
    obtain ⟨_, hn, hm⟩ := hs
    have hn1 := fixo_flatMap latin1Nfkd latin1Nfkd_ne_nil s hn
    have hm1 := List.filter_eq_self.mp hm
    have hmem : ∀ e ∈ trim (collapseWs s), e = SP ∨ e ∈ s := fun e he =>
      mem_collapseWsAux false s e ((trim_contida _).subset he)
    constructor
    · apply flatMap_fixo
      intro e he
      rcases hmem e he with rfl | hes
      · decide
      · exact hn1 e hes
    · apply List.filter_eq_self.mpr
      intro e he
      rcases hmem e he with rfl | hes
      · decide
      · exact hm1 e hes
  minusculas := by
    intro s hs
    obtain ⟨hb, hn, hm⟩ := hs
    have hn1 := fixo_flatMap latin1Nfkd latin1Nfkd_ne_nil s hn
    have hm1 := List.filter_eq_self.mp hm
    refine ⟨?_, ?_, ?_⟩
    · apply (bemFormada_iff _).mpr
      have hmap : s.map latin1Lower = s.flatMap (fun c => [latin1Lower c]) := by
        induction s with
        | nil => rfl
        | cons c t ih =>
          rw [List.map_cons, List.flatMap_cons]
          simp only [List.singleton_append, List.cons.injEq, true_and]
          exact List.map_eq_flatMap _ _
      show Pares (s.map latin1Lower)
      rw [hmap]
      apply pares_flatMap _ _ _ _ ((bemFormada_iff _).mp hb)
      · intro c hc
        rw [latin1Lower_acima c (surrogate_acima c hc)]
      · intro c h1 h2 e he
        rw [List.mem_singleton] at he
        rw [he]
        exact (latin1Lower_fatos c).2.2.2.2.2 h1 h2
    · apply flatMap_fixo
      intro e he
      obtain ⟨c, hc, rfl⟩ := List.mem_map.mp he
      exact (latin1Lower_fatos c).1 (hn1 c hc)
    · apply List.filter_eq_self.mpr
      intro e he
      obtain ⟨c, hc, rfl⟩ := List.mem_map.mp he
      have hcm := hm1 c hc
      simp only [Bool.not_eq_true', Bool.and_eq_false_imp, decide_eq_true_eq,
        decide_eq_false_iff_not] at hcm ⊢
      have := (latin1Lower_fatos c).2.2.1 (by omega)
      omega
  minusculas_espacos := by
    intro s hs
    unfold Compacta at hs ⊢
    show trim (collapseWsAux false (s.map latin1Lower)) = s.map latin1Lower
    rw [collapseWsAux_map latin1Lower (fun c => (latin1Lower_fatos c).2.1) (by decide),
      trim_map latin1Lower (fun c => (latin1Lower_fatos c).2.1)]
    exact congrArg _ hs
  minusculas_idem := by
    intro s
    show (s.map latin1Lower).map latin1Lower = s.map latin1Lower
    rw [List.map_map]
    apply List.map_congr_left
    intro c _
    exact (latin1Lower_fatos c).2.2.2.2.1

/-- C12, on a text of Latin-1 with accents, an ordinal indicator and runs of
spaces, under the Latin-1 tables. -/
theorem normalizeSimple_idempotente_witness :
    normalizeSimple latin1 (.str (normalizeSimple latin1 (.str (js "  ÁGUA   Doce º ")))) =
      normalizeSimple latin1 (.str (js "  ÁGUA   Doce º ")) :=
  normalizeSimple_idempotente latin1 latin1_regular (.str (js "  ÁGUA   Doce º "))

/-! ## Claims on key serialisation -/

/-- C13. Key serialisation round-trips.  For every string `s`,
`canonicalizarChave` applied to its own result returns it unchanged, the
result has the parts of `s`, and when `s` has a part the result is the
serialisation `* p1 * ... * pn *` of its own parts. -/
theorem canonicalizarChave_ida_e_volta (s : Str) :
    canonicalizarChave (canonicalizarChave (.str s)) = canonicalizarChave (.str s) ∧
    canonicalizarChaveS (canonicalizarChaveS s) = canonicalizarChaveS s ∧
    partesDe (canonicalizarChaveS s) = partesDe s ∧
    (partesDe s ≠ [] →
      serializar (partesDe (canonicalizarChaveS s)) = canonicalizarChaveS s) := by
  refine ⟨?_, canonicalizar_idem s, partesDe_canonicalizar s, ?_⟩
  · show Val.str (canonicalizarChaveS (canonicalizarChaveS s)) = Val.str (canonicalizarChaveS s)
    rw [canonicalizar_idem]
  · intro h
    rw [partesDe_canonicalizar, canonicalizar_def]
    have : (partesDe s).isEmpty = false := by
      cases hp : partesDe s with
      | nil => exact absurd hp h
      | cons _ _ => rfl
    rw [this]
    rfl

/-- C13, on a string with uneven spacing and an empty fragment. -/
theorem canonicalizarChave_ida_e_volta_witness :
    partesDe (canonicalizarChaveS (js " a*b  c **d ")) = [js "a", js "b  c", js "d"] ∧
    serializar (partesDe (canonicalizarChaveS (js " a*b  c **d ")))
      = canonicalizarChaveS (js " a*b  c **d ") :=
  ⟨by decide, (canonicalizarChave_ida_e_volta (js " a*b  c **d ")).2.2.2 (by decide)⟩

/-! ## Shape of serialised keys -/

theorem serializar_forma (ps : List Str) (hne : ps ≠ [])
    (h : ∀ p ∈ ps, Aparada p ∧ STAR ∉ p) : ChaveSerializada (serializar ps) := by
  refine ⟨startsWith_delim _ _ (delim_serializar ps), endsWith_delim _ _ (delim_serializar ps),
    ?_⟩
  rw [serializar_eq ps hne, splitOn_cons, if_pos rfl, splitOn_corpo ps (fun p hp => (h p hp).2)]
  intro f hf
  simp only [List.drop_succ_cons, List.drop_zero, List.dropLast_concat, List.mem_map] at hf
  obtain ⟨p, hp, rfl⟩ := hf
  rw [trim_pad p (h p hp).1]
  obtain ⟨⟨c, t, hc, _⟩, _⟩ := (h p hp).1
  rw [hc]
  exact List.cons_ne_nil _ _

theorem canonicalizar_forma (s : Str) (h : partesDe s ≠ []) :
    ChaveSerializada (canonicalizarChaveS s) := by
  rw [canonicalizar_def]
  have : (partesDe s).isEmpty = false := by
    cases hp : partesDe s with
    | nil => exact absurd hp h
    | cons _ _ => rfl
  rw [this]
  exact serializar_forma _ h (partesDe_boas s)

theorem carregarChaves_forma (chaves : List Val) :
    ∀ k ∈ carregarChavesPlanejamento chaves, ChaveSerializada k := by
  intro k hk
  unfold carregarChavesPlanejamento at hk
  obtain ⟨v, _, hv⟩ := List.mem_filterMap.mp hk
  simp only at hv
  split at hv
  · cases hv
  · rename_i hne
    injection hv with hv
    rw [← hv]
    apply serializar_forma _ _ (partesDe_boas _)
    intro h0
    rw [h0] at hne
    exact hne rfl

set_option maxRecDepth 100000 in
/-- C14 as stated fails.  The catalog key `* | * | * | * | * | * | * | *` has
seven parts and the serialised shape; the narration `| | | | | | | | | | | | |`
does not contain it, but has the same pipe form, so the pipe stage resolves
the row to that form with every `|` turned into a star: a key other than the
sentinel in which every part between two stars is blank.  With the part count
0 the part-less catalog key `" "` is resolved as it is. -/
theorem chave_so_de_barras_resolve_sem_partes :
    carregarChavesPlanejamento [.str (js "|*|*|*|*|*|*|")]
      = [js "* | * | * | * | * | * | * | *"] ∧
    ChaveSerializada (js "* | * | * | * | * | * | * | *") ∧
    resolverLinha latin1 [] ([js "* | * | * | * | * | * | * | *"].map canonicalizarChaveS) 7
      [(js "Exercício", .num 2025), (HISTORICO, .str (js "| | | | | | | | | | | | |"))]
      = js "* * * * * * * * * * * * * * *" ∧
    js "* * * * * * * * * * * * * * *" ≠ MISSING_ID ∧
    ¬ ChaveSerializada (js "* * * * * * * * * * * * * * *") ∧
    (identificarChavePlanejamento latin1
      { columns := [js "Exercício", HISTORICO]
        rows := [[(js "Exercício", .num 2025),
                  (HISTORICO, .str (js "| | | | | | | | | | | | |"))]] }
      [js "* | * | * | * | * | * | * | *"] [] KEY_COL 7).rows
      = [[(KEY_COL, .str (js "* * * * * * * * * * * * * * *")),
          (js "Exercício", .num 2025),
          (HISTORICO, .str (js "| | | | | | | | | | | | |"))]] ∧
    resolverLinha latin1 [] ([js " "].map canonicalizarChaveS) 0
      [(js "Exercício", .num 2025), (HISTORICO, .str (js "A"))] = js " " ∧
    ¬ ChaveSerializada (js " ") := by
  decide

theorem resolver_canonica (U : Unicode) (casos : Obj Str) (chavesNorm : List Str)
    (partesChave : Nat) (row : Obj Val) :
    resolverLinha U casos chavesNorm partesChave row = MISSING_ID ∨
    ∃ z, resolverLinha U casos chavesNorm partesChave row = canonicalizarChaveS z := by
  rcases resolver_casos U casos chavesNorm partesChave row with h | ⟨k, _, h⟩ | ⟨c, _, h⟩ |
    ⟨e, _, _, h⟩ | ⟨c, _, h⟩
  · exact Or.inl h
  · exact Or.inr ⟨_, h⟩
  · exact Or.inr ⟨_, h⟩
  · exact Or.inr ⟨_, h⟩
  · exact Or.inr ⟨_, h⟩

/-- With a positive part count and a catalog free of `|`, a resolved key is
the serialisation of its own parts. -/
theorem resolver_forma (U : Unicode) (declarados : List (Str × Val)) (chaves : List Str)
    (partesChave : Nat) (row : Obj Val) (hp : 0 < partesChave)
    (hpipe : ∀ c ∈ chaves.map canonicalizarChaveS, PIPE ∉ c)
    (hres : resolverLinha U (carregarCasosEspecificos U declarados)
      (chaves.map canonicalizarChaveS) partesChave row ≠ MISSING_ID) :
    ChaveSerializada (resolverLinha U (carregarCasosEspecificos U declarados)
      (chaves.map canonicalizarChaveS) partesChave row) ∧
    canonicalizarChaveS (resolverLinha U (carregarCasosEspecificos U declarados)
      (chaves.map canonicalizarChaveS) partesChave row)
      = resolverLinha U (carregarCasosEspecificos U declarados)
      (chaves.map canonicalizarChaveS) partesChave row := by
  have hpos := partesLinha_pos U partesChave row hp
  have hcount := resolver_contagem U declarados chaves partesChave row hpos
    (fun c hc => hpipe c (mem_chavesBase U _ partesChave row c hc).1) hres
  rcases resolver_canonica U (carregarCasosEspecificos U declarados)
    (chaves.map canonicalizarChaveS) partesChave row with h | ⟨z, hz⟩
  · exact absurd h hres
  · rw [hz] at hcount ⊢
    have hf := canonica_forma z (by rw [hcount]; exact hpos)
    exact ⟨canonicalizar_forma z hf.1, canonicalizar_idem z⟩

theorem own_foldl_define (t : Str) :
    ∀ (row o : Obj Val), Obj.own row t = none →
      Obj.own (row.foldl (fun o e => Obj.define o e.1 e.2) o) t = Obj.own o t := by
  intro row
  induction row with
  | nil => intro o _; rfl
  | cons e rest ih =>
    intro o h
    rw [own_cons] at h
    by_cases he : e.1 = t
    · rw [if_pos he] at h; cases h
    · rw [if_neg he] at h
      rw [List.foldl_cons, ih _ h, own_define, if_neg (fun h' => he h'.symm)]

/-- The key column of a row that had none holds the resolved value. -/
theorem linhaComChave_get (keyColName : Str) (value : Str) (row : Obj Val)
    (hrow : Obj.own row keyColName = none)
    (hv : value = MISSING_ID ∨ canonicalizarChaveS value = value) :
    (linhaComChave keyColName value row).get keyColName = .str value := by
  have hown : Obj.own (row.foldl (fun o e => Obj.define o e.1 e.2)
      [(keyColName, Val.str value)]) keyColName = some (.str value) := by
    rw [own_foldl_define keyColName row _ hrow, own_cons, if_pos rfl]
  have hget : Obj.get (row.foldl (fun o e => Obj.define o e.1 e.2)
      [(keyColName, Val.str value)]) keyColName = .str value := by
    unfold Obj.get
    rw [hown]
  unfold linhaComChave
  simp only [hget]
  split
  · unfold Obj.get
    rw [own_define, if_pos rfl]
    rcases hv with h | h
    · rename_i hk
      exact absurd (by rw [h]; exact List.mem_cons_self _ _) hk
    · show Val.str (canonicalizarChaveS value) = _
      rw [h]
  · exact hget

/-- C14, amended. For every string with a non-blank fragment,
`canonicalizarChave` gives a key that starts with a star, ends with a star
and has no blank part between two consecutive stars; every entry returned by
`carregarChavesPlanejamento` has this shape; and so has every key other than
the sentinel that `identificarChavePlanejamento` resolves for a row, when the
expected part count is positive and no catalog key contains `|`.  The key
column of a row that had no such column holds the resolved key. -/
theorem chave_serializada_em_forma :
    (∀ s : Str, partesDe s ≠ [] → ChaveSerializada (canonicalizarChaveS s)) ∧
    (∀ documento : List Val, ∀ k ∈ carregarChavesPlanejamento documento,
      ChaveSerializada k) ∧
    (∀ (U : Unicode) (declarados : List (Str × Val)) (chaves : List Str) (partesChave : Nat)
      (row : Obj Val), 0 < partesChave → (∀ c ∈ chaves.map canonicalizarChaveS, PIPE ∉ c) →
      resolverLinha U (carregarCasosEspecificos U declarados)
        (chaves.map canonicalizarChaveS) partesChave row ≠ MISSING_ID →
      ChaveSerializada (resolverLinha U (carregarCasosEspecificos U declarados)
        (chaves.map canonicalizarChaveS) partesChave row)) ∧
    (∀ (U : Unicode) (declarados : List (Str × Val)) (chaves : List Str) (partesChave : Nat)
      (dataset : Dataset) (keyColName : Str) (i : Nat) (row : Obj Val),
      0 < partesChave → (∀ c ∈ chaves.map canonicalizarChaveS, PIPE ∉ c) →
      dataset.rows[i]? = some row → Obj.own row keyColName = none →
      ∃ out, (identificarChavePlanejamento U dataset chaves declarados keyColName
          partesChave).rows[i]? = some out ∧
        out.get keyColName = .str (resolverLinha U (carregarCasosEspecificos U declarados)
          (chaves.map canonicalizarChaveS) partesChave row)) := by
  refine ⟨canonicalizar_forma, carregarChaves_forma, ?_, ?_⟩
  · intro U declarados chaves partesChave row hp hpipe hres
    exact (resolver_forma U declarados chaves partesChave row hp hpipe hres).1
  · intro U declarados chaves partesChave dataset keyColName i row hp hpipe hi hrow
    rw [identificar_linhas, List.getElem?_map, hi]
    refine ⟨_, rfl, ?_⟩
    apply linhaComChave_get _ _ _ hrow
    by_cases hres : resolverLinha U (carregarCasosEspecificos U declarados)
        (chaves.map canonicalizarChaveS) partesChave row = MISSING_ID
    · exact Or.inl hres
    · exact Or.inr (resolver_forma U declarados chaves partesChave row hp hpipe hres).2

set_option maxRecDepth 100000 in
/-- C14 amended, on a string with two parts and on a row whose narration
holds a 7-part catalog key. -/
theorem chave_serializada_em_forma_witness :
    ChaveSerializada (canonicalizarChaveS (js "a*b")) ∧
    ChaveSerializada (resolverLinha latin1 (carregarCasosEspecificos latin1 [])
      ([js "* A * B * C * D * E * F * G *"].map canonicalizarChaveS) 7
      [(js "Exercício", .num 2025),
       (HISTORICO, .str (js "PAGAMENTO * A * B * C * D * E * F * G * REF"))]) ∧
    resolverLinha latin1 (carregarCasosEspecificos latin1 [])
      ([js "* A * B * C * D * E * F * G *"].map canonicalizarChaveS) 7
      [(js "Exercício", .num 2025),
       (HISTORICO, .str (js "PAGAMENTO * A * B * C * D * E * F * G * REF"))]
      = js "* A * B * C * D * E * F * G *" :=
  ⟨chave_serializada_em_forma.1 (js "a*b") (by decide),
   chave_serializada_em_forma.2.2.1 latin1 [] [js "* A * B * C * D * E * F * G *"] 7
    [(js "Exercício", .num 2025),
     (HISTORICO, .str (js "PAGAMENTO * A * B * C * D * E * F * G * REF"))]
    (by decide) (by decide) (by decide),
   by decide⟩

/-! ## Rows under assignment and deletion -/

theorem own_delete {α : Type} (o : Obj α) (k t : Str) :
    Obj.own (Obj.delete o k) t = if t = k then none else Obj.own o t := by
  unfold Obj.delete
  induction o with
  | nil => simp [own_nil]
  | cons e rest ih =>
    by_cases hek : e.1 = k
    · have hf : (e.1 != k) = false := by simp [hek]
      rw [List.filter_cons]
      simp only [hf, Bool.false_eq_true, if_false]
      rw [ih, own_cons]
      by_cases htk : t = k
      · simp [htk]
      · have : e.1 ≠ t := fun h => htk (h ▸ hek)
        simp [htk, this]
    · have hf : (e.1 != k) = true := by simp [hek]
      rw [List.filter_cons]
      simp only [hf, if_true]
      rw [own_cons, own_cons, ih]
      by_cases het : e.1 = t
      · have : t ≠ k := fun h => hek (het ▸ h)
        simp [het, this]
      · simp [het]

theorem get_delete (o : Obj Val) (k t : Str) (h : t ≠ k) :
    (Obj.delete o k).get t = o.get t := by
  unfold Obj.get
  rw [own_delete, if_neg h]

theorem get_foldl_delete (t : Str) :
    ∀ (cols : List Str) (o : Obj Val), t ∉ cols → (cols.foldl Obj.delete o).get t = o.get t := by
  intro cols
  induction cols with
  | nil => intro o _; rfl
  | cons c cs ih =>
    intro o h
    simp only [List.mem_cons, not_or] at h
    rw [List.foldl_cons, ih _ h.2, get_delete _ _ _ h.1]

theorem mem_delete {α : Type} (o : Obj α) (k : Str) : ∀ e ∈ Obj.delete o k, e ∈ o :=
  fun _ he => (List.mem_filter.mp he).1

theorem mem_foldl_delete {α : Type} :
    ∀ (cols : List Str) (o : Obj α), ∀ e ∈ cols.foldl Obj.delete o, e ∈ o := by
  intro cols
  induction cols with
  | nil => intro o e he; exact he
  | cons c cs ih =>
    intro o e he
    rw [List.foldl_cons] at he
    exact mem_delete o c e (ih _ e he)

/-- After a run of assignments to distinct columns, each column holds the
value assigned to it and every other column is unchanged. -/
theorem get_foldl_set (pairs : List (Str × Val)) :
    ∀ (row : Obj Val), (pairs.map Prod.fst).Nodup →
      (∀ e ∈ pairs, e.1 ∉ objectPrototypeNames) →
      (∀ e ∈ pairs, (pairs.foldl (fun r e => Obj.set r e.1 e.2) row).get e.1 = e.2) ∧
      (∀ t, t ∉ pairs.map Prod.fst → t ∉ objectPrototypeNames →
        (pairs.foldl (fun r e => Obj.set r e.1 e.2) row).get t = row.get t) := by
  induction pairs with
  | nil =>
    intro row _ _
    exact ⟨fun e he => (by cases he), fun t _ _ => rfl⟩
  | cons p ps ih =>
    intro row hnd hproto
    rw [List.map_cons, List.nodup_cons] at hnd
    obtain ⟨ih1, ih2⟩ := ih (Obj.set row p.1 p.2) hnd.2
      (fun e he => hproto e (List.mem_cons_of_mem _ he))
    have hp := hproto p (List.mem_cons_self _ _)
    constructor
    · intro e he
      rw [List.foldl_cons]
      rcases List.mem_cons.mp he with rfl | he
      · rw [ih2 _ hnd.1 hp, get_set _ _ _ _ hp, if_pos rfl]
      · exact ih1 e he
    · intro t ht htp
      rw [List.map_cons, List.mem_cons, not_or] at ht
      rw [List.foldl_cons, ih2 t ht.2 htp, get_set _ _ _ _ htp, if_neg ht.1]

theorem mem_foldl_set (pairs : List (Str × Val)) :
    ∀ (row : Obj Val), ∀ e ∈ pairs.foldl (fun r e => Obj.set r e.1 e.2) row,
      e ∈ row ∨ e.1 ∈ pairs.map Prod.fst := by
  induction pairs with
  | nil => intro row e he; exact Or.inl he
  | cons p ps ih =>
    intro row e he
    rw [List.foldl_cons] at he
    rcases ih _ e he with h | h
    · rcases mem_set row p.1 p.2 e h with h1 | h1
      · right; rw [h1]; exact List.mem_cons_self _ _
      · exact Or.inl h1
    · right; exact List.mem_cons_of_mem _ h

/-! ## Parts of the key of a row -/

theorem partesDaChave_eq (n : Nat) (chave : Val) (partes : List Str)
    (h : partesDaChave n chave
      = (let partes := (if partes.length < n then
            partes ++ List.replicate (n - partes.length) MISSING_INFO else partes)
         if partes.length > n then partes.take n else partes)) :
    partesDaChave n chave = (partes ++ List.replicate (n - partes.length) MISSING_INFO).take n := by
  rw [h]
  by_cases hlt : partes.length < n
  · simp only [hlt, if_true]
    have hlen : (partes ++ List.replicate (n - partes.length) MISSING_INFO).length = n := by
      simp; omega
    rw [if_neg (by omega), List.take_of_length_le (by omega)]
  · simp only [hlt, if_false]
    have h0 : n - partes.length = 0 := by omega
    rw [h0, List.replicate_zero, List.append_nil]
    by_cases hgt : partes.length > n
    · rw [if_pos hgt]
    · rw [if_neg hgt, List.take_of_length_le (by omega)]

/-- The value a positional column takes from the padded and truncated parts:
the part of its index when there is one within the first `n`, the sentinel
otherwise. -/
theorem parteOu_partes (partes : List Str) (hne : ∀ p ∈ partes, p ≠ []) (n j : Nat) :
    parteOu ((partes ++ List.replicate (n - partes.length) MISSING_INFO).take n) j
      = if j < n then .str (partes[j]?.getD MISSING_INFO) else .str MISSING_INFO := by
  unfold parteOu
  by_cases hjn : j < n
  · rw [if_pos hjn, List.getElem?_take_of_lt hjn]
    by_cases hjl : j < partes.length
    · rw [List.getElem?_append_left hjl, List.getElem?_eq_getElem hjl]
      have hp := hne _ (List.getElem_mem hjl)
      simp only [Option.getD_some]
      unfold Val.or Val.truthy
      cases hpe : partes[j] with
      | nil => exact absurd hpe hp
      | cons _ _ => rfl
    · have hge : partes.length ≤ j := by omega
      rw [List.getElem?_append_right hge, List.getElem?_eq_none hge]
      have : (List.replicate (n - partes.length) MISSING_INFO)[j - partes.length]?
          = some MISSING_INFO := by
        rw [List.getElem?_replicate]
        simp; omega
      rw [this]
      rfl
  · rw [if_neg hjn, List.getElem?_take_eq_none (by omega)]

/-! ## Fragments of a trimmed string -/

theorem trim_cons_space (c : Nat) (hc : isSpace c = true) (f : Str) : trim (c :: f) = trim f := by
  unfold trim
  rw [List.dropWhile_cons_of_pos hc]

theorem trim_concat_space (c : Nat) (hc : isSpace c = true) (f : Str) :
    trim (f ++ [c]) = trim f := by
  induction f with
  | nil =>
    show trim [c] = trim []
    rw [trim_cons_space c hc]
  | cons x t ih =>
    by_cases hx : isSpace x = true
    · rw [List.cons_append, trim_cons_space x hx, trim_cons_space x hx, ih]
    · unfold trim
      rw [List.cons_append, List.dropWhile_cons_of_neg hx, List.dropWhile_cons_of_neg hx,
        ← List.cons_append, List.rdropWhile_concat_pos _ _ _ hc]

theorem splitOn_concat (d c : Nat) (hc : c ≠ d) (t : Str) :
    ∃ L f, t.splitOn d = L ++ [f] ∧ (t ++ [c]).splitOn d = L ++ [f ++ [c]] := by
  induction t with
  | nil =>
    refine ⟨[], [], rfl, ?_⟩
    show [c].splitOn d = [[c]]
    exact splitOn_single d [c] (by simpa using hc.symm)
  | cons x t ih =>
    obtain ⟨L, f, h1, h2⟩ := ih
    rw [List.cons_append, splitOn_cons, splitOn_cons, h1, h2]
    by_cases hx : x = d
    · rw [if_pos hx, if_pos hx]
      exact ⟨[] :: L, f, rfl, rfl⟩
    · rw [if_neg hx, if_neg hx]
      cases L with
      | nil => exact ⟨[], x :: f, rfl, rfl⟩
      | cons l L' => exact ⟨(x :: l) :: L', f, rfl, rfl⟩

theorem fragmentos_cons_space (d : Nat) (hd : isSpace d = false) (c : Nat)
    (hc : isSpace c = true) (t : Str) : fragmentos d (c :: t) = fragmentos d t := by
  have hcd : c ≠ d := by rintro rfl; rw [hd] at hc; cases hc
  unfold fragmentos
  rw [splitOn_cons, if_neg hcd]
  cases hs : t.splitOn d with
  | nil => exact absurd hs (splitOn_ne_nil d t)
  | cons f rest =>
    show List.filter _ (List.map trim ((c :: f) :: rest)) = _
    rw [List.map_cons, List.map_cons, trim_cons_space c hc]

theorem fragmentos_concat_space (d : Nat) (hd : isSpace d = false) (c : Nat)
    (hc : isSpace c = true) (t : Str) : fragmentos d (t ++ [c]) = fragmentos d t := by
  have hcd : c ≠ d := by rintro rfl; rw [hd] at hc; cases hc
  obtain ⟨L, f, h1, h2⟩ := splitOn_concat d c hcd t
  unfold fragmentos
  rw [h1, h2, List.map_append, List.map_append, List.map_singleton, List.map_singleton,
    trim_concat_space c hc]

theorem fragmentos_dropWhile (d : Nat) (hd : isSpace d = false) (s : Str) :
    fragmentos d (s.dropWhile isSpace) = fragmentos d s := by
  induction s with
  | nil => rfl
  | cons c t ih =>
    by_cases hc : isSpace c = true
    · rw [List.dropWhile_cons_of_pos hc, ih, fragmentos_cons_space d hd c hc]
    · rw [List.dropWhile_cons_of_neg hc]

theorem fragmentos_rdropWhile (d : Nat) (hd : isSpace d = false) (s : Str) :
    fragmentos d (s.rdropWhile isSpace) = fragmentos d s := by
  induction s using List.reverseRecOn with
  | nil => rfl
  | append_singleton t c ih =>
    by_cases hc : isSpace c = true
    · rw [List.rdropWhile_concat_pos _ _ _ hc, ih, fragmentos_concat_space d hd c hc]
    · rw [List.rdropWhile_concat_neg _ _ _ hc]

/-- Trimming a string does not change its trimmed, non-empty fragments. -/
theorem fragmentos_trim (d : Nat) (hd : isSpace d = false) (s : Str) :
    fragmentos d (trim s) = fragmentos d s := by
  unfold trim
  rw [fragmentos_rdropWhile d hd, fragmentos_dropWhile d hd]

theorem partesDe_trim (s : Str) : partesDe (trim s) = partesDe s :=
  fragmentos_trim STAR (by decide) s

/-! ## The stages of preencherNovasColunas -/

theorem planejamento_pares (P : List Str) (row : Obj Val) :
    (∀ j col, COLUNAS_PLANEJAMENTO[j]? = some col →
      (COLUNAS_PLANEJAMENTO.enum.foldl (fun row e => Obj.set row e.2 (parteOu P e.1)) row).get col
        = parteOu P j) ∧
    (∀ t, t ∉ COLUNAS_PLANEJAMENTO → t ∉ objectPrototypeNames →
      (COLUNAS_PLANEJAMENTO.enum.foldl (fun row e => Obj.set row e.2 (parteOu P e.1)) row).get t
        = row.get t) := by
  have hfold : COLUNAS_PLANEJAMENTO.enum.foldl (fun row e => Obj.set row e.2 (parteOu P e.1)) row
      = (COLUNAS_PLANEJAMENTO.enum.map (fun e => (e.2, parteOu P e.1))).foldl
          (fun r e => Obj.set r e.1 e.2) row := by
    rw [List.foldl_map]
  have hkeys : (COLUNAS_PLANEJAMENTO.enum.map (fun e => (e.2, parteOu P e.1))).map Prod.fst
      = COLUNAS_PLANEJAMENTO := rfl
  have hnd : ((COLUNAS_PLANEJAMENTO.enum.map (fun e => (e.2, parteOu P e.1))).map
      Prod.fst).Nodup := by
    rw [hkeys]; decide
  have hprot : ∀ c ∈ COLUNAS_PLANEJAMENTO, c ∉ objectPrototypeNames := by decide
  have hp : ∀ e ∈ COLUNAS_PLANEJAMENTO.enum.map (fun e => (e.2, parteOu P e.1)),
      e.1 ∉ objectPrototypeNames := by
    intro e he
    apply hprot
    rw [← hkeys]; exact List.mem_map_of_mem _ he
  obtain ⟨h1, h2⟩ := get_foldl_set
    (COLUNAS_PLANEJAMENTO.enum.map (fun e => (e.2, parteOu P e.1))) row hnd hp
  rw [hfold]
  constructor
  · intro j col hj
    have hmem : (col, parteOu P j)
        ∈ COLUNAS_PLANEJAMENTO.enum.map (fun e => (e.2, parteOu P e.1)) := by
      apply List.mem_map.mpr
      refine ⟨(j, col), ?_, rfl⟩
      rw [List.mk_mem_enum_iff_getElem?]
      exact hj
    exact h1 (col, parteOu P j) hmem
  · intro t ht htp
    exact h2 t (by rw [hkeys]; exact ht) htp

/-- After the planning branch each positional column holds the part of its
index and the other columns are unchanged. -/
theorem planejamento_get (keyColName : Str) (n : Nat) (row : Obj Val) :
    (∀ j col, COLUNAS_PLANEJAMENTO[j]? = some col →
      (preencherPlanejamento keyColName n row).get col
        = parteOu (partesDaChave n (row.get keyColName)) j) ∧
    (∀ t, t ∉ COLUNAS_PLANEJAMENTO → t ∉ objectPrototypeNames →
      (preencherPlanejamento keyColName n row).get t = row.get t) :=
  planejamento_pares (partesDaChave n (row.get keyColName)) row

theorem parteOu_str (P : List Str) (j : Nat) : ∃ s, parteOu P j = .str s ∧ s ≠ [] := by
  unfold parteOu
  cases P[j]? with
  | none => exact ⟨MISSING_INFO, rfl, by decide⟩
  | some p =>
    cases p with
    | nil => exact ⟨MISSING_INFO, rfl, by decide⟩
    | cons c t => exact ⟨c :: t, rfl, List.cons_ne_nil _ _⟩

/-- The assignments of the allocation-code loop and of the economic codes,
for a given list of segments. -/
theorem orcamento_pares (P : List Str) (row : Obj Val) (a b c : Val) :
    (∀ e ∈ CAMPOS_DOTACAO,
      (Obj.set (Obj.set (Obj.set
        (CAMPOS_DOTACAO.foldl (fun r e => Obj.set r e.1 (parteOu P e.2)) row)
        (js "Cat.Econ") a) (js "Grupo") b) (js "Modalidade") c).get e.1 = parteOu P e.2) ∧
    ((Obj.set (Obj.set (Obj.set
        (CAMPOS_DOTACAO.foldl (fun r e => Obj.set r e.1 (parteOu P e.2)) row)
        (js "Cat.Econ") a) (js "Grupo") b) (js "Modalidade") c).get (js "Cat.Econ") = a ∧
      (Obj.set (Obj.set (Obj.set
        (CAMPOS_DOTACAO.foldl (fun r e => Obj.set r e.1 (parteOu P e.2)) row)
        (js "Cat.Econ") a) (js "Grupo") b) (js "Modalidade") c).get (js "Grupo") = b ∧
      (Obj.set (Obj.set (Obj.set
        (CAMPOS_DOTACAO.foldl (fun r e => Obj.set r e.1 (parteOu P e.2)) row)
        (js "Cat.Econ") a) (js "Grupo") b) (js "Modalidade") c).get (js "Modalidade") = c) ∧
    (∀ t, t ∉ CAMPOS_DOTACAO.map Prod.fst → t ∉ [js "Cat.Econ", js "Grupo", js "Modalidade"] →
      t ∉ objectPrototypeNames →
      (Obj.set (Obj.set (Obj.set
        (CAMPOS_DOTACAO.foldl (fun r e => Obj.set r e.1 (parteOu P e.2)) row)
        (js "Cat.Econ") a) (js "Grupo") b) (js "Modalidade") c).get t = row.get t) := by
  have hfold : Obj.set (Obj.set (Obj.set
        (CAMPOS_DOTACAO.foldl (fun r e => Obj.set r e.1 (parteOu P e.2)) row)
        (js "Cat.Econ") a) (js "Grupo") b) (js "Modalidade") c
      = ((CAMPOS_DOTACAO.map (fun e => (e.1, parteOu P e.2)))
          ++ [(js "Cat.Econ", a), (js "Grupo", b), (js "Modalidade", c)]).foldl
          (fun r e => Obj.set r e.1 e.2) row := by
    rw [List.foldl_append, List.foldl_map]
    simp only [List.foldl_cons, List.foldl_nil]
  have hkeys : ((CAMPOS_DOTACAO.map (fun e => (e.1, parteOu P e.2)))
      ++ [(js "Cat.Econ", a), (js "Grupo", b), (js "Modalidade", c)]).map Prod.fst
      = CAMPOS_DOTACAO.map Prod.fst ++ [js "Cat.Econ", js "Grupo", js "Modalidade"] := rfl
  have hnd : (((CAMPOS_DOTACAO.map (fun e => (e.1, parteOu P e.2)))
      ++ [(js "Cat.Econ", a), (js "Grupo", b), (js "Modalidade", c)]).map Prod.fst).Nodup := by
    rw [hkeys]; decide
  have hprot : ∀ k ∈ CAMPOS_DOTACAO.map Prod.fst ++ [js "Cat.Econ", js "Grupo", js "Modalidade"],
      k ∉ objectPrototypeNames := by decide
  have hp : ∀ e ∈ (CAMPOS_DOTACAO.map (fun e => (e.1, parteOu P e.2)))
      ++ [(js "Cat.Econ", a), (js "Grupo", b), (js "Modalidade", c)],
      e.1 ∉ objectPrototypeNames := by
    intro e he
    apply hprot
    rw [← hkeys]; exact List.mem_map_of_mem _ he
  obtain ⟨h1, h2⟩ := get_foldl_set _ row hnd hp
  rw [hfold]
  refine ⟨?_, ⟨?_, ?_, ?_⟩, ?_⟩
  · intro e he
    exact h1 (e.1, parteOu P e.2)
      (List.mem_append_left _ (List.mem_map_of_mem (fun e => (e.1, parteOu P e.2)) he))
  · exact h1 (js "Cat.Econ", a) (List.mem_append_right _ (by simp))
  · exact h1 (js "Grupo", b) (List.mem_append_right _ (by simp))
  · exact h1 (js "Modalidade", c) (List.mem_append_right _ (by simp))
  · intro t ht1 ht2 htp
    apply h2 t _ htp
    rw [hkeys, List.mem_append, not_or]
    exact ⟨ht1, ht2⟩

/-- The columns written by the allocation-code loop. -/
theorem orcamento_get (row : Obj Val) :
    (∀ e ∈ CAMPOS_DOTACAO,
      (preencherOrcamento row).get e.1 = parteOu (partesDaDotacao row) e.2) ∧
    (((parteOu (partesDaDotacao row) 7).toStr.length < 4 →
        (preencherOrcamento row).get (js "Cat.Econ") = .str MISSING_INFO ∧
        (preencherOrcamento row).get (js "Grupo") = .str MISSING_INFO ∧
        (preencherOrcamento row).get (js "Modalidade") = .str MISSING_INFO) ∧
      (4 ≤ (parteOu (partesDaDotacao row) 7).toStr.length →
        (preencherOrcamento row).get (js "Cat.Econ")
          = .str ((parteOu (partesDaDotacao row) 7).toStr.take 1) ∧
        (preencherOrcamento row).get (js "Grupo")
          = .str (((parteOu (partesDaDotacao row) 7).toStr.drop 1).take 1) ∧
        (preencherOrcamento row).get (js "Modalidade")
          = .str (((parteOu (partesDaDotacao row) 7).toStr.drop 2).take 2))) ∧
    (∀ t, t ∉ CAMPOS_DOTACAO.map Prod.fst → t ∉ [js "Cat.Econ", js "Grupo", js "Modalidade"] →
      t ∉ objectPrototypeNames → (preencherOrcamento row).get t = row.get t) := by
  have hnat : ((Obj.get (CAMPOS_DOTACAO.foldl
      (fun r e => Obj.set r e.1 (parteOu (partesDaDotacao row) e.2)) row) NATUREZA).or
      (.str [])).toStr = (parteOu (partesDaDotacao row) 7).toStr := by
    have hnd : ((CAMPOS_DOTACAO.map
        (fun e => (e.1, parteOu (partesDaDotacao row) e.2))).map Prod.fst).Nodup := by
      have : (CAMPOS_DOTACAO.map
          (fun e => (e.1, parteOu (partesDaDotacao row) e.2))).map Prod.fst
          = CAMPOS_DOTACAO.map Prod.fst := rfl
      rw [this]; decide
    have hprot : ∀ k ∈ CAMPOS_DOTACAO.map Prod.fst, k ∉ objectPrototypeNames := by decide
    have hkeys : (CAMPOS_DOTACAO.map
        (fun e => (e.1, parteOu (partesDaDotacao row) e.2))).map Prod.fst
        = CAMPOS_DOTACAO.map Prod.fst := rfl
    have hp : ∀ e ∈ CAMPOS_DOTACAO.map (fun e => (e.1, parteOu (partesDaDotacao row) e.2)),
        e.1 ∉ objectPrototypeNames := by
      intro e he
      apply hprot
      rw [← hkeys]; exact List.mem_map_of_mem _ he
    have hg := (get_foldl_set
      (CAMPOS_DOTACAO.map (fun e => (e.1, parteOu (partesDaDotacao row) e.2))) row hnd hp).1
      (NATUREZA, parteOu (partesDaDotacao row) 7)
      (List.mem_map_of_mem (fun e => (e.1, parteOu (partesDaDotacao row) e.2))
        (show (NATUREZA, 7) ∈ CAMPOS_DOTACAO by simp [CAMPOS_DOTACAO]))
    rw [List.foldl_map] at hg
    rw [hg]
    obtain ⟨s, hs, hne⟩ := parteOu_str (partesDaDotacao row) 7
    rw [hs]
    unfold Val.or Val.truthy
    cases s with
    | nil => exact absurd rfl hne
    | cons _ _ => rfl
  by_cases hlen : (parteOu (partesDaDotacao row) 7).toStr.length < 4
  · have hdef : preencherOrcamento row
        = Obj.set (Obj.set (Obj.set
            (CAMPOS_DOTACAO.foldl
              (fun r e => Obj.set r e.1 (parteOu (partesDaDotacao row) e.2)) row)
            (js "Cat.Econ") (.str MISSING_INFO)) (js "Grupo") (.str MISSING_INFO))
            (js "Modalidade") (.str MISSING_INFO) := by
      unfold preencherOrcamento
      simp only [hnat, hlen, if_true]
    rw [hdef]
    obtain ⟨h1, h2, h3⟩ := orcamento_pares (partesDaDotacao row) row
      (.str MISSING_INFO) (.str MISSING_INFO) (.str MISSING_INFO)
    exact ⟨h1, ⟨fun _ => h2, fun h4 => absurd hlen (by omega)⟩, h3⟩
  · have hdef : preencherOrcamento row
        = Obj.set (Obj.set (Obj.set
            (CAMPOS_DOTACAO.foldl
              (fun r e => Obj.set r e.1 (parteOu (partesDaDotacao row) e.2)) row)
            (js "Cat.Econ") (.str ((parteOu (partesDaDotacao row) 7).toStr.take 1)))
            (js "Grupo") (.str (((parteOu (partesDaDotacao row) 7).toStr.drop 1).take 1)))
            (js "Modalidade")
            (.str (((parteOu (partesDaDotacao row) 7).toStr.drop 2).take 2)) := by
      unfold preencherOrcamento
      simp only [hnat, hlen, if_false]
    rw [hdef]
    obtain ⟨h1, h2, h3⟩ := orcamento_pares (partesDaDotacao row) row
      (.str ((parteOu (partesDaDotacao row) 7).toStr.take 1))
      (.str (((parteOu (partesDaDotacao row) 7).toStr.drop 1).take 1))
      (.str (((parteOu (partesDaDotacao row) 7).toStr.drop 2).take 2))
    exact ⟨h1, ⟨fun h4 => absurd h4 hlen, fun _ => h2⟩, h3⟩

/-- The rows of the result: each row goes through the planning stage (or
loses the positional columns), the allocation-code loop and the removal of
the dropped columns. -/
theorem preencher_linhas (dataset : Dataset) (keyColName : Str) (ativo : Bool) (n : Nat) :
    (preencherNovasColunas dataset keyColName ativo n).rows
      = dataset.rows.map (fun row => COLUNAS_REMOVER.foldl Obj.delete (preencherOrcamento
          (if ativo && decide (keyColName ∈ dataset.columns)
           then preencherPlanejamento keyColName n row
           else COLUNAS_PLANEJAMENTO.foldl Obj.delete row))) := by
  unfold preencherNovasColunas
  by_cases h : (ativo && decide (keyColName ∈ dataset.columns)) = true
  · simp only [h, if_true, List.map_map, Function.comp_def]
  · simp only [h, Bool.false_eq_true, if_false, List.map_map, Function.comp_def]

/-! ## Positional columns of the planning key -/

theorem mem_foldl_set_com {β : Type} (k : β → Str) (v : β → Val) (l : List β) :
    ∀ (row : Obj Val), ∀ e ∈ l.foldl (fun r x => Obj.set r (k x) (v x)) row,
      e ∈ row ∨ e.1 ∈ l.map k := by
  induction l with
  | nil => intro row e he; exact Or.inl he
  | cons p ps ih =>
    intro row e he
    rw [List.foldl_cons] at he
    rcases ih _ e he with h | h
    · rcases mem_set row (k p) (v p) e h with h1 | h1
      · right; rw [h1]; exact List.mem_cons_self _ _
      · exact Or.inl h1
    · right; exact List.mem_cons_of_mem _ h

/-- With planning active and the key column present, a positional column of
the result holds the part of its index among the padded, truncated parts of
the key of the row. -/
theorem preencher_posicional (dataset : Dataset) (keyColName : Str) (n : Nat)
    (hcol : keyColName ∈ dataset.columns) (i : Nat) (row : Obj Val)
    (hrow : dataset.rows[i]? = some row) :
    ∃ out, (preencherNovasColunas dataset keyColName true n).rows[i]? = some out ∧
      (∀ j col, COLUNAS_PLANEJAMENTO[j]? = some col →
        out.get col = parteOu (partesDaChave n (row.get keyColName)) j) ∧
      (∀ e ∈ out, e ∈ row ∨ e.1 ∈ COLUNAS_PLANEJAMENTO ∨
        e.1 ∈ CAMPOS_DOTACAO.map Prod.fst ++ [js "Cat.Econ", js "Grupo", js "Modalidade"]) := by
  rw [preencher_linhas, List.getElem?_map, hrow]
  have hc : (true && decide (keyColName ∈ dataset.columns)) = true := by simp [hcol]
  simp only [hc, if_true, Option.map_some']
  refine ⟨_, rfl, ?_, ?_⟩
  · intro j col hj
    have hmem : col ∈ COLUNAS_PLANEJAMENTO := List.mem_iff_getElem?.mpr ⟨j, hj⟩
    have h1 : col ∉ COLUNAS_REMOVER :=
      (by decide : ∀ c ∈ COLUNAS_PLANEJAMENTO, c ∉ COLUNAS_REMOVER) col hmem
    have h2 : col ∉ CAMPOS_DOTACAO.map Prod.fst :=
      (by decide : ∀ c ∈ COLUNAS_PLANEJAMENTO, c ∉ CAMPOS_DOTACAO.map Prod.fst) col hmem
    have h3 : col ∉ [js "Cat.Econ", js "Grupo", js "Modalidade"] :=
      (by decide : ∀ c ∈ COLUNAS_PLANEJAMENTO,
        c ∉ [js "Cat.Econ", js "Grupo", js "Modalidade"]) col hmem
    have h4 : col ∉ objectPrototypeNames :=
      (by decide : ∀ c ∈ COLUNAS_PLANEJAMENTO, c ∉ objectPrototypeNames) col hmem
    rw [get_foldl_delete col _ _ h1, (orcamento_get _).2.2 col h2 h3 h4,
      (planejamento_get keyColName n row).1 j col hj]
  · intro e he
    have he1 := mem_foldl_delete _ _ e he
    unfold preencherOrcamento at he1
    have haux : ∀ (r : Obj Val) (a b c : Val),
        e ∈ Obj.set (Obj.set (Obj.set r (js "Cat.Econ") a) (js "Grupo") b) (js "Modalidade") c →
        e ∈ r ∨ e.1 ∈ [js "Cat.Econ", js "Grupo", js "Modalidade"] := by
      intro r a b c h
      rcases mem_set _ _ _ e h with h | h
      · right; rw [h]; simp
      · rcases mem_set _ _ _ e h with h | h
        · right; rw [h]; simp
        · rcases mem_set _ _ _ e h with h | h
          · right; rw [h]; simp
          · exact Or.inl h
    have he2 : e ∈ CAMPOS_DOTACAO.foldl (fun r e => Obj.set r e.1
          (parteOu (partesDaDotacao (preencherPlanejamento keyColName n row)) e.2))
          (preencherPlanejamento keyColName n row) ∨
        e.1 ∈ [js "Cat.Econ", js "Grupo", js "Modalidade"] := by
      simp only at he1
      split at he1
      · exact haux _ _ _ _ he1
      · exact haux _ _ _ _ he1
    have hk : COLUNAS_PLANEJAMENTO.enum.map (fun e : Nat × Str => e.2)
        = COLUNAS_PLANEJAMENTO := rfl
    rcases he2 with he2 | he2
    · rcases mem_foldl_set_com (fun e : Str × Nat => e.1)
        (fun e : Str × Nat => parteOu (partesDaDotacao (preencherPlanejamento keyColName n row)) e.2)
        CAMPOS_DOTACAO _ e he2 with h | h
      · unfold preencherPlanejamento at h
        rcases mem_foldl_set_com (fun e : Nat × Str => e.2)
          (fun e : Nat × Str => parteOu (partesDaChave n (row.get keyColName)) e.1)
          COLUNAS_PLANEJAMENTO.enum _ e h with h | h
        · exact Or.inl h
        · rw [hk] at h
          exact Or.inr (Or.inl h)
      · exact Or.inr (Or.inr (List.mem_append_left _ h))
    · exact Or.inr (Or.inr (List.mem_append_right (CAMPOS_DOTACAO.map Prod.fst) he2))

theorem campo_de_chave (n j : Nat) (chave : Str)
    (h1 : trim chave ∉ [[], MISSING_ID, MISSING_INFO, js "#"]) :
    parteOu (partesDaChave n (.str chave)) j
      = if j < n then .str ((partesDe chave)[j]?.getD MISSING_INFO) else .str MISSING_INFO := by
  have ha : trim chave ∉ [[], MISSING_ID, MISSING_INFO] := by
    intro h
    apply h1
    simp only [List.mem_cons, List.mem_singleton, List.not_mem_nil, or_false] at h ⊢
    rcases h with h | h | h
    · exact Or.inl h
    · exact Or.inr (Or.inl h)
    · exact Or.inr (Or.inr (Or.inl h))
  have hb : trim chave ≠ js "#" := by
    intro h
    apply h1
    rw [h]
    simp
  rw [partesDaChave_eq n (.str chave) (partesDe chave)
    (by unfold partesDaChave; simp only [if_pos ha, if_neg hb])]
  exact parteOu_partes _ (fun p hp => by
    obtain ⟨⟨c, t, hc, _⟩, _⟩ := (partesDe_boas chave p hp).1
    rw [hc]; exact List.cons_ne_nil _ _) n j

theorem campo_de_cerquilha (n j : Nat) (chave : Str) (h1 : trim chave = js "#") :
    parteOu (partesDaChave n (.str chave)) j
      = if j < n then .str (js "#") else .str MISSING_INFO := by
  have ha : trim chave ∉ [[], MISSING_ID, MISSING_INFO] := by rw [h1]; decide
  rw [partesDaChave_eq n (.str chave) (List.replicate n (js "#"))
    (by unfold partesDaChave; simp only [if_pos ha, if_pos h1])]
  rw [parteOu_partes _ (fun p hp => by
    rw [List.eq_of_mem_replicate hp]; decide) n j]
  by_cases hj : j < n
  · simp only [hj, if_true, List.getElem?_replicate, Option.getD_some]
  · simp only [hj, if_false]

theorem campo_sem_chave (n j : Nat) (v : Val)
    (h : ∀ chave, v = .str chave → trim chave ∈ [[], MISSING_ID, MISSING_INFO]) :
    parteOu (partesDaChave n v) j = .str MISSING_INFO := by
  have hdef : partesDaChave n v
      = (let partes : List Str :=
          (if ([] : List Str).length < n then
            [] ++ List.replicate (n - ([] : List Str).length) MISSING_INFO else [])
         if partes.length > n then partes.take n else partes) := by
    unfold partesDaChave
    cases v with
    | str s =>
      have hs := h s rfl
      simp only [hs, not_true_eq_false, if_false]
    | undefined => rfl
    | null => rfl
    | bool b => rfl
    | num m => rfl
    | obj r => rfl
  rw [partesDaChave_eq n v [] hdef, parteOu_partes _ (fun p hp => by cases hp) n j]
  simp

/-- A key with eight parts is none of the values the planning branch treats
as empty. -/
theorem oito_partes_nao_vazia (chave : Str) (n : Nat) (h : (partesDe chave).length = n)
    (hn : 2 ≤ n) : trim chave ∉ [[], MISSING_ID, MISSING_INFO, js "#"] := by
  intro hm
  have hp := partesDe_trim chave
  have hall : ∀ x ∈ [[], MISSING_ID, MISSING_INFO, js "#"], (partesDe x).length ≤ 1 := by decide
  have := hall _ hm
  rw [hp, h] at this
  omega

/-! ## Claims on the positional columns -/

set_option maxRecDepth 100000 in
/-- C15 as stated fails: with `partesChave = 8` the eighth part of an
8-part key is stored in no column of the row other than the key column. -/
theorem oitava_parte_sem_campo :
    contarPartesChaveS (js "* A * B * C * D * E * F * G * H *") = 8 ∧
    (preencherNovasColunas
      { columns := [KEY_COL, js "Exercício", DOTACAO]
        rows := [[(KEY_COL, .str (js "* A * B * C * D * E * F * G * H *")),
                  (js "Exercício", .num 2026), (DOTACAO, .str (js "1.2.3.4.5.6.7.8.9.10.11"))]] }
      KEY_COL true 8)
    = { columns := [KEY_COL, js "Exercício", DOTACAO]
        rows := [[(KEY_COL, .str (js "* A * B * C * D * E * F * G * H *")),
                  (js "Exercício", .num 2026), (DOTACAO, .str (js "1.2.3.4.5.6.7.8.9.10.11")),
                  (js "Região", .str (js "A")), (js "Subfunção + UG", .str (js "B")),
                  (js "ADJ", .str (js "C")), (js "Macropolítica", .str (js "D")),
                  (js "Pilar", .str (js "E")), (js "Eixo", .str (js "F")),
                  (js "Política_Decreto", .str (js "G")),
                  (js "Função", .str (js "3")), (js "Subfunção", .str (js "4")),
                  (js "Programa de Governo", .str (js "5")), (js "PAOE", .str (js "6")),
                  (NATUREZA, .str (js "8")), (js "Fonte", .str (js "9")),
                  (js "Iduso", .str (js "10")),
                  (js "Cat.Econ", .str MISSING_INFO), (js "Grupo", .str MISSING_INFO),
                  (js "Modalidade", .str MISSING_INFO)]] } := by
  decide

/-- C15, amended. With `partesChave = 8`, planning active and the key
column present, the first seven parts of an 8-part key are stored in the
seven positional columns, in order; the columns the row gains are those
seven and the allocation columns, so the eighth part is stored in no
positional column. -/
theorem chave_de_oito_partes_em_sete_campos (dataset : Dataset) (keyColName : Str)
    (hcol : keyColName ∈ dataset.columns) (i : Nat) (row : Obj Val) (chave : Str)
    (hrow : dataset.rows[i]? = some row) (hchave : row.get keyColName = .str chave)
    (h8 : (partesDe chave).length = 8) :
    ∃ out, (preencherNovasColunas dataset keyColName true 8).rows[i]? = some out ∧
      (∀ (j : Nat) (col p : Str), COLUNAS_PLANEJAMENTO[j]? = some col →
        (partesDe chave)[j]? = some p →
        out.get col = .str p) ∧
      COLUNAS_PLANEJAMENTO.length = 7 ∧
      (∀ e ∈ out, e ∈ row ∨ e.1 ∈ COLUNAS_PLANEJAMENTO ∨
        e.1 ∈ CAMPOS_DOTACAO.map Prod.fst ++ [js "Cat.Econ", js "Grupo", js "Modalidade"]) := by
  obtain ⟨out, h1, h2, h3⟩ := preencher_posicional dataset keyColName 8 hcol i row hrow
  refine ⟨out, h1, ?_, rfl, h3⟩
  intro j col p hj hp
  have hj7 : j < 7 := by
    have := (List.getElem?_eq_some_iff.mp hj).1
    simpa [COLUNAS_PLANEJAMENTO] using this
  rw [h2 j col hj, hchave, campo_de_chave 8 j chave (oito_partes_nao_vazia chave 8 h8 (by omega)),
    if_pos (by omega), hp]
  rfl

set_option maxRecDepth 100000 in
/-- C15 amended, on a row with the key `A..H`. -/
theorem chave_de_oito_partes_em_sete_campos_witness :
    ∃ out, (preencherNovasColunas
        { columns := [KEY_COL, DOTACAO]
          rows := [[(KEY_COL, .str (js "* A * B * C * D * E * F * G * H *")),
                    (DOTACAO, .str (js "1.2.3.4.5.6.7.8.9.10.11"))]] }
        KEY_COL true 8).rows[0]? = some out ∧
      out.get (js "Região") = .str (js "A") ∧
      out.get (js "Política_Decreto") = .str (js "G") := by
  obtain ⟨out, h1, h2, _⟩ := chave_de_oito_partes_em_sete_campos
    { columns := [KEY_COL, DOTACAO]
      rows := [[(KEY_COL, .str (js "* A * B * C * D * E * F * G * H *")),
                (DOTACAO, .str (js "1.2.3.4.5.6.7.8.9.10.11"))]] }
    KEY_COL (by decide) 0
    [(KEY_COL, .str (js "* A * B * C * D * E * F * G * H *")),
     (DOTACAO, .str (js "1.2.3.4.5.6.7.8.9.10.11"))]
    (js "* A * B * C * D * E * F * G * H *") rfl (by decide) (by decide)
  exact ⟨out, h1, h2 0 (js "Região") (js "A") (by decide) (by decide),
    h2 6 (js "Política_Decreto") (js "G") (by decide) (by decide)⟩

set_option maxRecDepth 100000 in
/-- C16 as stated fails: the key `#` has one part, and every
positional column takes `#` instead of the sentinel. -/
theorem chave_cerquilha_preenche_todos :
    partesDe (js "#") = [js "#"] ∧
    (preencherNovasColunas
      { columns := [KEY_COL, js "Exercício"]
        rows := [[(KEY_COL, .str (js "#")), (js "Exercício", .num 2025)]] }
      KEY_COL true 7).rows.map (fun out => COLUNAS_PLANEJAMENTO.map out.get)
    = [[.str (js "#"), .str (js "#"), .str (js "#"), .str (js "#"), .str (js "#"),
        .str (js "#"), .str (js "#")]] := by
  decide

/-- C16, amended. With planning active, the key column present and an
expected part count `n` of 7 or 8, the i-th positional column of a row holds
the i-th part of the key when the key has one and `NÃO INFORMADO` when it has
not, for every key that is a string other than `#`, the empty string and the
sentinels (after trimming); parts from the eighth on are stored in no
positional column; a key that is empty, a sentinel or not a string gives
`NÃO INFORMADO` in all seven columns; the key `#` gives `#` in all seven. -/
theorem chave_em_campos_posicionais (dataset : Dataset) (keyColName : Str) (n : Nat)
    (hn : n = 7 ∨ n = 8) (hcol : keyColName ∈ dataset.columns) (i : Nat) (row : Obj Val)
    (hrow : dataset.rows[i]? = some row) :
    ∃ out, (preencherNovasColunas dataset keyColName true n).rows[i]? = some out ∧
      (∀ chave, row.get keyColName = .str chave →
        trim chave ∉ [[], MISSING_ID, MISSING_INFO, js "#"] →
        ∀ (j : Nat) (col : Str), COLUNAS_PLANEJAMENTO[j]? = some col →
          (∀ p, (partesDe chave)[j]? = some p → out.get col = .str p) ∧
          ((partesDe chave).length ≤ j → out.get col = .str MISSING_INFO)) ∧
      ((∀ chave, row.get keyColName = .str chave →
          trim chave ∈ [[], MISSING_ID, MISSING_INFO]) →
        ∀ col ∈ COLUNAS_PLANEJAMENTO, out.get col = .str MISSING_INFO) ∧
      (∀ chave, row.get keyColName = .str chave → trim chave = js "#" →
        ∀ col ∈ COLUNAS_PLANEJAMENTO, out.get col = .str (js "#")) := by
  obtain ⟨out, h1, h2, _⟩ := preencher_posicional dataset keyColName n hcol i row hrow
  have hj7 : ∀ j col, COLUNAS_PLANEJAMENTO[j]? = some col → j < n := by
    intro j col hj
    have h := (List.getElem?_eq_some_iff.mp hj).1
    have h7 : COLUNAS_PLANEJAMENTO.length = 7 := rfl
    rw [h7] at h
    omega
  refine ⟨out, h1, ?_, ?_, ?_⟩
  · intro chave hchave htrim j col hj
    rw [h2 j col hj, hchave, campo_de_chave n j chave htrim, if_pos (hj7 j col hj)]
    constructor
    · intro p hp
      rw [hp]; rfl
    · intro hlen
      rw [List.getElem?_eq_none hlen]; rfl
  · intro hvazia col hc
    obtain ⟨j, hj⟩ := List.mem_iff_getElem?.mp hc
    rw [h2 j col hj, campo_sem_chave n j _ hvazia]
  · intro chave hchave htrim col hc
    obtain ⟨j, hj⟩ := List.mem_iff_getElem?.mp hc
    rw [h2 j col hj, hchave, campo_de_cerquilha n j chave htrim, if_pos (hj7 j col hj)]

set_option maxRecDepth 100000 in
/-- C16 amended, on a row with a 3-part key and `partesChave = 7`: the third
column holds the third part, the fifth the sentinel. -/
theorem chave_em_campos_posicionais_witness :
    ∃ out, (preencherNovasColunas
        { columns := [KEY_COL], rows := [[(KEY_COL, .str (js "* A * B * C *"))]] }
        KEY_COL true 7).rows[0]? = some out ∧
      out.get (js "ADJ") = .str (js "C") ∧
      out.get (js "Pilar") = .str MISSING_INFO := by
  obtain ⟨out, h1, h2, _⟩ := chave_em_campos_posicionais
    { columns := [KEY_COL], rows := [[(KEY_COL, .str (js "* A * B * C *"))]] }
    KEY_COL 7 (Or.inl rfl) (by decide) 0 [(KEY_COL, .str (js "* A * B * C *"))] rfl
  have h := h2 (js "* A * B * C *") (by decide) (by decide)
  exact ⟨out, h1, (h 2 (js "ADJ") (by decide)).1 (js "C") (by decide),
    (h 4 (js "Pilar") (by decide)).2 (by decide)⟩

/-! ## Columns derived from the allocation code -/

/-- The first stage of `preencherNovasColunas` leaves a column unchanged
that is no positional column. -/
theorem etapa_planejamento_get (keyColName : Str) (n : Nat) (cond : Bool) (row : Obj Val)
    (t : Str) (ht : t ∉ COLUNAS_PLANEJAMENTO) (htp : t ∉ objectPrototypeNames) :
    (if cond then preencherPlanejamento keyColName n row
      else COLUNAS_PLANEJAMENTO.foldl Obj.delete row).get t = row.get t := by
  cases cond with
  | true => exact (planejamento_get keyColName n row).2 t ht htp
  | false => exact get_foldl_delete t _ _ ht

theorem partesDaDotacao_congr (r1 r2 : Obj Val) (h : r1.get DOTACAO = r2.get DOTACAO) :
    partesDaDotacao r1 = partesDaDotacao r2 := by
  unfold partesDaDotacao
  rw [h]

/-- The columns of a row of the result that the allocation-code loop
writes. -/
theorem preencher_orcamento (dataset : Dataset) (keyColName : Str) (ativo : Bool) (n : Nat)
    (i : Nat) (row : Obj Val) (hrow : dataset.rows[i]? = some row) :
    ∃ out, (preencherNovasColunas dataset keyColName ativo n).rows[i]? = some out ∧
      (∀ e ∈ CAMPOS_DOTACAO, out.get e.1 = parteOu (partesDaDotacao row) e.2) ∧
      ((parteOu (partesDaDotacao row) 7).toStr.length < 4 →
        out.get (js "Cat.Econ") = .str MISSING_INFO ∧
        out.get (js "Grupo") = .str MISSING_INFO ∧
        out.get (js "Modalidade") = .str MISSING_INFO) ∧
      (4 ≤ (parteOu (partesDaDotacao row) 7).toStr.length →
        out.get (js "Cat.Econ") = .str ((parteOu (partesDaDotacao row) 7).toStr.take 1) ∧
        out.get (js "Grupo")
          = .str (((parteOu (partesDaDotacao row) 7).toStr.drop 1).take 1) ∧
        out.get (js "Modalidade")
          = .str (((parteOu (partesDaDotacao row) 7).toStr.drop 2).take 2)) := by
  rw [preencher_linhas, List.getElem?_map, hrow]
  simp only [Option.map_some']
  refine ⟨_, rfl, ?_⟩
  have hd : (if ativo && decide (keyColName ∈ dataset.columns)
      then preencherPlanejamento keyColName n row
      else COLUNAS_PLANEJAMENTO.foldl Obj.delete row).get DOTACAO = row.get DOTACAO :=
    etapa_planejamento_get keyColName n _ row DOTACAO (by decide) (by decide)
  have hP := partesDaDotacao_congr _ _ hd
  obtain ⟨h1, ⟨h2, h3⟩, _⟩ := orcamento_get
    (if ativo && decide (keyColName ∈ dataset.columns)
      then preencherPlanejamento keyColName n row
      else COLUNAS_PLANEJAMENTO.foldl Obj.delete row)
  rw [hP] at h1 h2 h3
  refine ⟨?_, ?_, ?_⟩
  · intro e he
    have hne : e.1 ∉ COLUNAS_REMOVER :=
      (by decide : ∀ e ∈ CAMPOS_DOTACAO, e.1 ∉ COLUNAS_REMOVER) e he
    rw [get_foldl_delete e.1 _ _ hne]
    exact h1 e he
  · intro hlen
    rw [get_foldl_delete (js "Cat.Econ") _ _ (by decide),
      get_foldl_delete (js "Grupo") _ _ (by decide),
      get_foldl_delete (js "Modalidade") _ _ (by decide)]
    exact h2 hlen
  · intro hlen
    rw [get_foldl_delete (js "Cat.Econ") _ _ (by decide),
      get_foldl_delete (js "Grupo") _ _ (by decide),
      get_foldl_delete (js "Modalidade") _ _ (by decide)]
    exact h3 hlen

/-- The segments of an allocation code whose eleven dot-separated segments
are all non-blank: the trimmed segments. -/
theorem partesDaDotacao_onze (row : Obj Val) (code : Str) (segs : List Str)
    (hcode : row.get DOTACAO = .str code) (hsplit : code.splitOn 46 = segs)
    (hlen : segs.length = 11) (hne : ∀ s ∈ segs, trim s ≠ []) :
    partesDaDotacao row = segs.map trim := by
  have hstr : ((Val.str code).or (.str [])).toStr = code := by
    unfold Val.or Val.truthy
    cases code with
    | nil => rfl
    | cons _ _ => rfl
  have hfrag : fragmentos 46 (trim code) = segs.map trim := by
    rw [fragmentos_trim 46 (by decide)]
    unfold fragmentos
    rw [hsplit]
    apply List.filter_eq_self.mpr
    intro p hp
    obtain ⟨s, hs, rfl⟩ := List.mem_map.mp hp
    have := hne s hs
    cases hts : trim s with
    | nil => exact absurd hts this
    | cons _ _ => rfl
  unfold partesDaDotacao
  rw [hcode, hstr]
  simp only [hfrag, List.length_map, hlen, Nat.lt_irrefl, if_false]

theorem parteOu_de_parte (P : List Str) (j : Nat) (p : Str) (hp : P[j]? = some p)
    (hne : p ≠ []) : parteOu P j = .str p := by
  unfold parteOu
  rw [hp]
  unfold Val.or Val.truthy
  cases p with
  | nil => exact absurd rfl hne
  | cons _ _ => rfl

/-! ## Claims on the allocation code -/

set_option maxRecDepth 100000 in
/-- C17 as stated fails: for the code of the example `PAOE` takes the
sixth segment `X`, not the seventh `99`; and a blank segment is dropped, so
that the later segments move one place. -/
theorem paoe_e_o_sexto_segmento :
    (js "X.X.02.03.04.X.99.05.06.07.X").splitOn 46
      = [js "X", js "X", js "02", js "03", js "04", js "X", js "99", js "05", js "06",
         js "07", js "X"] ∧
    (preencherNovasColunas
      { columns := [DOTACAO], rows := [[(DOTACAO, .str (js "X.X.02.03.04.X.99.05.06.07.X"))]] }
      KEY_COL true 7).rows.map
        (fun out => [js "Função", js "Subfunção", js "Programa de Governo", js "PAOE",
          NATUREZA, js "Fonte", js "Iduso"].map out.get)
      = [[.str (js "02"), .str (js "03"), .str (js "04"), .str (js "X"), .str (js "05"),
          .str (js "06"), .str (js "07")]] ∧
    (js "A. .C.D.E.F.G.H.I.J.K").splitOn 46
      = [js "A", js " ", js "C", js "D", js "E", js "F", js "G", js "H", js "I", js "J",
         js "K"] ∧
    (preencherNovasColunas
      { columns := [DOTACAO], rows := [[(DOTACAO, .str (js "A. .C.D.E.F.G.H.I.J.K"))]] }
      KEY_COL true 7).rows.map (fun out => out.get (js "Função")) = [.str (js "D")] := by
  decide

/-- C17, amended. For every allocation code with 11 dot-separated
segments `s0..s10`, none of them blank, `preencherNovasColunas` gives
`Função = s2`, `Subfunção = s3`, `Programa de Governo = s4`, `PAOE = s5`,
`Natureza de Despesa = s7`, `Fonte = s8` and `Iduso = s9`, each segment
trimmed. -/
theorem dotacao_em_campos (dataset : Dataset) (keyColName : Str) (ativo : Bool) (n : Nat)
    (i : Nat) (row : Obj Val) (code s0 s1 s2 s3 s4 s5 s6 s7 s8 s9 s10 : Str)
    (hrow : dataset.rows[i]? = some row) (hcode : row.get DOTACAO = .str code)
    (hsplit : code.splitOn 46 = [s0, s1, s2, s3, s4, s5, s6, s7, s8, s9, s10])
    (hne : ∀ s ∈ [s0, s1, s2, s3, s4, s5, s6, s7, s8, s9, s10], trim s ≠ []) :
    ∃ out, (preencherNovasColunas dataset keyColName ativo n).rows[i]? = some out ∧
      out.get (js "Função") = .str (trim s2) ∧
      out.get (js "Subfunção") = .str (trim s3) ∧
      out.get (js "Programa de Governo") = .str (trim s4) ∧
      out.get (js "PAOE") = .str (trim s5) ∧
      out.get NATUREZA = .str (trim s7) ∧
      out.get (js "Fonte") = .str (trim s8) ∧
      out.get (js "Iduso") = .str (trim s9) := by
  obtain ⟨out, h1, h2, _⟩ := preencher_orcamento dataset keyColName ativo n i row hrow
  have hP := partesDaDotacao_onze row code _ hcode hsplit rfl hne
  rw [hP] at h2
  have hv : ∀ (j : Nat) (s : Str),
      ([s0, s1, s2, s3, s4, s5, s6, s7, s8, s9, s10].map trim)[j]? = some (trim s) →
      s ∈ [s0, s1, s2, s3, s4, s5, s6, s7, s8, s9, s10] →
      parteOu ([s0, s1, s2, s3, s4, s5, s6, s7, s8, s9, s10].map trim) j = .str (trim s) :=
    fun j s hj hs => parteOu_de_parte _ j _ hj (hne s hs)
  refine ⟨out, h1, ?_, ?_, ?_, ?_, ?_, ?_, ?_⟩
  · rw [h2 (js "Função", 2) (by simp [CAMPOS_DOTACAO])]; exact hv 2 s2 rfl (by simp)
  · rw [h2 (js "Subfunção", 3) (by simp [CAMPOS_DOTACAO])]; exact hv 3 s3 rfl (by simp)
  · rw [h2 (js "Programa de Governo", 4) (by simp [CAMPOS_DOTACAO])]
    exact hv 4 s4 rfl (by simp)
  · rw [h2 (js "PAOE", 5) (by simp [CAMPOS_DOTACAO])]; exact hv 5 s5 rfl (by simp)
  · rw [h2 (NATUREZA, 7) (by simp [CAMPOS_DOTACAO])]; exact hv 7 s7 rfl (by simp)
  · rw [h2 (js "Fonte", 8) (by simp [CAMPOS_DOTACAO])]; exact hv 8 s8 rfl (by simp)
  · rw [h2 (js "Iduso", 9) (by simp [CAMPOS_DOTACAO])]; exact hv 9 s9 rfl (by simp)

set_option maxRecDepth 100000 in
/-- C17 amended, on an allocation code with a space before its fourth
segment. -/
theorem dotacao_em_campos_witness :
    ∃ out, (preencherNovasColunas
        { columns := [DOTACAO],
          rows := [[(DOTACAO, .str (js "19.101.12. 368.0533.2068.9900.33903000.1500.0.1"))]] }
        KEY_COL true 7).rows[0]? = some out ∧
      out.get (js "Subfunção") = .str (js "368") ∧
      out.get (js "PAOE") = .str (js "2068") ∧
      out.get NATUREZA = .str (js "33903000") := by
  obtain ⟨out, h1, _, h3, _, h5, h7, _, _⟩ := dotacao_em_campos
    { columns := [DOTACAO],
      rows := [[(DOTACAO, .str (js "19.101.12. 368.0533.2068.9900.33903000.1500.0.1"))]] }
    KEY_COL true 7 0
    [(DOTACAO, .str (js "19.101.12. 368.0533.2068.9900.33903000.1500.0.1"))]
    (js "19.101.12. 368.0533.2068.9900.33903000.1500.0.1")
    (js "19") (js "101") (js "12") (js " 368") (js "0533") (js "2068") (js "9900")
    (js "33903000") (js "1500") (js "0") (js "1") rfl (by decide) (by decide) (by decide)
  exact ⟨out, h1, by rw [h3]; decide, by rw [h5]; decide, by rw [h7]; decide⟩

/-! ## Claims on the economic codes -/

/-- C18. In every row of the result of `preencherNovasColunas` whose
`Natureza de Despesa` has at least 4 code units, `Cat.Econ` is the first of
them, `Grupo` the second and `Modalidade` the third and fourth; in every row
whose `Natureza de Despesa` has fewer than 4, the three columns hold
`NÃO INFORMADO`. -/
theorem codigos_economicos_da_natureza (dataset : Dataset) (keyColName : Str) (ativo : Bool)
    (n : Nat) (i : Nat) (row : Obj Val) (hrow : dataset.rows[i]? = some row) :
    ∃ out natureza, (preencherNovasColunas dataset keyColName ativo n).rows[i]? = some out ∧
      out.get NATUREZA = .str natureza ∧
      (natureza.length < 4 →
        out.get (js "Cat.Econ") = .str MISSING_INFO ∧
        out.get (js "Grupo") = .str MISSING_INFO ∧
        out.get (js "Modalidade") = .str MISSING_INFO) ∧
      (∀ a b c d resto, natureza = a :: b :: c :: d :: resto →
        out.get (js "Cat.Econ") = .str [a] ∧
        out.get (js "Grupo") = .str [b] ∧
        out.get (js "Modalidade") = .str [c, d]) := by
  obtain ⟨out, h1, h2, h3, h4⟩ := preencher_orcamento dataset keyColName ativo n i row hrow
  obtain ⟨s, hs, _⟩ := parteOu_str (partesDaDotacao row) 7
  have hnat := h2 (NATUREZA, 7) (by simp [CAMPOS_DOTACAO])
  rw [hs] at hnat h3 h4
  refine ⟨out, s, h1, hnat, h3, ?_⟩
  intro a b c d resto hn
  have h := h4 (by rw [show (Val.str s).toStr = s from rfl, hn]; simp)
  rw [show (Val.str s).toStr = s from rfl, hn] at h
  exact h

set_option maxRecDepth 100000 in
/-- C18, on a row whose allocation code has the nature `33903000`. -/
theorem codigos_economicos_da_natureza_witness :
    ∃ out, (preencherNovasColunas
        { columns := [DOTACAO],
          rows := [[(DOTACAO, .str (js "19.101.12.368.0533.2068.9900.33903000.1500.0.1"))]] }
        KEY_COL true 7).rows[0]? = some out ∧
      out.get NATUREZA = .str (js "33903000") ∧
      out.get (js "Cat.Econ") = .str (js "3") ∧
      out.get (js "Grupo") = .str (js "3") ∧
      out.get (js "Modalidade") = .str (js "90") := by
  obtain ⟨out, natureza, h1, h2, _, h4⟩ := codigos_economicos_da_natureza
    { columns := [DOTACAO],
      rows := [[(DOTACAO, .str (js "19.101.12.368.0533.2068.9900.33903000.1500.0.1"))]] }
    KEY_COL true 7 0
    [(DOTACAO, .str (js "19.101.12.368.0533.2068.9900.33903000.1500.0.1"))] rfl
  have h0 : (preencherNovasColunas
      { columns := [DOTACAO],
        rows := [[(DOTACAO, .str (js "19.101.12.368.0533.2068.9900.33903000.1500.0.1"))]] }
      KEY_COL true 7).rows[0]?
      = some [(DOTACAO, .str (js "19.101.12.368.0533.2068.9900.33903000.1500.0.1")),
          (js "Função", .str (js "12")), (js "Subfunção", .str (js "368")),
          (js "Programa de Governo", .str (js "0533")), (js "PAOE", .str (js "2068")),
          (NATUREZA, .str (js "33903000")), (js "Fonte", .str (js "1500")),
          (js "Iduso", .str (js "0")), (js "Cat.Econ", .str (js "3")),
          (js "Grupo", .str (js "3")), (js "Modalidade", .str (js "90"))] := by decide
  rw [h0] at h1
  injection h1 with h1
  have hn : natureza = js "33903000" := by
    rw [← h1] at h2
    have h5 : Obj.get [(DOTACAO, .str (js "19.101.12.368.0533.2068.9900.33903000.1500.0.1")),
          (js "Função", .str (js "12")), (js "Subfunção", .str (js "368")),
          (js "Programa de Governo", .str (js "0533")), (js "PAOE", .str (js "2068")),
          (NATUREZA, .str (js "33903000")), (js "Fonte", .str (js "1500")),
          (js "Iduso", .str (js "0")), (js "Cat.Econ", .str (js "3")),
          (js "Grupo", .str (js "3")), (js "Modalidade", .str (js "90"))] NATUREZA
        = .str (js "33903000") := by decide
    rw [h5] at h2
    injection h2 with h2
    exact h2.symm
  obtain ⟨c1, c2, c3⟩ := h4 51 51 57 48 (js "3000") (by rw [hn]; decide)
  exact ⟨out, by rw [h0, h1], by rw [h2, hn], c1, c2, c3⟩

/-! ## Monetary parsing -/

theorem trim_sem_espacos (s : Str) (h : ∀ c ∈ s, isSpace c = false) : trim s = s := by
  unfold trim
  have h1 : s.dropWhile isSpace = s := by
    rw [List.dropWhile_eq_self_iff]
    intro hl
    rw [h _ (List.get_mem _ _ _)]
    simp
  rw [h1, List.rdropWhile_eq_self_iff]
  intro hl
  rw [h _ (List.getLast_mem hl)]
  simp

theorem replaceUnit_append (a : Nat) (r u v : Str) :
    replaceUnit a r (u ++ v) = replaceUnit a r u ++ replaceUnit a r v := by
  unfold replaceUnit
  exact List.flatMap_append _ _ _

theorem isSpace_de_digito (c : Nat) (h : isDigit c = true ∨ c = 44 ∨ c = 46 ∨ c = 45) :
    isSpace c = false := by
  rcases h with h | rfl | rfl | rfl
  · simp only [isDigit, Bool.and_eq_true, decide_eq_true_eq] at h
    simp only [isSpace, Bool.or_eq_false_iff, decide_eq_false_iff_not, Bool.and_eq_false_imp,
      decide_eq_true_eq]
    refine ⟨⟨⟨⟨⟨⟨⟨⟨⟨⟨⟨⟨⟨⟨?_, ?_⟩, ?_⟩, ?_⟩, ?_⟩, ?_⟩, ?_⟩, ?_⟩, ?_⟩, ?_⟩, ?_⟩, ?_⟩, ?_⟩, ?_⟩,
      ?_⟩ <;> omega
  · decide
  · decide
  · decide

/-- The text of an amount: an optional sign, an integer part of digits and
separating points, a comma and the decimals. -/
theorem numeroDe_quantia (negativo : Bool) (D decimais : Str) (hD : ∀ c ∈ D, isDigit c = true)
    (hne : D ≠ []) (hdec : ∀ c ∈ decimais, isDigit c = true)
    (hlim : digitsToNat (D ++ decimais) < LIMITE_NUMERO * 10 ^ decimais.length) :
    numeroDe ((if negativo then [45] else []) ++ D ++ 46 :: decimais)
      = .finito { negativo := negativo, mantissa := digitsToNat (D ++ decimais),
                  escala := decimais.length } := by
  obtain ⟨d, D', rfl⟩ := List.exists_cons_of_ne_nil hne
  have hd : isDigit d = true := hD d (List.mem_cons_self _ _)
  have hd45 : d ≠ 45 := by
    rintro rfl
    exact absurd hd (by decide)
  have h46 : ¬ isDigit 46 = true := by decide
  have htake : ((d :: D') ++ 46 :: decimais).takeWhile isDigit = d :: D' := by
    rw [List.takeWhile_append_of_pos hD, List.takeWhile_cons_of_neg h46, List.append_nil]
  have hdrop : ((d :: D') ++ 46 :: decimais).dropWhile isDigit = 46 :: decimais := by
    rw [List.dropWhile_append_of_pos hD, List.dropWhile_cons_of_neg h46]
  have hall : decimais.all isDigit = true := List.all_eq_true.mpr hdec
  cases negativo with
  | true =>
    have hrest : List.drop 1 ([45] ++ (d :: D') ++ 46 :: decimais)
        = (d :: D') ++ 46 :: decimais := rfl
    unfold numeroDe
    simp only [if_true]
    rw [if_neg (by simp)]
    simp only [List.cons_append, List.nil_append, List.head?_cons, decide_True, if_true,
      List.drop_succ_cons, List.drop_zero]
    rw [← List.cons_append, htake, hdrop]
    simp only [hall, Bool.and_true, decide_True, if_true, reduceCtorEq, false_and, if_false]
    rw [if_neg (by omega)]
    rfl
  | false =>
    unfold numeroDe
    simp only [Bool.false_eq_true, if_false, List.nil_append]
    rw [if_neg (by simp)]
    have hhead : (((d :: D') ++ 46 :: decimais).head? = some 45) = False := by
      simp [hd45]
    simp only [hhead, decide_False, Bool.false_eq_true, if_false]
    rw [htake, hdrop]
    simp only [hall, Bool.and_true, decide_True, if_true, reduceCtorEq, false_and, if_false]
    rw [if_neg (by omega)]

theorem parseValorDb_quantia (negativo : Bool) (inteiro decimais : Str)
    (hI : ∀ c ∈ inteiro, isDigit c = true ∨ c = 46) (hI1 : ∃ c ∈ inteiro, isDigit c = true)
    (hlen : decimais.length = 2) (hdec : ∀ c ∈ decimais, isDigit c = true)
    (hlim : digitsToNat (inteiro.filter isDigit ++ decimais) < LIMITE_NUMERO * 100) :
    parseValorDb (.str ((if negativo then [45] else []) ++ inteiro ++ 44 :: decimais))
      = some { negativo := negativo
               mantissa := digitsToNat (inteiro.filter isDigit ++ decimais)
               escala := 2 } := by
  have hsinal : ∀ c ∈ (if negativo then [45] else ([] : Str)), c = 45 := by
    intro c hc
    cases negativo with
    | true => simpa using hc
    | false => cases hc
  have hchars : ∀ c ∈ (if negativo then [45] else []) ++ inteiro ++ 44 :: decimais,
      isDigit c = true ∨ c = 44 ∨ c = 46 ∨ c = 45 := by
    intro c hc
    rcases List.mem_append.mp hc with h | h
    · rcases List.mem_append.mp h with h | h
      · exact Or.inr (Or.inr (Or.inr (hsinal c h)))
      · rcases hI c h with h | h
        · exact Or.inl h
        · exact Or.inr (Or.inr (Or.inl h))
    · rcases List.mem_cons.mp h with h | h
      · exact Or.inr (Or.inl h)
      · exact Or.inl (hdec c h)
  have htrim : trim ((if negativo then [45] else []) ++ inteiro ++ 44 :: decimais)
      = (if negativo then [45] else []) ++ inteiro ++ 44 :: decimais :=
    trim_sem_espacos _ (fun c hc => isSpace_de_digito c (hchars c hc))
  have h44 : (44 : Nat) ∈ (if negativo then [45] else []) ++ inteiro ++ 44 :: decimais :=
    List.mem_append_right _ (List.mem_cons_self _ _)
  have hsem : (if negativo then [45] else []) ++ inteiro ++ 44 :: decimais ∉ SEM_VALOR := by
    intro h
    exact (by decide : ∀ s ∈ SEM_VALOR, (44 : Nat) ∉ s) _ h h44
  have hfilt : ((if negativo then [45] else []) ++ inteiro ++ 44 :: decimais).filter
      (fun c => isDigit c || c = 44 || c = 46 || c = 45)
      = (if negativo then [45] else []) ++ inteiro ++ 44 :: decimais := by
    apply List.filter_eq_self.mpr
    intro c hc
    rcases hchars c hc with h | h | h | h <;> simp [h]
  have hsem46 : ((if negativo then [45] else ([] : Str))).filter (fun c => c != 46)
      = (if negativo then [45] else []) := by
    cases negativo <;> rfl
  have hint46 : inteiro.filter (fun c => c != 46) = inteiro.filter isDigit := by
    apply List.filter_congr
    intro c hc
    rcases hI c hc with h | h
    · have : c ≠ 46 := by rintro rfl; exact absurd h (by decide)
      simp [h, this]
    · subst h; decide
  have hdec46 : decimais.filter (fun c => c != 46) = decimais := by
    apply List.filter_eq_self.mpr
    intro c hc
    have h := hdec c hc
    have : c ≠ 46 := by rintro rfl; exact absurd h (by decide)
    simp [this]
  have hsem44 : replaceUnit 44 [46] (if negativo then [45] else ([] : Str))
      = (if negativo then [45] else []) := by
    cases negativo <;> rfl
  have hint44 : replaceUnit 44 [46] (inteiro.filter isDigit) = inteiro.filter isDigit := by
    apply replaceUnit_of_not_mem
    intro h
    exact absurd (List.mem_filter.mp h).2 (by decide)
  have hdec44 : replaceUnit 44 [46] decimais = decimais := by
    apply replaceUnit_of_not_mem
    intro h
    exact absurd (hdec _ h) (by decide)
  have hclean : replaceUnit 44 [46]
      (((if negativo then [45] else []) ++ inteiro ++ 44 :: decimais).filter (fun c => c != 46))
      = (if negativo then [45] else []) ++ inteiro.filter isDigit ++ 46 :: decimais := by
    rw [List.filter_append, List.filter_append, hsem46, hint46, List.filter_cons_of_pos (by decide),
      hdec46, replaceUnit_append, replaceUnit_append, hsem44, hint44,
      show (44 :: decimais : Str) = [44] ++ decimais from rfl, replaceUnit_append, hdec44]
    rfl
  have hD : ∀ c ∈ inteiro.filter isDigit, isDigit c = true := fun c hc => (List.mem_filter.mp hc).2
  have hDne : inteiro.filter isDigit ≠ [] := by
    obtain ⟨c, hc, hcd⟩ := hI1
    exact List.ne_nil_of_mem (List.mem_filter.mpr ⟨hc, hcd⟩)
  have h100 : (10 : Nat) ^ 2 = 100 := by norm_num
  have hnum := numeroDe_quantia negativo (inteiro.filter isDigit) decimais hD hDne hdec
    (by rw [hlen, h100]; exact hlim)
  unfold parseValorDb
  simp only [Val.toStr, htrim, hsem, if_false, hfilt, h44, if_true, hclean, hnum, hlen]

set_option exponentiation.threshold 2000 in
set_option maxRecDepth 1000000 in
/-- C19 as stated fails: an amount too large for a finite Number is
turned into `null`. -/
theorem quantia_alem_do_limite :
    (js "1" ++ (List.replicate 103 (js ".000")).flatten ++ js ",00").length = 416 ∧
    parseValorDb (.str (js "1" ++ (List.replicate 103 (js ".000")).flatten ++ js ",00"))
      = none := by
  decide

set_option exponentiation.threshold 2000 in
/-- C19, amended. `parseValorDb('1.234,56')` is 1234.56 and
`parseValorDb('-')` is `null`; for every amount written with `.` between the
digits of the integer part, `,` before two decimals and an optional leading
`-`, whose magnitude is below `2^1024 - 2^970`, `parseValorDb` returns that
amount; for the empty string, `-` and the sentinels it returns `null`; for
every value it returns `null` or a finite Number. -/
theorem parseValorDb_quantias :
    parseValorDb (.str (js "1.234,56"))
      = some { negativo := false, mantissa := 123456, escala := 2 } ∧
    parseValorDb (.str (js "-")) = none ∧
    (∀ s ∈ [[], js "-", MISSING_INFO, MISSING_ID, js "NAO INFORMADO", js "NAO IDENTIFICADO"],
      parseValorDb (.str s) = none) ∧
    (∀ (negativo : Bool) (inteiro decimais : Str),
      (∀ c ∈ inteiro, isDigit c = true ∨ c = 46) → (∃ c ∈ inteiro, isDigit c = true) →
      decimais.length = 2 → (∀ c ∈ decimais, isDigit c = true) →
      digitsToNat (inteiro.filter isDigit ++ decimais) < LIMITE_NUMERO * 100 →
      parseValorDb (.str ((if negativo then [45] else []) ++ inteiro ++ 44 :: decimais))
        = some { negativo := negativo
                 mantissa := digitsToNat (inteiro.filter isDigit ++ decimais)
                 escala := 2 }) ∧
    (∀ v : Val, parseValorDb v = none ∨ ∃ d, parseValorDb v = some d) := by
  refine ⟨by decide, by decide, by decide, parseValorDb_quantia, ?_⟩
  intro v
  cases h : parseValorDb v with
  | none => exact Or.inl rfl
  | some d => exact Or.inr ⟨d, rfl⟩

set_option exponentiation.threshold 2000 in
/-- C19 amended, on a negative amount with two separating points. -/
theorem parseValorDb_quantias_witness :
    parseValorDb (.str (js "-12.345.678,90"))
      = some { negativo := true, mantissa := 1234567890, escala := 2 } := by
  have h := parseValorDb_quantias.2.2.2.1 true (js "12.345.678") (js "90")
    (by decide) (by decide) (by decide) (by decide) (by decide)
  have hm : digitsToNat ((js "12.345.678").filter isDigit ++ js "90") = 1234567890 := by decide
  rw [hm] at h
  exact h

/-! ## Claims on the net value -/

theorem calcularValorLiquido_columns (diferenca : Str → Str → Str) (dataset : Dataset)
    (h1 : VALOR_EMP ∈ dataset.columns) (h2 : DEVOLUCAO_GCV ∈ dataset.columns) :
    (calcularValorLiquido diferenca dataset).columns = colunasComLiquido dataset.columns := by
  unfold calcularValorLiquido
  simp [h1, h2]

/-- C20. On a dataset whose net-value column precedes the deduction
column, `calcularValorLiquido` leaves the net-value column two places after the
deduction column, with another column between them; it lands directly after
the deduction column when it was absent or already behind it. -/
theorem coluna_liquida_fora_do_lugar (diferenca : Str → Str → Str) :
    (calcularValorLiquido diferenca
      { columns := [VALOR_LIQUIDO, VALOR_EMP, DEVOLUCAO_GCV, js "Credor"], rows := [] }).columns
      = [VALOR_EMP, DEVOLUCAO_GCV, js "Credor", VALOR_LIQUIDO] ∧
    (calcularValorLiquido diferenca
      { columns := [VALOR_EMP, DEVOLUCAO_GCV, js "Credor"], rows := [] }).columns
      = [VALOR_EMP, DEVOLUCAO_GCV, VALOR_LIQUIDO, js "Credor"] ∧
    (calcularValorLiquido diferenca
      { columns := [VALOR_EMP, DEVOLUCAO_GCV, js "Credor", VALOR_LIQUIDO], rows := [] }).columns
      = [VALOR_EMP, DEVOLUCAO_GCV, VALOR_LIQUIDO, js "Credor"] := by
  refine ⟨?_, ?_, ?_⟩
  · rw [calcularValorLiquido_columns _ _ (by decide) (by decide)]; decide
  · rw [calcularValorLiquido_columns _ _ (by decide) (by decide)]; decide
  · rw [calcularValorLiquido_columns _ _ (by decide) (by decide)]; decide

/-! ## Claims on short narrations -/

theorem buscarJanela_curta (base pipeBase : List Str) (n : Nat) (partes : List Str)
    (h : partes.length < n) : buscarJanela base pipeBase n partes = none := by
  cases partes with
  | nil => rfl
  | cons p ps =>
    unfold buscarJanela
    rw [if_neg (by omega)]

theorem buscarCaso_nenhum (histComp histPipeComp : Str) (partes : Nat) (casos : Obj Str)
    (h : ∀ e ∈ casos, casoAplica histComp histPipeComp partes e = false) :
    buscarCaso histComp histPipeComp partes casos = none := by
  induction casos with
  | nil => rfl
  | cons e rest ih =>
    unfold buscarCaso
    rw [h e (List.mem_cons_self _ _)]
    simp only [Bool.false_eq_true, if_false]
    exact ih (fun x hx => h x (List.mem_cons_of_mem _ hx))

/-- C22. A row whose canonical narration has fewer parts than the expected
part count, with no catalog key of that part count occurring in the narration
or matching its pipe form and no non-empty override trigger occurring in it, resolves
to `NÃO IDENTIFICADO`, and the window loop tests no window: it ends without a
match whatever the catalog holds.  The key column of such a row, when the row
had no such column, holds the sentinel. -/
theorem narracao_curta_nao_identificada (U : Unicode) (declarados : List (Str × Val))
    (chaves : List Str) (partesChave : Nat) (dataset : Dataset) (keyColName : Str)
    (i : Nat) (row : Obj Val)
    (hi : dataset.rows[i]? = some row)
    (hcurta : (partesDe (histCanon row)).length < partesLinha U partesChave row)
    (hdir : ∀ k ∈ chavesBase U (chaves.map canonicalizarChaveS) partesChave row,
      includes (histCanon row) k = false)
    (hpipe : paraPipe (histCanon row)
      ∉ chavesPipeBase U (chaves.map canonicalizarChaveS) partesChave row)
    (hcaso : ∀ e ∈ carregarCasosEspecificos U declarados, e.1 ≠ [] →
      includes (normalizeSimple U (.str (histCanon row))) e.1 = false ∧
      includes (normalizeSimple U (.str (paraPipe (histCanon row)))) e.1 = false) :
    resolverLinha U (carregarCasosEspecificos U declarados) (chaves.map canonicalizarChaveS)
      partesChave row = MISSING_ID ∧
    (∀ base pipeBase : List Str,
      buscarJanela base pipeBase (max 1 (partesLinha U partesChave row))
        (partesDe (histCanon row)) = none) ∧
    (Obj.own row keyColName = none →
      ∃ out, (identificarChavePlanejamento U dataset chaves declarados keyColName
          partesChave).rows[i]? = some out ∧
        out.get keyColName = .str MISSING_ID) := by
  have hjan : ∀ base pipeBase : List Str,
      buscarJanela base pipeBase (max 1 (partesLinha U partesChave row))
        (partesDe (histCanon row)) = none :=
    fun base pipeBase => buscarJanela_curta base pipeBase _ _ (by omega)
  have hres : resolverLinha U (carregarCasosEspecificos U declarados)
      (chaves.map canonicalizarChaveS) partesChave row = MISSING_ID := by
    unfold resolverLinha
    dsimp only
    split
    · rfl
    · have hd : extrairChaveValidaDoHistorico (histCanon row)
          (chavesBase U (chaves.map canonicalizarChaveS) partesChave row) = none := by
        unfold extrairChaveValidaDoHistorico
        rw [List.find?_eq_none]
        intro k hk
        rw [hdir k hk]
        decide
      have hc : buscarCaso (normalizeSimple U (.str (histCanon row)))
          (normalizeSimple U (.str (paraPipe (histCanon row))))
          (partesLinha U partesChave row) (carregarCasosEspecificos U declarados) = none := by
        apply buscarCaso_nenhum
        intro e he
        unfold casoAplica
        by_cases hv : e.1 = []
        · rw [hv]; rfl
        · rw [(hcaso e he hv).1, (hcaso e he hv).2]
          simp
      rw [hd, hc, hjan]
      simp only [Option.filter_none, hpipe, if_false, Option.getD_none, if_true]
  refine ⟨hres, hjan, ?_⟩
  intro hrow
  rw [identificar_linhas, List.getElem?_map, hi]
  refine ⟨_, rfl, ?_⟩
  show (linhaComChave keyColName (resolverLinha U (carregarCasosEspecificos U declarados)
    (chaves.map canonicalizarChaveS) partesChave row) row).get keyColName = _
  rw [hres]
  exact linhaComChave_get _ _ _ hrow (Or.inl rfl)

set_option maxRecDepth 100000 in
/-- C22, on the narration `DOT * ADJ1 * 2025 * 123` of a row of 2025, with
four tokens where seven are expected. -/
theorem narracao_curta_nao_identificada_witness :
    partesDe (histCanon [(js "Exercício", .num 2025),
      (HISTORICO, .str (js "DOT * ADJ1 * 2025 * 123"))])
      = [js "DOT", js "ADJ1", js "2025", js "123"] ∧
    partesLinha latin1 7 [(js "Exercício", .num 2025),
      (HISTORICO, .str (js "DOT * ADJ1 * 2025 * 123"))] = 7 ∧
    resolverLinha latin1 (carregarCasosEspecificos latin1 [])
      ([js "* REGIAO_X * SUBFUNC_Y * ADJ1 * MACRO_Z * PILAR_A * EIXO_B * POL_C *"].map
        canonicalizarChaveS) 7
      [(js "Exercício", .num 2025), (HISTORICO, .str (js "DOT * ADJ1 * 2025 * 123"))]
      = MISSING_ID :=
  ⟨by decide, by decide,
   (narracao_curta_nao_identificada latin1 []
    [js "* REGIAO_X * SUBFUNC_Y * ADJ1 * MACRO_Z * PILAR_A * EIXO_B * POL_C *"] 7
    { columns := [js "Exercício", HISTORICO]
      rows := [[(js "Exercício", .num 2025),
                (HISTORICO, .str (js "DOT * ADJ1 * 2025 * 123"))]] }
    KEY_COL 0
    [(js "Exercício", .num 2025), (HISTORICO, .str (js "DOT * ADJ1 * 2025 * 123"))]
    (by decide) (by decide) (by decide) (by decide) (by decide)).1⟩

/-! ## The star-form window test -/

/-- The canonical narration is the serialisation of its parts, when it has
any. -/
theorem histCanon_serializada (row : Obj Val) (h : partesDe (histCanon row) ≠ []) :
    histCanon row = serializar (partesDe (histCanon row)) := by
  have h1 : partesDe (limparHistorico (historicoDe row)) ≠ [] := by
    rw [← partesDe_canonicalizar]; exact h
  have hemp : ¬ (partesDe (limparHistorico (historicoDe row))).isEmpty = true :=
    fun e => h1 (List.isEmpty_iff.mp e)
  conv_lhs => rw [histCanon, canonicalizar_def, if_neg hemp]
  rw [histCanon, partesDe_canonicalizar]

/-- A window of the tokens of the narration whose serialisation is a key of
the base: the direct-containment stage finds a key, and that key is not
empty. -/
theorem janela_na_base_direta (U : Unicode) (chavesNorm : List Str) (partesChave : Nat)
    (row : Obj Val) (w : List Str) (hw : w ≠ []) (hwin : w <:+: partesDe (histCanon row))
    (hmem : serializar w ∈ chavesBase U chavesNorm partesChave row) :
    ∃ k, extrairChaveValidaDoHistorico (histCanon row)
        (chavesBase U chavesNorm partesChave row) = some k ∧
      k ∈ chavesBase U chavesNorm partesChave row ∧ includes (histCanon row) k = true ∧
      k ≠ [] := by
  have hne : partesDe (histCanon row) ≠ [] := by
    intro e
    rw [e] at hwin
    exact hw (List.eq_nil_of_infix_nil hwin)
  have hinc : includes (histCanon row) (serializar w) = true := by
    unfold includes
    rw [decide_eq_true_eq]
    conv_rhs => rw [histCanon_serializada row hne]
    exact serializar_infix _ _ hw hwin
  have hboas : ∀ p ∈ w, Aparada p ∧ STAR ∉ p := fun p hp =>
    partesDe_boas (histCanon row) p (hwin.subset hp)
  have hcount := (mem_chavesBase U chavesNorm partesChave row _ hmem).2
  rw [contar_serializar w hw hboas] at hcount
  have hpos : 0 < partesLinha U partesChave row := by
    rw [← hcount]; exact List.length_pos.mpr hw
  cases hf : extrairChaveValidaDoHistorico (histCanon row)
      (chavesBase U chavesNorm partesChave row) with
  | none =>
    unfold extrairChaveValidaDoHistorico at hf
    have := List.find?_eq_none.mp hf _ hmem
    exact absurd hinc this
  | some k =>
    have hkm : k ∈ chavesBase U chavesNorm partesChave row := List.mem_of_find?_eq_some hf
    refine ⟨k, rfl, hkm, ?_, ?_⟩
    · have := List.find?_some hf
      simpa using this
    · intro e
      have := (mem_chavesBase U chavesNorm partesChave row k hkm).2
      rw [e, contar_vazio] at this
      omega

/-- When no window of the tokens serialises to a key of the base, the window
loop gives what it gives without its star-form test. -/
theorem buscarJanela_sem_estrela (base pipeBase : List Str) (n : Nat) (hn : 0 < n) :
    ∀ partes : List Str, (∀ w, w ≠ [] → w <:+: partes → serializar w ∉ base) →
      buscarJanela base pipeBase n partes = buscarJanelaSemEstrela pipeBase n partes := by
  intro partes
  induction partes with
  | nil => intro _; rfl
  | cons p ps ih =>
    intro h
    unfold buscarJanela buscarJanelaSemEstrela
    have htake : (p :: ps).take n ≠ [] := by
      cases n with
      | zero => omega
      | succ m => simp
    have hnot : serializar ((p :: ps).take n) ∉ base :=
      h _ htake (List.take_prefix n (p :: ps)).isInfix
    simp only [hnot, if_false]
    rw [ih (fun w hw hwin => h w hw (hwin.trans (List.suffix_cons p ps).isInfix))]

/-- The row loop gives the same value with and without the star-form window
test. -/
theorem resolverLinha_sem_estrela (U : Unicode) (casos : Obj Str) (chavesNorm : List Str)
    (partesChave : Nat) (row : Obj Val) :
    resolverLinhaSemEstrela U casos chavesNorm partesChave row
      = resolverLinha U casos chavesNorm partesChave row := by
  unfold resolverLinhaSemEstrela resolverLinha
  dsimp only
  split
  · rfl
  · cases hd : (extrairChaveValidaDoHistorico (histCanon row)
        (chavesBase U chavesNorm partesChave row)).filter (fun c => !c.isEmpty) with
    | some k => rfl
    | none =>
      dsimp only
      have hjan : buscarJanela (chavesBase U chavesNorm partesChave row)
          (chavesPipeBase U chavesNorm partesChave row)
          (max 1 (partesLinha U partesChave row)) (partesDe (histCanon row))
          = buscarJanelaSemEstrela (chavesPipeBase U chavesNorm partesChave row)
            (max 1 (partesLinha U partesChave row)) (partesDe (histCanon row)) := by
        apply buscarJanela_sem_estrela _ _ _ (by omega)
        intro w hw hwin hmem
        obtain ⟨k, hk, _, _, hne⟩ :=
          janela_na_base_direta U chavesNorm partesChave row w hw hwin hmem
        rw [hk] at hd
        cases k with
        | nil => exact hne rfl
        | cons c cs => simp [Option.filter] at hd
      rw [hjan]

/-- C24. The star-form window test is subsumed by direct containment.  When
a window of the tokens of the canonical narration of a row, serialised again,
is one of the catalog keys of the part count of the row, the direct-containment
stage already finds a key of the catalog in the narration and the row
resolves to it.  Hence `identificarChavePlanejamento` gives the same dataset
with the star-form window test removed, on every input. -/
theorem janela_estrela_subsumida :
    (∀ (U : Unicode) (casos : Obj Str) (chavesNorm : List Str) (partesChave : Nat)
      (row : Obj Val) (w : List Str),
      w ≠ [] → w <:+: partesDe (histCanon row) →
      serializar w ∈ chavesBase U chavesNorm partesChave row →
      ∃ k, extrairChaveValidaDoHistorico (histCanon row)
          (chavesBase U chavesNorm partesChave row) = some k ∧
        (historicoDe row ≠ .str MISSING_INFO →
          resolverLinha U casos chavesNorm partesChave row = canonicalizarChaveS k)) ∧
    (∀ (U : Unicode) (dataset : Dataset) (chaves : List Str)
      (declarados : List (Str × Val)) (keyColName : Str) (partesChave : Nat),
      identificarChavePlanejamentoSemEstrela U dataset chaves declarados keyColName partesChave
        = identificarChavePlanejamento U dataset chaves declarados keyColName partesChave) := by
  constructor
  · intro U casos chavesNorm partesChave row w hw hwin hmem
    obtain ⟨k, hk, _, _, hne⟩ :=
      janela_na_base_direta U chavesNorm partesChave row w hw hwin hmem
    exact ⟨k, hk, fun hh => resolver_direta U casos chavesNorm partesChave row k hh hk hne⟩
  · intro U dataset chaves declarados keyColName partesChave
    unfold identificarChavePlanejamentoSemEstrela identificarChavePlanejamento
    have : resolverLinhaSemEstrela U (carregarCasosEspecificos U declarados)
        (chaves.map canonicalizarChaveS) partesChave
        = resolverLinha U (carregarCasosEspecificos U declarados)
          (chaves.map canonicalizarChaveS) partesChave :=
      funext (resolverLinha_sem_estrela U _ _ partesChave)
    simp only [this]

set_option maxRecDepth 100000 in
/-- C24, on a narration whose tokens 1 to 7 serialise to the catalog key:
direct containment finds the key. -/
theorem janela_estrela_subsumida_witness :
    ∃ k, extrairChaveValidaDoHistorico
        (histCanon [(js "Exercício", .num 2025),
          (HISTORICO, .str (js "PAGAMENTO * A * B * C * D * E * F * G * REF"))])
        (chavesBase latin1 [js "* A * B * C * D * E * F * G *"] 7
          [(js "Exercício", .num 2025),
           (HISTORICO, .str (js "PAGAMENTO * A * B * C * D * E * F * G * REF"))]) = some k ∧
      (historicoDe [(js "Exercício", .num 2025),
          (HISTORICO, .str (js "PAGAMENTO * A * B * C * D * E * F * G * REF"))]
          ≠ .str MISSING_INFO →
        resolverLinha latin1 [] [js "* A * B * C * D * E * F * G *"] 7
          [(js "Exercício", .num 2025),
           (HISTORICO, .str (js "PAGAMENTO * A * B * C * D * E * F * G * REF"))]
          = canonicalizarChaveS k) :=
  janela_estrela_subsumida.1 latin1 [] [js "* A * B * C * D * E * F * G *"] 7
    [(js "Exercício", .num 2025),
     (HISTORICO, .str (js "PAGAMENTO * A * B * C * D * E * F * G * REF"))]
    [js "A", js "B", js "C", js "D", js "E", js "F", js "G"]
    (by decide) (by decide) (by decide)

/-! ## Claims on the agreement of resolution and persistence -/

set_option maxRecDepth 100000 in
/-- C25. A row whose exercise column holds no year (the 0 that
`converterTipos` writes for a blank cell) inside a batch whose default part
count is 8: the row is not forced, `identificarChavePlanejamento` resolves it
to the 8-part catalog key its narration holds, and `montarRegistrosParaDb`,
which expects 7 parts of a row without a year, persists `null` for the key
just resolved.  With the batch default 7 the same row resolves to a 7-part
key, which is persisted. -/
theorem chave_resolvida_anulada_na_gravacao :
    obterExercicioLinha latin1
      [(js "Exercício", .num 0),
       (HISTORICO, .str (js "PAGAMENTO * A * B * C * D * E * F * G * H * REF"))] = none ∧
    partesLinha latin1 8
      [(js "Exercício", .num 0),
       (HISTORICO, .str (js "PAGAMENTO * A * B * C * D * E * F * G * H * REF"))] = 8 ∧
    (identificarChavePlanejamento latin1
      { columns := [js "Exercício", HISTORICO]
        rows := [[(js "Exercício", .num 0),
                  (HISTORICO, .str (js "PAGAMENTO * A * B * C * D * E * F * G * H * REF"))]] }
      [js "* A * B * C * D * E * F * G * H *"] [] KEY_COL 8).rows
      = [[(KEY_COL, .str (js "* A * B * C * D * E * F * G * H *")),
          (js "Exercício", .num 0),
          (HISTORICO, .str (js "PAGAMENTO * A * B * C * D * E * F * G * H * REF"))]] ∧
    (Obj.get
      [(KEY_COL, .str (js "* A * B * C * D * E * F * G * H *")),
       (js "Exercício", .num 0),
       (HISTORICO, .str (js "PAGAMENTO * A * B * C * D * E * F * G * H * REF"))]
      FORCAR_CHAVE).truthy = false ∧
    partesEsperadas latin1
      [(KEY_COL, .str (js "* A * B * C * D * E * F * G * H *")),
       (js "Exercício", .num 0),
       (HISTORICO, .str (js "PAGAMENTO * A * B * C * D * E * F * G * H * REF"))] = 7 ∧
    (montarRegistrosParaDb latin1 id id
      (identificarChavePlanejamento latin1
        { columns := [js "Exercício", HISTORICO]
          rows := [[(js "Exercício", .num 0),
                    (HISTORICO,
                      .str (js "PAGAMENTO * A * B * C * D * E * F * G * H * REF"))]] }
        [js "* A * B * C * D * E * F * G * H *"] [] KEY_COL 8)
      .null .null (.num 1)).map (fun reg => reg.payload.get (js "chave_planejamento"))
      = [.null] ∧
    (montarRegistrosParaDb latin1 id id
      (identificarChavePlanejamento latin1
        { columns := [js "Exercício", HISTORICO]
          rows := [[(js "Exercício", .num 0),
                    (HISTORICO, .str (js "PAGAMENTO * A * B * C * D * E * F * G * REF"))]] }
        [js "* A * B * C * D * E * F * G *"] [] KEY_COL 7)
      .null .null (.num 1)).map (fun reg => reg.payload.get (js "chave_planejamento"))
      = [.str (js "* A * B * C * D * E * F * G *")] := by
  decide

/-! ## Claims on short allocation codes -/

set_option maxRecDepth 100000 in
/-- C26. The allocation code `10.20.30` has three segments, so the nature
field is filled with the padding `NÃO INFORMADO`; that text has 13 code units,
and both pipelines slice it: `preencherNovasColunas` and `addDotacao` followed
by `addNatureza` set Cat.Econ to `N`, Grupo to `Ã` and Modalidade to `O `.  In
the NOB pipeline the same happens for a blank allocation cell, which
`cleanTextFields` has turned into `NÃO INFORMADO`. -/
theorem natureza_ausente_e_fatiada :
    (fragmentos 46 (js "10.20.30")).length = 3 ∧
    (preencherNovasColunas
      { columns := [DOTACAO], rows := [[(DOTACAO, .str (js "10.20.30"))]] }
      KEY_COL true 7).rows
      = [[(DOTACAO, .str (js "10.20.30")),
          (js "Função", .str (js "30")),
          (js "Subfunção", .str MISSING_INFO),
          (js "Programa de Governo", .str MISSING_INFO),
          (js "PAOE", .str MISSING_INFO),
          (NATUREZA, .str MISSING_INFO),
          (js "Fonte", .str MISSING_INFO),
          (js "Iduso", .str MISSING_INFO),
          (js "Cat.Econ", .str (js "N")),
          (js "Grupo", .str (js "Ã")),
          (js "Modalidade", .str (js "O "))]] ∧
    addNatureza (addDotacao [(DOTACAO, .str (js "10.20.30"))])
      = [(DOTACAO, .str (js "10.20.30")),
         (js "Função", .str (js "30")),
         (js "Subfunção", .str MISSING_INFO),
         (js "Programa de Governo", .str MISSING_INFO),
         (js "PAOE", .str MISSING_INFO),
         (NATUREZA, .str MISSING_INFO),
         (js "Cat.Econ", .str (js "N")),
         (js "Grupo", .str (js "Ã")),
         (js "Modalidade", .str (js "O "))] ∧
    addNatureza (addDotacao [(DOTACAO, .str MISSING_INFO)])
      = [(DOTACAO, .str MISSING_INFO),
         (js "Função", .str MISSING_INFO),
         (js "Subfunção", .str MISSING_INFO),
         (js "Programa de Governo", .str MISSING_INFO),
         (js "PAOE", .str MISSING_INFO),
         (NATUREZA, .str MISSING_INFO),
         (js "Cat.Econ", .str (js "N")),
         (js "Grupo", .str (js "Ã")),
         (js "Modalidade", .str (js "O "))] := by
  decide

/-! ## Claims on the key column -/

set_option maxRecDepth 100000 in
/-- C27. A dataset whose columns already hold `Chave de Planejamento`: the
engine resolves the row to the catalog key its narration holds, yet the key
column of the row keeps the text the sheet had there (canonicalised), because
the spread of the row overwrites the value set first, and the column list
names the key column twice. -/
theorem coluna_de_chave_preexistente :
    resolverLinha latin1 (carregarCasosEspecificos latin1 [])
      ([js "* A * B * C * D * E * F * G *"].map canonicalizarChaveS) 7
      [(KEY_COL, .str (js "antiga")), (js "Exercício", .num 2025),
       (HISTORICO, .str (js "PAGAMENTO * A * B * C * D * E * F * G * REF"))]
      = js "* A * B * C * D * E * F * G *" ∧
    identificarChavePlanejamento latin1
      { columns := [KEY_COL, js "Exercício", HISTORICO]
        rows := [[(KEY_COL, .str (js "antiga")), (js "Exercício", .num 2025),
                  (HISTORICO, .str (js "PAGAMENTO * A * B * C * D * E * F * G * REF"))]] }
      [js "* A * B * C * D * E * F * G *"] [] KEY_COL 7
      = { columns := [KEY_COL, KEY_COL, js "Exercício", HISTORICO]
          rows := [[(KEY_COL, .str (js "* antiga *")), (js "Exercício", .num 2025),
                    (HISTORICO, .str (js "PAGAMENTO * A * B * C * D * E * F * G * REF"))]] } ∧
    List.count KEY_COL [KEY_COL, KEY_COL, js "Exercício", HISTORICO] = 2 := by
  decide

/-! ## Claims on the loading of the catalog -/

theorem tentar_ok {α : Type} (corpo : Except Excecao α) (alt : α) :
    ∃ v, tentar corpo alt = .ok v := by
  cases corpo with
  | ok v => exact ⟨v, rfl⟩
  | error e => exact ⟨alt, rfl⟩

/-- C21. Catalog loading fails softly.  Whatever the file holds and whatever
`JSON.parse` makes of it, each of the three loaders returns: a list of keys
for `carregarChavesPlanejamento`, a table for `carregarCasosEspecificos` and for
`carregarForcarChaves`.  When the file cannot be read or its text is not JSON,
the result is the empty list, respectively the empty table; a document that is
`null`, a number or an object gives the empty list of keys, and a document that
is `null` or a number gives the empty tables. -/
theorem carga_tolerante (U : Unicode) (parse : Str → Option Json) (arquivo : Option Str) :
    ((∃ chaves, carregarChavesPlanejamentoDe parse arquivo = .ok chaves) ∧
      (∃ casos, carregarCasosEspecificosDe U parse arquivo = .ok casos) ∧
      (∃ forcadas, carregarForcarChavesDe parse arquivo = .ok forcadas)) ∧
    (∀ e, readJsonWithBom parse arquivo = .error e →
      carregarChavesPlanejamentoDe parse arquivo = .ok [] ∧
      carregarCasosEspecificosDe U parse arquivo = .ok [] ∧
      carregarForcarChavesDe parse arquivo = .ok []) ∧
    (∀ documento, readJsonWithBom parse arquivo = .ok documento →
      (documento = .null ∨ (∃ t, documento = .num t) ∨ (∃ ms, documento = .obj ms) →
        carregarChavesPlanejamentoDe parse arquivo = .ok []) ∧
      (documento = .null ∨ (∃ t, documento = .num t) →
        carregarCasosEspecificosDe U parse arquivo = .ok [] ∧
        carregarForcarChavesDe parse arquivo = .ok [])) := by
  refine ⟨⟨tentar_ok _ _, tentar_ok _ _, tentar_ok _ _⟩, ?_, ?_⟩
  · intro e he
    unfold carregarChavesPlanejamentoDe carregarCasosEspecificosDe carregarForcarChavesDe
    rw [he]
    exact ⟨rfl, rfl, rfl⟩
  · intro documento hd
    unfold carregarChavesPlanejamentoDe carregarCasosEspecificosDe carregarForcarChavesDe
    rw [hd]
    constructor
    · rintro (h | ⟨t, h⟩ | ⟨ms, h⟩) <;> rw [h] <;> rfl
    · rintro (h | ⟨t, h⟩) <;> rw [h] <;> exact ⟨rfl, rfl⟩

set_option maxRecDepth 100000 in
/-- C21, on a missing file, and on a list of keys one of whose elements cannot
be converted to text. -/
theorem carga_tolerante_witness :
    (carregarChavesPlanejamentoDe (fun _ => none) none = .ok [] ∧
      carregarCasosEspecificosDe latin1 (fun _ => none) none = .ok [] ∧
      carregarForcarChavesDe (fun _ => none) none = .ok []) ∧
    carregarChavesPlanejamentoDe
      (fun _ => some (.arr [.str (js "A*B"), .obj [(js "toString", .null)]]))
      (some (js "[]")) = .ok [] ∧
    carregarChavesPlanejamentoDe
      (fun _ => some (.arr [.str (js "A*B"), .null, .arr [.num (js "1"), .null]]))
      (some (js "[]")) = .ok [js "* A * B *", js "* null *", js "* 1, *"] :=
  ⟨(carga_tolerante latin1 (fun _ => none) none).2.1 .arquivo rfl, by decide, by decide⟩

/-! ## Date parsing -/

theorem avancar_no_mes (ano mes : Nat) :
    ∀ n k, k + n ≤ diasDoMes ano mes → avancar n (ano, mes, k) = (ano, mes, k + n) := by
  intro n
  induction n with
  | zero => intro k _; rfl
  | succ n ih =>
    intro k h
    have hk : k < diasDoMes ano mes := by omega
    show avancar n (diaSeguinte (ano, mes, k)) = _
    have : diaSeguinte (ano, mes, k) = (ano, mes, k + 1) := by
      unfold diaSeguinte
      simp only [hk, if_true]
    rw [this, ih (k + 1) (by omega)]
    congr 2
    omega

/-- The arguments of a real date and time of a year from 100 on stand for
that civil time. -/
theorem tempoLocal_real (y m d hh mm ss : Nat) (hy : 100 ≤ y) (hm1 : 1 ≤ m) (hm2 : m ≤ 12)
    (hd1 : 1 ≤ d) (hd2 : d ≤ diasDoMes y m) (hh2 : hh < 24) (hmm : mm < 60) (hss : ss < 60) :
    tempoLocal y m d hh mm ss
      = { ano := y, mes := m, dia := d, hora := hh, minuto := mm, segundo := ss } := by
  unfold tempoLocal
  have h1 : ¬ y ≤ 99 := by omega
  have h2 : ¬ m = 0 := by omega
  have h3 : (hh * 3600 + mm * 60 + ss) / 86400 = 0 := by omega
  have h4 : ¬ d = 0 := by omega
  have h5 : (m - 1) / 12 = 0 := by omega
  have h6 : (m - 1) % 12 + 1 = m := by omega
  simp only [h1, h2, h3, h5, h6, if_false, Nat.add_zero, h4]
  rw [avancar_no_mes y m (d - 1) 1 (by omega)]
  have h7 : 1 + (d - 1) = d := by omega
  simp only [h7, Civil.mk.injEq, true_and]
  refine ⟨?_, ?_, ?_⟩ <;> omega

theorem diasDoMes_le (ano mes : Nat) : diasDoMes ano mes ≤ 31 := by
  unfold diasDoMes
  split
  · split <;> omega
  · split <;> omega

theorem diaSeguinte_limites (p : Nat × Nat × Nat) (hm : p.2.1 ≤ 12) :
    (diaSeguinte p).1 ≤ p.1 + 1 ∧ (diaSeguinte p).2.1 ≤ 12 ∧ (diaSeguinte p).2.2 ≤ 31 := by
  have h31 := diasDoMes_le p.1 p.2.1
  unfold diaSeguinte
  split
  · exact ⟨by simp, hm, by simp only; omega⟩
  · split
    · exact ⟨by simp, by simp only; omega, by simp⟩
    · exact ⟨by simp, by simp, by simp⟩

theorem avancar_limites : ∀ (n : Nat) (p : Nat × Nat × Nat), p.2.1 ≤ 12 → p.2.2 ≤ 31 →
    (avancar n p).1 ≤ p.1 + n ∧ (avancar n p).2.1 ≤ 12 ∧ (avancar n p).2.2 ≤ 31 := by
  intro n
  induction n with
  | zero => intro p hm hd; exact ⟨Nat.le_refl _, hm, hd⟩
  | succ n ih =>
    intro p hm _
    obtain ⟨h1, h2, h3⟩ := diaSeguinte_limites p hm
    obtain ⟨k1, k2, k3⟩ := ih (diaSeguinte p) h2 h3
    show (avancar n (diaSeguinte p)).1 ≤ _ ∧ (avancar n (diaSeguinte p)).2.1 ≤ 12 ∧
      (avancar n (diaSeguinte p)).2.2 ≤ 31
    exact ⟨by omega, k2, k3⟩

/-- The civil time the numbers of a date text stand for lies before the year
10200 and is a time of the clock. -/
theorem tempoLocal_limites (y m d hh mm ss : Nat) (hy : y ≤ 9999) (hm : m ≤ 99) (hd : d ≤ 99)
    (hhh : hh ≤ 99) (hmm : mm ≤ 99) (hss : ss ≤ 99) :
    (tempoLocal y m d hh mm ss).ano ≤ 10200 ∧ (tempoLocal y m d hh mm ss).mes ≤ 12 ∧
    (tempoLocal y m d hh mm ss).dia ≤ 31 ∧ (tempoLocal y m d hh mm ss).hora ≤ 23 ∧
    (tempoLocal y m d hh mm ss).minuto ≤ 59 ∧ (tempoLocal y m d hh mm ss).segundo ≤ 59 := by
  have hprim : ∀ p : Nat × Nat × Nat,
      p = (if m = 0 then ((if y ≤ 99 then 1900 + y else y) - 1, 12, 1)
        else ((if y ≤ 99 then 1900 + y else y) + (m - 1) / 12, (m - 1) % 12 + 1, 1)) →
      p.1 ≤ 10010 ∧ p.2.1 ≤ 12 ∧ p.2.2 ≤ 31 := by
    intro p hp
    subst hp
    split
    · refine ⟨?_, by simp, by simp⟩
      simp only
      split <;> omega
    · refine ⟨?_, by simp only; omega, by simp⟩
      simp only
      split <;> omega
  unfold tempoLocal
  simp only
  generalize hp : (if m = 0 then ((if y ≤ 99 then 1900 + y else y) - 1, 12, 1)
    else ((if y ≤ 99 then 1900 + y else y) + (m - 1) / 12, (m - 1) % 12 + 1, 1)) = p
  obtain ⟨p1, p2, p3⟩ := hprim p hp.symm
  have h31 := diasDoMes_le p.1 (p.2.1 - 1)
  have hav := avancar_limites (d + (hh * 3600 + mm * 60 + ss) / 86400 - 1) p p2 p3
  refine ⟨?_, ?_, ?_, by omega, by omega, by omega⟩
  · split
    · split
      · simp only; omega
      · simp only; omega
    · omega
  · split
    · split
      · simp
      · simp only; omega
    · exact hav.2.1
  · split
    · split
      · simp
      · exact h31
    · exact hav.2.2

/-- The time value of a civil time before the year 10200 is more than a day
inside the range of time values. -/
theorem tempoDe_limites (c : Civil) (ha : c.ano ≤ 10200) (hm : c.mes ≤ 12) (hd : c.dia ≤ 31)
    (hh : c.hora ≤ 23) (hmi : c.minuto ≤ 59) (hs : c.segundo ≤ 59) :
    -8639999913600000 ≤ tempoDe c ∧ tempoDe c ≤ 8639999913600000 := by
  unfold tempoDe diasDesde1970
  simp only
  generalize hn : ((if c.mes ≤ 2 then c.ano - 1 else c.ano) * 365
    + (if c.mes ≤ 2 then c.ano - 1 else c.ano) / 4
    - (if c.mes ≤ 2 then c.ano - 1 else c.ano) / 100
    + (if c.mes ≤ 2 then c.ano - 1 else c.ano) / 400
    + ((153 * (if c.mes ≤ 2 then c.mes + 9 else c.mes - 3) + 2) / 5 + c.dia - 1)) = n
  have hn2 : n ≤ 4000000 := by
    subst hn
    split <;> omega
  omega

/-- The constructor makes a date of the numbers of a date text: their time
value is in the range of time values. -/
theorem novaData_instante (Z : Zona) (y m d hh mm ss : Nat) (hy : y ≤ 9999) (hm : m ≤ 99)
    (hd : d ≤ 99) (hhh : hh ≤ 99) (hmm : mm ≤ 99) (hss : ss ≤ 99) :
    novaData Z y m d hh mm ss = .instante (Z.instante (tempoLocal y m d hh mm ss)) := by
  obtain ⟨h1, h2, h3, h4, h5, h6⟩ := tempoLocal_limites y m d hh mm ss hy hm hd hhh hmm hss
  have h7 := tempoDe_limites _ h1 h2 h3 h4 h5 h6
  have h8 := Z.desvio (tempoLocal y m d hh mm ss)
  unfold novaData timeClip
  rw [if_pos ⟨by omega, by omega⟩]

theorem novaData_valida (Z : Zona) (y m d hh mm ss : Nat) (hy : y ≤ 9999) (hm : m ≤ 99)
    (hd : d ≤ 99) (hhh : hh ≤ 99) (hmm : mm ≤ 99) (hss : ss ≤ 99) :
    novaData Z y m d hh mm ss ≠ .invalida := by
  rw [novaData_instante Z y m d hh mm ss hy hm hd hhh hmm hss]
  intro h
  cases h

theorem digitsToNat_dois_le (a b : Nat) (ha : isDigit a = true) (hb : isDigit b = true) :
    digitsToNat [a, b] ≤ 99 := by
  simp only [isDigit, Bool.and_eq_true, decide_eq_true_eq] at ha hb
  simp only [digitsToNat, List.foldl_cons, List.foldl_nil]
  omega

theorem digitsToNat_quatro_le (a b c d : Nat) (ha : isDigit a = true) (hb : isDigit b = true)
    (hc : isDigit c = true) (hd : isDigit d = true) : digitsToNat [a, b, c, d] ≤ 9999 := by
  simp only [isDigit, Bool.and_eq_true, decide_eq_true_eq] at ha hb hc hd
  simp only [digitsToNat, List.foldl_cons, List.foldl_nil]
  omega

theorem digito_dezena (n : Nat) (h : n < 100) :
    isDigit (48 + n / 10) = true ∧ isDigit (48 + n % 10) = true := by
  simp only [isDigit, Bool.and_eq_true, decide_eq_true_eq]
  omega

theorem digitsToNat_dois (n : Nat) (h : n < 100) : digitsToNat (doisDigitos n) = n := by
  simp only [doisDigitos, digitsToNat, List.foldl_cons, List.foldl_nil]
  omega

theorem digitsToNat_quatro (n : Nat) (h : n < 10000) : digitsToNat (quatroDigitos n) = n := by
  simp only [quatroDigitos, digitsToNat, List.foldl_cons, List.foldl_nil]
  omega

theorem digito_ne (c x : Nat) (h : isDigit c = true) (hx : x < 48 ∨ 57 < x) : c ≠ x := by
  simp only [isDigit, Bool.and_eq_true, decide_eq_true_eq] at h
  omega

theorem tresCampos_barra (sep : Nat) (hsep : sep < 48 ∨ 57 < sep) (a b c d e f g h : Nat)
    (ha : isDigit a = true) (hb : isDigit b = true) (hc : isDigit c = true)
    (hd : isDigit d = true) (he : isDigit e = true) (hf : isDigit f = true)
    (hg : isDigit g = true) (hh : isDigit h = true) :
    tresCampos sep [a, b, sep, c, d, sep, e, f, g, h]
      = some (digitsToNat [a, b], digitsToNat [c, d], digitsToNat [e, f, g, h]) := by
  unfold tresCampos
  have h1 : ([a, b, sep, c, d, sep, e, f, g, h] : Str).splitOn sep
      = [[a, b], [c, d], [e, f, g, h]] := by
    simp only [splitOn_cons, digito_ne _ sep ha hsep, digito_ne _ sep hb hsep,
      digito_ne _ sep hc hsep, digito_ne _ sep hd hsep, digito_ne _ sep he hsep,
      digito_ne _ sep hf hsep, digito_ne _ sep hg hsep, digito_ne _ sep hh hsep,
      if_false, if_true, List.splitOn_nil, List.modifyHead]
  rw [h1]
  rfl

theorem tresCampos_iso (sep : Nat) (hsep : sep < 48 ∨ 57 < sep) (a b c d e f g h : Nat)
    (ha : isDigit a = true) (hb : isDigit b = true) (hc : isDigit c = true)
    (hd : isDigit d = true) (he : isDigit e = true) (hf : isDigit f = true)
    (hg : isDigit g = true) (hh : isDigit h = true) :
    tresCampos sep [a, b, c, d, sep, e, f, sep, g, h]
      = some (digitsToNat [a, b, c, d], digitsToNat [e, f], digitsToNat [g, h]) := by
  unfold tresCampos
  have h1 : ([a, b, c, d, sep, e, f, sep, g, h] : Str).splitOn sep
      = [[a, b, c, d], [e, f], [g, h]] := by
    simp only [splitOn_cons, digito_ne _ sep ha hsep, digito_ne _ sep hb hsep,
      digito_ne _ sep hc hsep, digito_ne _ sep hd hsep, digito_ne _ sep he hsep,
      digito_ne _ sep hf hsep, digito_ne _ sep hg hsep, digito_ne _ sep hh hsep,
      if_false, if_true, List.splitOn_nil, List.modifyHead]
  rw [h1]
  rfl

theorem tresCampos_hora (sep : Nat) (hsep : sep < 48 ∨ 57 < sep) (i j k l m n : Nat)
    (hi : isDigit i = true) (hj : isDigit j = true) (hk : isDigit k = true)
    (hl : isDigit l = true) (hm : isDigit m = true) (hn : isDigit n = true) :
    tresCampos sep [i, j, sep, k, l, sep, m, n]
      = some (digitsToNat [i, j], digitsToNat [k, l], digitsToNat [m, n]) := by
  unfold tresCampos
  have h1 : ([i, j, sep, k, l, sep, m, n] : Str).splitOn sep = [[i, j], [k, l], [m, n]] := by
    simp only [splitOn_cons, digito_ne _ sep hi hsep, digito_ne _ sep hj hsep,
      digito_ne _ sep hk hsep, digito_ne _ sep hl hsep, digito_ne _ sep hm hsep,
      digito_ne _ sep hn hsep, if_false, if_true, List.splitOn_nil, List.modifyHead]
  rw [h1]
  rfl

theorem isSpace_digito (c : Nat) (h : isDigit c = true) : isSpace c = false :=
  isSpace_de_digito c (Or.inl h)

/-- A text in the form of a date with slashes. -/
theorem formatoData_forma (s : Str) (hs : formatoData s = true) :
    ∃ a b c d e f g h, s = [a, b, 47, c, d, 47, e, f, g, h] ∧
      isDigit a = true ∧ isDigit b = true ∧ isDigit c = true ∧ isDigit d = true ∧
      isDigit e = true ∧ isDigit f = true ∧ isDigit g = true ∧ isDigit h = true := by
  unfold formatoData at hs
  split at hs
  · rename_i a b s1 c d s2 e f g h
    simp only [Bool.and_eq_true, decide_eq_true_eq] at hs
    obtain ⟨⟨⟨⟨⟨⟨⟨⟨⟨ha, hb⟩, h1⟩, hc⟩, hd⟩, h2⟩, he⟩, hf⟩, hg⟩, hh⟩ := hs
    subst h1 h2
    exact ⟨a, b, c, d, e, f, g, h, rfl, ha, hb, hc, hd, he, hf, hg, hh⟩
  · exact absurd hs (by decide)

/-- A text in the form of an ISO date. -/
theorem formatoIso_forma (s : Str) (hs : formatoIso s = true) :
    ∃ a b c d e f g h, s = [a, b, c, d, 45, e, f, 45, g, h] ∧
      isDigit a = true ∧ isDigit b = true ∧ isDigit c = true ∧ isDigit d = true ∧
      isDigit e = true ∧ isDigit f = true ∧ isDigit g = true ∧ isDigit h = true := by
  unfold formatoIso at hs
  split at hs
  · rename_i a b c d s1 e f s2 g h
    simp only [Bool.and_eq_true, decide_eq_true_eq] at hs
    obtain ⟨⟨⟨⟨⟨⟨⟨⟨⟨ha, hb⟩, hc⟩, hd⟩, h1⟩, he⟩, hf⟩, h2⟩, hg⟩, hh⟩ := hs
    subst h1 h2
    exact ⟨a, b, c, d, e, f, g, h, rfl, ha, hb, hc, hd, he, hf, hg, hh⟩
  · exact absurd hs (by decide)

/-- A text in the form of a date and time. -/
theorem formatoDataHora_forma (s : Str) (hs : formatoDataHora s = true) :
    ∃ a b c d e f g h i j k l m n,
      s = [a, b, 47, c, d, 47, e, f, g, h, 32, i, j, 58, k, l, 58, m, n] ∧
      (isDigit a = true ∧ isDigit b = true ∧ isDigit c = true ∧ isDigit d = true ∧
        isDigit e = true ∧ isDigit f = true ∧ isDigit g = true ∧ isDigit h = true) ∧
      isDigit i = true ∧ isDigit j = true ∧ isDigit k = true ∧ isDigit l = true ∧
      isDigit m = true ∧ isDigit n = true := by
  unfold formatoDataHora at hs
  split at hs
  · rename_i a b s1 c d s2 e f g h s3 i j s4 k l s5 m n
    simp only [Bool.and_eq_true, decide_eq_true_eq] at hs
    obtain ⟨⟨⟨⟨⟨⟨⟨⟨⟨⟨⟨⟨⟨⟨⟨⟨⟨⟨ha, hb⟩, h1⟩, hc⟩, hd⟩, h2⟩, he⟩, hf⟩, hg⟩, hh⟩, h3⟩, hi⟩, hj⟩, h4⟩,
      hk⟩, hl⟩, h5⟩, hm⟩, hn⟩ := hs
    subst h1 h2 h3 h4 h5
    exact ⟨a, b, c, d, e, f, g, h, i, j, k, l, m, n, rfl, ⟨ha, hb, hc, hd, he, hf, hg, hh⟩,
      hi, hj, hk, hl, hm, hn⟩
  · exact absurd hs (by decide)

theorem splitOn_data_hora (a b c d e f g h i j k l m n : Nat)
    (ha : isDigit a = true) (hb : isDigit b = true) (hc : isDigit c = true)
    (hd : isDigit d = true) (he : isDigit e = true) (hf : isDigit f = true)
    (hg : isDigit g = true) (hh : isDigit h = true)
    (hi : isDigit i = true) (hj : isDigit j = true) (hk : isDigit k = true)
    (hl : isDigit l = true) (hm : isDigit m = true) (hn : isDigit n = true) :
    ([a, b, 47, c, d, 47, e, f, g, h, 32, i, j, 58, k, l, 58, m, n] : Str).splitOn 32
      = [[a, b, 47, c, d, 47, e, f, g, h], [i, j, 58, k, l, 58, m, n]] := by
  have h32 : (32 : Nat) < 48 ∨ 57 < 32 := Or.inl (by decide)
  have h47 : ¬ (47 : Nat) = 32 := by decide
  have h58 : ¬ (58 : Nat) = 32 := by decide
  simp only [splitOn_cons, digito_ne _ 32 ha h32, digito_ne _ 32 hb h32,
    digito_ne _ 32 hc h32, digito_ne _ 32 hd h32, digito_ne _ 32 he h32,
    digito_ne _ 32 hf h32, digito_ne _ 32 hg h32, digito_ne _ 32 hh h32,
    digito_ne _ 32 hi h32, digito_ne _ 32 hj h32, digito_ne _ 32 hk h32,
    digito_ne _ 32 hl h32, digito_ne _ 32 hm h32, digito_ne _ 32 hn h32,
    h47, h58, if_false, if_true, List.splitOn_nil, List.modifyHead]

/-- A date with slashes (the form also reached from a date with dashes): the
constructor is called with its day, month and year. -/
theorem parseDataDb_barra (Z : Zona) (a b c d e f g h : Nat)
    (ha : isDigit a = true) (hb : isDigit b = true) (hc : isDigit c = true)
    (hd : isDigit d = true) (he : isDigit e = true) (hf : isDigit f = true)
    (hg : isDigit g = true) (hh : isDigit h = true)
    (hne : ([a, b, 47, c, d, 47, e, f, g, h] : Str) ≠ js "00/00/0000") :
    parseDataDb Z (.valor (.str [a, b, 47, c, d, 47, e, f, g, h]))
      = some (novaData Z (digitsToNat [e, f, g, h]) (digitsToNat [c, d]) (digitsToNat [a, b])
          0 0 0) := by
  have hsp : ∀ x ∈ ([a, b, 47, c, d, 47, e, f, g, h] : Str), isSpace x = false := by
    intro x hx
    simp only [List.mem_cons, List.mem_singleton, List.not_mem_nil, or_false] at hx
    rcases hx with rfl | rfl | rfl | rfl | rfl | rfl | rfl | rfl | rfl | rfl
    all_goals first | exact isSpace_digito _ (by assumption) | decide
  have htrim := trim_sem_espacos _ hsp
  have hsem : ([a, b, 47, c, d, 47, e, f, g, h] : Str) ∉ SEM_DATA := by
    intro hmem
    simp only [SEM_DATA, List.mem_cons, List.mem_singleton, List.not_mem_nil, or_false] at hmem
    rcases hmem with h1 | h1 | h1 | h1
    · exact absurd h1 (by simp)
    · exact absurd (congrArg List.length h1) (by simp [js, utf16])
    · exact hne h1
    · exact absurd (congrArg List.length h1) (by simp [js, utf16])
  have h45 : (45 : Nat) ∉ ([a, b, 47, c, d, 47, e, f, g, h] : Str) := by
    intro hx
    simp only [List.mem_cons, List.mem_singleton, List.not_mem_nil, or_false] at hx
    have k : (45 : Nat) < 48 ∨ 57 < 45 := Or.inl (by decide)
    rcases hx with h1 | h1 | h1 | h1 | h1 | h1 | h1 | h1 | h1 | h1
    all_goals first
      | exact absurd h1 (by decide)
      | exact digito_ne _ 45 (by assumption) k h1.symm
  have hrep := replaceUnit_of_not_mem 45 [47] _ h45
  have hfmt : formatoData [a, b, 47, c, d, 47, e, f, g, h] = true := by
    simp only [formatoData, ha, hb, hc, hd, he, hf, hg, hh, decide_True, Bool.and_self]
  have hfmt0 : formatoDataHora [a, b, 47, c, d, 47, e, f, g, h] = false := rfl
  have hcampos := tresCampos_barra 47 (Or.inl (by decide)) a b c d e f g h
    ha hb hc hd he hf hg hh
  simp only [parseDataDb, Val.toStr, htrim, hsem, if_false, hrep, hfmt0, Bool.false_eq_true,
    hfmt, if_true, hcampos]

theorem sem_data_comprimentos : ∀ s ∈ SEM_DATA, s = js "00/00/0000" ∨ s.length ≠ 10 := by
  decide

theorem sem_data_hora_comprimentos :
    ∀ s ∈ SEM_DATA, s = js "00/00/0000 00:00:00" ∨ s.length ≠ 19 := by
  decide

/-- A date with dashes is read as the date with slashes. -/
theorem parseDataDb_traco (Z : Zona) (a b c d e f g h : Nat)
    (ha : isDigit a = true) (hb : isDigit b = true) (hc : isDigit c = true)
    (hd : isDigit d = true) (he : isDigit e = true) (hf : isDigit f = true)
    (hg : isDigit g = true) (hh : isDigit h = true) :
    parseDataDb Z (.valor (.str [a, b, 45, c, d, 45, e, f, g, h]))
      = some (novaData Z (digitsToNat [e, f, g, h]) (digitsToNat [c, d]) (digitsToNat [a, b])
          0 0 0) := by
  have hsp : ∀ x ∈ ([a, b, 45, c, d, 45, e, f, g, h] : Str), isSpace x = false := by
    intro x hx
    simp only [List.mem_cons, List.mem_singleton, List.not_mem_nil, or_false] at hx
    rcases hx with rfl | rfl | rfl | rfl | rfl | rfl | rfl | rfl | rfl | rfl
    all_goals first | exact isSpace_digito _ (by assumption) | decide
  have htrim := trim_sem_espacos _ hsp
  have hsem : ([a, b, 45, c, d, 45, e, f, g, h] : Str) ∉ SEM_DATA := by
    intro hmem
    rcases sem_data_comprimentos _ hmem with h1 | h1
    · have h2 : (js "00/00/0000").getD 2 0 = 47 := by decide
      have := congrArg (fun l : Str => l.getD 2 0) h1
      simp only [h2] at this
      exact absurd (show (45 : Nat) = _ from this) (by decide)
    · exact h1 rfl
  have k : (45 : Nat) < 48 ∨ 57 < 45 := Or.inl (by decide)
  have hrep : replaceUnit 45 [47] [a, b, 45, c, d, 45, e, f, g, h]
      = [a, b, 47, c, d, 47, e, f, g, h] := by
    simp only [replaceUnit, List.flatMap_cons, List.flatMap_nil, digito_ne _ 45 ha k,
      digito_ne _ 45 hb k, digito_ne _ 45 hc k, digito_ne _ 45 hd k, digito_ne _ 45 he k,
      digito_ne _ 45 hf k, digito_ne _ 45 hg k, digito_ne _ 45 hh k, if_false, if_true,
      List.singleton_append, List.append_nil]
  have hfmt : formatoData [a, b, 47, c, d, 47, e, f, g, h] = true := by
    simp only [formatoData, ha, hb, hc, hd, he, hf, hg, hh, decide_True, Bool.and_self]
  have hfmt0 : formatoDataHora [a, b, 47, c, d, 47, e, f, g, h] = false := rfl
  have hcampos := tresCampos_barra 47 (Or.inl (by decide)) a b c d e f g h
    ha hb hc hd he hf hg hh
  simp only [parseDataDb, Val.toStr, htrim, hsem, if_false, hrep, hfmt0, Bool.false_eq_true,
    hfmt, if_true, hcampos]

/-- An ISO date: the constructor is called with its year, month and day. -/
theorem parseDataDb_iso (Z : Zona) (a b c d e f g h : Nat)
    (ha : isDigit a = true) (hb : isDigit b = true) (hc : isDigit c = true)
    (hd : isDigit d = true) (he : isDigit e = true) (hf : isDigit f = true)
    (hg : isDigit g = true) (hh : isDigit h = true) :
    parseDataDb Z (.valor (.str [a, b, c, d, 45, e, f, 45, g, h]))
      = some (novaData Z (digitsToNat [a, b, c, d]) (digitsToNat [e, f]) (digitsToNat [g, h])
          0 0 0) := by
  have hsp : ∀ x ∈ ([a, b, c, d, 45, e, f, 45, g, h] : Str), isSpace x = false := by
    intro x hx
    simp only [List.mem_cons, List.mem_singleton, List.not_mem_nil, or_false] at hx
    rcases hx with rfl | rfl | rfl | rfl | rfl | rfl | rfl | rfl | rfl | rfl
    all_goals first | exact isSpace_digito _ (by assumption) | decide
  have htrim := trim_sem_espacos _ hsp
  have k47 : (47 : Nat) < 48 ∨ 57 < 47 := Or.inl (by decide)
  have hsem : ([a, b, c, d, 45, e, f, 45, g, h] : Str) ∉ SEM_DATA := by
    intro hmem
    rcases sem_data_comprimentos _ hmem with h1 | h1
    · have h2 : (js "00/00/0000").getD 4 0 = 48 := by decide
      have := congrArg (fun l : Str => l.getD 4 0) h1
      simp only [h2] at this
      exact absurd (show (45 : Nat) = _ from this) (by decide)
    · exact h1 rfl
  have k : (45 : Nat) < 48 ∨ 57 < 45 := Or.inl (by decide)
  have hrep : replaceUnit 45 [47] [a, b, c, d, 45, e, f, 45, g, h]
      = [a, b, c, d, 47, e, f, 47, g, h] := by
    simp only [replaceUnit, List.flatMap_cons, List.flatMap_nil, digito_ne _ 45 ha k,
      digito_ne _ 45 hb k, digito_ne _ 45 hc k, digito_ne _ 45 hd k, digito_ne _ 45 he k,
      digito_ne _ 45 hf k, digito_ne _ 45 hg k, digito_ne _ 45 hh k, if_false, if_true,
      List.singleton_append, List.append_nil]
  have hfmt : formatoData [a, b, c, d, 47, e, f, 47, g, h] = false := by
    simp only [formatoData, digito_ne _ 47 hc k47, decide_False, Bool.and_false,
      Bool.false_and]
  have hfmt0 : formatoDataHora [a, b, c, d, 47, e, f, 47, g, h] = false := rfl
  have hiso : formatoIso [a, b, c, d, 45, e, f, 45, g, h] = true := by
    simp only [formatoIso, ha, hb, hc, hd, he, hf, hg, hh, decide_True, Bool.and_self]
  have hcampos := tresCampos_iso 45 k a b c d e f g h ha hb hc hd he hf hg hh
  simp only [parseDataDb, Val.toStr, htrim, hsem, if_false, hrep, hfmt0, Bool.false_eq_true,
    hfmt, hiso, if_true, hcampos]

/-- A date and time: the constructor is called with the six fields. -/
theorem parseDataDb_hora (Z : Zona) (a b c d e f g h i j k l m n : Nat)
    (ha : isDigit a = true) (hb : isDigit b = true) (hc : isDigit c = true)
    (hd : isDigit d = true) (he : isDigit e = true) (hf : isDigit f = true)
    (hg : isDigit g = true) (hh : isDigit h = true)
    (hi : isDigit i = true) (hj : isDigit j = true) (hk : isDigit k = true)
    (hl : isDigit l = true) (hm : isDigit m = true) (hn : isDigit n = true)
    (hne : ([a, b, 47, c, d, 47, e, f, g, h, 32, i, j, 58, k, l, 58, m, n] : Str)
      ≠ js "00/00/0000 00:00:00") :
    parseDataDb Z (.valor (.str [a, b, 47, c, d, 47, e, f, g, h, 32, i, j, 58, k, l, 58, m, n]))
      = some (novaData Z (digitsToNat [e, f, g, h]) (digitsToNat [c, d]) (digitsToNat [a, b])
          (digitsToNat [i, j]) (digitsToNat [k, l]) (digitsToNat [m, n])) := by
  have haparada : Aparada
      ([a, b, 47, c, d, 47, e, f, g, h, 32, i, j, 58, k, l, 58, m, n] : Str) :=
    ⟨⟨a, _, rfl, isSpace_digito a ha⟩,
     ⟨[a, b, 47, c, d, 47, e, f, g, h, 32, i, j, 58, k, l, 58, m], n, rfl,
      isSpace_digito n hn⟩⟩
  have htrim := trim_of_aparada _ haparada
  have hsem : ([a, b, 47, c, d, 47, e, f, g, h, 32, i, j, 58, k, l, 58, m, n] : Str)
      ∉ SEM_DATA := by
    intro hmem
    rcases sem_data_hora_comprimentos _ hmem with h1 | h1
    · exact hne h1
    · exact h1 rfl
  have k45 : (45 : Nat) < 48 ∨ 57 < 45 := Or.inl (by decide)
  have h45 : (45 : Nat)
      ∉ ([a, b, 47, c, d, 47, e, f, g, h, 32, i, j, 58, k, l, 58, m, n] : Str) := by
    intro hx
    simp only [List.mem_cons, List.mem_singleton, List.not_mem_nil, or_false] at hx
    rcases hx with h1 | h1 | h1 | h1 | h1 | h1 | h1 | h1 | h1 | h1 | h1 | h1 | h1 | h1 | h1 |
      h1 | h1 | h1 | h1
    all_goals first
      | exact absurd h1 (by decide)
      | exact digito_ne _ 45 (by assumption) k45 h1.symm
  have hrep := replaceUnit_of_not_mem 45 [47] _ h45
  have hfmt : formatoDataHora [a, b, 47, c, d, 47, e, f, g, h, 32, i, j, 58, k, l, 58, m, n]
      = true := by
    simp only [formatoDataHora, ha, hb, hc, hd, he, hf, hg, hh, hi, hj, hk, hl, hm, hn,
      decide_True, Bool.and_self]
  have hsplit := splitOn_data_hora a b c d e f g h i j k l m n ha hb hc hd he hf hg hh
    hi hj hk hl hm hn
  have hdata := tresCampos_barra 47 (Or.inl (by decide)) a b c d e f g h
    ha hb hc hd he hf hg hh
  have htempo := tresCampos_hora 58 (Or.inr (by decide)) i j k l m n hi hj hk hl hm hn
  simp only [parseDataDb, Val.toStr, htrim, hsem, if_false, hrep, hfmt, if_true, hsplit,
    hdata, htempo]

/-- The date `parseDataDb` builds from a text is never the invalid date, and
it answers `null` only for `null`, `undefined`, the listed texts and a text
that has none of the three forms. -/
theorem parseDataDb_valor (Z : Zona) (v : Val) :
    parseDataDb Z (.valor v) ≠ some .invalida ∧
    (parseDataDb Z (.valor v) = none ↔
      v = .null ∨ v = .undefined ∨ trim v.toStr ∈ SEM_DATA ∨
      (formatoDataHora (replaceUnit 45 [47] (trim v.toStr)) = false ∧
        formatoData (replaceUnit 45 [47] (trim v.toStr)) = false ∧
        formatoIso (trim v.toStr) = false)) := by
  have geral : ∀ w : Val, w ≠ .null → w ≠ .undefined →
      parseDataDb Z (.valor w)
        = (if trim w.toStr ∈ SEM_DATA then none
           else if formatoDataHora (replaceUnit 45 [47] (trim w.toStr)) then
             match (replaceUnit 45 [47] (trim w.toStr)).splitOn 32 with
             | datePart :: timePart :: _ =>
               match tresCampos 47 datePart, tresCampos 58 timePart with
               | some (d, m, y), some (hh, mm, ss) => some (novaData Z y m d hh mm ss)
               | _, _ => some .invalida
             | _ => some .invalida
           else if formatoData (replaceUnit 45 [47] (trim w.toStr)) then
             match tresCampos 47 (replaceUnit 45 [47] (trim w.toStr)) with
             | some (d, m, y) => some (novaData Z y m d 0 0 0)
             | none => some .invalida
           else if formatoIso (trim w.toStr) then
             match tresCampos 45 (trim w.toStr) with
             | some (y, m, d) => some (novaData Z y m d 0 0 0)
             | none => some .invalida
           else none) := by
    intro w h1 h2
    cases w with
    | null => exact absurd rfl h1
    | undefined => exact absurd rfl h2
    | bool b => rfl
    | num n => rfl
    | str s => rfl
    | obj r => rfl
  by_cases h1 : v = .null
  · subst h1
    exact ⟨by simp [parseDataDb], by simp [parseDataDb]⟩
  by_cases h2 : v = .undefined
  · subst h2
    exact ⟨by simp [parseDataDb], by simp [parseDataDb]⟩
  rw [geral v h1 h2]
  by_cases hs : trim v.toStr ∈ SEM_DATA
  · simp only [hs, if_true, h1, h2, false_or, true_or, iff_true]
    exact ⟨by simp, trivial⟩
  simp only [hs, if_false, h1, h2, false_or]
  cases h0 : formatoDataHora (replaceUnit 45 [47] (trim v.toStr)) with
  | true =>
    obtain ⟨a, b, c, d, e, f, g, h, i, j, k, l, m, n, hcand, ⟨ha, hb, hc, hd, he, hf, hg, hh⟩,
      hi, hj, hk, hl, hm, hn⟩ := formatoDataHora_forma _ h0
    rw [hcand]
    simp only [if_true, splitOn_data_hora a b c d e f g h i j k l m n ha hb hc hd he hf hg hh
      hi hj hk hl hm hn, tresCampos_barra 47 (Or.inl (by decide)) a b c d e f g h
      ha hb hc hd he hf hg hh,
      tresCampos_hora 58 (Or.inr (by decide)) i j k l m n hi hj hk hl hm hn]
    refine ⟨fun hx => novaData_valida Z _ _ _ _ _ _ (digitsToNat_quatro_le e f g h he hf hg hh)
      (digitsToNat_dois_le c d hc hd) (digitsToNat_dois_le a b ha hb)
      (digitsToNat_dois_le i j hi hj) (digitsToNat_dois_le k l hk hl)
      (digitsToNat_dois_le m n hm hn) (Option.some.inj hx), ?_⟩
    simp
  | false =>
    simp only [Bool.false_eq_true, if_false, true_and]
    cases h3 : formatoData (replaceUnit 45 [47] (trim v.toStr)) with
    | true =>
      obtain ⟨a, b, c, d, e, f, g, h, hcand, ha, hb, hc, hd, he, hf, hg, hh⟩ :=
        formatoData_forma _ h3
      rw [hcand]
      simp only [if_true, tresCampos_barra 47 (Or.inl (by decide)) a b c d e f g h
        ha hb hc hd he hf hg hh]
      refine ⟨fun hx => novaData_valida Z _ _ _ _ _ _ (digitsToNat_quatro_le e f g h he hf hg hh)
        (digitsToNat_dois_le c d hc hd) (digitsToNat_dois_le a b ha hb)
        (by decide) (by decide) (by decide) (Option.some.inj hx), ?_⟩
      simp
    | false =>
      simp only [Bool.false_eq_true, if_false, true_and]
      cases h4 : formatoIso (trim v.toStr) with
      | true =>
        obtain ⟨a, b, c, d, e, f, g, h, htext, ha, hb, hc, hd, he, hf, hg, hh⟩ :=
          formatoIso_forma _ h4
        rw [htext]
        simp only [if_true, tresCampos_iso 45 (Or.inl (by decide)) a b c d e f g h
          ha hb hc hd he hf hg hh]
        refine ⟨fun hx => novaData_valida Z _ _ _ _ _ _ (digitsToNat_quatro_le a b c d ha hb hc hd)
          (digitsToNat_dois_le e f he hf) (digitsToNat_dois_le g h hg hh)
          (by decide) (by decide) (by decide) (Option.some.inj hx), ?_⟩
        simp
      | false =>
        simp

/-- The year of a day inside a cycle of 400 years that starts on 1 March:
`c` centuries, `u` spans of four years and `v` years precede the year, of
which it is day `doy`. -/
theorem anoDaEra (c u v doy : Nat) (hc : c < 4) (hu : u < 25) (hv : v < 4)
    (h : doy ≤ 364 ∨ (doy = 365 ∧ v = 3 ∧ (u ≠ 24 ∨ c = 3))) :
    ((36524 * c + 1461 * u + 365 * v + doy) - (36524 * c + 1461 * u + 365 * v + doy) / 1460
      + (36524 * c + 1461 * u + 365 * v + doy) / 36524
      - (36524 * c + 1461 * u + 365 * v + doy) / 146096) / 365 = 100 * c + 4 * u + v := by
  have a1 : (36524 * c + 1461 * u + 365 * v + doy) / 1460
      = 25 * c + u + (24 * c + u + 365 * v + doy) / 1460 := by omega
  have a2 : (36524 * c + 1461 * u + 365 * v + doy) / 36524
      = c + (1461 * u + 365 * v + doy) / 36524 := by omega
  have a3 : (36524 * c + 1461 * u + 365 * v + doy) / 146096
      = (1461 * u + 365 * v + doy) / 36524 := by omega
  rw [a1, a2, a3]
  omega

theorem diaDe_era (e c u v doy : Nat) (hc : c < 4) (hu : u < 25) (hv : v < 4)
    (h : doy ≤ 364 ∨ (doy = 365 ∧ v = 3 ∧ (u ≠ 24 ∨ c = 3))) :
    diaDe (146097 * e + 36524 * c + 1461 * u + 365 * v + doy)
      = (100 * c + 4 * u + v + e * 400
          + (if (if (5 * doy + 2) / 153 < 10 then (5 * doy + 2) / 153 + 3
              else (5 * doy + 2) / 153 - 9) ≤ 2 then 1 else 0),
         (if (5 * doy + 2) / 153 < 10 then (5 * doy + 2) / 153 + 3
          else (5 * doy + 2) / 153 - 9),
         doy - (153 * ((5 * doy + 2) / 153) + 2) / 5 + 1) := by
  have z1 : (146097 * e + 36524 * c + 1461 * u + 365 * v + doy) / 146097 = e := by omega
  have z2 : (146097 * e + 36524 * c + 1461 * u + 365 * v + doy) % 146097
      = 36524 * c + 1461 * u + 365 * v + doy := by omega
  have z3 : 36524 * c + 1461 * u + 365 * v + doy
      - (365 * (100 * c + 4 * u + v) + (100 * c + 4 * u + v) / 4
        - (100 * c + 4 * u + v) / 100) = doy := by
    have q4 : (100 * c + 4 * u + v) / 4 = 25 * c + u := by omega
    have q100 : (100 * c + 4 * u + v) / 100 = c := by omega
    rw [q4, q100]
    omega
  have k := anoDaEra c u v doy hc hu hv h
  unfold diaDe
  simp only [z1, z2, k, z3]

theorem diasDoMes_fevereiro (y d : Nat) (h : d ≤ diasDoMes y 2) :
    d ≤ 28 ∨ (d = 29 ∧ y % 4 = 0 ∧ (y % 100 ≠ 0 ∨ y % 400 = 0)) := by
  unfold diasDoMes anoBissexto at h
  simp only [if_true] at h
  split at h
  · rename_i hb
    simp only [Bool.and_eq_true, Bool.or_eq_true, decide_eq_true_eq, bne_iff_ne, ne_eq] at hb
    omega
  · omega

theorem diasDoMes_trinta (y m d : Nat) (h : d ≤ diasDoMes y m)
    (hm : m = 4 ∨ m = 6 ∨ m = 9 ∨ m = 11) : d ≤ 30 := by
  have : diasDoMes y m = 30 := by
    unfold diasDoMes
    rcases hm with hm | hm | hm | hm <;> subst hm <;> simp
  omega

/-- The day that lies a number of days after 1 March of the year 0, for day
`d` of the month `mp` months after March of the year `Y`. -/
theorem diaDe_marco (Y mp d : Nat) (hmp : mp < 12) (hd1 : 1 ≤ d) (hd2 : d ≤ 31)
    (h30 : mp = 1 ∨ mp = 3 ∨ mp = 6 ∨ mp = 8 → d ≤ 30)
    (hfev : mp = 11 → d ≤ 28 ∨ (d = 29 ∧ (Y + 1) % 4 = 0 ∧
      ((Y + 1) % 100 ≠ 0 ∨ (Y + 1) % 400 = 0))) :
    diaDe (Y * 365 + Y / 4 - Y / 100 + Y / 400 + ((153 * mp + 2) / 5 + d - 1))
      = (Y + (if mp < 10 then 0 else 1), (if mp < 10 then mp + 3 else mp - 9), d) := by
  obtain ⟨e, c, u, v, hc, hu, hv, hY⟩ : ∃ e c u v : Nat, c < 4 ∧ u < 25 ∧ v < 4 ∧
      Y = 400 * e + 100 * c + 4 * u + v :=
    ⟨Y / 400, Y % 400 / 100, Y % 100 / 4, Y % 4, by omega, by omega, by omega, by omega⟩
  have q4 : Y / 4 = 100 * e + 25 * c + u := by omega
  have q100 : Y / 100 = 4 * e + c := by omega
  have q400 : Y / 400 = e := by omega
  have hfev2 : mp = 11 → d ≤ 28 ∨ (d = 29 ∧ v = 3 ∧ (u ≠ 24 ∨ c = 3)) := by
    intro h11
    rcases hfev h11 with h | ⟨h1, h2, h3⟩
    · exact Or.inl h
    · refine Or.inr ⟨h1, by omega, ?_⟩
      rcases h3 with h3 | h3
      · left
        omega
      · right
        omega
  have harg : ∀ doy : Nat, Y * 365 + Y / 4 - Y / 100 + Y / 400 + doy
      = 146097 * e + 36524 * c + 1461 * u + 365 * v + doy := by
    intro doy
    rw [q4, q100, q400]
    omega
  have hq : (5 * ((153 * mp + 2) / 5 + d - 1) + 2) / 153 = mp := by
    interval_cases mp <;> omega
  have hdoy : (153 * mp + 2) / 5 + d - 1 ≤ 364 ∨
      ((153 * mp + 2) / 5 + d - 1 = 365 ∧ v = 3 ∧ (u ≠ 24 ∨ c = 3)) := by
    interval_cases mp <;> omega
  have hdia : (153 * mp + 2) / 5 + d - 1 - (153 * mp + 2) / 5 + 1 = d := by omega
  rw [harg, diaDe_era e c u v _ hc hu hv hdoy, hq, hdia]
  by_cases h10 : mp < 10
  · have h2 : ¬ mp + 3 ≤ 2 := by omega
    simp only [h10, if_true, h2, if_false, Prod.mk.injEq, and_true]
    omega
  · have h2 : mp - 9 ≤ 2 := by omega
    simp only [h10, if_false, h2, if_true, Prod.mk.injEq, and_true]
    omega

/-- The day number of a real date is the day number of that date alone. -/
theorem diaDe_dia (y m d : Nat) (hy : 1 ≤ y) (hm1 : 1 ≤ m) (hm2 : m ≤ 12) (hd1 : 1 ≤ d)
    (hd2 : d ≤ diasDoMes y m) :
    diaDe ((if m ≤ 2 then y - 1 else y) * 365 + (if m ≤ 2 then y - 1 else y) / 4
      - (if m ≤ 2 then y - 1 else y) / 100 + (if m ≤ 2 then y - 1 else y) / 400
      + ((153 * (if m ≤ 2 then m + 9 else m - 3) + 2) / 5 + d - 1)) = (y, m, d) := by
  have h31 := diasDoMes_le y m
  have h30 := diasDoMes_trinta y m d hd2
  by_cases hm : m ≤ 2
  · simp only [hm, if_true]
    have hfev : m + 9 = 11 → d ≤ 28 ∨ (d = 29 ∧ (y - 1 + 1) % 4 = 0 ∧
        ((y - 1 + 1) % 100 ≠ 0 ∨ (y - 1 + 1) % 400 = 0)) := by
      intro h2
      have h2 : m = 2 := by omega
      subst h2
      have e1 : y - 1 + 1 = y := by omega
      rw [e1]
      exact diasDoMes_fevereiro y d hd2
    rw [diaDe_marco (y - 1) (m + 9) d (by omega) hd1 (by omega) (by omega) hfev]
    simp only [Prod.mk.injEq, and_true]
    refine ⟨?_, ?_⟩
    · split <;> omega
    · split <;> omega
  · simp only [hm, if_false]
    rw [diaDe_marco y (m - 3) d (by omega) hd1 (by omega)
      (fun h => h30 (by omega)) (fun h => by omega)]
    simp only [Prod.mk.injEq, and_true]
    refine ⟨?_, ?_⟩
    · split <;> omega
    · split <;> omega

/-- On a clock set to UTC, the time value of a real date and time reads as
that date and time. -/
theorem civilDe_tempoDe (y m d hh mm ss : Nat) (hy : 1 ≤ y) (hm1 : 1 ≤ m) (hm2 : m ≤ 12)
    (hd1 : 1 ≤ d) (hd2 : d ≤ diasDoMes y m) (hh2 : hh < 24) (hmm : mm < 60) (hss : ss < 60) :
    civilDe (tempoDe ⟨y, m, d, hh, mm, ss⟩) = ⟨y, m, d, hh, mm, ss⟩ := by
  have hdia := diaDe_dia y m d hy hm1 hm2 hd1 hd2
  unfold civilDe tempoDe diasDesde1970
  simp only
  generalize hn : (if m ≤ 2 then y - 1 else y) * 365 + (if m ≤ 2 then y - 1 else y) / 4
      - (if m ≤ 2 then y - 1 else y) / 100 + (if m ≤ 2 then y - 1 else y) / 400
      + ((153 * (if m ≤ 2 then m + 9 else m - 3) + 2) / 5 + d - 1) = n at hdia
  have s1 : (((((n : Int) - 719468) * 24 + (hh : Int)) * 60 + (mm : Int)) * 60 + (ss : Int))
      * 1000 / 1000 / 86400 + 719468 = (n : Int) := by omega
  have s2 : ((((((n : Int) - 719468) * 24 + (hh : Int)) * 60 + (mm : Int)) * 60 + (ss : Int))
      * 1000 / 1000 % 86400).toNat = hh * 3600 + mm * 60 + ss := by omega
  simp only [s1, s2, Int.toNat_ofNat, hdia, Civil.mk.injEq, true_and]
  refine ⟨?_, ?_, ?_⟩ <;> omega

/-- In a zone whose clock changes once, the local clock shows a real date and
time at the instant the constructor gives it, unless the change skips that
time: the time lies before the change read with the offset before it, or
after the change read with the offset after it. -/
theorem zonaDeTransicao_civil (transicao antes depois : Int)
    (ha : -86400000 ≤ antes ∧ antes ≤ 86400000) (hd : -86400000 ≤ depois ∧ depois ≤ 86400000)
    (y m d hh mm ss : Nat) (hy : 1 ≤ y) (hm1 : 1 ≤ m) (hm2 : m ≤ 12)
    (hd1 : 1 ≤ d) (hd2 : d ≤ diasDoMes y m) (hh2 : hh < 24) (hmm : mm < 60) (hss : ss < 60)
    (h : tempoDe ⟨y, m, d, hh, mm, ss⟩ - antes < transicao ∨
      transicao ≤ tempoDe ⟨y, m, d, hh, mm, ss⟩ - depois) :
    (zonaDeTransicao transicao antes depois ha hd).civil
        ((zonaDeTransicao transicao antes depois ha hd).instante ⟨y, m, d, hh, mm, ss⟩)
      = ⟨y, m, d, hh, mm, ss⟩ := by
  have hc := civilDe_tempoDe y m d hh mm ss hy hm1 hm2 hd1 hd2 hh2 hmm hss
  show civilDe ((if transicao ≤ tempoDe ⟨y, m, d, hh, mm, ss⟩ - antes ∧
        transicao ≤ tempoDe ⟨y, m, d, hh, mm, ss⟩ - depois
      then tempoDe ⟨y, m, d, hh, mm, ss⟩ - depois else tempoDe ⟨y, m, d, hh, mm, ss⟩ - antes)
    + (if (if transicao ≤ tempoDe ⟨y, m, d, hh, mm, ss⟩ - antes ∧
        transicao ≤ tempoDe ⟨y, m, d, hh, mm, ss⟩ - depois
      then tempoDe ⟨y, m, d, hh, mm, ss⟩ - depois else tempoDe ⟨y, m, d, hh, mm, ss⟩ - antes)
        < transicao then antes else depois)) = _
  by_cases h1 : transicao ≤ tempoDe ⟨y, m, d, hh, mm, ss⟩ - antes ∧
      transicao ≤ tempoDe ⟨y, m, d, hh, mm, ss⟩ - depois
  · have h2 : ¬ tempoDe ⟨y, m, d, hh, mm, ss⟩ - depois < transicao := by omega
    rw [if_pos h1, if_neg h2, Int.sub_add_cancel]
    exact hc
  · have h2 : tempoDe ⟨y, m, d, hh, mm, ss⟩ - antes < transicao := by
      rcases h with h | h
      · exact h
      · by_contra h3
        exact h1 ⟨by omega, h⟩
    rw [if_neg h1, if_pos h2, Int.sub_add_cancel]
    exact hc

/-- On a host set to UTC the local clock shows every real date and time at
the instant the constructor gives it. -/
theorem zonaUtc_civil (y m d hh mm ss : Nat) (hy : 1 ≤ y) (hm1 : 1 ≤ m) (hm2 : m ≤ 12)
    (hd1 : 1 ≤ d) (hd2 : d ≤ diasDoMes y m) (hh2 : hh < 24) (hmm : mm < 60) (hss : ss < 60) :
    zonaUtc.civil (zonaUtc.instante ⟨y, m, d, hh, mm, ss⟩) = ⟨y, m, d, hh, mm, ss⟩ :=
  zonaDeTransicao_civil 0 0 0 (by decide) (by decide) y m d hh mm ss hy hm1 hm2 hd1 hd2 hh2
    hmm hss (by omega)

theorem digito_quatro (n : Nat) (h : n < 10000) :
    isDigit (48 + n / 1000) = true ∧ isDigit (48 + n / 100 % 10) = true ∧
    isDigit (48 + n / 10 % 10) = true ∧ isDigit (48 + n % 10) = true := by
  simp only [isDigit, Bool.and_eq_true, decide_eq_true_eq]
  omega

/-- The local fields of the date the constructor makes of a real date and
time of a year from 100 to 9999. -/
theorem novaData_real (Z : Zona) (y m d hh mm ss : Nat) (hy : 100 ≤ y) (hy2 : y ≤ 9999)
    (hm1 : 1 ≤ m) (hm2 : m ≤ 12) (hd1 : 1 ≤ d) (hd2 : d ≤ diasDoMes y m) (hh2 : hh < 24)
    (hmm : mm < 60) (hss : ss < 60) :
    novaData Z y m d hh mm ss = .instante (Z.instante ⟨y, m, d, hh, mm, ss⟩) := by
  have h31 := diasDoMes_le y m
  rw [novaData_instante Z y m d hh mm ss hy2 (by omega) (by omega) (by omega) (by omega)
    (by omega), tempoLocal_real y m d hh mm ss hy hm1 hm2 hd1 hd2 hh2 hmm hss]

set_option maxRecDepth 100000 in
/-- The zone of the host decides the instant of a date.  In `America/Sao_Paulo`
the day 4 November 2018 has no midnight: `04/11/2018` gives the instant that
reads 1:00:00 of that day, and `04/11/2018 00:30:00` the one that reads
1:30:00; on the day before, midnight exists and is returned. -/
theorem parseDataDb_hora_saltada :
    (parseDataDb zonaSaoPaulo2018 (.valor (.str (js "04/11/2018")))).bind
        (Data.campos zonaSaoPaulo2018) = some ⟨2018, 11, 4, 1, 0, 0⟩ ∧
    (parseDataDb zonaSaoPaulo2018 (.valor (.str (js "04/11/2018 00:30:00")))).bind
        (Data.campos zonaSaoPaulo2018) = some ⟨2018, 11, 4, 1, 30, 0⟩ ∧
    (parseDataDb zonaSaoPaulo2018 (.valor (.str (js "03/11/2018")))).bind
        (Data.campos zonaSaoPaulo2018) = some ⟨2018, 11, 3, 0, 0, 0⟩ ∧
    (parseDataDb zonaSaoPaulo2018 (.valor (.str (js "05/11/2018")))).bind
        (Data.campos zonaSaoPaulo2018) = some ⟨2018, 11, 5, 0, 0, 0⟩ ∧
    parseDataDb zonaSaoPaulo2018 (.valor (.str (js "04/11/2018")))
      = some (.instante 1541300400000) := by
  decide

set_option maxRecDepth 100000 in
/-- C23 as stated fails, here on a host set to UTC.  (1) `31/02/2025` and
`99/99/2025` have the form of a date and denote no day of the calendar, yet
`parseDataDb` returns a date for each, the one the constructor carries the
overflow to: 3 March 2025 and 7 June 2033; so it is in `America/Sao_Paulo`,
where `31/11/2018` gives 1 December 2018.  (2) `31-12-2025` is in neither of
the two forms, yet its dashes are read as slashes and the date is returned.
(3) `01/01/0050` is a real date, yet the year returned is 1950. -/
theorem data_inexistente_transborda :
    diasDoMes 2025 2 = 28 ∧
    (parseDataDb zonaUtc (.valor (.str (js "31/02/2025")))).bind (Data.campos zonaUtc)
      = some ⟨2025, 3, 3, 0, 0, 0⟩ ∧
    (parseDataDb zonaUtc (.valor (.str (js "99/99/2025")))).bind (Data.campos zonaUtc)
      = some ⟨2033, 6, 7, 0, 0, 0⟩ ∧
    (parseDataDb zonaUtc (.valor (.str (js "31-12-2025")))).bind (Data.campos zonaUtc)
      = some ⟨2025, 12, 31, 0, 0, 0⟩ ∧
    (parseDataDb zonaUtc (.valor (.str (js "01/01/0050")))).bind (Data.campos zonaUtc)
      = some ⟨1950, 1, 1, 0, 0, 0⟩ ∧
    (parseDataDb zonaSaoPaulo2018 (.valor (.str (js "31/11/2018")))).bind
        (Data.campos zonaSaoPaulo2018) = some ⟨2018, 12, 1, 0, 0, 0⟩ := by
  decide

/-- C23, amended. `parseDataDb` is total.  For a real calendar date of a
year from 100 to 9999 written `dd/mm/yyyy`, `dd-mm-yyyy` or `yyyy-mm-dd`, it
returns the instant the time zone of the host gives 0:00:00 of that date, and
written `dd/mm/yyyy hh:mm:ss` with a real time of day the instant the zone
gives that date and time; where the local clock of the zone shows the written
time at that instant, which it does unless a change of the clock skips that
time (on a host set to UTC always: `zonaUtc_civil`), the day, month, year and
time of the date returned read as written.  It
returns `null` exactly for `null`, `undefined`, the texts it lists (empty, `-`,
the zero dates) and a text that, trimmed and with `-` read as `/`, has none of
the three forms; a text that has one of the forms always yields a date, never
the invalid date. -/
theorem parseDataDb_datas (Z : Zona) :
    (∀ y m d : Nat, 100 ≤ y → y ≤ 9999 → 1 ≤ m → m ≤ 12 → 1 ≤ d → d ≤ diasDoMes y m →
      (∀ t : Str,
        t = doisDigitos d ++ [47] ++ doisDigitos m ++ [47] ++ quatroDigitos y ∨
        t = doisDigitos d ++ [45] ++ doisDigitos m ++ [45] ++ quatroDigitos y ∨
        t = quatroDigitos y ++ [45] ++ doisDigitos m ++ [45] ++ doisDigitos d →
        parseDataDb Z (.valor (.str t)) = some (.instante (Z.instante ⟨y, m, d, 0, 0, 0⟩)) ∧
        (Z.civil (Z.instante ⟨y, m, d, 0, 0, 0⟩) = ⟨y, m, d, 0, 0, 0⟩ →
          (parseDataDb Z (.valor (.str t))).bind (Data.campos Z)
            = some ⟨y, m, d, 0, 0, 0⟩)) ∧
      ∀ hh mm ss : Nat, hh < 24 → mm < 60 → ss < 60 →
        parseDataDb Z (.valor (.str
            (doisDigitos d ++ [47] ++ doisDigitos m ++ [47] ++ quatroDigitos y ++ [32]
              ++ doisDigitos hh ++ [58] ++ doisDigitos mm ++ [58] ++ doisDigitos ss)))
          = some (.instante (Z.instante ⟨y, m, d, hh, mm, ss⟩)) ∧
        (Z.civil (Z.instante ⟨y, m, d, hh, mm, ss⟩) = ⟨y, m, d, hh, mm, ss⟩ →
          (parseDataDb Z (.valor (.str
            (doisDigitos d ++ [47] ++ doisDigitos m ++ [47] ++ quatroDigitos y ++ [32]
              ++ doisDigitos hh ++ [58] ++ doisDigitos mm ++ [58] ++ doisDigitos ss)))).bind
            (Data.campos Z) = some ⟨y, m, d, hh, mm, ss⟩)) ∧
    (∀ v : Val,
      parseDataDb Z (.valor v) ≠ some .invalida ∧
      (parseDataDb Z (.valor v) = none ↔
        v = .null ∨ v = .undefined ∨ trim v.toStr ∈ SEM_DATA ∨
        (formatoDataHora (replaceUnit 45 [47] (trim v.toStr)) = false ∧
          formatoData (replaceUnit 45 [47] (trim v.toStr)) = false ∧
          formatoIso (trim v.toStr) = false))) := by
  refine ⟨?_, parseDataDb_valor Z⟩
  intro y m d hy1 hy2 hm1 hm2 hd1 hd2
  have hd99 : d < 100 := by
    have := diasDoMes_le y m
    omega
  have hm99 : m < 100 := by omega
  have hy99 : y < 10000 := by omega
  obtain ⟨hda, hdb⟩ := digito_dezena d hd99
  obtain ⟨hma, hmb⟩ := digito_dezena m hm99
  obtain ⟨hya, hyb, hyc, hyd⟩ := digito_quatro y hy99
  have vd : digitsToNat [48 + d / 10, 48 + d % 10] = d := digitsToNat_dois d hd99
  have vm : digitsToNat [48 + m / 10, 48 + m % 10] = m := digitsToNat_dois m hm99
  have vy : digitsToNat [48 + y / 1000, 48 + y / 100 % 10, 48 + y / 10 % 10, 48 + y % 10] = y :=
    digitsToNat_quatro y hy99
  have hreal := novaData_real Z y m d 0 0 0 hy1 hy2 hm1 hm2 hd1 hd2 (by decide) (by decide)
    (by decide)
  have hzero : ([48 + d / 10, 48 + d % 10, 47, 48 + m / 10, 48 + m % 10, 47, 48 + y / 1000,
      48 + y / 100 % 10, 48 + y / 10 % 10, 48 + y % 10] : Str) ≠ js "00/00/0000" := by
    intro h
    have h0 := congrArg (fun l : Str => l.getD 0 0) h
    have h1 := congrArg (fun l : Str => l.getD 1 0) h
    have e0 : (js "00/00/0000").getD 0 0 = 48 := by decide
    have e1 : (js "00/00/0000").getD 1 0 = 48 := by decide
    simp only [e0, e1, List.getD_cons_zero, List.getD_cons_succ] at h0 h1
    omega
  have campos : ∀ (r : Option Data) (c : Civil), r = some (.instante (Z.instante c)) →
      r = some (.instante (Z.instante c)) ∧
      (Z.civil (Z.instante c) = c → r.bind (Data.campos Z) = some c) := by
    intro r c hr
    refine ⟨hr, fun hc => ?_⟩
    rw [hr]
    show some (Z.civil (Z.instante c)) = some c
    rw [hc]
  refine ⟨?_, ?_⟩
  · intro t ht
    apply campos
    rcases ht with ht | ht | ht
    · have h := parseDataDb_barra Z _ _ _ _ _ _ _ _ hda hdb hma hmb hya hyb hyc hyd hzero
      rw [vd, vm, vy, hreal] at h
      rw [ht]
      exact h
    · have h := parseDataDb_traco Z _ _ _ _ _ _ _ _ hda hdb hma hmb hya hyb hyc hyd
      rw [vd, vm, vy, hreal] at h
      rw [ht]
      exact h
    · have h := parseDataDb_iso Z _ _ _ _ _ _ _ _ hya hyb hyc hyd hma hmb hda hdb
      rw [vd, vm, vy, hreal] at h
      rw [ht]
      exact h
  · intro hh mm ss hh1 hmm1 hss1
    apply campos
    obtain ⟨hha, hhb⟩ := digito_dezena hh (by omega)
    obtain ⟨hmma, hmmb⟩ := digito_dezena mm (by omega)
    obtain ⟨hssa, hssb⟩ := digito_dezena ss (by omega)
    have vh : digitsToNat [48 + hh / 10, 48 + hh % 10] = hh := digitsToNat_dois hh (by omega)
    have vmm : digitsToNat [48 + mm / 10, 48 + mm % 10] = mm := digitsToNat_dois mm (by omega)
    have vs : digitsToNat [48 + ss / 10, 48 + ss % 10] = ss := digitsToNat_dois ss (by omega)
    have hzero2 : ([48 + d / 10, 48 + d % 10, 47, 48 + m / 10, 48 + m % 10, 47, 48 + y / 1000,
        48 + y / 100 % 10, 48 + y / 10 % 10, 48 + y % 10, 32, 48 + hh / 10, 48 + hh % 10, 58,
        48 + mm / 10, 48 + mm % 10, 58, 48 + ss / 10, 48 + ss % 10] : Str)
        ≠ js "00/00/0000 00:00:00" := by
      intro h
      have h0 := congrArg (fun l : Str => l.getD 0 0) h
      have h1 := congrArg (fun l : Str => l.getD 1 0) h
      have e0 : (js "00/00/0000 00:00:00").getD 0 0 = 48 := by decide
      have e1 : (js "00/00/0000 00:00:00").getD 1 0 = 48 := by decide
      simp only [e0, e1, List.getD_cons_zero, List.getD_cons_succ] at h0 h1
      omega
    have h := parseDataDb_hora Z _ _ _ _ _ _ _ _ _ _ _ _ _ _ hda hdb hma hmb hya hyb hyc hyd
      hha hhb hmma hmmb hssa hssb hzero2
    rw [vd, vm, vy, vh, vmm, vs,
      novaData_real Z y m d hh mm ss hy1 hy2 hm1 hm2 hd1 hd2 hh1 hmm1 hss1] at h
    exact h

set_option maxRecDepth 100000 in
/-- C23 amended, on 29 February 2024 in the three forms on a host set to
UTC, and on 5 November 2018 on a host in `America/Sao_Paulo`. -/
theorem parseDataDb_datas_witness :
    (parseDataDb zonaUtc (.valor (.str (js "29/02/2024")))).bind (Data.campos zonaUtc)
      = some ⟨2024, 2, 29, 0, 0, 0⟩ ∧
    (parseDataDb zonaUtc (.valor (.str (js "29-02-2024")))).bind (Data.campos zonaUtc)
      = some ⟨2024, 2, 29, 0, 0, 0⟩ ∧
    (parseDataDb zonaUtc (.valor (.str (js "2024-02-29")))).bind (Data.campos zonaUtc)
      = some ⟨2024, 2, 29, 0, 0, 0⟩ ∧
    (parseDataDb zonaUtc (.valor (.str (js "29/02/2024 23:59:58")))).bind
      (Data.campos zonaUtc) = some ⟨2024, 2, 29, 23, 59, 58⟩ ∧
    parseDataDb zonaUtc (.valor (.str (js "29/02/2024"))) = some (.instante 1709164800000) ∧
    (parseDataDb zonaSaoPaulo2018 (.valor (.str (js "05/11/2018")))).bind
      (Data.campos zonaSaoPaulo2018) = some ⟨2018, 11, 5, 0, 0, 0⟩ ∧
    parseDataDb zonaSaoPaulo2018 (.valor (.str (js "05/11/2018")))
      = some (.instante 1541383200000) := by
  obtain ⟨h, h4⟩ := (parseDataDb_datas zonaUtc).1 2024 2 29 (by decide) (by decide)
    (by decide) (by decide) (by decide) (by decide)
  obtain ⟨k, _⟩ := (parseDataDb_datas zonaSaoPaulo2018).1 2018 11 5 (by decide) (by decide)
    (by decide) (by decide) (by decide) (by decide)
  exact ⟨(h _ (Or.inl rfl)).2 (by decide), (h _ (Or.inr (Or.inl rfl))).2 (by decide),
    (h _ (Or.inr (Or.inr rfl))).2 (by decide),
    (h4 23 59 58 (by decide) (by decide) (by decide)).2 (by decide),
    (h _ (Or.inl rfl)).1, (k _ (Or.inl rfl)).2 (by decide), (k _ (Or.inl rfl)).1⟩

/-! ## Rendering and parsing of amounts -/

theorem isWord_digito (c : Nat) (h : isDigit c = true) : isWord c = true := by
  simp only [isDigit, Bool.and_eq_true, decide_eq_true_eq] at h
  simp only [isWord, isAlnum, Bool.or_eq_true, Bool.and_eq_true, decide_eq_true_eq]
  omega

/-- Grouping a run of digits: the output is the digits with points among
them, followed by the grouping of what comes after the run. -/
theorem pontuarMilhares_digitos (T : Str) :
    ∀ (D : Str) (prev : Bool), (∀ c ∈ D, isDigit c = true) →
      ∃ G : Str, pontuarMilhares prev (D ++ T)
          = G ++ pontuarMilhares (if D = [] then prev else true) T ∧
        (∀ c ∈ G, isDigit c = true ∨ c = 46) ∧ G.filter isDigit = D := by
  intro D
  induction D with
  | nil =>
    intro prev _
    exact ⟨[], rfl, fun c hc => (by cases hc), rfl⟩
  | cons d D ih =>
    intro prev hD
    have hd : isDigit d = true := hD d (List.mem_cons_self _ _)
    obtain ⟨G, hG, hG1, hG2⟩ := ih (isWord d) (fun c hc => hD c (List.mem_cons_of_mem _ hc))
    have hw := isWord_digito d hd
    have hnext : (if D = [] then isWord d else true) = true := by
      split
      · exact hw
      · rfl
    rw [hnext] at hG
    have h46 : isDigit 46 = false := by decide
    by_cases hins : ((prev == isWord d) && gruposDeTres (d :: (D ++ T))) = true
    · refine ⟨46 :: d :: G, ?_, ?_, ?_⟩
      · show pontuarMilhares prev (d :: (D ++ T)) = _
        rw [pontuarMilhares, if_pos hins, hG]
        simp
      · intro c hc
        rcases List.mem_cons.mp hc with h | h
        · exact Or.inr h
        · rcases List.mem_cons.mp h with h | h
          · exact Or.inl (h ▸ hd)
          · exact hG1 c h
      · rw [List.filter_cons_of_neg (by simp [h46]), List.filter_cons_of_pos hd, hG2]
    · refine ⟨d :: G, ?_, ?_, ?_⟩
      · show pontuarMilhares prev (d :: (D ++ T)) = _
        rw [pontuarMilhares, if_neg hins, hG]
        simp
      · intro c hc
        rcases List.mem_cons.mp hc with h | h
        · exact Or.inl (h ▸ hd)
        · exact hG1 c h
      · rw [List.filter_cons_of_pos hd, hG2]

/-- The grouping of the text of `toFixed(2)`: the sign, the integer digits
with points among them, the point and the decimals. -/
theorem pontuarMilhares_fixo (negativo : Bool) (D dd : Str)
    (hD : ∀ c ∈ D, isDigit c = true) (hne : D ≠ [])
    (hlen : dd.length = 2) (hdd : ∀ c ∈ dd, isDigit c = true) :
    ∃ G : Str, pontuarMilhares false ((if negativo then [45] else []) ++ D ++ 46 :: dd)
        = (if negativo then [45] else []) ++ G ++ 46 :: dd ∧
      (∀ c ∈ G, isDigit c = true ∨ c = 46) ∧ G.filter isDigit = D := by
  obtain ⟨G, hG, hG1, hG2⟩ := pontuarMilhares_digitos (46 :: dd) D false hD
  rw [if_neg hne] at hG
  have htail : pontuarMilhares true (46 :: dd) = 46 :: dd := by
    match dd, hlen, hdd with
    | [x, y], _, hxy =>
      have hx : isDigit x = true := hxy x (by simp)
      have hy : isDigit y = true := hxy y (by simp)
      have hwx := isWord_digito x hx
      have hwy := isWord_digito y hy
      have h46 : isWord 46 = false := by decide
      have g1 : gruposDeTres [y] = false := by
        simp [gruposDeTres, List.takeWhile, hy]
      simp only [pontuarMilhares, h46, hwx, hwy, g1, Bool.and_false, Bool.false_eq_true,
        if_false, beq_self_eq_true, Bool.true_and]
      simp
  rw [htail] at hG
  refine ⟨G, ?_, hG1, hG2⟩
  cases negativo with
  | false => simpa using hG
  | true =>
    show pontuarMilhares false (45 :: (D ++ 46 :: dd)) = 45 :: (G ++ 46 :: dd)
    have h45 : isWord 45 = false := by decide
    have g : gruposDeTres (45 :: (D ++ 46 :: dd)) = false := by
      simp [gruposDeTres, List.takeWhile, show isDigit 45 = false from by decide]
    rw [pontuarMilhares, h45, g]
    simp only [Bool.and_false, Bool.false_eq_true, if_false]
    rw [hG]

/-- The decimal point of a grouped text becomes the comma. -/
theorem virgulaDecimal_fixo (dd : Str) (hlen : dd.length = 2)
    (hdd : ∀ c ∈ dd, isDigit c = true) :
    ∀ P : Str, virgulaDecimal (P ++ 46 :: dd) = P ++ 44 :: dd := by
  intro P
  induction P with
  | nil =>
    show virgulaDecimal (46 :: dd) = 44 :: dd
    have hall : dd.all isDigit = true := List.all_eq_true.mpr hdd
    simp [virgulaDecimal, hlen, hall]
  | cons p P ih =>
    show virgulaDecimal (p :: (P ++ 46 :: dd)) = p :: (P ++ 44 :: dd)
    have hl : ¬ (P ++ 46 :: dd).length = 2 := by
      simp only [List.length_append, List.length_cons, hlen]
      omega
    rw [virgulaDecimal]
    simp only [hl, decide_False, Bool.and_false, Bool.false_and, Bool.false_eq_true, if_false,
      ih]

theorem digitsToNat_snoc (s : Str) (c : Nat) :
    digitsToNat (s ++ [c]) = 10 * digitsToNat s + (c - 48) := by
  simp [digitsToNat, List.foldl_append]

theorem digitsToNat_lt (s : Str) (h : ∀ c ∈ s, isDigit c = true) :
    digitsToNat s < 10 ^ s.length := by
  induction s using List.reverseRecOn with
  | nil => simp [digitsToNat]
  | append_singleton s c ih =>
    have hc : isDigit c = true := h c (by simp)
    simp only [isDigit, Bool.and_eq_true, decide_eq_true_eq] at hc
    have := ih (fun x hx => h x (by simp [hx]))
    rw [digitsToNat_snoc, List.length_append, List.length_singleton, pow_succ]
    omega

set_option exponentiation.threshold 2000 in
theorem limite_de_23_digitos : 10 ^ 23 < LIMITE_NUMERO * 100 := by decide

set_option exponentiation.threshold 2000 in
/-- C28. The amount persisted is the amount rendered.  For a finite Number
below `10^21` in magnitude, `toFixed(2)` gives a sign, up to 21 integer
digits, a point and two decimals; `formatNumberPtBr` renders that text in
pt-BR, and `parseValorDb` applied to the rendering returns the Number the text
of `toFixed(2)` denotes, the amount rounded to 2 decimals, for negative
amounts and for any number of thousands groups alike. -/
theorem valor_formatado_e_lido (toFixed : Decimal → Str) (q : Decimal) (negativo : Bool)
    (D dd : Str)
    (hfix : toFixed q = (if negativo then [45] else []) ++ D ++ 46 :: dd)
    (hD : ∀ c ∈ D, isDigit c = true) (hne : D ≠ []) (h21 : D.length ≤ 21)
    (hlen : dd.length = 2) (hdd : ∀ c ∈ dd, isDigit c = true) :
    parseValorDb (.str (formatNumberPtBr toFixed (.finito q)))
      = some { negativo := negativo, mantissa := digitsToNat (D ++ dd), escala := 2 } ∧
    numeroDe (toFixed q)
      = .finito { negativo := negativo, mantissa := digitsToNat (D ++ dd), escala := 2 } := by
  have hlim : digitsToNat (D ++ dd) < LIMITE_NUMERO * 100 := by
    have h1 := digitsToNat_lt (D ++ dd) (fun c hc => by
      rcases List.mem_append.mp hc with h | h
      · exact hD c h
      · exact hdd c h)
    have h2 : 10 ^ (D ++ dd).length ≤ 10 ^ 23 :=
      Nat.pow_le_pow_right (by decide) (by rw [List.length_append, hlen]; omega)
    exact lt_of_lt_of_le h1 (le_trans h2 (le_of_lt limite_de_23_digitos))
  constructor
  · obtain ⟨G, hG, hG1, hG2⟩ := pontuarMilhares_fixo negativo D dd hD hne hlen hdd
    have hfmt : formatNumberPtBr toFixed (.finito q)
        = (if negativo then [45] else []) ++ G ++ 44 :: dd := by
      show virgulaDecimal (pontuarMilhares false (toFixed q)) = _
      rw [hfix, hG, virgulaDecimal_fixo dd hlen hdd]
    have hdig : ∃ c ∈ G, isDigit c = true := by
      obtain ⟨d, D', hd⟩ := List.exists_cons_of_ne_nil hne
      have hm : d ∈ G.filter isDigit := by rw [hG2, hd]; exact List.mem_cons_self _ _
      exact ⟨d, (List.mem_filter.mp hm).1, (List.mem_filter.mp hm).2⟩
    rw [hfmt, parseValorDb_quantia negativo G dd hG1 hdig hlen hdd (by rw [hG2]; exact hlim),
      hG2]
  · have h100 : (10 : Nat) ^ 2 = 100 := by norm_num
    rw [hfix, numeroDe_quantia negativo D dd hD hne hdd (by rw [hlen, h100]; exact hlim), hlen]

set_option exponentiation.threshold 2000 in
set_option maxRecDepth 100000 in
/-- C28, on the amount -1234567.891, whose text of `toFixed(2)` is
`-1234567.89`: the rendering is `-1.234.567,89` and it is read back as
-1234567.89. -/
theorem valor_formatado_e_lido_witness :
    formatNumberPtBr (fun _ => js "-1234567.89")
      (.finito { negativo := true, mantissa := 1234567891, escala := 3 })
      = js "-1.234.567,89" ∧
    parseValorDb (.str (formatNumberPtBr (fun _ => js "-1234567.89")
      (.finito { negativo := true, mantissa := 1234567891, escala := 3 })))
      = some { negativo := true, mantissa := 123456789, escala := 2 } := by
  refine ⟨by decide, ?_⟩
  have h := (valor_formatado_e_lido (fun _ => js "-1234567.89")
    { negativo := true, mantissa := 1234567891, escala := 3 } true (js "1234567") (js "89")
    (by decide) (by decide) (by decide) (by decide) (by decide) (by decide)).1
  have hm : digitsToNat (js "1234567" ++ js "89") = 123456789 := by decide
  rw [hm] at h
  exact h

/-! ## The corruption-fix table -/

theorem correcoes_substituem : ∀ e ∈ CORRECOES_FORCAR, Substitui e.1 e.2 := by decide

theorem replaceAllAux_salto (pat rep : Str) :
    ∀ (k : Nat) (s : Str), replaceAllAux pat rep k s = replaceAllAux pat rep 0 (s.drop k) := by
  intro k
  induction k with
  | zero => intro s; rfl
  | succ k ih =>
    intro s
    cases s with
    | nil => rfl
    | cons c cs =>
      show replaceAllAux pat rep k cs = _
      rw [ih]
      rfl

/-- Where the pattern starts the text, the occurrence is replaced and the
rest is processed. -/
theorem replaceAll_inicio (pat rep rest : Str) (hne : pat ≠ []) :
    replaceAll pat rep (pat ++ rest) = rep ++ replaceAll pat rep rest := by
  obtain ⟨p, ps, rfl⟩ := List.exists_cons_of_ne_nil hne
  have hpre : (p :: ps).isPrefixOf (p :: (ps ++ rest)) = true := by
    rw [ List.isPrefixOf_iff_prefix]
    exact ⟨rest, rfl⟩
  show replaceAllAux (p :: ps) rep 0 (p :: (ps ++ rest)) = _
  rw [replaceAllAux, if_pos hpre, replaceAllAux_salto]
  simp [replaceAll]

/-- Where the pattern does not start the text, the first code unit is
kept. -/
theorem replaceAll_passo (pat rep : Str) (c : Nat) (cs : Str)
    (h : ¬ pat <+: c :: cs) :
    replaceAll pat rep (c :: cs) = c :: replaceAll pat rep cs := by
  have hpre : ¬ pat.isPrefixOf (c :: cs) = true := by
    rw [ List.isPrefixOf_iff_prefix]
    exact h
  show replaceAllAux pat rep 0 (c :: cs) = _
  rw [replaceAllAux, if_neg hpre]
  rfl

/-- A text without the pattern is left unchanged. -/
theorem replaceAll_ausente (pat rep : Str) :
    ∀ s : Str, ¬ pat <:+: s → replaceAll pat rep s = s := by
  intro s
  induction s with
  | nil => intro _; rfl
  | cons c cs ih =>
    intro h
    have h1 : ¬ pat <+: c :: cs := fun hp => h hp.isInfix
    have h2 : ¬ pat <:+: cs := fun hp => h ( List.infix_cons hp)
    rw [replaceAll_passo pat rep c cs h1, ih h2]

theorem trocada_refl (s : Str) : Trocada s s :=
  List.forall₂_same.mpr (fun _ _ => Or.inl rfl)

theorem trocada_de_substitui (pat rep : Str) (h : Substitui pat rep) : Trocada pat rep :=
  List.forall₂_iff_zip.mpr ⟨h.2.2.1, fun {a b} hab => h.2.2.2.1 (a, b) hab⟩

/-- Replacing the occurrences of a pattern only substitutes code units. -/
theorem trocada_replaceAll (pat rep : Str) (h : Substitui pat rep) :
    ∀ s : Str, Trocada s (replaceAll pat rep s) := by
  intro s
  suffices hs : ∀ n (s : Str), s.length = n → Trocada s (replaceAll pat rep s) from hs _ s rfl
  intro n
  induction n using Nat.strong_induction_on with
  | _ n ih =>
    intro s hn
    cases s with
    | nil => exact List.Forall₂.nil
    | cons c cs =>
      by_cases hp : pat <+: c :: cs
      · obtain ⟨rest, hrest⟩ := hp
        rw [← hrest, replaceAll_inicio pat rep rest h.1]
        have hlen : rest.length < n := by
          have := congrArg List.length hrest
          rw [List.length_append] at this
          have hpos : 0 < pat.length := List.length_pos.mpr h.1
          omega
        exact List.rel_append (trocada_de_substitui pat rep h) (ih _ hlen rest rfl)
      · rw [replaceAll_passo pat rep c cs hp]
        exact List.Forall₂.cons (Or.inl rfl)
          (ih cs.length (by rw [← hn]; simp) cs rfl)

/-- A text of ASCII code units that stands where code units were only
substituted stood there before. -/
theorem trocada_ascii (q : Str) (hq : ∀ c ∈ q, c < 128) :
    ∀ q0 : Str, Trocada q0 q → q0 = q := by
  induction q with
  | nil =>
    intro q0 h
    cases h
    rfl
  | cons b q ih =>
    intro q0 h
    cases h with
    | cons hab ht =>
      rename_i a l
      have hb : b < 128 := hq b (List.mem_cons_self _ _)
      have : b = a := by
        rcases hab with h1 | h1
        · exact h1
        · omega
      rw [this, ih (fun c hc => hq c (List.mem_cons_of_mem _ hc)) l ht]

/-- An ASCII pattern that occurs after a substitution of code units occurred
before it. -/
theorem ocorre_antes (q s t : Str) (hq : ∀ c ∈ q, c < 128) (hst : Trocada s t)
    (h : q <:+: t) : q <:+: s := by
  obtain ⟨pre, suf, hps⟩ := h
  have h1 : Trocada ((s.drop pre.length).take q.length) ((t.drop pre.length).take q.length) :=
    List.forall₂_take _ (List.forall₂_drop _ hst)
  have h2 : (t.drop pre.length).take q.length = q := by
    rw [← hps]
    simp
  rw [h2] at h1
  have h3 := trocada_ascii q hq _ h1
  have e1 := List.take_append_drop q.length (s.drop pre.length)
  rw [h3] at e1
  refine ⟨s.take pre.length, (s.drop pre.length).drop q.length, ?_⟩
  rw [List.append_assoc, e1, List.take_append_drop]

/-- After the replacement no occurrence of the pattern is left. -/
theorem replaceAll_limpa (pat rep : Str) (h : Substitui pat rep) :
    ∀ s : Str, ¬ pat <:+: replaceAll pat rep s := by
  intro s
  suffices hs : ∀ n (s : Str), s.length = n → ¬ pat <:+: replaceAll pat rep s from hs _ s rfl
  intro n
  induction n using Nat.strong_induction_on with
  | _ n ih =>
    intro s hn
    cases s with
    | nil =>
      intro hinf
      exact h.1 (List.eq_nil_of_infix_nil hinf)
    | cons c cs =>
      by_cases hp : pat <+: c :: cs
      · obtain ⟨rest, hrest⟩ := hp
        have hlen : rest.length < n := by
          have := congrArg List.length hrest
          rw [List.length_append] at this
          have hpos : 0 < pat.length := List.length_pos.mpr h.1
          omega
        rw [← hrest, replaceAll_inicio pat rep rest h.1]
        rintro ⟨pre, suf, hps⟩
        rw [List.append_assoc] at hps
        rcases List.append_eq_append_iff.mp hps with ⟨a, ha1, ha2⟩ | ⟨c2, hc1, hc2⟩
        · -- the occurrence starts inside the correct text
          by_cases hanil : a = []
          · subst hanil
            rw [List.nil_append] at ha2
            exact ih _ hlen rest rfl ⟨[], suf, by rw [List.nil_append]; exact ha2⟩
          · have hmem : a ∈ rep.tails := by
              rw [List.mem_tails]
              exact ⟨pre, ha1.symm⟩
            have hapre : a <+: pat ++ suf := ⟨replaceAll pat rep rest, ha2.symm⟩
            have hppre : pat <+: pat ++ suf := ⟨suf, rfl⟩
            have hle : a.length ≤ pat.length := by
              have := congrArg List.length ha1
              rw [List.length_append] at this
              rw [h.2.2.1]
              omega
            exact h.2.2.2.2 a hmem hanil ( List.prefix_of_prefix_length_le hapre hppre hle)
        · -- the occurrence lies in what follows the correct text
          exact ih _ hlen rest rfl ⟨c2, suf, by rw [List.append_assoc]; exact hc2.symm⟩
      · rw [replaceAll_passo pat rep c cs hp]
        intro hinf
        rcases List.infix_cons_iff.mp hinf with h1 | h1
        · -- the occurrence would start at the first code unit
          have htro : Trocada (c :: cs) (c :: replaceAll pat rep cs) :=
            List.Forall₂.cons (Or.inl rfl) (trocada_replaceAll pat rep h cs)
          obtain ⟨suf, hsuf⟩ := h1
          have h2 : Trocada ((c :: cs).take pat.length)
              ((c :: replaceAll pat rep cs).take pat.length) := List.forall₂_take _ htro
          have h3 : (c :: replaceAll pat rep cs).take pat.length = pat := by
            rw [← hsuf]
            simp
          rw [h3] at h2
          have h4 := trocada_ascii pat h.2.1 _ h2
          have e1 := List.take_append_drop pat.length (c :: cs)
          rw [h4] at e1
          exact hp ⟨(c :: cs).drop pat.length, e1⟩
        · exact ih cs.length (by rw [← hn]; simp) cs rfl h1

/-- A table none of whose patterns occurs in the text leaves it unchanged. -/
theorem correcoes_ausentes :
    ∀ (L : List (Str × Str)) (t : Str), (∀ e ∈ L, ¬ e.1 <:+: t) →
      L.foldl (fun out e => replaceAll e.1 e.2 out) t = t := by
  intro L
  induction L with
  | nil => intro t _; rfl
  | cons x L ih =>
    intro t h
    rw [List.foldl_cons, replaceAll_ausente x.1 x.2 t (h x (List.mem_cons_self _ _))]
    exact ih t (fun e he => h e (List.mem_cons_of_mem _ he))

/-- An ASCII pattern absent from a text stays absent through a table of
substituting corrections. -/
theorem correcoes_preservam (q : Str) (hq : ∀ c ∈ q, c < 128) :
    ∀ (L : List (Str × Str)) (t : Str), (∀ e ∈ L, Substitui e.1 e.2) → ¬ q <:+: t →
      ¬ q <:+: L.foldl (fun out e => replaceAll e.1 e.2 out) t := by
  intro L
  induction L with
  | nil => intro t _ h; exact h
  | cons x L ih =>
    intro t hL h
    rw [List.foldl_cons]
    apply ih _ (fun e he => hL e (List.mem_cons_of_mem _ he))
    intro hinf
    exact h (ocorre_antes q t _ hq
      (trocada_replaceAll x.1 x.2 (hL x (List.mem_cons_self _ _)) t) hinf)

/-- After a table of substituting corrections none of its patterns occurs. -/
theorem correcoes_limpam :
    ∀ (L : List (Str × Str)) (t : Str), (∀ e ∈ L, Substitui e.1 e.2) →
      ∀ e ∈ L, ¬ e.1 <:+: L.foldl (fun out e => replaceAll e.1 e.2 out) t := by
  intro L
  induction L with
  | nil => intro t _ e he; cases he
  | cons x L ih =>
    intro t hL e he
    rw [List.foldl_cons]
    have hx := hL x (List.mem_cons_self _ _)
    rcases List.mem_cons.mp he with h | h
    · rw [h]
      exact correcoes_preservam x.1 hx.2.1 L _ (fun e he => hL e (List.mem_cons_of_mem _ he))
        (replaceAll_limpa x.1 x.2 hx t)
    · exact ih _ (fun e he => hL e (List.mem_cons_of_mem _ he)) e h

/-- C29. The corruption-fix table is idempotent and its order is harmless:
for every string, `corrigirTermosCorrompidos` applied twice gives what it gives
applied once; its result holds no occurrence of any corrupted pattern of
`CORRECOES_FORCAR`; and a string that holds none of the patterns is returned
unchanged. -/
theorem corrigirTermosCorrompidos_idempotente (t : Str) :
    corrigirTermosCorrompidos (corrigirTermosCorrompidos t) = corrigirTermosCorrompidos t ∧
    (∀ e ∈ CORRECOES_FORCAR, includes (corrigirTermosCorrompidos t) e.1 = false) ∧
    ((∀ e ∈ CORRECOES_FORCAR, includes t e.1 = false) → corrigirTermosCorrompidos t = t) := by
  have hlimpa := correcoes_limpam CORRECOES_FORCAR t correcoes_substituem
  refine ⟨?_, ?_, ?_⟩
  · exact correcoes_ausentes CORRECOES_FORCAR _ hlimpa
  · intro e he
    unfold includes
    rw [decide_eq_false_iff_not]
    exact hlimpa e he
  · intro h
    apply correcoes_ausentes
    intro e he
    have := h e he
    unfold includes at this
    exact of_decide_eq_false this

set_option maxRecDepth 100000 in
/-- C29, on a text in which the pattern `P_GESTAO_` is replaced before the
pattern `_GESTAO_PATRIM` is tried, and on a text without any pattern. -/
theorem corrigirTermosCorrompidos_idempotente_witness :
    corrigirTermosCorrompidos (js "P_GESTAO_PATRIM CURRICULO")
      = js "P_GESTÃO_PATRIM CURRÍCULO" ∧
    corrigirTermosCorrompidos (js "P_GESTÃO_PATRIM CURRÍCULO")
      = js "P_GESTÃO_PATRIM CURRÍCULO" ∧
    corrigirTermosCorrompidos (js "PAGAMENTO") = js "PAGAMENTO" :=
  ⟨by decide,
   by
    have h := (corrigirTermosCorrompidos_idempotente (js "P_GESTAO_PATRIM CURRICULO")).1
    rw [show corrigirTermosCorrompidos (js "P_GESTAO_PATRIM CURRICULO")
      = js "P_GESTÃO_PATRIM CURRÍCULO" from by decide] at h
    exact h,
   (corrigirTermosCorrompidos_idempotente (js "PAGAMENTO")).2.2 (by decide)⟩

/-! ## Claims on output headers -/

set_option maxRecDepth 1000000 in
theorem cabecalho_sem_chave_estrita :
    normalizeHeaderKey latin1 (.str []) = [] ∧ normalizeHeaderKey latin1 (.str (js "?")) = [] ∧
    ((OUTPUT_HEADER_MAP latin1).getStr []).truthy = false := by
  decide

set_option maxRecDepth 1000000 in
theorem cabecalho_sem_chave_frouxa :
    normalizeHeaderKeyLoose latin1 (.str []) = [] ∧
    normalizeHeaderKeyLoose latin1 (.str (js "?")) = [] ∧
    ((OUTPUT_HEADER_MAP_LOOSE latin1).getStr []).truthy = false := by
  decide

set_option maxRecDepth 1000000 in
theorem cabecalho_primeira_entrada :
    (OUTPUT_HEADER_MAP_LOOSE latin1).find? (fun e =>
        !e.1.isEmpty && (startsWith [] e.1 || startsWith e.1 []))
      = some (js "chavedeplanejamento", js "Chave de Planejamento") := by
  decide

/-- C30. The label of a blank header cell, and the label `?`, hold no letter
and no digit; both keys of such a label are empty; no entry of the header
maps has the empty key, yet every key of the loose map starts with the empty
key, so the prefix loop returns the header of its first entry:
`fixOutputHeader` answers `Chave de Planejamento`, a canonical header, and not
the label. -/
theorem rotulo_vazio_vira_cabecalho (nfc : Str → Str) :
    fixOutputHeader latin1 nfc (.str []) = .str (js "Chave de Planejamento") ∧
    fixOutputHeader latin1 nfc (.str (js "?")) = .str (js "Chave de Planejamento") ∧
    js "Chave de Planejamento" ∈ OUTPUT_HEADER_LIST := by
  obtain ⟨h1, h2, h3⟩ := cabecalho_sem_chave_estrita
  obtain ⟨h4, h5, h6⟩ := cabecalho_sem_chave_frouxa
  refine ⟨?_, ?_, by decide⟩
  · simp only [fixOutputHeader, h1, h3, h4, h6, cabecalho_primeira_entrada, Bool.false_eq_true,
      if_false]
  · simp only [fixOutputHeader, h2, h3, h5, h6, cabecalho_primeira_entrada, Bool.false_eq_true,
      if_false]

end Csg
